import Mathlib

/-!
# The iCalendar parser of `iswangwenbin/ical`

A shallow embedding of the Go package `ical` (files `lex_item.go`, `lex_helper.go`,
`lex.go`, `icalendar.go`, `parse.go`, `parse_validate.go`) and the properties proved of it.

Conventions of the embedding.

* A Go `string` is its sequence of bytes, `Str := List Nat`; a `rune` is an `Int`
  (`eof = -1`).  Text written in the source as a string constant is `str "..."`.
* A pointer is an `Option Nat`: `none` is `nil`, `some i` addresses the `i`-th object of
  its type allocated by the parser.
* The scanner goroutine and its unbuffered channel are replaced by the sequence of items the
  scanner sends, together with the way it stops (`lex`); the parser pulls from that sequence.
* Loops and recursion that Go runs without a bound take a bound computed from the length of
  what is left to read.
* What the program takes from outside its source is a parameter, the `Host`: the zone
  database and the local zone of the machine, and the tables of letters and of digits of the
  Go toolchain, which differ between releases.  A theorem stated for every host holds with
  whatever tables the program was built.
-/

namespace Ical

/-! ## Strings, runes and the Go library functions the scanner calls -/

/-- A Go string: a sequence of bytes. -/
abbrev Str := List Nat

/-- The constant `utf8.RuneError`, U+FFFD. -/
def RuneError : Nat := 0xFFFD

/-- The bytes `utf8.EncodeRune` writes for a rune: the UTF-8 encoding of a valid code point,
and that of `RuneError` for a surrogate or a value above U+10FFFF. -/
def encodeRune (r : Nat) : Str :=
  if r < 0x80 then [r]
  else if r < 0x800 then [0xC0 + r / 64, 0x80 + r % 64]
  else if 0xD800 ≤ r ∧ r ≤ 0xDFFF then [0xEF, 0xBF, 0xBD]
  else if r < 0x10000 then [0xE0 + r / 4096, 0x80 + r / 64 % 64, 0x80 + r % 64]
  else if r < 0x110000 then
    [0xF0 + r / 262144, 0x80 + r / 4096 % 64, 0x80 + r / 64 % 64, 0x80 + r % 64]
  else [0xEF, 0xBF, 0xBD]

/-- The bytes of a text: what a Go string constant or a UTF-8 encoded file holds. -/
def utf8 (cs : List Char) : Str :=
  cs.flatMap fun c => encodeRune c.toNat

/-- A Go string constant. -/
def str (s : String) : Str :=
  utf8 s.toList

/-- A continuation byte of UTF-8, `0x80..0xBF`. -/
def isCont (b : Nat) : Bool :=
  decide (0x80 ≤ b) && decide (b ≤ 0xBF)

/-- Go's `utf8.DecodeRuneInString`: the first rune of a string and its width in bytes.
An encoding that is invalid, too short, overlong or of a surrogate gives `(RuneError, 1)`,
and the empty string `(RuneError, 0)`. -/
def decodeRune : Str → Int × Nat
  | [] => (RuneError, 0)
  | s0 :: t =>
    if s0 < 0x80 then (s0, 1)
    else if s0 < 0xC2 then (RuneError, 1)
    else if s0 < 0xE0 then
      match t with
      | s1 :: _ => if isCont s1 then (((s0 - 0xC0) * 64 + (s1 - 0x80) : Nat), 2) else (RuneError, 1)
      | _ => (RuneError, 1)
    else if s0 < 0xF0 then
      match t with
      | s1 :: s2 :: _ =>
        let lo := if s0 = 0xE0 then 0xA0 else 0x80
        let hi := if s0 = 0xED then 0x9F else 0xBF
        if decide (lo ≤ s1) && decide (s1 ≤ hi) && isCont s2 then
          (((s0 - 0xE0) * 4096 + (s1 - 0x80) * 64 + (s2 - 0x80) : Nat), 3)
        else (RuneError, 1)
      | _ => (RuneError, 1)
    else if s0 < 0xF5 then
      match t with
      | s1 :: s2 :: s3 :: _ =>
        let lo := if s0 = 0xF0 then 0x90 else 0x80
        let hi := if s0 = 0xF4 then 0x8F else 0xBF
        if decide (lo ≤ s1) && decide (s1 ≤ hi) && isCont s2 && isCont s3 then
          (((s0 - 0xF0) * 262144 + (s1 - 0x80) * 4096 + (s2 - 0x80) * 64 + (s3 - 0x80) : Nat), 4)
        else (RuneError, 1)
      | _ => (RuneError, 1)
    else (RuneError, 1)

/-- Membership of a code point in a table of inclusive ranges. -/
def inRanges (tab : List (Nat × Nat)) (n : Nat) : Bool :=
  tab.any fun p => decide (p.1 ≤ n) && decide (n ≤ p.2)


/-! ## The Go library `time`, as far as `parse.go` uses it -/

/-- The zone in effect at an instant, as `(*Location).lookup` reports it: the offset in
seconds east of UTC and the instants between which the zone is in effect. -/
structure zone where
  offset : Int
  start : Int
  finish : Int

/-- A `*time.Location` that is not `nil`: a name and the rule giving the zone in effect at an
instant.  Instants are counted in seconds from January 1 of year 1, 00:00:00 UTC. -/
structure Location where
  name : Str
  lookup : Int → zone

/-- The location `time.UTC`. -/
def time.UTC : Location :=
  ⟨str "UTC", fun _ => ⟨0, 0, 0⟩⟩

/-- A `time.Time` without a monotonic clock reading: the instant, in seconds from January 1
of year 1, 00:00:00 UTC, and nanoseconds, and the location.  No time that the parser builds
is near the end of the range of Go's 64-bit counter, so the seconds are an `Int`. -/
structure Time where
  sec : Int
  nsec : Int
  loc : Location

/-- The zero value `Time{}`. -/
def Time.zero : Time :=
  ⟨0, 0, time.UTC⟩

/-- The method `IsZero`. -/
def Time.IsZero (t : Time) : Bool :=
  t.sec == 0 && t.nsec == 0

/-- The method `Add`, its argument a `time.Duration` in nanoseconds. -/
def Time.Add (t : Time) (d : Int) : Time :=
  let dsec := Int.tdiv d 1000000000
  let nsec := t.nsec + Int.tmod d 1000000000
  if nsec ≥ 1000000000 then { t with sec := t.sec + dsec + 1, nsec := nsec - 1000000000 }
  else if nsec < 0 then { t with sec := t.sec + dsec - 1, nsec := nsec + 1000000000 }
  else { t with sec := t.sec + dsec, nsec := nsec }

/-- The constant `time.Hour`. -/
def time.Hour : Int := 3600 * 1000000000

/-- Go's `isLeap`. -/
def isLeap (year : Nat) : Bool :=
  year % 4 == 0 && (year % 100 != 0 || year % 400 == 0)

/-- Go's `daysIn`: the days of a month, `1 ≤ month ≤ 12`. -/
def daysIn (month year : Nat) : Nat :=
  if month = 2 then (if isLeap year then 29 else 28)
  else if month = 4 ∨ month = 6 ∨ month = 9 ∨ month = 11 then 30
  else 31

/-- The days of a year before the first of a month, `1 ≤ month ≤ 12`. -/
def daysBefore (month year : Nat) : Nat :=
  ((List.range (month - 1)).map fun m => daysIn (m + 1) year).sum

/-- The days from January 1 of year 1 to January 1 of `year` (negative for year 0). -/
def daysSinceEpoch (year : Nat) : Int :=
  let y : Int := (year : Int) - 1
  365 * y + y / 4 - y / 100 + y / 400

/-- Go's `time.Date` for a date and a time of day that are in range (`parse` calls it with
no other): the instant at which the clocks of `loc` show them. -/
def time.Date (year month day hour min sec nsec : Nat) (loc : Location) : Time :=
  let unix : Int :=
    (daysSinceEpoch year + daysBefore month year + (day - 1 : Nat)) * 86400
      + (hour * 3600 + min * 60 + sec : Nat)
  let z := loc.lookup unix
  if z.offset ≠ 0 then
    let utc := unix - z.offset
    let offset := if utc < z.start ∨ utc ≥ z.finish then (loc.lookup utc).offset else z.offset
    ⟨unix - offset, nsec, loc⟩
  else ⟨unix, nsec, loc⟩

/-- The three layouts `parse.go` declares: `dateLayout = "20060102"`,
`dateTimeLayoutUTC = "20060102T150405Z"`, `dateTimeLayoutLocalized = "20060102T150405"`. -/
inductive layout
  | dateLayout
  | dateTimeLayoutUTC
  | dateTimeLayoutLocalized
  deriving DecidableEq, Repr

/-- The elements `nextStdChunk` cuts the three layouts into: a four-digit year, two-digit
month and day, the hour, two-digit minute and second, and a byte standing for itself. -/
inductive chunk
  | stdLongYear
  | stdZeroMonth
  | stdZeroDay
  | stdHour
  | stdZeroMinute
  | stdZeroSecond
  | lit (b : Nat)
  deriving DecidableEq, Repr

/-- The elements of a layout, in order: `2006 01 02`, then `T 15 04 05` and `Z`. -/
def layout.chunks : layout → List chunk
  | layout.dateLayout => [chunk.stdLongYear, chunk.stdZeroMonth, chunk.stdZeroDay]
  | layout.dateTimeLayoutUTC =>
    [chunk.stdLongYear, chunk.stdZeroMonth, chunk.stdZeroDay, chunk.lit 0x54, chunk.stdHour,
     chunk.stdZeroMinute, chunk.stdZeroSecond, chunk.lit 0x5A]
  | layout.dateTimeLayoutLocalized =>
    [chunk.stdLongYear, chunk.stdZeroMonth, chunk.stdZeroDay, chunk.lit 0x54, chunk.stdHour,
     chunk.stdZeroMinute, chunk.stdZeroSecond]

/-- The error `*time.ParseError`, cut down to its fields `Layout` and `Value`. -/
structure ParseError where
  layout : layout
  value : Str
  deriving DecidableEq, Repr

/-- A byte that is a decimal digit. -/
def isDigitByte (b : Nat) : Bool :=
  decide (0x30 ≤ b) && decide (b ≤ 0x39)

/-- The value of a run of decimal digits. -/
def digitsVal (ds : Str) : Nat :=
  ds.foldl (fun acc b => acc * 10 + (b - 0x30)) 0

/-- Go's `getnum`: a number of two digits, or of one digit when `fixed` is false and no
second digit follows; the number and the rest of the text. -/
def getnum (s : Str) (fixed : Bool) : Option (Nat × Str) :=
  match s with
  | a :: b :: rest =>
    if !isDigitByte a then none
    else if isDigitByte b then some ((a - 0x30) * 10 + (b - 0x30), rest)
    else if fixed then none
    else some (a - 0x30, b :: rest)
  | [a] => if isDigitByte a && !fixed then some (a - 0x30, []) else none
  | [] => none

/-- The fields `parse` of package `time` collects. -/
structure civil where
  year : Nat
  month : Nat
  day : Nat
  hour : Nat
  min : Nat
  sec : Nat
  nsec : Nat
  deriving DecidableEq, Repr

/-- A fraction of a second that follows the seconds although the layout has none: a period
or a comma and at least one digit.  As `parseNanoseconds` does, the digits after the ninth
are read and dropped.  The result is the nanoseconds and the rest of the text. -/
def fraction (s : Str) : Option (Nat × Str) :=
  match s with
  | p :: d :: _ =>
    if (p == 0x2E || p == 0x2C) && isDigitByte d then
      let ds := (s.drop 1).takeWhile isDigitByte
      let kept := ds.take 9
      some (digitsVal kept * 10 ^ (9 - kept.length), (s.drop 1).dropWhile isDigitByte)
    else none
  | _ => none

/-- One round of the loop of `parse` of package `time`: read the text for one element of the
layout.  The result is `none` where `parse` returns an error. -/
def chunk.read (c : chunk) (f : civil) (s : Str) : Option (civil × Str) :=
  match c with
  | chunk.lit b =>
    match s with
    | x :: rest => if x = b then some (f, rest) else none
    | [] => none
  | chunk.stdLongYear =>
    if s.length < 4 then none
    else if (s.take 4).all isDigitByte then some ({ f with year := digitsVal (s.take 4) }, s.drop 4)
    else none
  | chunk.stdZeroMonth =>
    match getnum s true with
    | some (n, rest) => if n = 0 ∨ 12 < n then none else some ({ f with month := n }, rest)
    | none => none
  | chunk.stdZeroDay =>
    match getnum s true with
    | some (n, rest) => some ({ f with day := n }, rest)
    | none => none
  | chunk.stdHour =>
    match getnum s false with
    | some (n, rest) => if 24 ≤ n then none else some ({ f with hour := n }, rest)
    | none => none
  | chunk.stdZeroMinute =>
    match getnum s true with
    | some (n, rest) => if 60 ≤ n then none else some ({ f with min := n }, rest)
    | none => none
  | chunk.stdZeroSecond =>
    match getnum s true with
    | some (n, rest) =>
      if 60 ≤ n then none
      else
        match fraction rest with
        | some (ns, rest1) => some ({ f with sec := n, nsec := ns }, rest1)
        | none => some ({ f with sec := n }, rest)
    | none => none

/-- The loop of `parse` of package `time` over the elements of the layout. -/
def readChunks : List chunk → civil → Str → Option (civil × Str)
  | [], f, s => some (f, s)
  | c :: cs, f, s =>
    match c.read f s with
    | some (f1, s1) => readChunks cs f1 s1
    | none => none

/-- Go's `time.ParseInLocation` for the three layouts: the text must be used up, the day must
exist in its month, and the time is that of the clocks of `loc`.  With an error comes the
zero time. -/
def time.ParseInLocation (lay : layout) (value : Str) (loc : Location) : Time × Option ParseError :=
  match readChunks lay.chunks ⟨0, 0, 0, 0, 0, 0, 0⟩ value with
  | some (f, []) =>
    if f.day < 1 ∨ f.day > daysIn f.month f.year then (Time.zero, some ⟨lay, value⟩)
    else (time.Date f.year f.month f.day f.hour f.min f.sec f.nsec loc, none)
  | _ => (Time.zero, some ⟨lay, value⟩)

/-- Go's `time.Parse`: none of the three layouts names a zone, so the time is in UTC. -/
def time.Parse (lay : layout) (value : Str) : Time × Option ParseError :=
  time.ParseInLocation lay value time.UTC

/-- What the program takes from outside its source.  From the machine it runs on, as far as
`parse.go` reads it: `time.LoadLocation` (`none` where it returns an error) and the location
`time.Local`.  From the Go toolchain that built it: the tables `unicode.Letter` and
`unicode.Digit`, which change from one release of Go to the next; `IsLetter n` and `IsDigit n`
tell whether the table holds the code point `n`, and are consulted for the runes above
U+00FF only. -/
structure Host where
  LoadLocation : Str → Option Location
  Local : Location
  IsLetter : Nat → Bool
  IsDigit : Nat → Bool


/-- Go's `unicode.IsLetter`: inside Latin-1 the letters are `A-Z`, `a-z`, U+00AA, U+00B5,
U+00BA, U+00C0-U+00D6, U+00D8-U+00F6 and U+00F8-U+00FF (the array `properties`, the same in
every release); outside, the table of the toolchain decides.  A negative rune is no
letter. -/
def unicodeIsLetter (h : Host) (r : Int) : Bool :=
  if r < 0 then false
  else
    let n := r.toNat
    if n ≤ 0xFF then
      decide (0x41 ≤ n ∧ n ≤ 0x5A) || decide (0x61 ≤ n ∧ n ≤ 0x7A) || decide (n = 0xAA)
        || decide (n = 0xB5) || decide (n = 0xBA) || decide (0xC0 ≤ n ∧ n ≤ 0xD6)
        || decide (0xD8 ≤ n ∧ n ≤ 0xF6) || decide (0xF8 ≤ n)
    else h.IsLetter n

/-- Go's `unicode.IsDigit`: for `r <= MaxLatin1` the digits are `0-9`; above, the table of the
toolchain decides. -/
def unicodeIsDigit (h : Host) (r : Int) : Bool :=
  if r ≤ 0xFF then decide (0x30 ≤ r ∧ r ≤ 0x39)
  else h.IsDigit r.toNat

/-- Go's `unicode.IsControl`: U+0000-U+001F and U+007F-U+009F; no rune outside Latin-1, and
no negative rune, is a control character. -/
def unicodeIsControl (r : Int) : Bool :=
  decide (0 ≤ r ∧ r ≤ 0x1F) || decide (0x7F ≤ r ∧ r ≤ 0x9F)

/-- Go's `utf8.ValidRune`: a code point that is not a surrogate. -/
def validRune (r : Int) : Bool :=
  decide (0 ≤ r ∧ r < 0xD800) || decide (0xDFFF < r ∧ r ≤ 0x10FFFF)

/-- The rune of a character constant of the source, such as `';'`. -/
def rune (c : Char) : Int :=
  c.toNat

/-- The constant `eof` of `lex.go`. -/
def eof : Int := -1

/-! ## `lex_helper.go` -/

/-- The function `isName` of `lex_helper.go`. -/
def isName (h : Host) (r : Int) : Bool :=
  unicodeIsLetter h r || unicodeIsDigit h r || r == rune '-'

/-- The function `isQSafeChar` of `lex_helper.go`. -/
def isQSafeChar (r : Int) : Bool :=
  !unicodeIsControl r && r != rune '"'

/-- The function `isSafeChar` of `lex_helper.go`. -/
def isSafeChar (r : Int) : Bool :=
  !unicodeIsControl r && r != rune '"' && r != rune ';' && r != rune ':' && r != rune ','

/-- The function `isValueChar` of `lex_helper.go`. -/
def isValueChar (r : Int) : Bool :=
  r == rune '\t' || (!unicodeIsControl r && validRune r)

/-! ## `lex_item.go` and the item types of `lex.go` -/

/-- The type `itemType` with the constants of `lex.go`, in the order of their `iota`. -/
inductive itemType
  | itemError
  | itemEOF
  | itemLineEnd
  | itemName
  | itemParamName
  | itemParamValue
  | itemValue
  | itemColon
  | itemSemiColon
  | itemEqual
  | itemComma
  | itemKeyword
  | itemBeginVCalendar
  | itemEndVCalendar
  | itemBeginVEvent
  | itemEndVEvent
  | itemBeginVAlarm
  | itemEndVAlarm
  | itemBeginVTimezone
  | itemEndVTimezone
  | itemBeginStandard
  | itemEndStandard
  | itemBeginDaylight
  | itemEndDaylight
  deriving DecidableEq, Repr

open itemType

/-- The integer value of an item type (its `iota`). -/
def itemType.iota : itemType → Nat
  | itemError => 0
  | itemEOF => 1
  | itemLineEnd => 2
  | itemName => 3
  | itemParamName => 4
  | itemParamValue => 5
  | itemValue => 6
  | itemColon => 7
  | itemSemiColon => 8
  | itemEqual => 9
  | itemComma => 10
  | itemKeyword => 11
  | itemBeginVCalendar => 12
  | itemEndVCalendar => 13
  | itemBeginVEvent => 14
  | itemEndVEvent => 15
  | itemBeginVAlarm => 16
  | itemEndVAlarm => 17
  | itemBeginVTimezone => 18
  | itemEndVTimezone => 19
  | itemBeginStandard => 20
  | itemEndStandard => 21
  | itemBeginDaylight => 22
  | itemEndDaylight => 23

/-- The struct `item`: a token with its type, the byte offset where it starts and its text.
The text of an error item is the diagnostic of `errorf` as written in the source, its
arguments not rendered. -/
structure item where
  typ : itemType
  pos : Nat
  val : Str
  deriving DecidableEq, Repr

/-- The function `isItemName` of `lex_helper.go`. -/
def isItemName (i : item) : Bool :=
  i.typ == itemName

/-! ## `lex.go`: the scanner -/

/-- The constant `crlf`. -/
def crlf : Str := str "\r\n"

/-- The delimiter keywords with their item types, in the order in which `lexName` tries
them. -/
def keywords : List (Str × itemType) :=
  [(str "BEGIN:VCALENDAR", itemBeginVCalendar), (str "END:VCALENDAR", itemEndVCalendar),
   (str "BEGIN:VEVENT", itemBeginVEvent), (str "END:VEVENT", itemEndVEvent),
   (str "BEGIN:VALARM", itemBeginVAlarm), (str "END:VALARM", itemEndVAlarm),
   (str "BEGIN:VTIMEZONE", itemBeginVTimezone), (str "END:VTIMEZONE", itemEndVTimezone),
   (str "BEGIN:STANDARD", itemBeginStandard), (str "END:STANDARD", itemEndStandard),
   (str "BEGIN:DAYLIGHT", itemBeginDaylight), (str "END:DAYLIGHT", itemEndDaylight)]

/-- The struct `lexer`.  The channel `items` is the list of the items sent so far, in the
order of sending.  The fields `state` (the loop variable of `run`) and `lastPos` (written by
`nextItem`, read by the debug output only) are left out. -/
structure lexer where
  input : Str
  items : List item
  start : Nat
  pos : Nat
  width : Nat
  deriving DecidableEq, Repr

/-- The state functions of the scanner, as values of the type `stateFn`. -/
inductive stateFn
  | lexName
  | lexContentLine
  | lexNewLine
  | lexParamName
  | lexParamValue
  | lexValue
  deriving DecidableEq, Repr

/-- What a call of a state function comes to: it returns the next state (`none` is Go's
`nil`), it stops with a runtime fault (a slice out of range), or it never returns. -/
inductive step
  | next (s : Option stateFn) (l : lexer)
  | fault (l : lexer)
  | spin (l : lexer)
  deriving DecidableEq, Repr

/-- The method `emit`: send the pending text `input[start:pos]` as an item of type `t`.
Go faults on the slice unless `start ≤ pos ≤ len(input)`; then the result is `none`. -/
def lexer.emit (l : lexer) (t : itemType) : Option lexer :=
  if l.start ≤ l.pos ∧ l.pos ≤ l.input.length then
    some { l with
      items := l.items ++ [⟨t, l.start, (l.input.drop l.start).take (l.pos - l.start)⟩]
      start := l.pos }
  else none

/-- The method `ignore`. -/
def lexer.ignore (l : lexer) : lexer :=
  { l with start := l.pos }

/-- The method `next` (scanner): the next rune, or `eof` at the end of the input. -/
def lexer.next (l : lexer) : Int × lexer :=
  if l.pos ≥ l.input.length then (eof, { l with width := 0 })
  else
    let rw := decodeRune (l.input.drop l.pos)
    (rw.1, { l with width := rw.2, pos := l.pos + rw.2 })

/-- The method `backup` (scanner).  It is only ever called after `next`, which has added
`width` to `pos`. -/
def lexer.backup (l : lexer) : lexer :=
  { l with pos := l.pos - l.width }

/-- The method `peek` (scanner). -/
def lexer.peek (l : lexer) : Int × lexer :=
  let rl := l.next
  (rl.1, rl.2.backup)

/-- The method `errorf`: send an error item; the `nil` it returns is left to the caller. -/
def lexer.errorf (l : lexer) (msg : String) : lexer :=
  { l with items := l.items ++ [⟨itemError, l.start, str msg⟩] }

/-- The loop shared by the state functions: `for { r := l.next(); if accept(r) { continue };
l.backup(); ...; break }`, up to the `backup`.  The result is `none` when the loop has not
left after `n` rounds. -/
def absorb (accept : Int → Bool) : Nat → lexer → Option lexer
  | 0, _ => none
  | n + 1, l =>
    let rl := l.next
    if accept rl.1 then absorb accept n rl.2 else some rl.2.backup

/-- The loop of a state function run on the scanner `l`.  At the end of the input `next`
returns `eof` and moves nothing, so a loop that has not left after `len(input) + 1` rounds
never leaves: the result `none` stands for a loop that runs for ever. -/
def lexer.absorb (l : lexer) (accept : Int → Bool) : Option lexer :=
  Ical.absorb accept (l.input.length + 1) l

/-- Emit an item and go on with `k`, or fault. -/
def lexer.emitThen (l : lexer) (t : itemType) (k : lexer → step) : step :=
  match l.emit t with
  | some l1 => k l1
  | none => step.fault l

/-- The state function `lexContentLine`. -/
def lexContentLine (l : lexer) : step :=
  let rl := l.next
  if rl.1 = rune ';' then rl.2.emitThen itemSemiColon fun l1 => step.next (some stateFn.lexParamName) l1
  else if rl.1 = rune ',' then rl.2.emitThen itemComma fun l1 => step.next (some stateFn.lexParamValue) l1
  else if rl.1 = rune ':' then rl.2.emitThen itemColon fun l1 => step.next (some stateFn.lexValue) l1
  else step.next none (rl.2.errorf "unrecognized character in action")

/-- The state function `lexNewLine`.  When the text does not go on with CRLF the error item
is sent and, the result of `errorf` being dropped, the function goes on: it skips two bytes
and emits them as a line end. -/
def lexNewLine (l : lexer) : step :=
  let rl := l.peek
  if rl.1 = eof then step.next none rl.2
  else
    let l1 := if crlf.isPrefixOf (rl.2.input.drop rl.2.pos) then rl.2
      else rl.2.errorf "unable to find end of line \"CRLF\""
    let l2 := { l1 with pos := l1.pos + crlf.length }
    l2.emitThen itemLineEnd fun l3 =>
      let rl4 := l3.next
      if rl4.1 = eof then rl4.2.emitThen itemEOF fun l5 => step.next none l5
      else step.next (some stateFn.lexName) rl4.2.backup

/-- The state function `lexName`: one of the twelve delimiters when the text starts with it,
else the longest run of name characters. -/
def lexName (h : Host) (l : lexer) : step :=
  match keywords.find? fun kw => kw.1.isPrefixOf (l.input.drop l.pos) with
  | some kw =>
    { l with pos := l.pos + kw.1.length }.emitThen kw.2 fun l1 =>
      step.next (some stateFn.lexNewLine) l1
  | none =>
    match l.absorb (isName h) with
    | none => step.spin l
    | some l1 => l1.emitThen itemName fun l2 => step.next (some stateFn.lexContentLine) l2

/-- The state function `lexParamName`. -/
def lexParamName (h : Host) (l : lexer) : step :=
  match l.absorb (isName h) with
  | none => step.spin l
  | some l1 =>
    l1.emitThen itemParamName fun l2 =>
      let rl := l2.next
      if rl.1 = rune '=' then rl.2.emitThen itemEqual fun l3 => step.next (some stateFn.lexParamValue) l3
      else step.next none (rl.2.errorf "missing \"=\" sign after param name")

/-- The state function `lexParamValue`.  After a quoted value that is not closed the error
item is sent and, the result of `errorf` being dropped, the scan goes on. -/
def lexParamValue (l : lexer) : step :=
  let rl := l.next
  if rl.1 = rune '"' then
    match rl.2.ignore.absorb isQSafeChar with
    | none => step.spin l
    | some l1 =>
      l1.emitThen itemParamValue fun l2 =>
        let rl3 := l2.next
        if rl3.1 ≠ rune '"' then
          step.next (some stateFn.lexContentLine) (rl3.2.errorf "Missing \" for closing value")
        else step.next (some stateFn.lexContentLine) rl3.2.ignore
  else
    match rl.2.backup.absorb isSafeChar with
    | none => step.spin l
    | some l1 => l1.emitThen itemParamValue fun l2 => step.next (some stateFn.lexContentLine) l2

/-- The state function `lexValue`. -/
def lexValue (l : lexer) : step :=
  match l.absorb isValueChar with
  | none => step.spin l
  | some l1 => l1.emitThen itemValue fun l2 => step.next (some stateFn.lexNewLine) l2

/-- The call `l.state(l)` of `run`. -/
def stateFn.call (h : Host) : stateFn → lexer → step
  | stateFn.lexName => Ical.lexName h
  | stateFn.lexContentLine => Ical.lexContentLine
  | stateFn.lexNewLine => Ical.lexNewLine
  | stateFn.lexParamName => Ical.lexParamName h
  | stateFn.lexParamValue => Ical.lexParamValue
  | stateFn.lexValue => Ical.lexValue

/-- How the scanner goroutine ends: it closes the channel, it faults, it runs for ever
without sending, or (in the embedding only) the bound on the calls of `run` is used up. -/
inductive halt
  | closed
  | fault
  | spin
  | fuel
  deriving DecidableEq, Repr

/-- The method `run`: call the state functions, from `s` on, until one returns `nil`. -/
def run (h : Host) : Nat → stateFn → lexer → lexer × halt
  | 0, _, l => (l, halt.fuel)
  | n + 1, s, l =>
    match s.call h l with
    | step.next (some s1) l1 => run h n s1 l1
    | step.next none l1 => (l1, halt.closed)
    | step.fault l1 => (l1, halt.fault)
    | step.spin l1 => (l1, halt.spin)

/-- What the scanner goroutine does on an input: the items it sends and how it ends. -/
structure scan where
  items : List item
  ending : halt
  deriving DecidableEq, Repr

/-- The function `lex`: the scanner started in `lexName` on the input.  Of two consecutive
state functions one reads at least a byte, so `2 * len(input) + 2` calls are enough. -/
def lex (h : Host) (input : Str) : scan :=
  let r := run h (2 * input.length + 2) stateFn.lexName ⟨input, [], 0, 0, 0⟩
  ⟨r.1.items, r.2⟩


/-! ## `icalendar.go`: the data model -/

/-- A pointer: `none` is `nil`, `some i` the `i`-th object of its type that was allocated. -/
abbrev ptr := Option Nat

/-- The struct `Param`. -/
structure Param where
  Values : List Str
  deriving DecidableEq, Repr

/-- The struct `Property`.  The map `Params` is the list of its entries, each key once, in
the order in which the keys were first assigned (Go fixes no order). -/
structure Property where
  Name : Str
  Params : List (Str × Param)
  Value : Str
  deriving DecidableEq, Repr

/-- The map lookup `m[key]` with its `ok`. -/
def mapGet (m : List (Str × Param)) (key : Str) : Option Param :=
  (m.find? fun e => e.1 == key).map fun e => e.2

/-- The map assignment `m[key] = v`. -/
def mapSet : List (Str × Param) → Str → Param → List (Str × Param)
  | [], key, v => [(key, v)]
  | e :: m, key, v => if e.1 == key then (key, v) :: m else e :: mapSet m key v

/-- The struct `Calendar`. -/
structure Calendar where
  Properties : List Property
  Events : List ptr
  Timezones : List ptr
  Prodid : Str
  Version : Str
  Calscale : Str
  Method : Str
  deriving DecidableEq, Repr

/-- The struct `Event`. -/
structure Event where
  Properties : List Property
  Alarms : List ptr
  UID : Str
  Timestamp : Time
  StartDate : Time
  EndDate : Time
  Summary : Str
  Description : Str

/-- The struct `Timezone`. -/
structure Timezone where
  Properties : List Property
  Standards : List ptr
  Daylights : List ptr
  deriving DecidableEq, Repr

/-- The struct `Standard`. -/
structure Standard where
  Properties : List Property
  deriving DecidableEq, Repr

/-- The struct `Daylight`. -/
structure Daylight where
  Properties : List Property
  deriving DecidableEq, Repr

/-- The struct `Alarm`. -/
structure Alarm where
  Properties : List Property
  Action : Str
  Trigger : Str
  deriving DecidableEq, Repr

/-- The function `NewCalendar`. -/
def NewCalendar : Calendar :=
  ⟨[], [], [], [], [], str "GREGORIAN", []⟩

/-- The function `NewProperty`. -/
def NewProperty : Property :=
  ⟨[], [], []⟩

/-- The function `NewParam`. -/
def NewParam : Param :=
  ⟨[]⟩

/-- The function `NewEvent`. -/
def NewEvent : Event :=
  ⟨[], [], [], Time.zero, Time.zero, Time.zero, [], []⟩

/-- The function `NewAlarm`. -/
def NewAlarm : Alarm :=
  ⟨[], [], []⟩

/-- The function `NewTimezone`. -/
def NewTimezone : Timezone :=
  ⟨[], [], []⟩

/-- The function `NewDaylight`. -/
def NewDaylight : Daylight :=
  ⟨[]⟩

/-- The function `NewStandard`. -/
def NewStandard : Standard :=
  ⟨[]⟩

/-! ## `parse.go` and `parse_validate.go` -/

/-- The values of type `error` the parser returns: the sentinel `errorDone`, and the results
of `fmt.Errorf`, kept as the format (or its varying part) and the arguments. -/
inductive error
  | errorDone
  | found (i : item) (expected : String)
  | scope (n : Int)
  | invalid (msg : String)
  | twice (key : String)
  deriving DecidableEq, Repr

/-- The constants `scopeCalendar`, ..., `scopeDaylight`. -/
def scopeCalendar : Int := 0

/-- The constant `scopeEvent`. -/
def scopeEvent : Int := 1

/-- The constant `scopeAlarm`. -/
def scopeAlarm : Int := 2

/-- The constant `scopeTimezone`. -/
def scopeTimezone : Int := 3

/-- The constant `scopeStandard`. -/
def scopeStandard : Int := 4

/-- The constant `scopeDaylight`. -/
def scopeDaylight : Int := 5

/-- The function `unfold`: `strings.NewReplacer("\r\n ", "", "\r\n\t", "").Replace(text)`.
The replacer goes through the text from the left and drops each CRLF+space and CRLF+tab it
meets; what it has passed is not looked at again. -/
def unfold : Str → Str
  | 13 :: 10 :: 32 :: rest => unfold rest
  | 13 :: 10 :: 9 :: rest => unfold rest
  | b :: rest => b :: unfold rest
  | [] => []

/-- The function `hasProperty`. -/
def hasProperty (name : Str) (properties : List Property) : Bool :=
  properties.any fun prop => name == prop.Name

/-- The function `parseDate`.  The result is `none` when Go faults on `Values[0]`, the
parameter having no value. -/
def parseDate (h : Host) (prop : Property) (l : Location) : Option (Time × Option ParseError) :=
  if (str "Z").isSuffixOf prop.Value then some (time.Parse layout.dateTimeLayoutUTC prop.Value)
  else
    match mapGet prop.Params (str "TZID") with
    | some tz =>
      match tz.Values with
      | [] => none
      | name :: _ =>
        let loc := match h.LoadLocation name with
          | some loc => loc
          | none => time.UTC
        some (time.ParseInLocation layout.dateTimeLayoutLocalized prop.Value loc)
    | none =>
      if prop.Value.length = 8 then some (time.ParseInLocation layout.dateLayout prop.Value l)
      else
        match mapGet prop.Params (str "VALUE") with
        | some val =>
          match val.Values with
          | [] => none
          | v :: _ =>
            let lay := if v = str "DATE" then layout.dateLayout
              else layout.dateTimeLayoutLocalized
            some (time.ParseInLocation lay prop.Value l)
        | none => some (time.ParseInLocation layout.dateTimeLayoutLocalized prop.Value l)

/-- The method `validateCalendar`, loop: promote the properties of the root and count the
required ones. -/
def validateCalendarLoop : List Property → Calendar → Nat → Calendar × Nat
  | [], c, requiredCount => (c, requiredCount)
  | prop :: rest, c, requiredCount =>
    let c1 := if prop.Name = str "PRODID" then { c with Prodid := prop.Value } else c
    let n1 := if prop.Name = str "PRODID" then requiredCount + 1 else requiredCount
    let c2 := if prop.Name = str "VERSION" then { c1 with Version := prop.Value } else c1
    let n2 := if prop.Name = str "VERSION" then n1 + 1 else n1
    let c3 := if prop.Name = str "CALSCALE" then { c2 with Calscale := prop.Value } else c2
    let c4 := if prop.Name = str "METHOD" then { c3 with Method := prop.Value } else c3
    validateCalendarLoop rest c4 n2

/-- The method `validateCalendar`: the calendar as the loop leaves it, and the error. -/
def validateCalendar (c : Calendar) : Calendar × Option error :=
  let r := validateCalendarLoop c.Properties c 0
  if r.2 ≠ 2 then (r.1, some (error.invalid "missing either required property \"prodid / version /\""))
  else (r.1, none)

/-- The map `uniqueCount` of `validateEvent` and `validateAlarm`, as the list of its entries
in the order in which the keys were first counted. -/
abbrev counts := List (String × Nat)

/-- The statement `uniqueCount[key]++`. -/
def counts.incr : counts → String → counts
  | [], key => [(key, 1)]
  | e :: m, key => if e.1 = key then (e.1, e.2 + 1) :: m else e :: counts.incr m key

/-- The loop `for key, value := range uniqueCount`: the error for a key counted more than
once, if there is one.  Go ranges over a map in no fixed order; here the order is that of
`counts`, which decides only which key the error names. -/
def counts.check (m : counts) : Option error :=
  (m.find? fun e => decide (e.2 > 1)).map fun e => error.twice e.1

/-- What a validation comes to: the object as it is left and the error returned, or a
runtime fault. -/
inductive validated (α : Type)
  | done (a : α) (err : Option error)
  | fault

/-- The body of the loop of `validateEvent` for one property: the event and the counts as
the seven `if` statements leave them, with the error when one of them returns; `all` is
`v.Properties`. -/
def validateEventStep (h : Host) (location : Location) (all : List Property) (prop : Property)
    (v : Event) (uc : counts) : validated (Event × counts) :=
  let v1 := if prop.Name = str "UID" then { v with UID := prop.Value } else v
  let uc1 := if prop.Name = str "UID" then uc.incr "UID" else uc
  match (if prop.Name = str "DTSTAMP" then parseDate h prop location
    else some (v1.Timestamp, none)) with
  | none => validated.fault
  | some ts =>
    let v2 := { v1 with Timestamp := ts.1 }
    let uc2 := if prop.Name = str "DTSTAMP" then uc1.incr "DTSTAMP" else uc1
    match (if prop.Name = str "DTSTART" then parseDate h prop location
      else some (v2.StartDate, none)) with
    | none => validated.fault
    | some sd =>
      let v3 := { v2 with StartDate := sd.1 }
      let uc3 := if prop.Name = str "DTSTART" then uc2.incr "DTSTART" else uc2
      if prop.Name = str "DTEND" ∧ hasProperty (str "DURATION") all = true then
        validated.done (v3, uc3)
          (some (error.invalid "Either \"dtend\" or \"duration\" MAY appear"))
      else
        match (if prop.Name = str "DTEND" then parseDate h prop location
          else some (v3.EndDate, none)) with
        | none => validated.fault
        | some ed =>
          let v4 := { v3 with EndDate := ed.1 }
          let uc4 := if prop.Name = str "DTEND" then uc3.incr "DTEND" else uc3
          if prop.Name = str "DURATION" ∧ hasProperty (str "DTEND") all = true then
            validated.done (v4, uc4)
              (some (error.invalid "Either \"dtend\" or \"duration\" MAY appear"))
          else
            let uc5 := if prop.Name = str "DURATION" then uc4.incr "DURATION" else uc4
            let v6 := if prop.Name = str "SUMMARY" then { v4 with Summary := prop.Value } else v4
            let uc6 := if prop.Name = str "SUMMARY" then uc5.incr "SUMMARY" else uc5
            let v7 :=
              if prop.Name = str "DESCRIPTION" then { v6 with Description := prop.Value } else v6
            let uc7 := if prop.Name = str "DESCRIPTION" then uc6.incr "DESCRIPTION" else uc6
            validated.done (v7, uc7) none

/-- The loop of `validateEvent` over the properties, left at the first error. -/
def validateEventLoop (h : Host) (location : Location) (all : List Property) :
    List Property → Event → counts → validated (Event × counts)
  | [], v, uc => validated.done (v, uc) none
  | prop :: rest, v, uc =>
    match validateEventStep h location all prop v uc with
    | validated.done r none => validateEventLoop h location all rest r.1 r.2
    | validated.done r (some e) => validated.done r (some e)
    | validated.fault => validated.fault

/-- The method `validateEvent` on an event that is not `nil`; `method` is `p.c.Method` and
`location` is `p.location`. -/
def validateEvent (h : Host) (method : Str) (location : Location) (v : Event) : validated Event :=
  match validateEventLoop h location v.Properties v.Properties v [] with
  | validated.fault => validated.fault
  | validated.done r (some e) => validated.done r.1 (some e)
  | validated.done r none =>
    let v1 := r.1
    if method = [] ∧ v1.Timestamp.IsZero = true then
      validated.done v1 (some (error.invalid "missing required property \"dtstamp\""))
    else if v1.UID = [] then
      validated.done v1 (some (error.invalid "missing required property \"uid\""))
    else if v1.StartDate.IsZero = true then
      validated.done v1 (some (error.invalid "missing required property \"dtstart\""))
    else
      match r.2.check with
      | some e => validated.done v1 (some e)
      | none =>
        if !hasProperty (str "DTEND") v1.Properties then
          validated.done { v1 with EndDate := v1.StartDate.Add (time.Hour * 24) } none
        else validated.done v1 none

/-- The loop of `validateAlarm` over the properties. -/
def validateAlarmLoop : List Property → Alarm → Nat → counts → Alarm × Nat × counts
  | [], a, requiredCount, uc => (a, requiredCount, uc)
  | prop :: rest, a, requiredCount, uc =>
    let a1 := if prop.Name = str "ACTION" then { a with Action := prop.Value } else a
    let n1 := if prop.Name = str "ACTION" then requiredCount + 1 else requiredCount
    let uc1 := if prop.Name = str "ACTION" then uc.incr "ACTION" else uc
    let a2 := if prop.Name = str "TRIGGER" then { a1 with Trigger := prop.Value } else a1
    let n2 := if prop.Name = str "TRIGGER" then n1 + 1 else n1
    let uc2 := if prop.Name = str "TRIGGER" then uc1.incr "TRIGGER" else uc1
    validateAlarmLoop rest a2 n2 uc2

/-- The method `validateAlarm` on an alarm that is not `nil`. -/
def validateAlarm (a : Alarm) : Alarm × Option error :=
  let r := validateAlarmLoop a.Properties a 0 []
  if r.2.1 ≠ 2 then
    (r.1, some (error.invalid "missing either required property \"action / trigger /\""))
  else (r.1, r.2.2.check)


/-- The struct `parser`.  The scanner `lex` is what is left of its items, with its ending;
the array `token` is the pair of its two entries; `events`, ..., `daylights` hold the
objects allocated so far, which the pointers address.  The field `location`, which `Parse`
sets once and nothing changes, is the argument `location` of the methods that read it. -/
structure parser where
  lex : scan
  token : item × item
  peekCount : Nat
  scope : Int
  c : Calendar
  v : ptr
  a : ptr
  t : ptr
  s : ptr
  d : ptr
  events : List Event
  alarms : List Alarm
  timezones : List Timezone
  standards : List Standard
  daylights : List Daylight

/-- What a method of the parser comes to: it returns `a` and leaves the parser `p`, it stops
with a runtime fault, it waits for ever for an item the scanner never sends, or (in the
embedding only) the bound on its rounds is used up. -/
inductive res (α : Type)
  | ok (a : α) (p : parser)
  | fault
  | hang
  | fuel

/-- Go on with `k` after a method that has returned. -/
def res.bind {α β : Type} (r : res α) (k : α → parser → res β) : res β :=
  match r with
  | res.ok a p => k a p
  | res.fault => res.fault
  | res.hang => res.hang
  | res.fuel => res.fuel

/-- The method `nextItem` of the scanner, seen from the parser: the next item sent; the zero
item once the channel is closed; a fault or an endless wait when the scanner ends so. -/
def parser.nextItem (p : parser) : res item :=
  match p.lex.items with
  | i :: rest => res.ok i { p with lex := { p.lex with items := rest } }
  | [] =>
    match p.lex.ending with
    | halt.closed => res.ok ⟨itemError, 0, []⟩ p
    | halt.fault => res.fault
    | halt.spin => res.hang
    | halt.fuel => res.fuel

/-- The expression `p.token[p.peekCount]`; Go faults on an index above 1. -/
def parser.tokenAt (p : parser) : res item :=
  match p.peekCount with
  | 0 => res.ok p.token.1 p
  | 1 => res.ok p.token.2 p
  | _ => res.fault

/-- The method `next` (parser). -/
def parser.next (p : parser) : res item :=
  if p.peekCount > 0 then { p with peekCount := p.peekCount - 1 }.tokenAt
  else p.nextItem.bind fun i p1 => { p1 with token := (i, p1.token.2) }.tokenAt

/-- The method `backup` (parser). -/
def parser.backup (p : parser) : parser :=
  { p with peekCount := p.peekCount + 1 }

/-- The method `enterScope`. -/
def parser.enterScope (p : parser) (scope : Int) : parser :=
  { p with scope := scope }

/-- The method `leaveScope`. -/
def parser.leaveScope (p : parser) (scope : Int) : parser :=
  if scope = -1 then { p with scope := p.scope - 1 } else { p with scope := scope }

/-- The statement repeated at the end of each delimiter:
`if item := p.next(); item.typ != itemLineEnd { return fmt.Errorf(...) }`, and `nil` after
it. -/
def parser.expectLineEnd (p : parser) : res (Option error) :=
  p.next.bind fun i p1 =>
    if i.typ ≠ itemLineEnd then res.ok (some (error.found i "CRLF")) p1 else res.ok none p1

/-- The method `scanDelimiter`.  Its `if` statements test `delim.typ` for one constant each,
so they are the cases of one `match`.  A `nil` pointer that is dereferenced is a fault. -/
def parser.scanDelimiter (h : Host) (location : Location) (p : parser) (delim : item) : res (Option error) :=
  match delim.typ with
  | itemBeginVEvent =>
    let vc := validateCalendar p.c
    match vc.2 with
    | some e => res.ok (some e) { p with c := vc.1 }
    | none =>
      ({ p with c := vc.1, events := p.events ++ [NewEvent], v := some p.events.length }.enterScope
        scopeEvent).expectLineEnd
  | itemEndVEvent =>
    match p.v.bind fun i => p.events.get? i with
    | none => res.fault
    | some v =>
      match validateEvent h p.c.Method location v with
      | validated.fault => res.fault
      | validated.done v1 (some e) => res.ok (some e) { p with events := p.events.set (p.v.getD 0) v1 }
      | validated.done v1 none =>
        ({ p with
            events := p.events.set (p.v.getD 0) v1
            c := { p.c with Events := p.c.Events ++ [p.v] } }.leaveScope scopeCalendar).expectLineEnd
  | itemBeginVTimezone =>
    ({ p with timezones := p.timezones ++ [NewTimezone], t := some p.timezones.length }.enterScope
      scopeTimezone).expectLineEnd
  | itemEndVTimezone =>
    ({ p with c := { p.c with Timezones := p.c.Timezones ++ [p.t] } }.leaveScope
      scopeCalendar).expectLineEnd
  | itemBeginStandard =>
    ({ p with standards := p.standards ++ [NewStandard], s := some p.standards.length }.enterScope
      scopeStandard).expectLineEnd
  | itemEndStandard =>
    match p.t.bind fun i => p.timezones.get? i with
    | none => res.fault
    | some t =>
      ({ p with
          timezones := p.timezones.set (p.t.getD 0) { t with Standards := t.Standards ++ [p.s] }
        }.leaveScope scopeTimezone).expectLineEnd
  | itemBeginDaylight =>
    ({ p with daylights := p.daylights ++ [NewDaylight], d := some p.daylights.length }.enterScope
      scopeDaylight).expectLineEnd
  | itemEndDaylight =>
    match p.t.bind fun i => p.timezones.get? i with
    | none => res.fault
    | some t =>
      ({ p with
          timezones := p.timezones.set (p.t.getD 0) { t with Daylights := t.Daylights ++ [p.d] }
        }.leaveScope scopeTimezone).expectLineEnd
  | itemBeginVAlarm =>
    ({ p with alarms := p.alarms ++ [NewAlarm], a := some p.alarms.length }.enterScope
      scopeAlarm).expectLineEnd
  | itemEndVAlarm =>
    match p.a.bind fun i => p.alarms.get? i with
    | none => res.fault
    | some a =>
      let va := validateAlarm a
      let p1 := { p with alarms := p.alarms.set (p.a.getD 0) va.1 }
      match va.2 with
      | some e => res.ok (some e) p1
      | none =>
        match p1.v.bind fun i => p1.events.get? i with
        | none => res.fault
        | some v =>
          ({ p1 with
              events := p1.events.set (p1.v.getD 0) { v with Alarms := v.Alarms ++ [p1.a] }
            }.leaveScope scopeEvent).expectLineEnd
  | itemEndVCalendar =>
    if p.scope > scopeCalendar then res.ok (some (error.found delim "END:VEVENT")) p
    else res.ok (some error.errorDone) p
  | _ => res.ok none p

/-- The loop of the method `scanValues`, after the first value. -/
def parser.scanValuesLoop : Nat → parser → Param → res (Param × Option error)
  | 0, _, _ => res.fuel
  | n + 1, p, param =>
    p.next.bind fun i p1 =>
      if i.typ ≠ itemComma then res.ok (param, none) p1.backup
      else
        p1.next.bind fun paramValue p2 =>
          if paramValue.typ ≠ itemParamValue then
            res.ok (param, some (error.found paramValue "a param-value")) p2
          else parser.scanValuesLoop n p2 { param with Values := param.Values ++ [paramValue.val] }

/-- The method `scanValues`: the parameter as it is left, and the error. -/
def parser.scanValues (n : Nat) (p : parser) (param : Param) : res (Param × Option error) :=
  p.next.bind fun paramValue p1 =>
    if paramValue.typ ≠ itemParamValue then
      res.ok (param, some (error.found paramValue "a param-value")) p1
    else parser.scanValuesLoop n p1 { param with Values := param.Values ++ [paramValue.val] }

/-- The method `scanParams`: the property as it is left, and the error. -/
def parser.scanParams : Nat → parser → Property → res (Property × Option error)
  | 0, _, _ => res.fuel
  | n + 1, p, prop =>
    p.next.bind fun i p1 =>
      if i.typ ≠ itemSemiColon then res.ok (prop, none) p1.backup
      else
        p1.next.bind fun paramName p2 =>
          if paramName.typ ≠ itemParamName then
            res.ok (prop, some (error.found paramName "a param-name")) p2
          else
            p2.next.bind fun j p3 =>
              if j.typ ≠ itemEqual then res.ok (prop, some (error.found j "=")) p3
              else
                (parser.scanValues n p3 NewParam).bind fun r p4 =>
                  match r.2 with
                  | some e => res.ok (prop, some e) p4
                  | none =>
                    parser.scanParams n p4
                      { prop with Params := mapSet prop.Params paramName.val r.1 }

/-- The `switch p.scope` that ends `scanContentLine`: append the property to the component
of the scope. -/
def parser.store (p : parser) (prop : Property) : res (Option error) :=
  if p.scope = scopeCalendar then
    res.ok none { p with c := { p.c with Properties := p.c.Properties ++ [prop] } }
  else if p.scope = scopeEvent then
    match p.v.bind fun i => p.events.get? i with
    | none => res.fault
    | some v =>
      res.ok none
        { p with events := p.events.set (p.v.getD 0) { v with Properties := v.Properties ++ [prop] } }
  else if p.scope = scopeAlarm then
    match p.a.bind fun i => p.alarms.get? i with
    | none => res.fault
    | some a =>
      res.ok none
        { p with alarms := p.alarms.set (p.a.getD 0) { a with Properties := a.Properties ++ [prop] } }
  else if p.scope = scopeTimezone then
    match p.t.bind fun i => p.timezones.get? i with
    | none => res.fault
    | some t =>
      res.ok none
        { p with
          timezones := p.timezones.set (p.t.getD 0) { t with Properties := t.Properties ++ [prop] } }
  else if p.scope = scopeDaylight then
    match p.d.bind fun i => p.daylights.get? i with
    | none => res.fault
    | some d =>
      res.ok none
        { p with
          daylights := p.daylights.set (p.d.getD 0) { d with Properties := d.Properties ++ [prop] } }
  else if p.scope = scopeStandard then
    match p.s.bind fun i => p.standards.get? i with
    | none => res.fault
    | some s =>
      res.ok none
        { p with
          standards := p.standards.set (p.s.getD 0) { s with Properties := s.Properties ++ [prop] } }
  else res.ok (some (error.scope p.scope)) p

/-- The method `scanContentLine`; `n` bounds its calls of itself and the loops below it. -/
def parser.scanContentLine (h : Host) (location : Location) : Nat → parser → res (Option error)
  | 0, _ => res.fuel
  | n + 1, p =>
    p.next.bind fun name p1 =>
      if name.typ.iota > itemKeyword.iota then
        (p1.scanDelimiter h location name).bind fun err p2 =>
          match err with
          | some e => res.ok (some e) p2
          | none => parser.scanContentLine h location n p2
      else if !isItemName name then res.ok (some (error.found name "a \"name\" token")) p1
      else
        (parser.scanParams n p1 { NewProperty with Name := name.val }).bind fun r p2 =>
          match r.2 with
          | some e => res.ok (some e) p2
          | none =>
            p2.next.bind fun i p3 =>
              if i.typ ≠ itemColon then res.ok (some (error.found i "\":\"")) p3
              else
                p3.next.bind fun value p4 =>
                  if value.typ ≠ itemValue then res.ok (some (error.found value "a value")) p4
                  else
                    p4.next.bind fun j p5 =>
                      if j.typ ≠ itemLineEnd then res.ok (some (error.found name "CRLF")) p5
                      else p5.store { r.1 with Value := value.val }

/-- The loop of the method `parse`: `scanContentLine` until it returns an error, which is
the result (`errorDone` ends the loop too). -/
def parser.parseLoop (h : Host) (location : Location) : Nat → parser → res error
  | 0, _ => res.fuel
  | n + 1, p =>
    (parser.scanContentLine h location n p).bind fun err p1 =>
      match err with
      | some e => res.ok e p1
      | none => parser.parseLoop h location n p1

/-- The method `parse`: the error it returns, `none` for `nil` (then it returns `p.c`). -/
def parser.parse (h : Host) (location : Location) (n : Nat) (p : parser) : res (Option error) :=
  p.next.bind fun i p1 =>
    if i.typ ≠ itemBeginVCalendar then res.ok (some (error.found i "BEGIN:VCALENDAR")) p1
    else
      p1.next.bind fun j p2 =>
        if j.typ ≠ itemLineEnd then res.ok (some (error.found j "CRLF")) p2
        else
          (parser.parseLoop h location n p2).bind fun e p3 =>
            if e = error.errorDone then res.ok none p3 else res.ok (some e) p3

/-- What `Parse` returns when it returns no error: the calendar, and the objects its pointers
address. -/
structure Document where
  c : Calendar
  events : List Event
  alarms : List Alarm
  timezones : List Timezone
  standards : List Standard
  daylights : List Daylight

/-- The events of the document, `nil` entries as `none`. -/
def Document.Events (d : Document) : List (Option Event) :=
  d.c.Events.map fun q => q.bind fun i => d.events.get? i

/-- What a call of `Parse` comes to: it returns a document and no error, it returns an error
and no document, a goroutine faults (the Go runtime then ends the program), it never
returns, or (in the embedding only) a bound is used up. -/
inductive outcome
  | ok (d : Document)
  | error (e : error)
  | fault
  | hang
  | fuel

/-- The parser `Parse` sets up on a text. -/
def newParser (h : Host) (text : Str) : parser :=
  { lex := lex h text, token := (⟨itemError, 0, []⟩, ⟨itemError, 0, []⟩), peekCount := 0,
    scope := scopeCalendar, c := NewCalendar, v := none, a := none, t := none, s := none,
    d := none, events := [], alarms := [], timezones := [],
    standards := [], daylights := [] }

/-- The function `Parse`, on the bytes read from `r`; `l` is `none` for `nil`.  Every round of
a loop of the parser takes an item, so the number of items bounds the rounds.  The scanner
goroutine runs until it sends its next item: when the parser has taken its last item and the
scanner then faults, the program is ended whatever `parse` returns. -/
def Parse (h : Host) (r : Str) (l : Option Location) : outcome :=
  let p := newParser h (unfold r)
  match p.parse h (match l with | some l => l | none => h.Local) (p.lex.items.length + 5) with
  | res.ok err p1 =>
    if p1.lex.items = [] ∧ p1.lex.ending = halt.fault then outcome.fault
    else
      match err with
      | some e => outcome.error e
      | none =>
        outcome.ok ⟨p1.c, p1.events, p1.alarms, p1.timezones, p1.standards, p1.daylights⟩
  | res.fault => outcome.fault
  | res.hang => outcome.hang
  | res.fuel => outcome.fuel


/-! ## The inputs and results the theorems speak of -/

/-- A machine without a zone database whose local zone is UTC: `time.LoadLocation` knows the
names `""` and `"UTC"` (both UTC) and `"Local"`, and returns an error for any other.  Of the
tables of its toolchain only a part is written down, which every release of Go has: the
letters of Latin Extended-A, the Greek and the Cyrillic alphabet, and the Arabic-Indic
digits. -/
def utcHost : Host :=
  { LoadLocation := fun name =>
      if name = [] ∨ name = str "UTC" ∨ name = str "Local" then some time.UTC else none
    Local := time.UTC
    IsLetter := inRanges [(0x100, 0x17F), (0x391, 0x3A1), (0x3A3, 0x3A9), (0x3B1, 0x3C9),
      (0x410, 0x44F)]
    IsDigit := inRanges [(0x660, 0x669)] }

/-- The document of the end-to-end example: a calendar with one event. -/
def exampleDocument : Str :=
  str ("BEGIN:VCALENDAR\r\nVERSION:2.0\r\nPRODID:-//x//\r\nBEGIN:VEVENT\r\nUID:1\r\n"
    ++ "DTSTAMP:20240101T000000Z\r\nDTSTART:20240101T000000Z\r\nSUMMARY:Test\r\n"
    ++ "END:VEVENT\r\nEND:VCALENDAR\r\n")

/-- The event `Parse` builds from `exampleDocument`. -/
def exampleEvent : Event :=
  { Properties := [⟨str "UID", [], str "1"⟩, ⟨str "DTSTAMP", [], str "20240101T000000Z"⟩,
      ⟨str "DTSTART", [], str "20240101T000000Z"⟩, ⟨str "SUMMARY", [], str "Test"⟩],
    Alarms := [], UID := str "1",
    Timestamp := time.Date 2024 1 1 0 0 0 0 time.UTC,
    StartDate := time.Date 2024 1 1 0 0 0 0 time.UTC,
    EndDate := (time.Date 2024 1 1 0 0 0 0 time.UTC).Add (24 * time.Hour),
    Summary := str "Test", Description := [] }

/-- The document `Parse` returns for `exampleDocument`. -/
def exampleResult : Document :=
  { c := { Properties := [⟨str "VERSION", [], str "2.0"⟩, ⟨str "PRODID", [], str "-//x//"⟩],
           Events := [some 0], Timezones := [], Prodid := str "-//x//", Version := str "2.0",
           Calscale := str "GREGORIAN", Method := [] },
    events := [exampleEvent], alarms := [], timezones := [], standards := [], daylights := [] }

/-- A property as the parser builds it: each of its parameters has at least one value. -/
def Property.hasValues (prop : Property) : Bool :=
  prop.Params.all fun e => !e.2.Values.isEmpty

/-- How often a key has been counted in `uniqueCount`: the entry of the map, 0 without one. -/
def counts.get : counts → String → Nat
  | [], _ => 0
  | e :: m, key => if e.1 = key then e.2 else counts.get m key

/-- The names of the properties of an event that `validateEvent` counts. -/
def eventKeys : List String :=
  ["UID", "DTSTAMP", "DTSTART", "DTEND", "DURATION", "SUMMARY", "DESCRIPTION"]

/-- The event the parser has collected when it validates it: the properties and the alarms
read, and no field promoted yet. -/
def collected (props : List Property) (alarms : List ptr) : Event :=
  { NewEvent with Properties := props, Alarms := alarms }

/-- What one round of the loop of `validateEvent` does to the event and to the counts. -/
def stepSpec (h : Host) (l : Location) (all : List Property) (prop : Property) (v : Event)
    (uc : counts) : validated (Event × counts) → Prop
  | validated.fault => parseDate h prop l = none
  | validated.done r err =>
    r.1.Properties = v.Properties
      ∧ (prop.Name ≠ str "UID" → r.1.UID = v.UID)
      ∧ (prop.Name ≠ str "DTSTART" → r.1.StartDate = v.StartDate)
      ∧ (err = none → ∀ k ∈ eventKeys,
          r.2.get k = uc.get k + if prop.Name = str k then 1 else 0)
      ∧ ((prop.Name = str "DTEND" ∨ prop.Name = str "DURATION") →
          hasProperty (str "DTEND") all = true → hasProperty (str "DURATION") all = true →
          err ≠ none)

/-- What the loop of `validateEvent` does to the event and to the counts. -/
def loopSpec (h : Host) (l : Location) (all rest : List Property) (v : Event) (uc : counts) :
    validated (Event × counts) → Prop
  | validated.fault => ∃ prop ∈ rest, parseDate h prop l = none
  | validated.done r err =>
    r.1.Properties = v.Properties
      ∧ (hasProperty (str "UID") rest = false → r.1.UID = v.UID)
      ∧ (hasProperty (str "DTSTART") rest = false → r.1.StartDate = v.StartDate)
      ∧ (err = none → ∀ k ∈ eventKeys,
          r.2.get k = uc.get k + rest.countP fun p => decide (p.Name = str k))
      ∧ (hasProperty (str "DTEND") rest = true ∨ hasProperty (str "DURATION") rest = true →
          hasProperty (str "DTEND") all = true → hasProperty (str "DURATION") all = true →
          err ≠ none)

/-- The event of the witness of C9: no DTEND, a DURATION. -/
def durationEvent : Event :=
  collected [⟨str "UID", [], str "1"⟩, ⟨str "DTSTAMP", [], str "20240101T000000Z"⟩,
    ⟨str "DTSTART", [], str "20240101T000000Z"⟩, ⟨str "DURATION", [], str "PT1H"⟩] []


/-! ## Content lines as they are written (C2) -/

/-- A parameter value as it is written in a content line: bare, or between double quotes. -/
inductive pvalue
  | bare (s : List Char)
  | quoted (s : List Char)

/-- The text of a parameter value, without the quotes. -/
def pvalue.text : pvalue → List Char
  | pvalue.bare s => s
  | pvalue.quoted s => s

/-- The bytes of a parameter value as it is written. -/
def pvalue.render : pvalue → Str
  | pvalue.bare s => utf8 s
  | pvalue.quoted s => 0x22 :: (utf8 s ++ [0x22])

/-- The characters a parameter value may be written with: safe characters when bare,
quoted-safe characters between quotes. -/
def pvalue.wellFormed : pvalue → Prop
  | pvalue.bare s => ∀ c ∈ s, isSafeChar c.toNat = true
  | pvalue.quoted s => ∀ c ∈ s, isQSafeChar c.toNat = true

/-- A parameter as it is written: its name, its first value and the values after it. -/
structure pparam where
  name : List Char
  first : pvalue
  more : List pvalue

/-- The values after the first as they are written: `,V` for each. -/
def renderMore : List pvalue → Str
  | [] => []
  | v :: vs => 0x2C :: (v.render ++ renderMore vs)

/-- A parameter as it is written: `;NAME=V[,V...]`. -/
def pparam.render (q : pparam) : Str :=
  0x3B :: (utf8 q.name ++ 0x3D :: (q.first.render ++ renderMore q.more))

/-- The parameters of a line as they are written, one after the other. -/
def renderParams : List pparam → Str
  | [] => []
  | q :: qs => q.render ++ renderParams qs

/-- The content line `NAME[;PARAM=V[,V...]]*:VALUE` followed by CRLF. -/
def renderLine (name : List Char) (params : List pparam) (value : List Char) : Str :=
  utf8 name ++ (renderParams params ++ 0x3A :: (utf8 value ++ crlf))

/-- The entry of the map `Params` for a parameter as it is written: the name, and the values
in order, without quotes. -/
def pparam.entry (q : pparam) : Str × Param :=
  (utf8 q.name, ⟨(q.first :: q.more).map fun v => utf8 v.text⟩)

/-- The property a content line stands for. -/
def lineProperty (name : List Char) (params : List pparam) (value : List Char) : Property :=
  ⟨utf8 name, params.map pparam.entry, utf8 value⟩

/-- The item of a parameter value written at offset `off`. -/
def pvalue.item (off : Nat) : pvalue → item
  | pvalue.bare s => ⟨itemParamValue, off, utf8 s⟩
  | pvalue.quoted s => ⟨itemParamValue, off + 1, utf8 s⟩

/-- The items of the values after the first, written from offset `off` on. -/
def moreItems : Nat → List pvalue → List item
  | _, [] => []
  | off, v :: vs =>
    ⟨itemComma, off, [0x2C]⟩ :: v.item (off + 1) :: moreItems (off + 1 + v.render.length) vs

/-- The items of a parameter written at offset `off`. -/
def pparam.items (off : Nat) (q : pparam) : List item :=
  ⟨itemSemiColon, off, [0x3B]⟩ :: ⟨itemParamName, off + 1, utf8 q.name⟩
    :: ⟨itemEqual, off + 1 + (utf8 q.name).length, [0x3D]⟩
    :: q.first.item (off + 1 + (utf8 q.name).length + 1)
    :: moreItems (off + 1 + (utf8 q.name).length + 1 + q.first.render.length) q.more

/-- The items of the parameters of a line, written from offset `off` on. -/
def paramsItems : Nat → List pparam → List item
  | _, [] => []
  | off, q :: qs => q.items off ++ paramsItems (off + q.render.length) qs

/-- The items the scanner sends for a content line. -/
def lineItems (name : List Char) (params : List pparam) (value : List Char) : List item :=
  let o := (utf8 name).length + (renderParams params).length
  ⟨itemName, 0, utf8 name⟩ :: (paramsItems (utf8 name).length params
    ++ [⟨itemColon, o, [0x3A]⟩, ⟨itemValue, o + 1, utf8 value⟩,
        ⟨itemLineEnd, o + 1 + (utf8 value).length, crlf⟩,
        ⟨itemEOF, o + 1 + (utf8 value).length + 2, []⟩])

/-- The calls of state functions the scanner makes for the parameters of a line. -/
def paramsSteps : List pparam → Nat
  | [] => 0
  | q :: qs => 3 + 2 * q.more.length + paramsSteps qs

/-- The scanner stands between `pre`, which it has read and sent, and `rest`. -/
def lexer.standsAt (l : lexer) (pre rest : Str) : Prop :=
  l.input = pre ++ rest ∧ l.pos = pre.length ∧ l.start = pre.length

/-- From the state `s` on `l` the scanner comes, in `k` calls, to the state `s1` on `l1`. -/
def reaches (h : Host) (k : Nat) (s : stateFn) (l : lexer) (s1 : stateFn) (l1 : lexer) :
    Prop :=
  ∀ n, run h (n + k) s l = run h n s1 l1

/-- The items the parser has still to read: the one it has backed up over, if any, and those
the scanner has not delivered yet. -/
def parser.pending (p : parser) : List item :=
  match p.peekCount with
  | 0 => p.lex.items
  | _ => p.token.1 :: p.lex.items

/-- The parser `Parse` sets up, on the items of a scanner that has closed its channel. -/
def parserOn (items : List item) : parser :=
  { lex := ⟨items, halt.closed⟩, token := (⟨itemError, 0, []⟩, ⟨itemError, 0, []⟩),
    peekCount := 0, scope := scopeCalendar, c := NewCalendar, v := none, a := none, t := none,
    s := none, d := none, events := [], alarms := [], timezones := [], standards := [],
    daylights := [] }

/-- The parser `q` differs from `p` in the items read only. -/
def parser.sameBut (p q : parser) : Prop :=
  q.scope = p.scope ∧ q.c = p.c ∧ q.v = p.v ∧ q.a = p.a ∧ q.t = p.t ∧ q.s = p.s ∧ q.d = p.d
    ∧ q.events = p.events ∧ q.alarms = p.alarms ∧ q.timezones = p.timezones
    ∧ q.standards = p.standards ∧ q.daylights = p.daylights ∧ q.lex.ending = p.lex.ending

/-- The characters a parameter may be written with: name characters in its name, and values
that are well formed. -/
def pparam.wellFormed (h : Host) (q : pparam) : Prop :=
  (∀ c ∈ q.name, isName h c.toNat = true) ∧ q.first.wellFormed ∧ ∀ v ∈ q.more, v.wellFormed

/-- A name, for the line `ATTENDEE;ROLE=CHAIR;CN="Doe; J",é:mailto:jd@example.com`. -/
def sampleName : List Char := "ATTENDEE".toList

/-- The parameters of that line: one bare value, then a quoted value followed by a bare one
that is not ASCII. -/
def sampleParams : List pparam :=
  [⟨"ROLE".toList, pvalue.bare "CHAIR".toList, []⟩,
   ⟨"CN".toList, pvalue.quoted "Doe; J".toList, [pvalue.bare "é".toList]⟩]

/-- The value of that line. -/
def sampleValue : List Char := "mailto:jd@example.com".toList

/-! ## An event closed inside an alarm (C4) -/

/-- The premise of C4 on the item types of a text, in order: an END:VEVENT comes while the
last BEGIN:VALARM has had no END:VALARM after it.  `inAlarm` tells whether an alarm is
open before the first item. -/
def endEventInAlarm : Bool → List itemType → Bool
  | _, [] => false
  | inAlarm, t :: ts =>
    if t = itemEndVEvent ∧ inAlarm = true then true
    else if t = itemBeginVAlarm then endEventInAlarm true ts
    else if t = itemEndVAlarm then endEventInAlarm false ts
    else endEventInAlarm inAlarm ts

/-- A calendar whose event is closed while its alarm is open. -/
def alarmDocument : Str :=
  str ("BEGIN:VCALENDAR\r\nVERSION:2.0\r\nPRODID:-//x//\r\nBEGIN:VEVENT\r\nUID:1\r\n"
    ++ "DTSTAMP:20240101T000000Z\r\nDTSTART:20240101T000000Z\r\nSUMMARY:Test\r\n"
    ++ "BEGIN:VALARM\r\nACTION:DISPLAY\r\nTRIGGER:-PT15M\r\n"
    ++ "END:VEVENT\r\nEND:VCALENDAR\r\n")

/-- The document `Parse` returns for `alarmDocument`: the event of `exampleDocument`, without
an alarm; the alarm that was open is referred to by nothing. -/
def alarmResult : Document :=
  { exampleResult with
    alarms := [⟨[⟨str "ACTION", [], str "DISPLAY"⟩, ⟨str "TRIGGER", [], str "-PT15M"⟩], [], []⟩] }

/-- A parser in the scope of an alarm that has read the END:VEVENT of `alarmDocument`: the
event collected, the alarm open, the CRLF to come. -/
def alarmScopeParser : parser :=
  { lex := ⟨[⟨itemLineEnd, 188, crlf⟩], halt.closed⟩,
    token := (⟨itemEndVEvent, 178, str "END:VEVENT"⟩, ⟨itemError, 0, []⟩), peekCount := 0,
    scope := scopeAlarm, c := exampleResult.c, v := some 0, a := some 0, t := none, s := none,
    d := none, events := [collected exampleEvent.Properties []], alarms := alarmResult.alarms,
    timezones := [], standards := [], daylights := [] }

/-! ## The properties `parseDate` is tried on (C13 to C16) -/

/-- A DTSTART in UTC that carries a TZID and a VALUE parameter all the same. -/
def utcStart : Property :=
  ⟨str "DTSTART", [(str "TZID", ⟨[str "Europe/Berlin"]⟩), (str "VALUE", ⟨[str "DATE"]⟩)],
    str "19980119T070000Z"⟩

/-- The property of the test `Datetime with bad timezone`: the zone `Z` is not known. -/
def badZoneStart : Property :=
  ⟨str "DTSTART", [(str "TZID", ⟨[str "Z"]⟩)], str "19980119T020000"⟩

/-- A date of 8 bytes with a TZID parameter. -/
def zonedDate : Property :=
  ⟨str "DTSTART", [(str "TZID", ⟨[str "UTC"]⟩)], str "19980119"⟩

/-- A value of 8 characters that is 9 bytes long, without parameters. -/
def wideDate : Property :=
  ⟨str "DTSTART", [], str "1998011é"⟩

/-- A date of 8 bytes with the parameter VALUE=DATE-TIME. -/
def typedDate : Property :=
  ⟨str "DTSTART", [(str "VALUE", ⟨[str "DATE-TIME"]⟩)], str "19980119"⟩

/-- A value that is no date of 8 bytes, with the parameter VALUE=DATE. -/
def dashedDate : Property :=
  ⟨str "DTSTART", [(str "VALUE", ⟨[str "DATE"]⟩)], str "1998-01-19"⟩

/-! ## Folded text (C17, C18) -/

/-- The two separators of folding: CRLF and a tab, or CRLF and a space. -/
def foldSeparator (tab : Bool) : Str :=
  if tab then str "\r\n\t" else str "\r\n "

/-- Segments joined by separators of folding: the first segment, and each further segment
with the choice of the separator before it. -/
def foldJoin : Str → List (Bool × Str) → Str
  | first, [] => first
  | first, e :: rest => first ++ (foldSeparator e.1 ++ foldJoin e.2 rest)

/-- A text with an empty line followed by a folded line that begins with a space. -/
def blankFolded : Str :=
  str "\r\n\r\n  "

/-! ## Events without a DTSTAMP (C11) -/

/-- An event with a UID and a DTSTART and nothing else, as the parser has collected it. -/
def unstampedEvent : Event :=
  collected [⟨str "UID", [], str "1"⟩, ⟨str "DTSTART", [], str "20240101T000000Z"⟩] []

/-- A calendar that carries a METHOD property, with the value `method`. -/
def methodCalendar (method : Str) : Calendar :=
  { NewCalendar with
    Properties := [⟨str "VERSION", [], str "2.0"⟩, ⟨str "PRODID", [], str "-//x//"⟩,
      ⟨str "METHOD", [], method⟩] }

/-- A document whose calendar carries a METHOD property without a value, and whose event has
no DTSTAMP. -/
def emptyMethodDocument : Str :=
  str ("BEGIN:VCALENDAR\r\nVERSION:2.0\r\nPRODID:-//x//\r\nMETHOD:\r\nBEGIN:VEVENT\r\nUID:1\r\n"
    ++ "DTSTART:20240101T000000Z\r\nEND:VEVENT\r\nEND:VCALENDAR\r\n")

/-! ## What the parser reads until it ends (C19, C20) -/

/-- The END:VEVENT items among the items that come before the first END:VCALENDAR. -/
def endEvents (items : List item) : Nat :=
  ((items.takeWhile fun i => i.typ != itemEndVCalendar).filter
    fun i => i.typ == itemEndVEvent).length

/-- Whether an END:VCALENDAR is among the items. -/
def hasEndCalendar (items : List item) : Bool :=
  items.any fun i => i.typ == itemEndVCalendar

/-- The property `P` of what a method returns and of the parser it leaves, when it returns. -/
def res.holds {α : Type} (P : α → parser → Prop) : res α → Prop
  | res.ok a q => P a q
  | _ => True

/-- The method has read `i` and left `q`: nothing is backed up over, `i` is the current
token, the calendar is as it was, and with `i` in front the items of `q` are those of `p`,
as far as END:VEVENT and END:VCALENDAR go. -/
def parser.hasRead (p : parser) (i : item) (q : parser) : Prop :=
  q.peekCount = 0 ∧ q.token.1 = i ∧ q.c = p.c
    ∧ endEvents p.pending = endEvents (i :: q.pending)
    ∧ hasEndCalendar p.pending = hasEndCalendar (i :: q.pending)

/-- From `p` a method has come to `q` with the error `err`.  Without an error, each
END:VEVENT read has added one event to the calendar and no END:VCALENDAR was read; with
`errorDone`, the END:VCALENDAR was read after as many END:VEVENT as events were added. -/
def parser.advances (p : parser) (err : Option error) (q : parser) : Prop :=
  q.peekCount ≤ 1
    ∧ (err = none →
        q.c.Events.length + endEvents q.pending = p.c.Events.length + endEvents p.pending
          ∧ (hasEndCalendar q.pending = true → hasEndCalendar p.pending = true))
    ∧ (err = some error.errorDone →
        q.c.Events.length = p.c.Events.length + endEvents p.pending
          ∧ hasEndCalendar p.pending = true)

/-- A calendar whose one event is closed twice. -/
def twiceClosedDocument : Str :=
  str ("BEGIN:VCALENDAR\r\nVERSION:2.0\r\nPRODID:-//x//\r\nBEGIN:VEVENT\r\nUID:1\r\n"
    ++ "DTSTAMP:20240101T000000Z\r\nDTSTART:20240101T000000Z\r\nSUMMARY:Test\r\n"
    ++ "END:VEVENT\r\nEND:VEVENT\r\nEND:VCALENDAR\r\n")

/-- A calendar whose event is opened and never closed: the END:VTIMEZONE goes back to the
scope of the calendar. -/
def unclosedEventDocument : Str :=
  str ("BEGIN:VCALENDAR\r\nVERSION:2.0\r\nPRODID:-//x//\r\nBEGIN:VEVENT\r\nUID:1\r\n"
    ++ "BEGIN:VTIMEZONE\r\nEND:VTIMEZONE\r\nEND:VCALENDAR\r\n")

/-- The document `Parse` returns for `twiceClosedDocument`: the event of `exampleDocument`,
twice in the events of the calendar. -/
def twiceClosedResult : Document :=
  { exampleResult with c := { exampleResult.c with Events := [some 0, some 0] } }

/-- The document `Parse` returns for `unclosedEventDocument`: a calendar without events; the
event that was opened is referred to by nothing. -/
def unclosedEventResult : Document :=
  { c := { Properties := [⟨str "VERSION", [], str "2.0"⟩, ⟨str "PRODID", [], str "-//x//"⟩],
           Events := [], Timezones := [some 0], Prodid := str "-//x//", Version := str "2.0",
           Calscale := str "GREGORIAN", Method := [] },
    events := [{ NewEvent with Properties := [⟨str "UID", [], str "1"⟩] }], alarms := [],
    timezones := [NewTimezone], standards := [], daylights := [] }

/-- A calendar that is cut off inside its event. -/
def truncatedDocument : Str :=
  str ("BEGIN:VCALENDAR\r\nVERSION:2.0\r\nPRODID:-//x//\r\nBEGIN:VEVENT\r\nUID:1\r\n"
    ++ "DTSTAMP:20240101T000000Z\r\nDTSTART:2024")

/-! ## The parameters the parser stores (C25) -/

/-- A parser that has read the name `ATTENDEE` and has the parameters of `sampleParams` and
a colon to come. -/
def paramsParser : parser :=
  { parserOn (paramsItems 8 sampleParams ++ [⟨itemColon, 34, [0x3A]⟩]) with
    token := (⟨itemName, 0, utf8 sampleName⟩, ⟨itemError, 0, []⟩) }

/-! ## Dates that cannot be parsed (C23) -/

/-- The event of `exampleDocument` with a DTSTART that is no date, as the parser has
collected it. -/
def badStartEvent : Event :=
  collected [⟨str "UID", [], str "1"⟩, ⟨str "DTSTAMP", [], str "20240101T000000Z"⟩,
    ⟨str "DTSTART", [], str "2024-01-01"⟩] []

/-- The same event with the DTSTART of `exampleDocument`. -/
def goodStartEvent : Event :=
  collected [⟨str "UID", [], str "1"⟩, ⟨str "DTSTAMP", [], str "20240101T000000Z"⟩,
    ⟨str "DTSTART", [], str "20240101T000000Z"⟩] []

/-- The document of `badStartEvent`. -/
def badStartDocument : Str :=
  str ("BEGIN:VCALENDAR\r\nVERSION:2.0\r\nPRODID:-//x//\r\nBEGIN:VEVENT\r\nUID:1\r\n"
    ++ "DTSTAMP:20240101T000000Z\r\nDTSTART:2024-01-01\r\nEND:VEVENT\r\nEND:VCALENDAR\r\n")

/-- An event whose DTEND is no date and which is in order otherwise. -/
def badEndEvent : Event :=
  collected [⟨str "UID", [], str "1"⟩, ⟨str "DTSTAMP", [], str "20240101T000000Z"⟩,
    ⟨str "DTSTART", [], str "20240101T000000Z"⟩, ⟨str "DTEND", [], str "later"⟩] []

/-! ## Properly nested documents (C24, C27) -/

/-- The properties of the component that the scope of the parser designates: the one
`scanContentLine` appends to.  It is `none` when the pointer of the scope is `nil` or there
is no such scope. -/
def parser.openProperties (p : parser) : Option (List Property) :=
  if p.scope = scopeCalendar then some p.c.Properties
  else if p.scope = scopeEvent then (p.v.bind fun i => p.events.get? i).map fun v => v.Properties
  else if p.scope = scopeAlarm then (p.a.bind fun i => p.alarms.get? i).map fun a => a.Properties
  else if p.scope = scopeTimezone then
    (p.t.bind fun i => p.timezones.get? i).map fun t => t.Properties
  else if p.scope = scopeDaylight then
    (p.d.bind fun i => p.daylights.get? i).map fun d => d.Properties
  else if p.scope = scopeStandard then
    (p.s.bind fun i => p.standards.get? i).map fun s => s.Properties
  else none

/-- The parameters of a property as `scanParams` leaves them: each parameter written is
assigned in the map, a later one of the same name replacing the earlier. -/
def paramsFold : List (Str × Param) → List pparam → List (Str × Param)
  | m, [] => m
  | m, q :: qs => paramsFold (mapSet m q.entry.1 q.entry.2) qs

/-- A content line as it stands in a text at the offset `pos`. -/
structure cline where
  pos : Nat
  name : List Char
  params : List pparam
  value : List Char

/-- The property a content line stands for. -/
def cline.property (ln : cline) : Property :=
  ⟨utf8 ln.name, paramsFold [] ln.params, utf8 ln.value⟩

/-- The items the scanner sends for a content line at its offset. -/
def cline.items (ln : cline) : List item :=
  let o := ln.pos + (utf8 ln.name).length + (renderParams ln.params).length
  ⟨itemName, ln.pos, utf8 ln.name⟩ :: (paramsItems (ln.pos + (utf8 ln.name).length) ln.params
    ++ [⟨itemColon, o, [0x3A]⟩, ⟨itemValue, o + 1, utf8 ln.value⟩,
        ⟨itemLineEnd, o + 1 + (utf8 ln.value).length, crlf⟩])

/-- The components below the root. -/
inductive kind
  | event
  | alarm
  | timezone
  | standard
  | daylight
  deriving DecidableEq, Repr

/-- The keyword that opens a component, with its item type. -/
def kind.opening : kind → Str × itemType
  | kind.event => (str "BEGIN:VEVENT", itemBeginVEvent)
  | kind.alarm => (str "BEGIN:VALARM", itemBeginVAlarm)
  | kind.timezone => (str "BEGIN:VTIMEZONE", itemBeginVTimezone)
  | kind.standard => (str "BEGIN:STANDARD", itemBeginStandard)
  | kind.daylight => (str "BEGIN:DAYLIGHT", itemBeginDaylight)

/-- The keyword that closes a component, with its item type. -/
def kind.closing : kind → Str × itemType
  | kind.event => (str "END:VEVENT", itemEndVEvent)
  | kind.alarm => (str "END:VALARM", itemEndVAlarm)
  | kind.timezone => (str "END:VTIMEZONE", itemEndVTimezone)
  | kind.standard => (str "END:STANDARD", itemEndStandard)
  | kind.daylight => (str "END:DAYLIGHT", itemEndDaylight)

/-- The lines of a document between BEGIN:VCALENDAR and END:VCALENDAR: a content line, or the
delimiter that opens or closes a component, at its offset. -/
inductive act
  | line (ln : cline)
  | opening (k : kind) (pos : Nat)
  | closing (k : kind) (pos : Nat)

/-- The items the scanner sends for a line of a document: for a delimiter, the keyword and
the line end. -/
def act.items : act → List item
  | act.line ln => ln.items
  | act.opening k pos =>
    [⟨k.opening.2, pos, k.opening.1⟩, ⟨itemLineEnd, pos + k.opening.1.length, crlf⟩]
  | act.closing k pos =>
    [⟨k.closing.2, pos, k.closing.1⟩, ⟨itemLineEnd, pos + k.closing.1.length, crlf⟩]

/-- The items of the lines of a document, one after the other. -/
def renderActs : List act → List item
  | [] => []
  | x :: xs => x.items ++ renderActs xs

/-- The stack of open components as section 4.3 of the specification describes it, with the
property collections of the components.  Each component is known by its kind and by the number of
components of its kind opened before it; `stack` holds the open ones, the innermost first,
and the root is below them all. -/
structure nest where
  root : List Property
  events : List (List Property)
  alarms : List (List Property)
  timezones : List (List Property)
  standards : List (List Property)
  daylights : List (List Property)
  stack : List (kind × Nat)
  deriving DecidableEq, Repr

/-- Nothing read yet: the root is open and empty. -/
def nest.start : nest :=
  ⟨[], [], [], [], [], [], []⟩

/-- Append a property to a collection among those of a kind. -/
def appendAt (cs : List (List Property)) (i : Nat) (prop : Property) : List (List Property) :=
  cs.set i (cs.getD i [] ++ [prop])

/-- In the words of the specification: "the resulting property is appended to the current
stack top's property collection". -/
def nest.append (a : nest) (prop : Property) : nest :=
  match a.stack with
  | [] => { a with root := a.root ++ [prop] }
  | (kind.event, i) :: _ => { a with events := appendAt a.events i prop }
  | (kind.alarm, i) :: _ => { a with alarms := appendAt a.alarms i prop }
  | (kind.timezone, i) :: _ => { a with timezones := appendAt a.timezones i prop }
  | (kind.standard, i) :: _ => { a with standards := appendAt a.standards i prop }
  | (kind.daylight, i) :: _ => { a with daylights := appendAt a.daylights i prop }

/-- The component a kind is nested in: `none` is the root. -/
def kind.parent : kind → Option kind
  | kind.event => none
  | kind.alarm => some kind.event
  | kind.timezone => none
  | kind.standard => some kind.timezone
  | kind.daylight => some kind.timezone

/-- In the words of the specification: "a delimiter-open token for component K pushes a new
empty builder tagged K onto the stack". -/
def nest.push (a : nest) (k : kind) : nest :=
  match k with
  | kind.event => { a with events := a.events ++ [[]], stack := (k, a.events.length) :: a.stack }
  | kind.alarm => { a with alarms := a.alarms ++ [[]], stack := (k, a.alarms.length) :: a.stack }
  | kind.timezone =>
    { a with timezones := a.timezones ++ [[]], stack := (k, a.timezones.length) :: a.stack }
  | kind.standard =>
    { a with standards := a.standards ++ [[]], stack := (k, a.standards.length) :: a.stack }
  | kind.daylight =>
    { a with daylights := a.daylights ++ [[]], stack := (k, a.daylights.length) :: a.stack }

/-- One line of a properly nested document: a content line goes to the top of the stack; a
component is opened inside its parent only; a component is closed only when it is the top
of the stack.  The result is `none` when the nesting is not proper. -/
def nest.step (a : nest) : act → Option nest
  | act.line ln => some (a.append ln.property)
  | act.opening k _ =>
    if (a.stack.head?.map fun e => e.1) = k.parent then some (a.push k) else none
  | act.closing k _ =>
    match a.stack with
    | (k1, _) :: rest => if k1 = k then some { a with stack := rest } else none
    | [] => none

/-- The lines of a document, one after the other. -/
def nest.run : nest → List act → Option nest
  | a, [] => some a
  | a, x :: xs =>
    match a.step x with
    | some a1 => a1.run xs
    | none => none

/-- The parser stands as the stack of open components does: the property collections are
the same, and the scope and the pointers of the parser are those of the open components. -/
def nest.matches (a : nest) (p : parser) : Prop :=
  p.c.Properties = a.root
    ∧ p.events.map (fun v => v.Properties) = a.events
    ∧ p.alarms.map (fun x => x.Properties) = a.alarms
    ∧ p.timezones.map (fun t => t.Properties) = a.timezones
    ∧ p.standards.map (fun s => s.Properties) = a.standards
    ∧ p.daylights.map (fun d => d.Properties) = a.daylights
    ∧ ((a.stack = [] ∧ p.scope = scopeCalendar)
      ∨ (∃ i, a.stack = [(kind.event, i)] ∧ p.scope = scopeEvent ∧ p.v = some i
          ∧ i < p.events.length)
      ∨ (∃ j i, a.stack = [(kind.alarm, j), (kind.event, i)] ∧ p.scope = scopeAlarm
          ∧ p.a = some j ∧ j < p.alarms.length ∧ p.v = some i ∧ i < p.events.length)
      ∨ (∃ k, a.stack = [(kind.timezone, k)] ∧ p.scope = scopeTimezone ∧ p.t = some k
          ∧ k < p.timezones.length)
      ∨ (∃ m k, a.stack = [(kind.standard, m), (kind.timezone, k)] ∧ p.scope = scopeStandard
          ∧ p.s = some m ∧ m < p.standards.length ∧ p.t = some k ∧ k < p.timezones.length)
      ∨ (∃ m k, a.stack = [(kind.daylight, m), (kind.timezone, k)] ∧ p.scope = scopeDaylight
          ∧ p.d = some m ∧ m < p.daylights.length ∧ p.t = some k ∧ k < p.timezones.length))

/-- The errors of the validations: a required property is missing, two properties exclude
each other, or a property occurs twice. -/
def error.isValidation : error → Bool
  | error.invalid _ => true
  | error.twice _ => true
  | _ => false

/-- The method of a calendar with the properties `root`, as `validateCalendar` promotes it:
the value of the last METHOD among them, and the empty string when there is none. -/
def calendarMethod (root : List Property) : Str :=
  (validateCalendar { NewCalendar with Properties := root }).1.Method

/-- What the parser has promoted so far, as far as `validateEvent` reads it.  The method of
the calendar is the one of the properties the root had at the last BEGIN:VEVENT, which are
all it has while the parser is in an event or in an alarm; and the event that is open there
is as `NewEvent` has made it but for its properties and its alarms. -/
def parser.tidy (p : parser) : Prop :=
  (∃ pre post, p.c.Properties = pre ++ post ∧ p.c.Method = calendarMethod pre
      ∧ (p.scope = scopeEvent ∨ p.scope = scopeAlarm → post = []))
    ∧ (p.scope = scopeEvent ∨ p.scope = scopeAlarm →
        ∃ i props alarms, p.v = some i ∧ p.events.get? i = some (collected props alarms))

/-- The validation that the parser runs at a delimiter returns the error `e`, on the
component as the stack has collected it: `validateCalendar` on a calendar with the
properties of the root at BEGIN:VEVENT, `validateAlarm` on an alarm with the properties of
the innermost open alarm at END:VALARM, `validateEvent` at END:VEVENT on an event with the
properties of the innermost open event (and the alarms closed in it), no field promoted yet,
with the method that `validateCalendar` promotes from the root.  At the other delimiters and
at a content line nothing is validated. -/
def nest.rejects (h : Host) (l : Location) (a : nest) (x : act) (e : error) : Prop :=
  match x with
  | act.opening kind.event _ =>
    (validateCalendar { NewCalendar with Properties := a.root }).2 = some e
  | act.closing kind.alarm _ =>
    ∃ (j : Nat) (below : List (kind × Nat)) (props : List Property),
      a.stack = (kind.alarm, j) :: below ∧ a.alarms.get? j = some props
        ∧ (validateAlarm { NewAlarm with Properties := props }).2 = some e
  | act.closing kind.event _ =>
    ∃ (i : Nat) (below : List (kind × Nat)) (props : List Property) (alarms : List ptr)
        (v1 : Event),
      a.stack = (kind.event, i) :: below ∧ a.events.get? i = some props
        ∧ validateEvent h (calendarMethod a.root) l (collected props alarms)
          = validated.done v1 (some e)
  | _ => False

/-- Every parameter of every property of the events has a value. -/
def nest.valued (a : nest) : Prop :=
  ∀ ps ∈ a.events, ∀ prop ∈ ps, prop.hasValues = true

/-- A calendar with a time zone of two sub-components and an event with an alarm, and lines
in each of them, before and after what is nested in it. -/
def nestedDocument : Str :=
  str ("BEGIN:VCALENDAR\r\nVERSION:2.0\r\nPRODID:x\r\nBEGIN:VTIMEZONE\r\n"
    ++ "TZID:Z\r\nBEGIN:STANDARD\r\nTZNAME:S\r\nEND:STANDARD\r\n"
    ++ "BEGIN:DAYLIGHT\r\nTZNAME:D\r\nEND:DAYLIGHT\r\nCOMMENT:zone\r\n"
    ++ "END:VTIMEZONE\r\nBEGIN:VEVENT\r\nUID:1\r\nDTSTAMP:20240101T000000Z\r\n"
    ++ "DTSTART:20240101T000000Z\r\nBEGIN:VALARM\r\nACTION:DISPLAY\r\n"
    ++ "TRIGGER:-PT15M\r\nEND:VALARM\r\nSUMMARY:s\r\nEND:VEVENT\r\n"
    ++ "COMMENT:end\r\nEND:VCALENDAR\r\n")

/-- The lines of `nestedDocument` between BEGIN:VCALENDAR and END:VCALENDAR. -/
def nestedActs : List act :=
  [act.line ⟨17, "VERSION".toList, [], "2.0".toList⟩,
    act.line ⟨30, "PRODID".toList, [], "x".toList⟩,
    act.opening kind.timezone 40,
    act.line ⟨57, "TZID".toList, [], "Z".toList⟩,
    act.opening kind.standard 65,
    act.line ⟨81, "TZNAME".toList, [], "S".toList⟩,
    act.closing kind.standard 91,
    act.opening kind.daylight 105,
    act.line ⟨121, "TZNAME".toList, [], "D".toList⟩,
    act.closing kind.daylight 131,
    act.line ⟨145, "COMMENT".toList, [], "zone".toList⟩,
    act.closing kind.timezone 159,
    act.opening kind.event 174,
    act.line ⟨188, "UID".toList, [], "1".toList⟩,
    act.line ⟨195, "DTSTAMP".toList, [], "20240101T000000Z".toList⟩,
    act.line ⟨221, "DTSTART".toList, [], "20240101T000000Z".toList⟩,
    act.opening kind.alarm 247,
    act.line ⟨261, "ACTION".toList, [], "DISPLAY".toList⟩,
    act.line ⟨277, "TRIGGER".toList, [], "-PT15M".toList⟩,
    act.closing kind.alarm 293,
    act.line ⟨305, "SUMMARY".toList, [], "s".toList⟩,
    act.closing kind.event 316,
    act.line ⟨328, "COMMENT".toList, [], "end".toList⟩]

/-- The property collections of `nestedDocument` as the stack of the specification fills
them. -/
def nestedNest : nest :=
  { root := [⟨str "VERSION", [], str "2.0"⟩,
      ⟨str "PRODID", [], str "x"⟩,
      ⟨str "COMMENT", [], str "end"⟩],
    events := [[⟨str "UID", [], str "1"⟩,
      ⟨str "DTSTAMP", [], str "20240101T000000Z"⟩,
      ⟨str "DTSTART", [], str "20240101T000000Z"⟩,
      ⟨str "SUMMARY", [], str "s"⟩]],
    alarms := [[⟨str "ACTION", [], str "DISPLAY"⟩,
      ⟨str "TRIGGER", [], str "-PT15M"⟩]],
    timezones := [[⟨str "TZID", [], str "Z"⟩,
      ⟨str "COMMENT", [], str "zone"⟩]],
    standards := [[⟨str "TZNAME", [], str "S"⟩]],
    daylights := [[⟨str "TZNAME", [], str "D"⟩]],
    stack := [] }

/-- A calendar with a component that the scanner has no keywords for. -/
def todoDocument : Str :=
  str "BEGIN:VCALENDAR\r\nBEGIN:VTODO\r\nSUMMARY:x\r\nEND:VTODO\r\nEND:VCALENDAR\r\n"

/-- The scanner on `todoDocument` when it has sent the first line. -/
def todoLexer : lexer :=
  ⟨todoDocument, [⟨itemBeginVCalendar, 0, str "BEGIN:VCALENDAR"⟩, ⟨itemLineEnd, 15, crlf⟩], 17,
    17, 1⟩

/-- A parser in the scope of an event, the second to fourth line of `todoDocument` and the
END:VEVENT of the event to come. -/
def todoParser : parser :=
  { parserOn ((cline.mk 17 "BEGIN".toList [] "VTODO".toList).items
        ++ (renderActs [act.line ⟨30, "SUMMARY".toList, [], "x".toList⟩]
          ++ ((cline.mk 41 "END".toList [] "VTODO".toList).items
            ++ [⟨itemEndVEvent, 52, str "END:VEVENT"⟩]))) with
    scope := scopeEvent, v := some 0,
    events := [{ NewEvent with Properties := [⟨str "UID", [], str "1"⟩] }] }

/-- A calendar in which a time zone stands inside a component that the scanner has no keywords
for. -/
def todoTimezoneDocument : Str :=
  str ("BEGIN:VCALENDAR\r\nBEGIN:VTODO\r\nBEGIN:VTIMEZONE\r\nTZID:x\r\nEND:VTIMEZONE\r\n"
    ++ "END:VTODO\r\nEND:VCALENDAR\r\n")

/-- A calendar in which an alarm stands inside a component that the scanner has no keywords
for. -/
def todoAlarmDocument : Str :=
  str ("BEGIN:VCALENDAR\r\nBEGIN:VTODO\r\nBEGIN:VALARM\r\nACTION:AUDIO\r\nTRIGGER:-PT15M\r\n"
    ++ "END:VALARM\r\nEND:VTODO\r\nEND:VCALENDAR\r\n")

/-! ## Lemmas on `validateEvent` -/

theorem counts.get_incr_self (m : counts) (k : String) : (m.incr k).get k = m.get k + 1 := by
  induction m with
  | nil => simp [counts.incr, counts.get]
  | cons e m ih =>
    by_cases he : e.1 = k
    · simp [counts.incr, counts.get, he]
    · simp [counts.incr, counts.get, he, ih]

theorem counts.get_incr_other (m : counts) (k k1 : String) (hk : k ≠ k1) :
    (m.incr k).get k1 = m.get k1 := by
  induction m with
  | nil => simp [counts.incr, counts.get, hk]
  | cons e m ih =>
    by_cases he : e.1 = k
    · simp [counts.incr, counts.get, he, hk]
    · simp [counts.incr, counts.get, he, ih]

theorem counts.get_le_of_check (m : counts) (hm : m.check = none) (k : String) : m.get k ≤ 1 := by
  induction m with
  | nil => simp [counts.get]
  | cons e m ih =>
    simp only [counts.check, List.find?, Option.map_eq_none'] at hm ih
    by_cases he : e.2 > 1
    · simp [he] at hm
    · simp only [he, decide_False] at hm
      by_cases hk : e.1 = k
      · simp only [counts.get, hk, if_true]; omega
      · simp only [counts.get, hk, if_false]; exact ih hm

theorem mapGet_mem {m : List (Str × Param)} {k : Str} {v : Param} (hv : mapGet m k = some v) :
    ∃ e ∈ m, e.2 = v := by
  unfold mapGet at hv
  cases hf : m.find? (fun e => e.1 == k) with
  | none => simp [hf] at hv
  | some e =>
    simp [hf] at hv
    exact ⟨e, List.mem_of_find?_eq_some hf, hv⟩

theorem parseDate_isSome (h : Host) (prop : Property) (l : Location)
    (hp : prop.hasValues = true) : ∃ r, parseDate h prop l = some r := by
  have hv : ∀ k v, mapGet prop.Params k = some v → v.Values ≠ [] := by
    intro k v hkv
    obtain ⟨e, he, rfl⟩ := mapGet_mem hkv
    have := (List.all_eq_true.mp hp) e he
    simpa using this
  unfold parseDate
  split
  · exact ⟨_, rfl⟩
  · split
    · rename_i tz htz
      have := hv _ _ htz
      split
      · contradiction
      · exact ⟨_, rfl⟩
    · split
      · exact ⟨_, rfl⟩
      · split
        · rename_i val hval
          have := hv _ _ hval
          split
          · contradiction
          · exact ⟨_, rfl⟩
        · exact ⟨_, rfl⟩

theorem str_UID : str "UID" = [85, 73, 68] := by decide
theorem str_DTSTAMP : str "DTSTAMP" = [68, 84, 83, 84, 65, 77, 80] := by decide
theorem str_DTSTART : str "DTSTART" = [68, 84, 83, 84, 65, 82, 84] := by decide
theorem str_DTEND : str "DTEND" = [68, 84, 69, 78, 68] := by decide
theorem str_DURATION : str "DURATION" = [68, 85, 82, 65, 84, 73, 79, 78] := by decide
theorem str_SUMMARY : str "SUMMARY" = [83, 85, 77, 77, 65, 82, 89] := by decide
theorem str_DESCRIPTION : str "DESCRIPTION" = [68, 69, 83, 67, 82, 73, 80, 84, 73, 79, 78] := by
  decide

theorem validateEventStep_spec (h : Host) (l : Location) (all : List Property) (prop : Property)
    (v : Event) (uc : counts) :
    stepSpec h l all prop v uc (validateEventStep h l all prop v uc) := by
  unfold validateEventStep
  by_cases h1 : prop.Name = str "UID"
  · simp [stepSpec, h1, str_UID, str_DTSTAMP, str_DTSTART, str_DTEND, str_DURATION, str_SUMMARY,
      str_DESCRIPTION, eventKeys, counts.get_incr_self, counts.get_incr_other]
  by_cases h2 : prop.Name = str "DTSTAMP"
  · cases hd : parseDate h prop l <;>
    simp [stepSpec, h2, hd, str_UID, str_DTSTAMP, str_DTSTART, str_DTEND, str_DURATION,
      str_SUMMARY, str_DESCRIPTION, eventKeys, counts.get_incr_self, counts.get_incr_other]
  by_cases h3 : prop.Name = str "DTSTART"
  · cases hd : parseDate h prop l <;>
    simp [stepSpec, h3, hd, str_UID, str_DTSTAMP, str_DTSTART, str_DTEND, str_DURATION,
      str_SUMMARY, str_DESCRIPTION, eventKeys, counts.get_incr_self, counts.get_incr_other]
  by_cases h4 : prop.Name = str "DTEND"
  · by_cases hh : hasProperty (str "DURATION") all = true <;> rw [str_DURATION] at hh <;>
    cases hd : parseDate h prop l <;>
    simp [stepSpec, h4, hd, hh, str_UID, str_DTSTAMP, str_DTSTART, str_DTEND, str_DURATION,
      str_SUMMARY, str_DESCRIPTION, eventKeys, counts.get_incr_self, counts.get_incr_other]
  by_cases h5 : prop.Name = str "DURATION"
  · by_cases hh : hasProperty (str "DTEND") all = true <;> rw [str_DTEND] at hh <;>
    simp [stepSpec, h5, hh, str_UID, str_DTSTAMP, str_DTSTART, str_DTEND, str_DURATION,
      str_SUMMARY, str_DESCRIPTION, eventKeys, counts.get_incr_self, counts.get_incr_other]
  by_cases h6 : prop.Name = str "SUMMARY"
  · simp [stepSpec, h6, str_UID, str_DTSTAMP, str_DTSTART, str_DTEND, str_DURATION, str_SUMMARY,
      str_DESCRIPTION, eventKeys, counts.get_incr_self, counts.get_incr_other]
  by_cases h7 : prop.Name = str "DESCRIPTION"
  · simp [stepSpec, h7, str_UID, str_DTSTAMP, str_DTSTART, str_DTEND, str_DURATION, str_SUMMARY,
      str_DESCRIPTION, eventKeys, counts.get_incr_self, counts.get_incr_other]
  simp [stepSpec, h1, h2, h3, h4, h5, h6, h7, eventKeys]

theorem hasProperty_cons (name : Str) (prop : Property) (rest : List Property) :
    hasProperty name (prop :: rest) = (decide (prop.Name = name) || hasProperty name rest) := by
  by_cases hn : name = prop.Name
  · simp [hasProperty, hn]
  · simp [hasProperty, hn, Ne.symm hn]

theorem validateEventLoop_spec (h : Host) (l : Location) (all : List Property) :
    ∀ (rest : List Property) (v : Event) (uc : counts),
      loopSpec h l all rest v uc (validateEventLoop h l all rest v uc)
  | [], v, uc => by simp [validateEventLoop, loopSpec, hasProperty]
  | prop :: rest, v, uc => by
    have hs := validateEventStep_spec h l all prop v uc
    unfold validateEventLoop
    cases hstep : validateEventStep h l all prop v uc with
    | fault =>
      simp only [hstep, stepSpec] at hs
      exact ⟨prop, List.mem_cons_self _ _, hs⟩
    | done r err =>
      simp only [hstep, stepSpec] at hs
      obtain ⟨hs1, hs2, hs3, hs4, hs5⟩ := hs
      cases err with
      | some e =>
        simp only [loopSpec, hasProperty_cons, Bool.or_eq_false_iff, decide_eq_false_iff_not]
        exact ⟨hs1, fun hu => hs2 hu.1, fun hu => hs3 hu.1, by simp, by simp⟩
      | none =>
        have ih := validateEventLoop_spec h l all rest r.1 r.2
        cases hloop : validateEventLoop h l all rest r.1 r.2 with
        | fault =>
          simp only [hloop, loopSpec] at ih ⊢
          obtain ⟨q, hq, hqd⟩ := ih
          exact ⟨q, List.mem_cons_of_mem _ hq, hqd⟩
        | done r2 err2 =>
          simp only [hloop, loopSpec] at ih
          obtain ⟨i1, i2, i3, i4, i5⟩ := ih
          simp only [hloop, loopSpec, hasProperty_cons, Bool.or_eq_false_iff,
            decide_eq_false_iff_not, Bool.or_eq_true, decide_eq_true_eq]
          refine ⟨i1.trans hs1, fun hu => (i2 hu.2).trans (hs2 hu.1),
            fun hu => (i3 hu.2).trans (hs3 hu.1), ?_, ?_⟩
          · intro he k hk
            rw [i4 he k hk, hs4 rfl k hk, List.countP_cons]
            by_cases hn : prop.Name = str k
            · simp only [hn, if_true, decide_True]
              omega
            · simp [hn]
          · intro hor h1 h2
            by_cases hn : prop.Name = str "DTEND" ∨ prop.Name = str "DURATION"
            · exact absurd rfl (hs5 hn h1 h2)
            · refine i5 ?_ h1 h2
              rcases hor with (hx | hx) | (hx | hx)
              · exact absurd (Or.inl hx) hn
              · exact Or.inl hx
              · exact absurd (Or.inr hx) hn
              · exact Or.inr hx

/-- The loop of `validateEvent` on the properties of an event: the event it leaves has the
same properties, and with parameters that all have a value there is no fault. -/
theorem validateEvent_loop (h : Host) (l : Location) (v : Event)
    (hp : ∀ prop ∈ v.Properties, prop.hasValues = true) :
    ∃ r err, validateEventLoop h l v.Properties v.Properties v [] = validated.done r err
      ∧ loopSpec h l v.Properties v.Properties v [] (validated.done r err) := by
  have hs := validateEventLoop_spec h l v.Properties v.Properties v []
  cases hl : validateEventLoop h l v.Properties v.Properties v [] with
  | fault =>
    simp only [hl, loopSpec] at hs
    obtain ⟨q, hq, hqd⟩ := hs
    obtain ⟨d, hd⟩ := parseDate_isSome h q l (hp q hq)
    simp [hd] at hqd
  | done r err => exact ⟨r, err, rfl, hl ▸ hs⟩

/-! ## Lemmas on UTF-8 -/

theorem encodeRune_length_pos (r : Nat) : 0 < (encodeRune r).length := by
  unfold encodeRune
  split_ifs <;> simp

theorem decodeRune_ascii (b : Nat) (t : Str) (hb : b < 0x80) :
    decodeRune (b :: t) = ((b : Int), 1) := by
  simp [decodeRune, hb]

theorem decodeRune_two (s0 s1 : Nat) (t : Str) (h0 : 0xC2 ≤ s0) (h0' : s0 < 0xE0)
    (h1 : 0x80 ≤ s1) (h1' : s1 ≤ 0xBF) :
    decodeRune (s0 :: s1 :: t) = ((((s0 - 0xC0) * 64 + (s1 - 0x80) : Nat) : Int), 2) := by
  have a1 : ¬ s0 < 0x80 := by omega
  have a2 : ¬ s0 < 0xC2 := by omega
  simp [decodeRune, isCont, a1, a2, h0', h1, h1']

theorem decodeRune_three (s0 s1 s2 : Nat) (t : Str) (h0 : 0xE0 ≤ s0) (h0' : s0 < 0xF0)
    (h1 : (if s0 = 0xE0 then 0xA0 else 0x80) ≤ s1) (h1' : s1 ≤ (if s0 = 0xED then 0x9F else 0xBF))
    (h2 : 0x80 ≤ s2) (h2' : s2 ≤ 0xBF) :
    decodeRune (s0 :: s1 :: s2 :: t)
      = ((((s0 - 0xE0) * 4096 + (s1 - 0x80) * 64 + (s2 - 0x80) : Nat) : Int), 3) := by
  have a1 : ¬ s0 < 0x80 := by omega
  have a2 : ¬ s0 < 0xC2 := by omega
  have a3 : ¬ s0 < 0xE0 := by omega
  simp [decodeRune, isCont, a1, a2, a3, h0', h1, h1', h2, h2']

theorem decodeRune_four (s0 s1 s2 s3 : Nat) (t : Str) (h0 : 0xF0 ≤ s0) (h0' : s0 < 0xF5)
    (h1 : (if s0 = 0xF0 then 0x90 else 0x80) ≤ s1) (h1' : s1 ≤ (if s0 = 0xF4 then 0x8F else 0xBF))
    (h2 : 0x80 ≤ s2) (h2' : s2 ≤ 0xBF) (h3 : 0x80 ≤ s3) (h3' : s3 ≤ 0xBF) :
    decodeRune (s0 :: s1 :: s2 :: s3 :: t)
      = ((((s0 - 0xF0) * 262144 + (s1 - 0x80) * 4096 + (s2 - 0x80) * 64 + (s3 - 0x80) : Nat) : Int),
          4) := by
  have a1 : ¬ s0 < 0x80 := by omega
  have a2 : ¬ s0 < 0xC2 := by omega
  have a3 : ¬ s0 < 0xE0 := by omega
  have a4 : ¬ s0 < 0xF0 := by omega
  simp [decodeRune, isCont, a1, a2, a3, a4, h0', h1, h1', h2, h2', h3, h3']

/-- Decoding the encoding of a character gives the character back, with its width. -/
theorem decodeRune_encodeRune (c : Char) (t : Str) :
    decodeRune (encodeRune c.toNat ++ t) = ((c.toNat : Int), (encodeRune c.toNat).length) := by
  have hv := c.valid
  have hn : c.toNat = c.val.toNat := rfl
  generalize c.toNat = n at *
  have hvalid : n < 0xD800 ∨ (0xDFFF < n ∧ n < 0x110000) := by
    rw [hn]; exact hv
  clear hn hv
  unfold encodeRune
  by_cases h1 : n < 0x80
  · simp [h1, decodeRune]
  by_cases h2 : n < 0x800
  · simp only [h1, h2, if_false, if_true, List.cons_append, List.nil_append, List.length_cons,
      List.length_nil]
    rw [decodeRune_two _ _ _ (by omega) (by omega) (by omega) (by omega)]
    simp only [Prod.mk.injEq, Nat.cast_inj, and_true]
    omega
  by_cases h3 : 0xD800 ≤ n ∧ n ≤ 0xDFFF
  · omega
  by_cases h4 : n < 0x10000
  · simp only [h1, h2, h3, h4, if_false, if_true, List.cons_append, List.nil_append,
      List.length_cons, List.length_nil]
    rw [decodeRune_three _ _ _ _ (by omega) (by omega) (by split_ifs <;> omega)
      (by split_ifs <;> omega) (by omega) (by omega)]
    simp only [Prod.mk.injEq, Nat.cast_inj, and_true]
    omega
  by_cases h5 : n < 0x110000
  · simp only [h1, h2, h3, h4, h5, if_false, if_true, List.cons_append, List.nil_append,
      List.length_cons, List.length_nil]
    rw [decodeRune_four _ _ _ _ _ (by omega) (by omega) (by split_ifs <;> omega)
      (by split_ifs <;> omega) (by omega) (by omega) (by omega) (by omega)]
    simp only [Prod.mk.injEq, Nat.cast_inj, and_true]
    omega
  · omega

/-! ## Lemmas on the scanner -/

theorem utf8_nil : utf8 [] = [] := rfl

theorem utf8_cons (c : Char) (s : List Char) : utf8 (c :: s) = encodeRune c.toNat ++ utf8 s := by
  simp [utf8, List.flatMap]

theorem utf8_length_ge (s : List Char) : s.length ≤ (utf8 s).length := by
  induction s with
  | nil => simp [utf8_nil]
  | cons c s ih =>
    have := encodeRune_length_pos c.toNat
    simp only [utf8_cons, List.length_cons, List.length_append]
    omega

theorem lexer.next_char (l : lexer) (pre t : Str) (c : Char)
    (hin : l.input = pre ++ (encodeRune c.toNat ++ t)) (hpos : l.pos = pre.length) :
    l.next = ((c.toNat : Int),
      { l with width := (encodeRune c.toNat).length, pos := l.pos + (encodeRune c.toNat).length }) := by
  have hlen := encodeRune_length_pos c.toNat
  have hlt : ¬ l.pos ≥ l.input.length := by
    simp only [hin, hpos, List.length_append]
    omega
  unfold lexer.next
  rw [if_neg hlt, hin, hpos, List.drop_left, decodeRune_encodeRune]

theorem lexer.next_byte (l : lexer) (pre t : Str) (b : Nat) (hb : b < 0x80)
    (hin : l.input = pre ++ b :: t) (hpos : l.pos = pre.length) :
    l.next = ((b : Int), { l with width := 1, pos := l.pos + 1 }) := by
  have hlt : ¬ l.pos ≥ l.input.length := by
    simp only [hin, hpos, List.length_append, List.length_cons]
    omega
  unfold lexer.next
  rw [if_neg hlt, hin, hpos, List.drop_left, decodeRune_ascii _ _ hb]

theorem lexer.next_eof (l : lexer) (hpos : l.pos = l.input.length) :
    l.next = (eof, { l with width := 0 }) := by
  unfold lexer.next
  rw [if_pos (by omega)]

/-- The loop of a state function over the encoding of characters it accepts, up to a byte of
ASCII it does not accept. -/
theorem absorb_encoded (accept : Int → Bool) (b : Nat) (t : Str) (hb : b < 0x80)
    (hnb : accept (b : Int) = false) :
    ∀ (s : List Char) (pre : Str) (l : lexer) (n : Nat),
      (∀ c ∈ s, accept (c.toNat : Int) = true) →
      l.input = pre ++ (utf8 s ++ b :: t) → l.pos = pre.length → s.length < n →
      absorb accept n l = some { l with pos := l.pos + (utf8 s).length, width := 1 }
  | [], pre, l, n + 1, _, hin, hpos, _ => by
    simp only [utf8_nil, List.nil_append] at hin
    simp only [absorb, lexer.next_byte l pre t b hb hin hpos, hnb, lexer.backup, utf8_nil,
      List.length_nil, Nat.add_zero, Nat.add_sub_cancel]
    simp
  | c :: s, pre, l, n + 1, hs, hin, hpos, hn => by
    have hc : accept (c.toNat : Int) = true := hs c (List.mem_cons_self _ _)
    simp only [utf8_cons, List.append_assoc] at hin
    simp only [absorb, lexer.next_char l pre _ c hin hpos, hc, if_true]
    rw [absorb_encoded accept b t hb hnb s (pre ++ encodeRune c.toNat) _ n
      (fun x hx => hs x (List.mem_cons_of_mem _ hx))
      (by simp only [hin, List.append_assoc])
      (by simp only [hpos, List.length_append])
      (by simpa using hn)]
    simp only [utf8_cons, List.length_append, Nat.add_assoc]

/-- The method `emit` on a scanner that has read `tok` since its last item. -/
theorem lexer.emit_token (l : lexer) (ty : itemType) (pre tok rest : Str)
    (hin : l.input = pre ++ (tok ++ rest)) (hstart : l.start = pre.length)
    (hpos : l.pos = pre.length + tok.length) :
    l.emit ty = some { l with items := l.items ++ [⟨ty, pre.length, tok⟩], start := l.pos } := by
  have hc : l.start ≤ l.pos ∧ l.pos ≤ l.input.length := by
    simp only [hin, hstart, hpos, List.length_append]
    omega
  have hs : (l.input.drop l.start).take (l.pos - l.start) = tok := by
    rw [hin, hstart, hpos, List.drop_left, Nat.add_sub_cancel_left, List.take_left]
  unfold lexer.emit
  rw [if_pos hc, hs, hstart]

theorem lexer.drop_standsAt {l : lexer} {pre rest : Str} (hat : l.standsAt pre rest) :
    l.input.drop l.pos = rest := by
  rw [hat.1, hat.2.1, List.drop_left]

/-- The state function `lexName` on a name that is no delimiter. -/
theorem lexName_spec (h : Host) (l : lexer) (pre : Str) (name : List Char) (b : Nat) (t : Str)
    (hat : l.standsAt pre (utf8 name ++ b :: t))
    (hkw : ∀ kw ∈ keywords, kw.1.isPrefixOf (utf8 name ++ b :: t) = false)
    (hname : ∀ c ∈ name, isName h c.toNat = true) (hb : b < 0x80) (hnb : isName h b = false) :
    ∃ l1, lexName h l = step.next (some stateFn.lexContentLine) l1
      ∧ l1.standsAt (pre ++ utf8 name) (b :: t)
      ∧ l1.items = l.items ++ [⟨itemName, pre.length, utf8 name⟩] := by
  have hdrop := lexer.drop_standsAt hat
  obtain ⟨hin, hpos, hstart⟩ := hat
  have hfind : (keywords.find? fun kw => kw.1.isPrefixOf (l.input.drop l.pos)) = none := by
    rw [hdrop, List.find?_eq_none]
    intro kw hkwm
    simp [hkw kw hkwm]
  have habs := absorb_encoded (isName h) b t hb hnb name pre l (l.input.length + 1) hname hin hpos
    (by
      have := utf8_length_ge name
      simp only [hin, List.length_append]
      omega)
  unfold lexName
  rw [hfind]
  simp only [lexer.absorb, habs, lexer.emitThen]
  rw [lexer.emit_token { l with pos := l.pos + (utf8 name).length, width := 1 } itemName pre
    (utf8 name) (b :: t) hin hstart (by simp [hpos])]
  refine ⟨_, rfl, ⟨?_, ?_, ?_⟩, rfl⟩
  · simp [hin]
  · simp [hpos]
  · simp [hpos]

theorem rune_semicolon : rune ';' = 59 := rfl

theorem rune_comma : rune ',' = 44 := rfl

theorem rune_colon : rune ':' = 58 := rfl

theorem rune_equal : rune '=' = 61 := rfl

theorem rune_quote : rune '"' = 34 := rfl

/-- The state function `lexContentLine` on one of the bytes `;`, `,` and `:`. -/
theorem lexContentLine_spec (l : lexer) (pre t : Str) (b : Nat)
    (hat : l.standsAt pre (b :: t)) (hb : b = 0x3B ∨ b = 0x2C ∨ b = 0x3A) :
    ∃ l1, lexContentLine l = step.next
        (some (if b = 0x3B then stateFn.lexParamName
          else if b = 0x2C then stateFn.lexParamValue else stateFn.lexValue)) l1
      ∧ l1.standsAt (pre ++ [b]) t
      ∧ l1.items = l.items ++ [⟨if b = 0x3B then itemSemiColon
          else if b = 0x2C then itemComma else itemColon, pre.length, [b]⟩] := by
  obtain ⟨hin, hpos, hstart⟩ := hat
  have hnext := lexer.next_byte l pre t b (by omega) hin hpos
  have hemit := fun ty =>
    lexer.emit_token { l with width := 1, pos := l.pos + 1 } ty pre [b] t (by simpa using hin)
      hstart (by simp [hpos])
  unfold lexContentLine
  rcases hb with rfl | rfl | rfl <;>
    simp only [hnext, rune_semicolon, rune_comma, rune_colon, lexer.emitThen, hemit] <;>
    exact ⟨_, rfl, ⟨by simp [hin], by simp [hpos], by simp [hpos]⟩, rfl⟩

/-- The state function `lexParamName` on a name followed by `=`. -/
theorem lexParamName_spec (h : Host) (l : lexer) (pre : Str) (name : List Char) (t : Str)
    (hat : l.standsAt pre (utf8 name ++ 0x3D :: t))
    (hname : ∀ c ∈ name, isName h c.toNat = true) :
    ∃ l1, lexParamName h l = step.next (some stateFn.lexParamValue) l1
      ∧ l1.standsAt (pre ++ (utf8 name ++ [0x3D])) t
      ∧ l1.items = l.items ++ [⟨itemParamName, pre.length, utf8 name⟩,
          ⟨itemEqual, pre.length + (utf8 name).length, [0x3D]⟩] := by
  obtain ⟨hin, hpos, hstart⟩ := hat
  have habs := absorb_encoded (isName h) 0x3D t (by omega) rfl name pre l
    (l.input.length + 1) hname hin hpos
    (by
      have := utf8_length_ge name
      simp only [hin, List.length_append]
      omega)
  have hemit := lexer.emit_token { l with pos := l.pos + (utf8 name).length, width := 1 }
    itemParamName pre (utf8 name) (0x3D :: t) hin hstart (by simp [hpos])
  have hnext := lexer.next_byte
    { l with
      pos := l.pos + (utf8 name).length, width := 1,
      items := l.items ++ [⟨itemParamName, pre.length, utf8 name⟩],
      start := l.pos + (utf8 name).length }
    (pre ++ utf8 name) t 0x3D (by omega) (by simp [hin]) (by simp [hpos])
  have hemit2 := lexer.emit_token
    { l with
      pos := l.pos + (utf8 name).length + 1, width := 1,
      items := l.items ++ [⟨itemParamName, pre.length, utf8 name⟩],
      start := l.pos + (utf8 name).length }
    itemEqual (pre ++ utf8 name) [0x3D] t (by simp [hin]) (by simp [hpos]) (by simp [hpos])
  unfold lexParamName
  simp only [lexer.absorb, habs, lexer.emitThen, hemit]
  simp only [hnext, rune_equal, Nat.cast_ofNat, if_true, hemit2]
  exact ⟨_, rfl, ⟨by simp [hin], by simp [hpos, Nat.add_assoc], by simp [hpos, Nat.add_assoc]⟩,
    by simp⟩

theorem lexer.next_backup (l : lexer) : l.next.2.backup = { l with width := l.next.2.width } := by
  unfold lexer.next lexer.backup
  split <;> simp

theorem isSafeChar_ne_quote {r : Int} (hr : isSafeChar r = true) : r ≠ rune '"' := by
  intro h
  rw [h] at hr
  exact absurd hr (by decide)

/-- The state function `lexParamValue` on a bare value followed by `,`, `;` or `:`. -/
theorem lexParamValue_bare (l : lexer) (pre : Str) (s : List Char) (b : Nat) (t : Str)
    (hat : l.standsAt pre (utf8 s ++ b :: t))
    (hs : ∀ c ∈ s, isSafeChar c.toNat = true) (hb : b = 0x2C ∨ b = 0x3B ∨ b = 0x3A) :
    ∃ l1, lexParamValue l = step.next (some stateFn.lexContentLine) l1
      ∧ l1.standsAt (pre ++ utf8 s) (b :: t)
      ∧ l1.items = l.items ++ [⟨itemParamValue, pre.length, utf8 s⟩] := by
  obtain ⟨hin, hpos, hstart⟩ := hat
  have hb128 : b < 0x80 := by omega
  have hnb : isSafeChar (b : Int) = false := by
    rcases hb with rfl | rfl | rfl <;> decide
  have hfirst : l.next.1 ≠ rune '"' := by
    cases s with
    | nil =>
      simp only [utf8_nil, List.nil_append] at hin
      rw [lexer.next_byte l pre t b hb128 hin hpos]
      rcases hb with rfl | rfl | rfl <;> simp [rune_quote]
    | cons c s =>
      simp only [utf8_cons, List.append_assoc] at hin
      rw [lexer.next_char l pre _ c hin hpos]
      exact isSafeChar_ne_quote (hs c (List.mem_cons_self _ _))
  have habs := absorb_encoded isSafeChar b t hb128 hnb s pre { l with width := l.next.2.width }
    (l.input.length + 1) hs hin hpos
    (by
      have := utf8_length_ge s
      simp only [hin, List.length_append]
      omega)
  have hemit := lexer.emit_token { l with pos := l.pos + (utf8 s).length, width := 1 }
    itemParamValue pre (utf8 s) (b :: t) hin hstart (by simp [hpos])
  unfold lexParamValue
  simp only [hfirst, if_false, lexer.next_backup, lexer.absorb, habs, lexer.emitThen, hemit]
  exact ⟨_, rfl, ⟨by simp [hin], by simp [hpos], by simp [hpos]⟩, rfl⟩

/-- The state function `lexParamValue` on a quoted value. -/
theorem lexParamValue_quoted (l : lexer) (pre : Str) (s : List Char) (t : Str)
    (hat : l.standsAt pre (0x22 :: (utf8 s ++ 0x22 :: t)))
    (hs : ∀ c ∈ s, isQSafeChar c.toNat = true) :
    ∃ l1, lexParamValue l = step.next (some stateFn.lexContentLine) l1
      ∧ l1.standsAt (pre ++ 0x22 :: (utf8 s ++ [0x22])) t
      ∧ l1.items = l.items ++ [⟨itemParamValue, pre.length + 1, utf8 s⟩] := by
  obtain ⟨hin, hpos, hstart⟩ := hat
  have hnext := lexer.next_byte l pre _ 0x22 (by omega) hin hpos
  have hin1 : l.input = (pre ++ [0x22]) ++ (utf8 s ++ 0x22 :: t) := by simp [hin]
  have habs := absorb_encoded isQSafeChar 0x22 t (by omega) (by decide) s (pre ++ [0x22])
    { l with width := 1, pos := l.pos + 1, start := l.pos + 1 }
    (l.input.length + 1) hs hin1 (by simp [hpos])
    (by
      have := utf8_length_ge s
      simp only [hin, List.length_append, List.length_cons]
      omega)
  have hemit := lexer.emit_token
    { l with width := 1, pos := l.pos + 1 + (utf8 s).length, start := l.pos + 1 }
    itemParamValue (pre ++ [0x22]) (utf8 s) (0x22 :: t) hin1 (by simp [hpos]) (by simp [hpos])
  have hnext2 := lexer.next_byte
    { l with
      width := 1, pos := l.pos + 1 + (utf8 s).length,
      items := l.items ++ [⟨itemParamValue, (pre ++ [0x22]).length, utf8 s⟩],
      start := l.pos + 1 + (utf8 s).length }
    (pre ++ [0x22] ++ utf8 s) t 0x22 (by omega) (by simp [hin])
    (by simp only [hpos, List.length_append, List.length_cons, List.length_nil])
  unfold lexParamValue
  simp only [hnext, rune_quote, Nat.cast_ofNat, if_true, lexer.absorb, lexer.ignore, habs,
    lexer.emitThen, hemit, hnext2, ne_eq, not_true_eq_false, if_false]
  refine ⟨_, rfl, ⟨by simp [hin], ?_, ?_⟩, by simp⟩
  · simp only [hpos, List.length_append, List.length_cons, List.length_nil]
    omega
  · simp only [hpos, List.length_append, List.length_cons, List.length_nil]
    omega

/-- The state function `lexParamValue` on a parameter value as it is written. -/
theorem lexParamValue_spec (l : lexer) (pre : Str) (v : pvalue) (b : Nat) (t : Str)
    (hat : l.standsAt pre (v.render ++ b :: t)) (hv : v.wellFormed)
    (hb : b = 0x2C ∨ b = 0x3B ∨ b = 0x3A) :
    ∃ l1, lexParamValue l = step.next (some stateFn.lexContentLine) l1
      ∧ l1.standsAt (pre ++ v.render) (b :: t)
      ∧ l1.items = l.items ++ [v.item pre.length] := by
  cases v with
  | bare s => exact lexParamValue_bare l pre s b t hat hv hb
  | quoted s =>
    have hat1 : l.standsAt pre (0x22 :: (utf8 s ++ 0x22 :: b :: t)) := by
      simpa [pvalue.render] using hat
    exact lexParamValue_quoted l pre s (b :: t) hat1 hv

/-- The state function `lexValue` on a value followed by a carriage return. -/
theorem lexValue_spec (l : lexer) (pre : Str) (value : List Char) (t : Str)
    (hat : l.standsAt pre (utf8 value ++ 0x0D :: t))
    (hvalue : ∀ c ∈ value, isValueChar c.toNat = true) :
    ∃ l1, lexValue l = step.next (some stateFn.lexNewLine) l1
      ∧ l1.standsAt (pre ++ utf8 value) (0x0D :: t)
      ∧ l1.items = l.items ++ [⟨itemValue, pre.length, utf8 value⟩] := by
  obtain ⟨hin, hpos, hstart⟩ := hat
  have habs := absorb_encoded isValueChar 0x0D t (by omega) (by decide) value pre l
    (l.input.length + 1) hvalue hin hpos
    (by
      have := utf8_length_ge value
      simp only [hin, List.length_append]
      omega)
  have hemit := lexer.emit_token { l with pos := l.pos + (utf8 value).length, width := 1 }
    itemValue pre (utf8 value) (0x0D :: t) hin hstart (by simp [hpos])
  unfold lexValue
  simp only [lexer.absorb, habs, lexer.emitThen, hemit]
  exact ⟨_, rfl, ⟨by simp [hin], by simp [hpos], by simp [hpos]⟩, rfl⟩

theorem crlf_eq : crlf = [0x0D, 0x0A] := by decide

/-- The state function `lexNewLine` on the CRLF that ends the input. -/
theorem lexNewLine_last (l : lexer) (pre : Str) (hat : l.standsAt pre crlf) :
    ∃ l1, lexNewLine l = step.next none l1
      ∧ l1.items = l.items ++ [⟨itemLineEnd, pre.length, crlf⟩,
          ⟨itemEOF, pre.length + 2, []⟩] := by
  obtain ⟨hin, hpos, hstart⟩ := hat
  rw [crlf_eq] at hin
  have hnext := lexer.next_byte l pre [0x0A] 0x0D (by omega) hin hpos
  have hpeek : l.peek = ((0x0D : Int), { l with width := 1 }) := by
    simp only [lexer.peek, hnext, lexer.backup, Nat.add_sub_cancel, Nat.cast_ofNat]
  have hpre : crlf.isPrefixOf (l.input.drop l.pos) = true := by
    rw [hin, hpos, List.drop_left, crlf_eq]
    decide
  have hemit := lexer.emit_token { l with width := 1, pos := l.pos + 2 } itemLineEnd pre
    [0x0D, 0x0A] [] (by simpa using hin) hstart (by simp [hpos])
  have hnext2 := lexer.next_eof
    { l with
      width := 1, pos := l.pos + 2,
      items := l.items ++ [⟨itemLineEnd, pre.length, [0x0D, 0x0A]⟩], start := l.pos + 2 }
    (by simp [hin, hpos])
  have hemit2 := lexer.emit_token
    { l with
      width := 0, pos := l.pos + 2,
      items := l.items ++ [⟨itemLineEnd, pre.length, [0x0D, 0x0A]⟩], start := l.pos + 2 }
    itemEOF (pre ++ [0x0D, 0x0A]) [] [] (by simp [hin]) (by simp [hpos]) (by simp [hpos])
  unfold lexNewLine
  simp only [hpeek, hpre, if_true]
  have hne : ¬ ((0x0D : Int) = eof) := by decide
  have hlen : crlf.length = 2 := by decide
  simp only [hne, if_false, hlen, lexer.emitThen, hemit, hnext2, if_true, hemit2]
  exact ⟨_, rfl, by simp [crlf_eq]⟩

/-! ## The scanner on a content line -/

theorem reaches_refl (h : Host) (s : stateFn) (l : lexer) : reaches h 0 s l s l :=
  fun _ => rfl

theorem reaches_step {h : Host} {s s1 : stateFn} {l l1 : lexer}
    (hc : s.call h l = step.next (some s1) l1) : reaches h 1 s l s1 l1 := by
  intro n
  simp only [run, hc]

theorem reaches_trans {h : Host} {k1 k2 : Nat} {s s1 s2 : stateFn} {l l1 l2 : lexer}
    (h1 : reaches h k1 s l s1 l1) (h2 : reaches h k2 s1 l1 s2 l2) : reaches h (k1 + k2) s l s2 l2 := by
  intro n
  rw [show n + (k1 + k2) = (n + k2) + k1 by omega, h1, h2]

theorem renderMore_length (vs : List pvalue) : vs.length ≤ (renderMore vs).length := by
  induction vs with
  | nil => simp [renderMore]
  | cons v vs ih =>
    simp only [renderMore, List.length_cons, List.length_append]
    omega

/-- What follows the values of a parameter starts with `,` when more values come. -/
theorem renderMore_follow (vs : List pvalue) (b : Nat) (t : Str) (hb : b = 0x3B ∨ b = 0x3A) :
    ∃ b1 t1, renderMore vs ++ b :: t = b1 :: t1 ∧ (b1 = 0x2C ∨ b1 = 0x3B ∨ b1 = 0x3A) := by
  cases vs with
  | nil => exact ⟨b, t, rfl, Or.inr hb⟩
  | cons v vs => exact ⟨0x2C, _, rfl, Or.inl rfl⟩

/-- The scanner on the values of a parameter after the first. -/
theorem lex_more (h : Host) : ∀ (vs : List pvalue) (l : lexer) (pre : Str) (b : Nat) (t : Str),
    l.standsAt pre (renderMore vs ++ b :: t) → (∀ v ∈ vs, v.wellFormed) →
    (b = 0x3B ∨ b = 0x3A) →
    ∃ l1, reaches h (2 * vs.length) stateFn.lexContentLine l stateFn.lexContentLine l1
      ∧ l1.standsAt (pre ++ renderMore vs) (b :: t)
      ∧ l1.items = l.items ++ moreItems pre.length vs
  | [], l, pre, b, t, hat, _, _ =>
    ⟨l, reaches_refl h _ _, by simpa [renderMore] using hat, by simp [moreItems]⟩
  | v :: vs, l, pre, b, t, hat, hvs, hb => by
    have hat0 : l.standsAt pre (0x2C :: (v.render ++ (renderMore vs ++ b :: t))) := by
      simpa [renderMore] using hat
    obtain ⟨l1, h1, hat1, hi1⟩ := lexContentLine_spec l pre _ 0x2C hat0 (Or.inr (Or.inl rfl))
    obtain ⟨b1, t1, hf, hb1⟩ := renderMore_follow vs b t hb
    rw [hf] at hat1
    obtain ⟨l2, h2, hat2, hi2⟩ := lexParamValue_spec l1 _ v b1 t1 hat1
      (hvs v (List.mem_cons_self _ _)) hb1
    rw [← hf] at hat2
    obtain ⟨l3, h3, hat3, hi3⟩ := lex_more h vs l2 _ b t hat2
      (fun x hx => hvs x (List.mem_cons_of_mem _ hx)) hb
    refine ⟨l3, ?_, ?_, ?_⟩
    · have r1 : reaches h 1 stateFn.lexContentLine l stateFn.lexParamValue l1 :=
        reaches_step (by simpa [stateFn.call] using h1)
      have r2 : reaches h 1 stateFn.lexParamValue l1 stateFn.lexContentLine l2 :=
        reaches_step (by simpa [stateFn.call] using h2)
      have r := reaches_trans (reaches_trans r1 r2) h3
      rw [show 2 * (v :: vs).length = 1 + 1 + 2 * vs.length by simp only [List.length_cons]; omega]
      exact r
    · simpa [renderMore, List.append_assoc] using hat3
    · rw [hi3, hi2, hi1]
      simp only [moreItems, List.append_assoc, List.length_append, List.length_cons,
        List.length_nil, List.singleton_append, List.cons_append, List.nil_append, Nat.zero_add,
        Nat.reduceEqDiff, if_false, if_true]
      rw [show pre.length + (v.render.length + 1) = pre.length + 1 + v.render.length by omega]

/-- The scanner on a parameter. -/
theorem lex_param (h : Host) (q : pparam) (l : lexer) (pre : Str) (b : Nat) (t : Str)
    (hat : l.standsAt pre (q.render ++ b :: t)) (hq : q.wellFormed h) (hb : b = 0x3B ∨ b = 0x3A) :
    ∃ l1, reaches h (3 + 2 * q.more.length) stateFn.lexContentLine l stateFn.lexContentLine l1
      ∧ l1.standsAt (pre ++ q.render) (b :: t)
      ∧ l1.items = l.items ++ q.items pre.length := by
  obtain ⟨hname, hfirst, hmore⟩ := hq
  have hat0 : l.standsAt pre
      (0x3B :: (utf8 q.name ++ 0x3D :: (q.first.render ++ (renderMore q.more ++ b :: t)))) := by
    simpa [pparam.render] using hat
  obtain ⟨l1, h1, hat1, hi1⟩ := lexContentLine_spec l pre _ 0x3B hat0 (Or.inl rfl)
  obtain ⟨l2, h2, hat2, hi2⟩ := lexParamName_spec h l1 _ q.name _ hat1 hname
  obtain ⟨b1, t1, hf, hb1⟩ := renderMore_follow q.more b t hb
  rw [hf] at hat2
  obtain ⟨l3, h3, hat3, hi3⟩ := lexParamValue_spec l2 _ q.first b1 t1 hat2 hfirst hb1
  rw [← hf] at hat3
  obtain ⟨l4, h4, hat4, hi4⟩ := lex_more h q.more l3 _ b t hat3 hmore hb
  refine ⟨l4, ?_, ?_, ?_⟩
  · have r1 : reaches h 1 stateFn.lexContentLine l stateFn.lexParamName l1 :=
      reaches_step (by simpa [stateFn.call] using h1)
    have r2 : reaches h 1 stateFn.lexParamName l1 stateFn.lexParamValue l2 :=
      reaches_step (by simpa [stateFn.call] using h2)
    have r3 : reaches h 1 stateFn.lexParamValue l2 stateFn.lexContentLine l3 :=
      reaches_step (by simpa [stateFn.call] using h3)
    have r := reaches_trans (reaches_trans (reaches_trans r1 r2) r3) h4
    rw [show 3 + 2 * q.more.length = 1 + 1 + 1 + 2 * q.more.length by omega]
    exact r
  · simpa [pparam.render, List.append_assoc] using hat4
  · rw [hi4, hi3, hi2, hi1]
    simp only [pparam.items, List.append_assoc, List.length_append, List.length_cons,
      List.length_nil, List.singleton_append, List.cons_append, List.nil_append, Nat.zero_add,
      Nat.reduceEqDiff, if_false, if_true, Nat.add_assoc, Nat.add_comm, Nat.add_left_comm]

theorem paramsSteps_le (qs : List pparam) : paramsSteps qs ≤ 2 * (renderParams qs).length := by
  induction qs with
  | nil => simp [paramsSteps]
  | cons q qs ih =>
    have := renderMore_length q.more
    simp only [paramsSteps, renderParams, pparam.render, List.length_append, List.length_cons]
    omega

/-- What follows the parameters of a line starts with `;` or with `:`. -/
theorem renderParams_follow (qs : List pparam) (t : Str) :
    ∃ b1 t1, renderParams qs ++ 0x3A :: t = b1 :: t1 ∧ (b1 = 0x3B ∨ b1 = 0x3A) := by
  cases qs with
  | nil => exact ⟨0x3A, t, rfl, Or.inr rfl⟩
  | cons q qs => exact ⟨0x3B, _, rfl, Or.inl rfl⟩

/-- The scanner on the parameters of a line. -/
theorem lex_params (h : Host) : ∀ (qs : List pparam) (l : lexer) (pre : Str) (t : Str),
    l.standsAt pre (renderParams qs ++ 0x3A :: t) → (∀ q ∈ qs, q.wellFormed h) →
    ∃ l1, reaches h (paramsSteps qs) stateFn.lexContentLine l stateFn.lexContentLine l1
      ∧ l1.standsAt (pre ++ renderParams qs) (0x3A :: t)
      ∧ l1.items = l.items ++ paramsItems pre.length qs
  | [], l, pre, t, hat, _ =>
    ⟨l, reaches_refl h _ _, by simpa [renderParams] using hat, by simp [paramsItems]⟩
  | q :: qs, l, pre, t, hat, hqs => by
    obtain ⟨b1, t1, hf, hb1⟩ := renderParams_follow qs t
    have hat0 : l.standsAt pre (q.render ++ b1 :: t1) := by
      rw [← hf]
      simpa [renderParams, List.append_assoc] using hat
    obtain ⟨l1, h1, hat1, hi1⟩ := lex_param h q l pre b1 t1 hat0 (hqs q (List.mem_cons_self _ _)) hb1
    rw [← hf] at hat1
    obtain ⟨l2, h2, hat2, hi2⟩ := lex_params h qs l1 _ t hat1
      (fun x hx => hqs x (List.mem_cons_of_mem _ hx))
    refine ⟨l2, ?_, ?_, ?_⟩
    · have r := reaches_trans h1 h2
      simpa only [paramsSteps] using r
    · simpa [renderParams, List.append_assoc] using hat2
    · rw [hi2, hi1]
      simp only [paramsItems, List.append_assoc, List.length_append]

/-- The items the scanner sends for a content line that is followed by CRLF and the end of
the input. -/
theorem lex_renderLine (h : Host) (name : List Char) (params : List pparam) (value : List Char)
    (hname : ∀ c ∈ name, isName h c.toNat = true)
    (hparams : ∀ q ∈ params, q.wellFormed h)
    (hvalue : ∀ c ∈ value, isValueChar c.toNat = true)
    (hkw : ∀ kw ∈ keywords, kw.1.isPrefixOf (renderLine name params value) = false) :
    lex h (renderLine name params value) = ⟨lineItems name params value, halt.closed⟩ := by
  obtain ⟨b1, t1, hf, hb1⟩ := renderParams_follow params (utf8 value ++ crlf)
  have hat0 : (⟨renderLine name params value, [], 0, 0, 0⟩ : lexer).standsAt []
      (utf8 name ++ b1 :: t1) := by
    rw [← hf]
    exact ⟨by simp [renderLine], rfl, rfl⟩
  have hkw0 : ∀ kw ∈ keywords, kw.1.isPrefixOf (utf8 name ++ b1 :: t1) = false := by
    rw [← hf]
    simpa [renderLine] using hkw
  obtain ⟨l1, h1, hat1, hi1⟩ := lexName_spec h _ [] name b1 t1 hat0 hkw0 hname (by omega)
    (by rcases hb1 with rfl | rfl <;> rfl)
  rw [← hf] at hat1
  obtain ⟨l2, h2, hat2, hi2⟩ := lex_params h params l1 _ _ hat1 hparams
  obtain ⟨l3, h3, hat3, hi3⟩ := lexContentLine_spec l2 _ _ 0x3A hat2 (Or.inr (Or.inr rfl))
  have hat3' : l3.standsAt ([] ++ utf8 name ++ renderParams params ++ [0x3A])
      (utf8 value ++ 0x0D :: [0x0A]) := by
    simpa [crlf_eq] using hat3
  obtain ⟨l4, h4, hat4, hi4⟩ := lexValue_spec l3 _ value _ hat3' hvalue
  obtain ⟨l5, h5, hi5⟩ := lexNewLine_last l4 _ (by simpa [crlf_eq] using hat4)
  have r1 : reaches h 1 stateFn.lexName _ stateFn.lexContentLine l1 :=
    reaches_step (by simpa [stateFn.call] using h1)
  have r3 : reaches h 1 stateFn.lexContentLine l2 stateFn.lexValue l3 :=
    reaches_step (by simpa [stateFn.call] using h3)
  have r4 : reaches h 1 stateFn.lexValue l3 stateFn.lexNewLine l4 :=
    reaches_step (by simpa [stateFn.call] using h4)
  have r := reaches_trans (reaches_trans (reaches_trans r1 h2) r3) r4
  have hlast : ∀ n, run h (n + 1) stateFn.lexNewLine l4 = (l5, halt.closed) := by
    intro n
    simp only [run, stateFn.call, h5]
  have hfuel : 2 * (renderLine name params value).length + 2
      = (2 * (renderLine name params value).length + 2 - (1 + paramsSteps params + 1 + 1) - 1) + 1
        + (1 + paramsSteps params + 1 + 1) := by
    have := paramsSteps_le params
    simp only [renderLine, List.length_append, List.length_cons, crlf_eq]
    omega
  unfold lex
  rw [hfuel, r, hlast]
  simp only [hi5, hi4, hi3, hi2, hi1, lineItems, List.nil_append, List.length_nil,
    List.append_assoc, List.length_append, List.length_cons, List.singleton_append,
    List.cons_append, Nat.zero_add, Nat.reduceEqDiff, if_false, if_true, Nat.add_assoc,
    Nat.add_comm, Nat.add_left_comm]

/-! ## The parser on the items of a content line -/

theorem parser.sameBut_refl (p : parser) : p.sameBut p := by
  simp [parser.sameBut]

theorem parser.sameBut_trans {p q r : parser} (h1 : p.sameBut q) (h2 : q.sameBut r) :
    p.sameBut r := by
  simp only [parser.sameBut] at *
  simp [h1, h2]

/-- The method `next` of the parser hands out the first of the items still to read. -/
theorem parser.next_pending (p : parser) (i : item) (rest : List item)
    (hpk : p.peekCount ≤ 1) (hpend : p.pending = i :: rest) :
    ∃ q, p.next = res.ok i q ∧ q.peekCount = 0 ∧ q.lex.items = rest ∧ q.token.1 = i
      ∧ p.sameBut q := by
  rcases Nat.le_one_iff_eq_zero_or_eq_one.mp hpk with h0 | h1
  · simp only [parser.pending, h0] at hpend
    refine ⟨{ p with lex := { p.lex with items := rest }, token := (i, p.token.2) }, ?_, h0, rfl,
      rfl, ?_⟩
    · simp [parser.next, h0, parser.nextItem, hpend, res.bind, parser.tokenAt]
    · simp [parser.sameBut]
  · simp only [parser.pending, h1] at hpend
    obtain ⟨rfl, rfl⟩ := List.cons.inj hpend
    refine ⟨{ p with peekCount := 0 }, ?_, rfl, rfl, rfl, ?_⟩
    · simp [parser.next, h1, parser.tokenAt]
    · simp [parser.sameBut]

/-- After `next`, the method `backup` puts the item back. -/
theorem parser.backup_pending (q : parser) (hq : q.peekCount = 0) :
    q.backup.peekCount = 1 ∧ q.backup.pending = q.token.1 :: q.lex.items
      ∧ q.sameBut q.backup := by
  simp [parser.backup, parser.pending, hq, parser.sameBut]

theorem pvalue.item_typ (off : Nat) (v : pvalue) : (v.item off).typ = itemParamValue := by
  cases v <;> rfl

theorem pvalue.item_val (off : Nat) (v : pvalue) : (v.item off).val = utf8 v.text := by
  cases v <;> rfl

/-- The loop of `scanValues` on the values of a parameter after the first. -/
theorem scanValuesLoop_spec : ∀ (vs : List pvalue) (off : Nat) (p : parser) (param : Param)
    (n : Nat) (t : item) (rest : List item),
    p.peekCount ≤ 1 → p.pending = moreItems off vs ++ t :: rest → t.typ ≠ itemComma →
    vs.length < n →
    ∃ q, parser.scanValuesLoop n p param
        = res.ok (⟨param.Values ++ vs.map fun v => utf8 v.text⟩, none) q
      ∧ q.peekCount = 1 ∧ q.pending = t :: rest ∧ p.sameBut q
  | [], off, p, param, n + 1, t, rest, hpk, hpend, ht, _ => by
    simp only [moreItems, List.nil_append] at hpend
    obtain ⟨q, hq, hq0, hqi, hqt, hsame⟩ := parser.next_pending p t rest hpk hpend
    obtain ⟨b1, b2, b3⟩ := parser.backup_pending q hq0
    refine ⟨q.backup, ?_, b1, by rw [b2, hqt, hqi], parser.sameBut_trans hsame b3⟩
    simp [parser.scanValuesLoop, hq, res.bind, ht]
  | v :: vs, off, p, param, n + 1, t, rest, hpk, hpend, ht, hn => by
    simp only [moreItems, List.cons_append] at hpend
    obtain ⟨q, hq, hq0, hqi, -, hsame⟩ := parser.next_pending p _ _ hpk hpend
    obtain ⟨q2, hq2, hq20, hq2i, -, hsame2⟩ := parser.next_pending q (v.item (off + 1))
      (moreItems (off + 1 + v.render.length) vs ++ t :: rest) (by omega)
      (by simp [parser.pending, hq0, hqi])
    obtain ⟨q3, hq3, h31, h3p, hsame3⟩ := scanValuesLoop_spec vs (off + 1 + v.render.length) q2
      { param with Values := param.Values ++ [(v.item (off + 1)).val] } n t rest (by omega)
      (by simp [parser.pending, hq20, hq2i]) ht (by simpa using hn)
    refine ⟨q3, ?_, h31, h3p, parser.sameBut_trans (parser.sameBut_trans hsame hsame2) hsame3⟩
    simp only [parser.scanValuesLoop, hq, res.bind, ne_eq, not_true_eq_false, if_false, hq2,
      pvalue.item_typ, hq3]
    simp [pvalue.item_val]

/-- The method `scanValues` on the values of a parameter. -/
theorem scanValues_spec (v : pvalue) (vs : List pvalue) (off : Nat) (p : parser) (n : Nat)
    (t : item) (rest : List item) (hpk : p.peekCount ≤ 1)
    (hpend : p.pending = v.item off :: (moreItems (off + v.render.length) vs ++ t :: rest))
    (ht : t.typ ≠ itemComma) (hn : vs.length < n) :
    ∃ q, parser.scanValues n p NewParam
        = res.ok (⟨(v :: vs).map fun v => utf8 v.text⟩, none) q
      ∧ q.peekCount = 1 ∧ q.pending = t :: rest ∧ p.sameBut q := by
  obtain ⟨q, hq, hq0, hqi, -, hsame⟩ := parser.next_pending p _ _ hpk hpend
  obtain ⟨q2, hq2, h21, h2p, hsame2⟩ := scanValuesLoop_spec vs (off + v.render.length) q
    { NewParam with Values := NewParam.Values ++ [(v.item off).val] } n t rest (by omega)
    (by simp [parser.pending, hq0, hqi]) ht hn
  refine ⟨q2, ?_, h21, h2p, parser.sameBut_trans hsame hsame2⟩
  simp only [parser.scanValues, hq, res.bind, ne_eq, pvalue.item_typ, not_true_eq_false,
    if_false, hq2]
  simp [pvalue.item_val, NewParam]

theorem mapSet_append : ∀ (m : List (Str × Param)) (k : Str) (v : Param),
    k ∉ m.map Prod.fst → mapSet m k v = m ++ [(k, v)]
  | [], _, _, _ => rfl
  | e :: m, k, v, hk => by
    simp only [List.map_cons, List.mem_cons, not_or] at hk
    have hne : (e.1 == k) = false := by
      simp only [beq_eq_false_iff_ne, ne_eq]
      exact fun h => hk.1 h.symm
    simp [mapSet, hne, mapSet_append m k v hk.2]

theorem moreItems_length : ∀ (vs : List pvalue) (off : Nat),
    (moreItems off vs).length = 2 * vs.length
  | [], _ => rfl
  | v :: vs, off => by
    simp only [moreItems, List.length_cons, moreItems_length vs]
    omega

theorem paramsItems_head (qs : List pparam) (off : Nat) (t : item) (rest : List item)
    (ht : t.typ ≠ itemComma) :
    ∃ t1 rest1, paramsItems off qs ++ t :: rest = t1 :: rest1 ∧ t1.typ ≠ itemComma := by
  cases qs with
  | nil => exact ⟨t, rest, rfl, ht⟩
  | cons q qs => exact ⟨_, _, rfl, by simp⟩

/-- The method `scanParams` on the items of the parameters of a line. -/
theorem scanParams_spec : ∀ (qs : List pparam) (off : Nat) (p : parser) (prop : Property)
    (n : Nat) (t : item) (rest : List item),
    p.peekCount ≤ 1 → p.pending = paramsItems off qs ++ t :: rest →
    t.typ ≠ itemSemiColon → t.typ ≠ itemComma → (paramsItems off qs).length < n →
    (prop.Params.map Prod.fst ++ qs.map fun q => utf8 q.name).Nodup →
    ∃ q, parser.scanParams n p prop
        = res.ok (⟨prop.Name, prop.Params ++ qs.map pparam.entry, prop.Value⟩, none) q
      ∧ q.peekCount = 1 ∧ q.pending = t :: rest ∧ p.sameBut q
  | [], off, p, prop, n + 1, t, rest, hpk, hpend, ht, _, _, _ => by
    simp only [paramsItems, List.nil_append] at hpend
    obtain ⟨q, hq, hq0, hqi, hqt, hsame⟩ := parser.next_pending p t rest hpk hpend
    obtain ⟨b1, b2, b3⟩ := parser.backup_pending q hq0
    refine ⟨q.backup, ?_, b1, by rw [b2, hqt, hqi], parser.sameBut_trans hsame b3⟩
    simp [parser.scanParams, hq, res.bind, ht]
  | q :: qs, off, p, prop, n + 1, t, rest, hpk, hpend, ht, htc, hn, hnd => by
    simp only [paramsItems, pparam.items, List.cons_append, List.append_assoc] at hpend
    obtain ⟨t1, rest1, hhead, ht1⟩ := paramsItems_head qs (off + q.render.length) t rest htc
    rw [hhead] at hpend
    obtain ⟨p1, hp1, h10, h1i, -, hsame1⟩ := parser.next_pending p _ _ hpk hpend
    obtain ⟨p2, hp2, h20, h2i, -, hsame2⟩ := parser.next_pending p1 _ _ (by omega)
      (by simpa [parser.pending, h10] using h1i)
    obtain ⟨p3, hp3, h30, h3i, -, hsame3⟩ := parser.next_pending p2 _ _ (by omega)
      (by simpa [parser.pending, h20] using h2i)
    have hlen : (paramsItems off (q :: qs)).length
        = 4 + 2 * q.more.length + (paramsItems (off + q.render.length) qs).length := by
      simp only [paramsItems, pparam.items, List.length_append, List.length_cons,
        moreItems_length]
      omega
    obtain ⟨p4, hp4, h41, h4p, hsame4⟩ := scanValues_spec q.first q.more
      (off + 1 + (utf8 q.name).length + 1) p3 n t1 rest1 (by omega)
      (by simpa [parser.pending, h30] using h3i) ht1 (by omega)
    have hkey : utf8 q.name ∉ prop.Params.map Prod.fst := by
      intro hmem
      have := List.nodup_append.mp hnd
      exact this.2.2 hmem (by simp)
    obtain ⟨p5, hp5, h51, h5p, hsame5⟩ := scanParams_spec qs (off + q.render.length) p4
      ⟨prop.Name, mapSet prop.Params (utf8 q.name) ⟨(q.first :: q.more).map fun v => utf8 v.text⟩,
        prop.Value⟩ n t rest (by omega)
      (by rw [h4p, hhead]) ht htc (by omega)
      (by
        rw [mapSet_append _ _ _ hkey]
        simpa [List.append_assoc] using hnd)
    refine ⟨p5, ?_, h51, h5p, parser.sameBut_trans (parser.sameBut_trans (parser.sameBut_trans
      (parser.sameBut_trans hsame1 hsame2) hsame3) hsame4) hsame5⟩
    simp only [parser.scanParams, hp1, res.bind, ne_eq, not_true_eq_false, if_false, hp2, hp3,
      hp4, hp5]
    simp [mapSet_append _ _ _ hkey, pparam.entry]

/-- The method `scanContentLine` in the scope of the calendar, on the items of a content
line: the property is appended to the properties of the calendar. -/
theorem scanContentLine_line (h : Host) (loc : Location) (p : parser) (n : Nat)
    (nm : Str) (o0 off o1 o2 o3 : Nat) (qs : List pparam) (val nl : Str) (rest : List item)
    (hpk : p.peekCount ≤ 1) (hscope : p.scope = scopeCalendar)
    (hpend : p.pending = ⟨itemName, o0, nm⟩ :: (paramsItems off qs
      ++ ⟨itemColon, o1, [0x3A]⟩ :: ⟨itemValue, o2, val⟩ :: ⟨itemLineEnd, o3, nl⟩ :: rest))
    (hnd : (qs.map fun q => utf8 q.name).Nodup)
    (hn : (paramsItems off qs).length + 2 ≤ n) :
    ∃ q, parser.scanContentLine h loc n p = res.ok none q
      ∧ q.c.Properties = p.c.Properties ++ [⟨nm, qs.map pparam.entry, val⟩]
      ∧ q.peekCount = 0 ∧ q.lex.items = rest := by
  obtain ⟨m, rfl⟩ : ∃ m, n = m + 1 := ⟨n - 1, by omega⟩
  obtain ⟨p1, hp1, h10, h1i, -, hsame1⟩ := parser.next_pending p _ _ hpk hpend
  obtain ⟨p2, hp2, h21, h2p, hsame2⟩ := scanParams_spec qs off p1 ⟨nm, [], []⟩ m
    ⟨itemColon, o1, [0x3A]⟩ (⟨itemValue, o2, val⟩ :: ⟨itemLineEnd, o3, nl⟩ :: rest) (by omega)
    (by simpa [parser.pending, h10] using h1i) (by simp) (by simp) (by omega) (by simpa using hnd)
  obtain ⟨p3, hp3, h30, h3i, -, hsame3⟩ := parser.next_pending p2 _ _ (by omega) h2p
  obtain ⟨p4, hp4, h40, h4i, -, hsame4⟩ := parser.next_pending p3 _ _ (by omega)
    (by simpa [parser.pending, h30] using h3i)
  obtain ⟨p5, hp5, h50, h5i, -, hsame5⟩ := parser.next_pending p4 _ _ (by omega)
    (by simpa [parser.pending, h40] using h4i)
  have hsame : p.sameBut p5 := parser.sameBut_trans (parser.sameBut_trans (parser.sameBut_trans
    (parser.sameBut_trans hsame1 hsame2) hsame3) hsame4) hsame5
  have hs5 : p5.scope = scopeCalendar := by rw [hsame.1, hscope]
  have hc5 : p5.c = p.c := hsame.2.1
  refine ⟨{ p5 with c := { p5.c with Properties := p5.c.Properties
    ++ [⟨nm, qs.map pparam.entry, val⟩] } }, ?_, by simp [hc5], h50, h5i⟩
  have hiota : ¬ itemName.iota > itemKeyword.iota := by decide
  simp only [parser.scanContentLine, hp1, res.bind, hiota, if_false, isItemName, beq_self_eq_true,
    Bool.not_true, Bool.false_eq_true, NewProperty, hp2, ne_eq, not_true_eq_false, hp3, hp4, hp5,
    parser.store, hs5, if_true, List.nil_append]

/-! ## Lemmas on `unfold` -/

theorem unfold_fold_space (rest : Str) : unfold (13 :: 10 :: 32 :: rest) = unfold rest := by
  rw [unfold]

theorem unfold_fold_tab (rest : Str) : unfold (13 :: 10 :: 9 :: rest) = unfold rest := by
  rw [unfold]

theorem unfold_cons_ne (b : Nat) (rest : Str) (hb : b ≠ 13) :
    unfold (b :: rest) = b :: unfold rest := by
  rw [unfold]
  · intro r hr _
    exact hb hr
  · intro r hr _
    exact hb hr

theorem str_fold_space : str "\r\n " = [13, 10, 32] := by decide

theorem str_fold_tab : str "\r\n\t" = [13, 10, 9] := by decide

theorem unfold_length_le (x : Str) : (unfold x).length ≤ x.length := by
  induction x using unfold.induct with
  | case1 rest ih => rw [unfold_fold_space]; simp only [List.length_cons]; omega
  | case2 rest ih => rw [unfold_fold_tab]; simp only [List.length_cons]; omega
  | case3 b rest h1 h2 ih =>
    rw [unfold]
    · simp only [List.length_cons]; omega
    · exact h1
    · exact h2
  | case4 => simp [unfold]

theorem unfold_length_lt_of_infix (x : Str)
    (hx : str "\r\n " <:+: x ∨ str "\r\n\t" <:+: x) : (unfold x).length < x.length := by
  rw [str_fold_space, str_fold_tab] at hx
  induction x using unfold.induct with
  | case1 rest ih =>
    rw [unfold_fold_space]
    have := unfold_length_le rest
    simp only [List.length_cons]
    omega
  | case2 rest ih =>
    rw [unfold_fold_tab]
    have := unfold_length_le rest
    simp only [List.length_cons]
    omega
  | case3 b rest h1 h2 ih =>
    have hrest : [13, 10, 32] <:+: rest ∨ [13, 10, 9] <:+: rest := by
      rcases hx with hx | hx
      · rcases List.infix_cons_iff.mp hx with hp | hi
        · obtain ⟨t, ht⟩ := hp
          simp only [List.cons_append, List.nil_append, List.cons.injEq] at ht
          exact absurd ht.2.symm (h1 t ht.1.symm)
        · exact Or.inl hi
      · rcases List.infix_cons_iff.mp hx with hp | hi
        · obtain ⟨t, ht⟩ := hp
          simp only [List.cons_append, List.nil_append, List.cons.injEq] at ht
          exact absurd ht.2.symm (h2 t ht.1.symm)
        · exact Or.inr hi
    rw [unfold]
    · have := ih hrest
      simp only [List.length_cons]
      omega
    · exact h1
    · exact h2
  | case4 =>
    rcases hx with hx | hx <;> simp at hx

theorem unfold_eq_self_of_not_infix (x : Str)
    (hx : ¬ (str "\r\n " <:+: x ∨ str "\r\n\t" <:+: x)) : unfold x = x := by
  rw [str_fold_space, str_fold_tab] at hx
  induction x using unfold.induct with
  | case1 rest ih =>
    exact absurd (Or.inl ⟨[], rest, rfl⟩) hx
  | case2 rest ih =>
    exact absurd (Or.inr ⟨[], rest, rfl⟩) hx
  | case3 b rest h1 h2 ih =>
    rw [unfold]
    · rw [ih]
      intro hr
      apply hx
      rcases hr with hr | hr
      · exact Or.inl (List.infix_cons hr)
      · exact Or.inr (List.infix_cons hr)
    · exact h1
    · exact h2
  | case4 => rfl

theorem unfold_append_of_not_mem (s t : Str) (hs : 13 ∉ s) : unfold (s ++ t) = s ++ unfold t := by
  induction s with
  | nil => rfl
  | cons b s ih =>
    simp only [List.mem_cons, not_or] at hs
    rw [List.cons_append, unfold_cons_ne _ _ (Ne.symm hs.1), ih hs.2, List.cons_append]

theorem unfold_foldSeparator (tab : Bool) (t : Str) : unfold (foldSeparator tab ++ t) = unfold t := by
  cases tab
  · exact unfold_fold_space t
  · exact unfold_fold_tab t

/-! ## Lemmas on the map `uniqueCount` -/

theorem counts.incr_keys : ∀ (m : counts) (k : String),
    (m.incr k).map Prod.fst = if k ∈ m.map Prod.fst then m.map Prod.fst else m.map Prod.fst ++ [k]
  | [], k => by simp [counts.incr]
  | e :: m, k => by
    by_cases he : e.1 = k
    · simp [counts.incr, he]
    · have ih := counts.incr_keys m k
      have hne : ¬ k = e.1 := fun hk => he hk.symm
      by_cases hk : k ∈ m.map Prod.fst
      · simp only [counts.incr, he, if_false, List.map_cons, ih, hk, if_true, List.mem_cons,
          or_true]
      · simp only [counts.incr, he, if_false, List.map_cons, ih, hk, List.mem_cons, hne,
          or_self, List.cons_append]

theorem counts.incr_nodup (m : counts) (k : String) (hm : (m.map Prod.fst).Nodup) :
    ((m.incr k).map Prod.fst).Nodup := by
  rw [counts.incr_keys]
  split
  · exact hm
  · rename_i hk
    exact List.Nodup.append hm (List.nodup_singleton k) (by simpa using hk)

theorem counts.get_of_mem : ∀ (m : counts) (e : String × Nat),
    (m.map Prod.fst).Nodup → e ∈ m → m.get e.1 = e.2
  | [], _, _, he => by simp at he
  | e0 :: m, e, hm, he => by
    simp only [List.map_cons, List.nodup_cons] at hm
    rcases List.mem_cons.mp he with rfl | hin
    · simp [counts.get]
    · have hne : ¬ e0.1 = e.1 := fun h0 => hm.1 (h0 ▸ List.mem_map_of_mem Prod.fst hin)
      simp only [counts.get, hne, if_false]
      exact counts.get_of_mem m e hm.2 hin

theorem counts.get_eq_zero_or_mem : ∀ (m : counts) (k : String),
    m.get k = 0 ∨ ∃ e ∈ m, e.2 = m.get k
  | [], _ => Or.inl rfl
  | e0 :: m, k => by
    by_cases h0 : e0.1 = k
    · exact Or.inr ⟨e0, List.mem_cons_self _ _, by simp [counts.get, h0]⟩
    · simp only [counts.get, h0, if_false]
      rcases counts.get_eq_zero_or_mem m k with hz | ⟨e, he, hv⟩
      · exact Or.inl hz
      · exact Or.inr ⟨e, List.mem_cons_of_mem _ he, hv⟩

/-- The loop over `uniqueCount` finds no key counted twice exactly when every count is at
most 1. -/
theorem counts.check_eq_none_iff (m : counts) (hm : (m.map Prod.fst).Nodup) :
    m.check = none ↔ ∀ k, m.get k ≤ 1 := by
  constructor
  · exact fun hc k => counts.get_le_of_check m hc k
  · intro hk
    simp only [counts.check, Option.map_eq_none', List.find?_eq_none, decide_eq_true_eq,
      not_lt]
    intro e he
    have := hk e.1
    rwa [counts.get_of_mem m e hm he] at this

/-! ## Lemmas on `validateAlarm` -/

theorem str_ACTION_ne_TRIGGER : str "ACTION" ≠ str "TRIGGER" := by decide

/-- The loop of `validateAlarm`: what it counts and what it promotes. -/
theorem validateAlarmLoop_spec : ∀ (rest : List Property) (a : Alarm) (n : Nat) (uc : counts),
    (uc.map Prod.fst).Nodup →
    (validateAlarmLoop rest a n uc).2.1
        = n + rest.countP (fun p => decide (p.Name = str "ACTION"))
          + rest.countP (fun p => decide (p.Name = str "TRIGGER"))
      ∧ ((validateAlarmLoop rest a n uc).2.2.map Prod.fst).Nodup
      ∧ (∀ k, (validateAlarmLoop rest a n uc).2.2.get k
          = uc.get k
            + (if k = "ACTION" then rest.countP (fun p => decide (p.Name = str "ACTION")) else 0)
            + (if k = "TRIGGER" then rest.countP (fun p => decide (p.Name = str "TRIGGER"))
                else 0))
      ∧ (rest.countP (fun p => decide (p.Name = str "ACTION")) = 0 →
          (validateAlarmLoop rest a n uc).1.Action = a.Action)
      ∧ (rest.countP (fun p => decide (p.Name = str "ACTION")) ≤ 1 →
          ∀ p ∈ rest, p.Name = str "ACTION" → (validateAlarmLoop rest a n uc).1.Action = p.Value)
      ∧ (rest.countP (fun p => decide (p.Name = str "TRIGGER")) = 0 →
          (validateAlarmLoop rest a n uc).1.Trigger = a.Trigger)
      ∧ (rest.countP (fun p => decide (p.Name = str "TRIGGER")) ≤ 1 →
          ∀ p ∈ rest, p.Name = str "TRIGGER" →
            (validateAlarmLoop rest a n uc).1.Trigger = p.Value)
  | [], a, n, uc, huc => by
    simp [validateAlarmLoop, huc]
  | prop :: rest, a, n, uc, huc => by
    by_cases hA : prop.Name = str "ACTION"
    · have hT : prop.Name ≠ str "TRIGGER" := fun h => str_ACTION_ne_TRIGGER (hA.symm.trans h)
      obtain ⟨i1, i2, i3, i4, i5, i6, i7⟩ := validateAlarmLoop_spec rest
        { a with Action := prop.Value } (n + 1) (uc.incr "ACTION") (counts.incr_nodup _ _ huc)
      have hstep : validateAlarmLoop (prop :: rest) a n uc
          = validateAlarmLoop rest { a with Action := prop.Value } (n + 1) (uc.incr "ACTION") := by
        rw [validateAlarmLoop]
        simp only [hA, if_true, str_ACTION_ne_TRIGGER, if_false]
      have cA : (prop :: rest).countP (fun p => decide (p.Name = str "ACTION"))
          = rest.countP (fun p => decide (p.Name = str "ACTION")) + 1 := by
        rw [List.countP_cons]
        simp only [hA, decide_True, if_true]
      have cT : (prop :: rest).countP (fun p => decide (p.Name = str "TRIGGER"))
          = rest.countP (fun p => decide (p.Name = str "TRIGGER")) := by
        rw [List.countP_cons]
        simp only [hT, decide_False, Bool.false_eq_true, if_false, Nat.add_zero]
      rw [hstep, cA, cT]
      refine ⟨by rw [i1]; omega, i2, ?_, by omega, ?_, ?_, ?_⟩
      · intro k
        rw [i3 k]
        by_cases hk : k = "ACTION"
        · subst hk
          simp only [counts.get_incr_self, if_true]
          omega
        · rw [counts.get_incr_other _ _ _ (Ne.symm hk)]
          simp [hk]
      · intro hle p hp hpn
        rcases List.mem_cons.mp hp with rfl | hin
        · rw [i4 (by omega)]
        · exact i5 (by omega) p hin hpn
      · intro h0
        rw [i6 h0]
      · intro hle p hp hpn
        rcases List.mem_cons.mp hp with rfl | hin
        · exact absurd hpn hT
        · exact i7 hle p hin hpn
    · by_cases hT : prop.Name = str "TRIGGER"
      · obtain ⟨i1, i2, i3, i4, i5, i6, i7⟩ := validateAlarmLoop_spec rest
          { a with Trigger := prop.Value } (n + 1) (uc.incr "TRIGGER")
          (counts.incr_nodup _ _ huc)
        have hstep : validateAlarmLoop (prop :: rest) a n uc
            = validateAlarmLoop rest { a with Trigger := prop.Value } (n + 1)
                (uc.incr "TRIGGER") := by
          rw [validateAlarmLoop]
          simp only [hT, if_true, str_ACTION_ne_TRIGGER.symm, if_false]
        have cA : (prop :: rest).countP (fun p => decide (p.Name = str "ACTION"))
            = rest.countP (fun p => decide (p.Name = str "ACTION")) := by
          rw [List.countP_cons]
          simp only [hA, decide_False, Bool.false_eq_true, if_false, Nat.add_zero]
        have cT : (prop :: rest).countP (fun p => decide (p.Name = str "TRIGGER"))
            = rest.countP (fun p => decide (p.Name = str "TRIGGER")) + 1 := by
          rw [List.countP_cons]
          simp only [hT, decide_True, if_true]
        rw [hstep, cA, cT]
        refine ⟨by rw [i1]; omega, i2, ?_, ?_, ?_, by omega, ?_⟩
        · intro k
          rw [i3 k]
          by_cases hk : k = "TRIGGER"
          · subst hk
            simp only [counts.get_incr_self, if_true]
            omega
          · rw [counts.get_incr_other _ _ _ (Ne.symm hk)]
            simp [hk]
        · intro h0
          rw [i4 h0]
        · intro hle p hp hpn
          rcases List.mem_cons.mp hp with rfl | hin
          · exact absurd hpn hA
          · exact i5 hle p hin hpn
        · intro hle p hp hpn
          rcases List.mem_cons.mp hp with rfl | hin
          · rw [i6 (by omega)]
          · exact i7 (by omega) p hin hpn
      · obtain ⟨i1, i2, i3, i4, i5, i6, i7⟩ := validateAlarmLoop_spec rest a n uc huc
        have hstep : validateAlarmLoop (prop :: rest) a n uc = validateAlarmLoop rest a n uc := by
          rw [validateAlarmLoop]
          simp only [hA, hT, if_false]
        have cA : (prop :: rest).countP (fun p => decide (p.Name = str "ACTION"))
            = rest.countP (fun p => decide (p.Name = str "ACTION")) := by
          rw [List.countP_cons]
          simp only [hA, decide_False, Bool.false_eq_true, if_false, Nat.add_zero]
        have cT : (prop :: rest).countP (fun p => decide (p.Name = str "TRIGGER"))
            = rest.countP (fun p => decide (p.Name = str "TRIGGER")) := by
          rw [List.countP_cons]
          simp only [hT, decide_False, Bool.false_eq_true, if_false, Nat.add_zero]
        rw [hstep, cA, cT]
        refine ⟨i1, i2, i3, i4, ?_, i6, ?_⟩
        · intro hle p hp hpn
          rcases List.mem_cons.mp hp with rfl | hin
          · exact absurd hpn hA
          · exact i5 hle p hin hpn
        · intro hle p hp hpn
          rcases List.mem_cons.mp hp with rfl | hin
          · exact absurd hpn hT
          · exact i7 hle p hin hpn

/-! ## Lemmas on `validateEvent` without a conflict, and on the method of the calendar -/

theorem hasProperty_of_mem (prop : Property) (all : List Property) (hin : prop ∈ all) :
    hasProperty prop.Name all = true := by
  simp only [hasProperty, List.any_eq_true, beq_iff_eq]
  exact ⟨prop, hin, rfl⟩

/-- One round of the loop of `validateEvent` when no parameter lacks its value and DTEND
and DURATION do not both occur: no error, and what is promoted. -/
theorem validateEventStep_ok (h : Host) (l : Location) (all : List Property) (prop : Property)
    (v : Event) (uc : counts)
    (hpd : ∃ d, parseDate h prop l = some d)
    (hc : ¬ (hasProperty (str "DTEND") all = true ∧ hasProperty (str "DURATION") all = true))
    (hin : prop ∈ all) (huc : (uc.map Prod.fst).Nodup) :
    ∃ r, validateEventStep h l all prop v uc = validated.done r none
      ∧ (prop.Name = str "UID" → r.1.UID = prop.Value)
      ∧ (prop.Name = str "DTSTART" → ∀ d, parseDate h prop l = some d → r.1.StartDate = d.1)
      ∧ (prop.Name ≠ str "DTSTAMP" → r.1.Timestamp = v.Timestamp)
      ∧ (r.2.map Prod.fst).Nodup
      ∧ (∀ k, k ∉ eventKeys → r.2.get k = uc.get k) := by
  obtain ⟨d, hd⟩ := hpd
  have hmem := hasProperty_of_mem prop all hin
  have hE : prop.Name = str "DTEND" → hasProperty (str "DURATION") all = false := by
    intro hn
    rw [hn] at hmem
    simpa [hmem] using hc
  have hD : prop.Name = str "DURATION" → hasProperty (str "DTEND") all = false := by
    intro hn
    rw [hn] at hmem
    simpa [hmem] using hc
  have hother : ∀ (m : counts) (k1 k : String), k ∉ eventKeys → k1 ∈ eventKeys →
      (m.incr k1).get k = m.get k := by
    intro m k1 k hk hk1
    exact counts.get_incr_other m k1 k (fun he => hk (he ▸ hk1))
  unfold validateEventStep
  by_cases h1 : prop.Name = str "UID"
  · refine ⟨({ v with UID := prop.Value }, uc.incr "UID"), ?_, ?_, ?_, ?_, counts.incr_nodup _ _ huc,
      fun k hk => hother _ _ _ hk (by decide)⟩
    · simp [h1, hd, str_UID, str_DTSTAMP, str_DTSTART, str_DTEND, str_DURATION, str_SUMMARY, str_DESCRIPTION]
    · simp [h1, str_UID, str_DTSTAMP, str_DTSTART, str_DTEND, str_DURATION, str_SUMMARY, str_DESCRIPTION]
    · simp [h1, hd, str_UID, str_DTSTAMP, str_DTSTART, str_DTEND, str_DURATION, str_SUMMARY, str_DESCRIPTION]
    · simp [h1, str_UID, str_DTSTAMP, str_DTSTART, str_DTEND, str_DURATION, str_SUMMARY, str_DESCRIPTION]
  by_cases h2 : prop.Name = str "DTSTAMP"
  · refine ⟨({ v with Timestamp := d.1 }, uc.incr "DTSTAMP"), ?_, ?_, ?_, ?_, counts.incr_nodup _ _ huc,
      fun k hk => hother _ _ _ hk (by decide)⟩
    · simp [h2, hd, str_UID, str_DTSTAMP, str_DTSTART, str_DTEND, str_DURATION, str_SUMMARY, str_DESCRIPTION]
    · simp [h2, str_UID, str_DTSTAMP, str_DTSTART, str_DTEND, str_DURATION, str_SUMMARY, str_DESCRIPTION]
    · simp [h2, hd, str_UID, str_DTSTAMP, str_DTSTART, str_DTEND, str_DURATION, str_SUMMARY, str_DESCRIPTION]
    · simp [h2, str_UID, str_DTSTAMP, str_DTSTART, str_DTEND, str_DURATION, str_SUMMARY, str_DESCRIPTION]
  by_cases h3 : prop.Name = str "DTSTART"
  · refine ⟨({ v with StartDate := d.1 }, uc.incr "DTSTART"), ?_, ?_, ?_, ?_, counts.incr_nodup _ _ huc,
      fun k hk => hother _ _ _ hk (by decide)⟩
    · simp [h3, hd, str_UID, str_DTSTAMP, str_DTSTART, str_DTEND, str_DURATION, str_SUMMARY, str_DESCRIPTION]
    · simp [h3, str_UID, str_DTSTAMP, str_DTSTART, str_DTEND, str_DURATION, str_SUMMARY, str_DESCRIPTION]
    · simp [h3, hd, str_UID, str_DTSTAMP, str_DTSTART, str_DTEND, str_DURATION, str_SUMMARY, str_DESCRIPTION]
    · simp [h3, str_UID, str_DTSTAMP, str_DTSTART, str_DTEND, str_DURATION, str_SUMMARY, str_DESCRIPTION]
  by_cases h4 : prop.Name = str "DTEND"
  · have hno := hE h4
    rw [str_DURATION] at hno
    refine ⟨({ v with EndDate := d.1 }, uc.incr "DTEND"), ?_, ?_, ?_, ?_,
      counts.incr_nodup _ _ huc, fun k hk => hother _ _ _ hk (by decide)⟩
    · simp [h4, hd, hno, str_UID, str_DTSTAMP, str_DTSTART, str_DTEND, str_DURATION, str_SUMMARY, str_DESCRIPTION]
    · simp [h4, str_UID, str_DTSTAMP, str_DTSTART, str_DTEND, str_DURATION, str_SUMMARY, str_DESCRIPTION]
    · simp [h4, hd, str_UID, str_DTSTAMP, str_DTSTART, str_DTEND, str_DURATION, str_SUMMARY, str_DESCRIPTION]
    · simp [h4, str_UID, str_DTSTAMP, str_DTSTART, str_DTEND, str_DURATION, str_SUMMARY, str_DESCRIPTION]
  by_cases h5 : prop.Name = str "DURATION"
  · have hno := hD h5
    rw [str_DTEND] at hno
    refine ⟨(v, uc.incr "DURATION"), ?_, ?_, ?_, ?_,
      counts.incr_nodup _ _ huc, fun k hk => hother _ _ _ hk (by decide)⟩
    · simp [h5, hd, hno, str_UID, str_DTSTAMP, str_DTSTART, str_DTEND, str_DURATION, str_SUMMARY, str_DESCRIPTION]
    · simp [h5, str_UID, str_DTSTAMP, str_DTSTART, str_DTEND, str_DURATION, str_SUMMARY, str_DESCRIPTION]
    · simp [h5, hd, str_UID, str_DTSTAMP, str_DTSTART, str_DTEND, str_DURATION, str_SUMMARY, str_DESCRIPTION]
    · simp [h5, str_UID, str_DTSTAMP, str_DTSTART, str_DTEND, str_DURATION, str_SUMMARY, str_DESCRIPTION]
  by_cases h6 : prop.Name = str "SUMMARY"
  · refine ⟨({ v with Summary := prop.Value }, uc.incr "SUMMARY"), ?_, ?_, ?_, ?_, counts.incr_nodup _ _ huc,
      fun k hk => hother _ _ _ hk (by decide)⟩
    · simp [h6, hd, str_UID, str_DTSTAMP, str_DTSTART, str_DTEND, str_DURATION, str_SUMMARY, str_DESCRIPTION]
    · simp [h6, str_UID, str_DTSTAMP, str_DTSTART, str_DTEND, str_DURATION, str_SUMMARY, str_DESCRIPTION]
    · simp [h6, hd, str_UID, str_DTSTAMP, str_DTSTART, str_DTEND, str_DURATION, str_SUMMARY, str_DESCRIPTION]
    · simp [h6, str_UID, str_DTSTAMP, str_DTSTART, str_DTEND, str_DURATION, str_SUMMARY, str_DESCRIPTION]
  by_cases h7 : prop.Name = str "DESCRIPTION"
  · refine ⟨({ v with Description := prop.Value }, uc.incr "DESCRIPTION"), ?_, ?_, ?_, ?_, counts.incr_nodup _ _ huc,
      fun k hk => hother _ _ _ hk (by decide)⟩
    · simp [h7, hd, str_UID, str_DTSTAMP, str_DTSTART, str_DTEND, str_DURATION, str_SUMMARY, str_DESCRIPTION]
    · simp [h7, str_UID, str_DTSTAMP, str_DTSTART, str_DTEND, str_DURATION, str_SUMMARY, str_DESCRIPTION]
    · simp [h7, hd, str_UID, str_DTSTAMP, str_DTSTART, str_DTEND, str_DURATION, str_SUMMARY, str_DESCRIPTION]
    · simp [h7, str_UID, str_DTSTAMP, str_DTSTART, str_DTEND, str_DURATION, str_SUMMARY, str_DESCRIPTION]
  refine ⟨(v, uc), ?_, fun hn => absurd hn h1, fun hn => absurd hn h3, fun _ => rfl, huc,
    fun k _ => rfl⟩
  simp [h1, h2, h3, h4, h5, h6, h7]

theorem hasProperty_eq_false_of_countP (name : Str) (rest : List Property)
    (h0 : rest.countP (fun p => decide (p.Name = name)) = 0) : hasProperty name rest = false := by
  simp only [List.countP_eq_zero, decide_eq_true_eq] at h0
  simp only [hasProperty, List.any_eq_false, beq_iff_eq]
  exact fun p hp hn => h0 p hp hn.symm

/-- The loop of `validateEvent` when no parameter lacks its value and DTEND and DURATION do
not both occur: it ends without an error, and a name that occurs once is promoted from the
property that has it. -/
theorem validateEventLoop_ok (h : Host) (l : Location) (all : List Property)
    (hc : ¬ (hasProperty (str "DTEND") all = true ∧ hasProperty (str "DURATION") all = true)) :
    ∀ (rest : List Property) (v : Event) (uc : counts),
      (∀ p ∈ rest, p ∈ all) → (∀ p ∈ rest, ∃ d, parseDate h p l = some d) →
      (uc.map Prod.fst).Nodup →
      ∃ r, validateEventLoop h l all rest v uc = validated.done r none
        ∧ (rest.countP (fun p => decide (p.Name = str "UID")) ≤ 1 →
            ∀ p ∈ rest, p.Name = str "UID" → r.1.UID = p.Value)
        ∧ (rest.countP (fun p => decide (p.Name = str "DTSTART")) ≤ 1 →
            ∀ p ∈ rest, p.Name = str "DTSTART" →
              ∀ d, parseDate h p l = some d → r.1.StartDate = d.1)
        ∧ (hasProperty (str "DTSTAMP") rest = false → r.1.Timestamp = v.Timestamp)
        ∧ (r.2.map Prod.fst).Nodup
        ∧ (∀ k, k ∉ eventKeys → r.2.get k = uc.get k)
  | [], v, uc, _, _, huc => by
    refine ⟨(v, uc), rfl, ?_, ?_, fun _ => rfl, huc, fun _ _ => rfl⟩
    · intro _ p hp
      simp at hp
    · intro _ p hp
      simp at hp
  | prop :: rest, v, uc, hall, hpd, huc => by
    obtain ⟨r1, hstep, a1, a2, a3, a4, a5⟩ := validateEventStep_ok h l all prop v uc
      (hpd prop (List.mem_cons_self _ _)) hc (hall prop (List.mem_cons_self _ _)) huc
    obtain ⟨r2, hloop, b1, b2, b3, b4, b5⟩ := validateEventLoop_ok h l all hc rest r1.1 r1.2
      (fun p hp => hall p (List.mem_cons_of_mem _ hp))
      (fun p hp => hpd p (List.mem_cons_of_mem _ hp)) a4
    have hs := validateEventLoop_spec h l all rest r1.1 r1.2
    rw [hloop] at hs
    obtain ⟨-, s2, s3, -, -⟩ := hs
    refine ⟨r2, ?_, ?_, ?_, ?_, b4, fun k hk => (b5 k hk).trans (a5 k hk)⟩
    · rw [validateEventLoop, hstep]
      exact hloop
    · intro hle p hp hpn
      rw [List.countP_cons] at hle
      rcases List.mem_cons.mp hp with rfl | hin
      · simp only [hpn, decide_True, if_true] at hle
        rw [s2 (hasProperty_eq_false_of_countP _ _ (by omega)), a1 hpn]
      · exact b1 (by omega) p hin hpn
    · intro hle p hp hpn d hd
      rw [List.countP_cons] at hle
      rcases List.mem_cons.mp hp with rfl | hin
      · simp only [hpn, decide_True, if_true] at hle
        rw [s3 (hasProperty_eq_false_of_countP _ _ (by omega)), a2 hpn d hd]
      · exact b2 (by omega) p hin hpn d hd
    · intro hno
      rw [hasProperty_cons, Bool.or_eq_false_iff, decide_eq_false_iff_not] at hno
      rw [b3 hno.2, a3 hno.1]

theorem str_METHOD : str "METHOD" = [77, 69, 84, 72, 79, 68] := by decide
theorem str_PRODID : str "PRODID" = [80, 82, 79, 68, 73, 68] := by decide
theorem str_VERSION : str "VERSION" = [86, 69, 82, 83, 73, 79, 78] := by decide
theorem str_CALSCALE : str "CALSCALE" = [67, 65, 76, 83, 67, 65, 76, 69] := by decide

/-- One round of the loop of `validateCalendar` leaves the method, unless the property is a
METHOD, whose value it takes. -/
theorem validateCalendarLoop_cons_method (prop : Property) (rest : List Property) (c : Calendar)
    (n : Nat) :
    ∃ c1 n1, validateCalendarLoop (prop :: rest) c n = validateCalendarLoop rest c1 n1
      ∧ c1.Method = if prop.Name = str "METHOD" then prop.Value else c.Method := by
  refine ⟨_, _, by rw [validateCalendarLoop], ?_⟩
  by_cases h1 : prop.Name = str "PRODID"
  · simp [h1, str_METHOD, str_PRODID, str_VERSION, str_CALSCALE]
  by_cases h2 : prop.Name = str "VERSION"
  · simp [h2, str_METHOD, str_PRODID, str_VERSION, str_CALSCALE]
  by_cases h3 : prop.Name = str "CALSCALE"
  · simp [h3, str_METHOD, str_PRODID, str_VERSION, str_CALSCALE]
  by_cases h4 : prop.Name = str "METHOD"
  · simp [h4, str_METHOD, str_PRODID, str_VERSION, str_CALSCALE]
  simp [h1, h2, h3, h4]

theorem validateCalendarLoop_method_none : ∀ (rest : List Property) (c : Calendar) (n : Nat),
    hasProperty (str "METHOD") rest = false → (validateCalendarLoop rest c n).1.Method = c.Method
  | [], _, _, _ => rfl
  | prop :: rest, c, n, hno => by
    rw [hasProperty_cons, Bool.or_eq_false_iff, decide_eq_false_iff_not] at hno
    obtain ⟨c1, n1, heq, hm⟩ := validateCalendarLoop_cons_method prop rest c n
    rw [heq, validateCalendarLoop_method_none rest c1 n1 hno.2, hm, if_neg hno.1]

theorem validateCalendarLoop_method_last (m : Property) (post : List Property)
    (hm : m.Name = str "METHOD") (hpost : hasProperty (str "METHOD") post = false) :
    ∀ (pre : List Property) (c : Calendar) (n : Nat),
      (validateCalendarLoop (pre ++ m :: post) c n).1.Method = m.Value
  | [], c, n => by
    obtain ⟨c1, n1, heq, hc1⟩ := validateCalendarLoop_cons_method m post c n
    rw [List.nil_append, heq, validateCalendarLoop_method_none post c1 n1 hpost, hc1, if_pos hm]
  | prop :: pre, c, n => by
    obtain ⟨c1, n1, heq, -⟩ := validateCalendarLoop_cons_method prop (pre ++ m :: post) c n
    rw [List.cons_append, heq]
    exact validateCalendarLoop_method_last m post hm hpost pre c1 n1

theorem validateCalendar_method (c : Calendar) :
    (validateCalendar c).1.Method = (validateCalendarLoop c.Properties c 0).1.Method := by
  unfold validateCalendar
  simp only
  split <;> rfl

/-! ## The items the parser reads: END:VEVENT and END:VCALENDAR -/

theorem endEvents_nil : endEvents [] = 0 := rfl

theorem endEvents_cons (i : item) (rest : List item) :
    endEvents (i :: rest)
      = if i.typ = itemEndVCalendar then 0
        else (if i.typ = itemEndVEvent then 1 else 0) + endEvents rest := by
  unfold endEvents
  by_cases h1 : i.typ = itemEndVCalendar
  · simp [List.takeWhile_cons, h1]
  · by_cases h2 : i.typ = itemEndVEvent
    · simp [List.takeWhile_cons, h1, h2, List.filter_cons]
      omega
    · simp [List.takeWhile_cons, h1, h2, List.filter_cons]

theorem hasEndCalendar_cons (i : item) (rest : List item) :
    hasEndCalendar (i :: rest) = (decide (i.typ = itemEndVCalendar) || hasEndCalendar rest) := by
  by_cases h1 : i.typ = itemEndVCalendar <;> simp [hasEndCalendar, h1]

/-- An item that is neither END:VEVENT nor END:VCALENDAR counts for nothing. -/
theorem endEvents_cons_other (i : item) (rest : List item) (h1 : i.typ ≠ itemEndVCalendar)
    (h2 : i.typ ≠ itemEndVEvent) : endEvents (i :: rest) = endEvents rest := by
  rw [endEvents_cons, if_neg h1, if_neg h2, Nat.zero_add]

theorem hasEndCalendar_cons_other (i : item) (rest : List item) (h1 : i.typ ≠ itemEndVCalendar) :
    hasEndCalendar (i :: rest) = hasEndCalendar rest := by
  rw [hasEndCalendar_cons]
  simp [h1]

theorem res.holds_bind {α β : Type} {P : α → parser → Prop} {Q : β → parser → Prop}
    (r : res α) (k : α → parser → res β) (hr : r.holds P)
    (hk : ∀ a q, P a q → (k a q).holds Q) : (r.bind k).holds Q := by
  cases r with
  | ok a q => exact hk a q hr
  | fault => trivial
  | hang => trivial
  | fuel => trivial

theorem res.holds_mono {α : Type} {P Q : α → parser → Prop} (r : res α) (hr : r.holds P)
    (hpq : ∀ a q, P a q → Q a q) : r.holds Q := by
  cases r with
  | ok a q => exact hpq a q hr
  | fault => trivial
  | hang => trivial
  | fuel => trivial

/-- The method `next`, whatever is left to read. -/
theorem parser.next_hasRead (p : parser) (hpk : p.peekCount ≤ 1) :
    p.next.holds fun i q => p.hasRead i q := by
  rcases Nat.le_one_iff_eq_zero_or_eq_one.mp hpk with h0 | h1
  · unfold parser.next
    simp only [h0, gt_iff_lt, Nat.lt_irrefl, if_false, parser.nextItem]
    cases hitems : p.lex.items with
    | cons i rest =>
      simp [res.bind, parser.tokenAt, h0, res.holds, parser.hasRead, parser.pending, hitems]
    | nil =>
      cases hend : p.lex.ending <;>
      simp [res.bind, parser.tokenAt, h0, res.holds, parser.hasRead, parser.pending, hitems,
        endEvents_cons, hasEndCalendar_cons, endEvents, hasEndCalendar]
  · unfold parser.next
    simp [h1, parser.tokenAt, res.holds, parser.hasRead, parser.pending]

/-- After `next`, the method `backup` puts the item back. -/
theorem parser.backup_hasRead (p : parser) (i : item) (q : parser) (hr : p.hasRead i q) :
    q.backup.peekCount = 1 ∧ q.backup.c = p.c
      ∧ endEvents q.backup.pending = endEvents p.pending
      ∧ hasEndCalendar q.backup.pending = hasEndCalendar p.pending := by
  obtain ⟨h0, ht, hc, he, hh⟩ := hr
  simp only [parser.pending, h0] at he hh
  simp [parser.backup, parser.pending, h0, ht, hc, he, hh]

theorem parser.advances_error (p q : parser) (err : error) (hq : q.peekCount ≤ 1)
    (he : err ≠ error.errorDone) : p.advances (some err) q := by
  refine ⟨hq, fun h => by simp at h, fun h => ?_⟩
  simp only [Option.some.injEq] at h
  exact absurd h he

theorem parser.advances_trans {p q r : parser} {err : Option error} (h1 : p.advances none q)
    (h2 : q.advances err r) : p.advances err r := by
  obtain ⟨-, a, -⟩ := h1
  obtain ⟨a1, a2⟩ := a rfl
  obtain ⟨b0, b1, b2⟩ := h2
  refine ⟨b0, fun he => ?_, fun he => ?_⟩
  · obtain ⟨c1, c2⟩ := b1 he
    exact ⟨by omega, fun hh => a2 (c2 hh)⟩
  · obtain ⟨c1, c2⟩ := b2 he
    exact ⟨by omega, a2 c2⟩

/-- A step that reads nothing and adds no event. -/
theorem parser.advances_of_eq (p q : parser) (hq : q.peekCount ≤ 1)
    (hc : q.c.Events.length = p.c.Events.length) (hp : q.pending = p.pending) :
    p.advances none q := by
  refine ⟨hq, fun _ => ⟨by rw [hc, hp], fun h => by rwa [hp] at h⟩, fun h => by simp at h⟩

/-- Reading an item that is neither END:VEVENT nor END:VCALENDAR. -/
theorem parser.advances_of_hasRead {p q : parser} {i : item} (hr : p.hasRead i q)
    (h1 : i.typ ≠ itemEndVCalendar) (h2 : i.typ ≠ itemEndVEvent) : p.advances none q := by
  obtain ⟨h0, -, hc, he, hh⟩ := hr
  rw [endEvents_cons_other _ _ h1 h2] at he
  rw [hasEndCalendar_cons_other _ _ h1] at hh
  refine ⟨by omega, fun _ => ⟨by rw [hc, he], fun h => by rwa [hh]⟩, fun h => by simp at h⟩

/-- Reading an item and putting it back. -/
theorem parser.advances_backup {p q : parser} {i : item} (hr : p.hasRead i q) :
    p.advances none q.backup := by
  obtain ⟨b1, b2, b3, b4⟩ := parser.backup_hasRead p i q hr
  refine ⟨by omega, fun _ => ⟨by rw [b2, b3], fun h => by rwa [← b4]⟩, fun h => by simp at h⟩

/-- The statement that reads the CRLF after a delimiter. -/
theorem parser.expectLineEnd_advances (p : parser) (hpk : p.peekCount ≤ 1) :
    p.expectLineEnd.holds fun err q => p.advances err q := by
  unfold parser.expectLineEnd
  refine res.holds_bind _ _ (parser.next_hasRead p hpk) fun i q hr => ?_
  by_cases hi : i.typ = itemLineEnd
  · simp only [hi, ne_eq, not_true_eq_false, if_false, res.holds]
    exact parser.advances_of_hasRead hr (by simp [hi]) (by simp [hi])
  · simp only [ne_eq, hi, not_false_eq_true, if_true, res.holds]
    exact parser.advances_error p q _ (by rw [hr.1]; omega) (by simp)

/-- The loop of `scanValues` reads neither END:VEVENT nor END:VCALENDAR unless it returns an
error. -/
theorem parser.scanValuesLoop_advances : ∀ (n : Nat) (p : parser) (param : Param),
    p.peekCount ≤ 1 → (parser.scanValuesLoop n p param).holds fun r q => p.advances r.2 q
  | 0, _, _, _ => trivial
  | n + 1, p, param, hpk => by
    unfold parser.scanValuesLoop
    refine res.holds_bind _ _ (parser.next_hasRead p hpk) fun i p1 hr1 => ?_
    by_cases hi : i.typ = itemComma
    · simp only [hi, ne_eq, not_true_eq_false, if_false]
      have a1 := parser.advances_of_hasRead hr1 (by simp [hi]) (by simp [hi])
      refine res.holds_bind _ _ (parser.next_hasRead p1 (by rw [hr1.1]; omega)) fun j p2 hr2 => ?_
      by_cases hj : j.typ = itemParamValue
      · simp only [hj, ne_eq, not_true_eq_false, if_false]
        have a2 := parser.advances_of_hasRead hr2 (by simp [hj]) (by simp [hj])
        refine res.holds_mono _ (parser.scanValuesLoop_advances n p2 _ (by rw [hr2.1]; omega))
          fun r q hq => parser.advances_trans (parser.advances_trans a1 a2) hq
      · simp only [ne_eq, hj, not_false_eq_true, if_true, res.holds]
        exact parser.advances_error p p2 _ (by rw [hr2.1]; omega) (by simp)
    · simp only [ne_eq, hi, not_false_eq_true, if_true, res.holds]
      exact parser.advances_backup hr1

theorem parser.scanValues_advances (n : Nat) (p : parser) (param : Param) (hpk : p.peekCount ≤ 1) :
    (parser.scanValues n p param).holds fun r q => p.advances r.2 q := by
  unfold parser.scanValues
  refine res.holds_bind _ _ (parser.next_hasRead p hpk) fun j p2 hr2 => ?_
  by_cases hj : j.typ = itemParamValue
  · simp only [hj, ne_eq, not_true_eq_false, if_false]
    have a2 := parser.advances_of_hasRead hr2 (by simp [hj]) (by simp [hj])
    refine res.holds_mono _ (parser.scanValuesLoop_advances n p2 _ (by rw [hr2.1]; omega))
      fun r q hq => parser.advances_trans a2 hq
  · simp only [ne_eq, hj, not_false_eq_true, if_true, res.holds]
    exact parser.advances_error p p2 _ (by rw [hr2.1]; omega) (by simp)

theorem parser.scanParams_advances : ∀ (n : Nat) (p : parser) (prop : Property),
    p.peekCount ≤ 1 → (parser.scanParams n p prop).holds fun r q => p.advances r.2 q
  | 0, _, _, _ => trivial
  | n + 1, p, prop, hpk => by
    unfold parser.scanParams
    refine res.holds_bind _ _ (parser.next_hasRead p hpk) fun i p1 hr1 => ?_
    by_cases hi : i.typ = itemSemiColon
    · simp only [hi, ne_eq, not_true_eq_false, if_false]
      have a1 := parser.advances_of_hasRead hr1 (by simp [hi]) (by simp [hi])
      refine res.holds_bind _ _ (parser.next_hasRead p1 (by rw [hr1.1]; omega)) fun j p2 hr2 => ?_
      by_cases hj : j.typ = itemParamName
      · simp only [hj, ne_eq, not_true_eq_false, if_false]
        have a2 := parser.advances_of_hasRead hr2 (by simp [hj]) (by simp [hj])
        refine res.holds_bind _ _ (parser.next_hasRead p2 (by rw [hr2.1]; omega))
          fun k p3 hr3 => ?_
        by_cases hk : k.typ = itemEqual
        · simp only [hk, ne_eq, not_true_eq_false, if_false]
          have a3 := parser.advances_of_hasRead hr3 (by simp [hk]) (by simp [hk])
          refine res.holds_bind _ _ (parser.scanValues_advances n p3 NewParam
            (by rw [hr3.1]; omega)) fun r p4 hr4 => ?_
          have a4 : p.advances r.2 p4 :=
            parser.advances_trans (parser.advances_trans (parser.advances_trans a1 a2) a3) hr4
          cases hr2e : r.2 with
          | some e =>
            simp only [res.holds]
            rw [hr2e] at a4
            exact a4
          | none =>
            simp only
            rw [hr2e] at a4
            refine res.holds_mono _ (parser.scanParams_advances n p4 _ a4.1)
              fun r q hq => parser.advances_trans a4 hq
        · simp only [ne_eq, hk, not_false_eq_true, if_true, res.holds]
          exact parser.advances_error p p3 _ (by rw [hr3.1]; omega) (by simp)
      · simp only [ne_eq, hj, not_false_eq_true, if_true, res.holds]
        exact parser.advances_error p p2 _ (by rw [hr2.1]; omega) (by simp)
    · simp only [ne_eq, hi, not_false_eq_true, if_true, res.holds]
      exact parser.advances_backup hr1

/-! ## The errors of the validations are not `errorDone` -/

theorem validateCalendarLoop_events : ∀ (rest : List Property) (c : Calendar) (n : Nat),
    (validateCalendarLoop rest c n).1.Events = c.Events
  | [], _, _ => rfl
  | prop :: rest, c, n => by
    rw [validateCalendarLoop, validateCalendarLoop_events]
    split_ifs <;> rfl

theorem validateCalendar_events (c : Calendar) : (validateCalendar c).1.Events = c.Events := by
  unfold validateCalendar
  simp only
  split <;> exact validateCalendarLoop_events _ _ _

theorem validateCalendar_error (c : Calendar) :
    (validateCalendar c).2 ≠ some error.errorDone := by
  unfold validateCalendar
  simp only
  split <;> simp

theorem counts.check_error (m : counts) : m.check ≠ some error.errorDone := by
  unfold counts.check
  cases m.find? fun e => decide (e.2 > 1) <;> simp

theorem validateAlarm_error (a : Alarm) : (validateAlarm a).2 ≠ some error.errorDone := by
  unfold validateAlarm
  simp only
  split
  · simp
  · exact counts.check_error _

theorem validateEventStep_error (h : Host) (l : Location) (all : List Property) (prop : Property)
    (v : Event) (uc : counts) (r : Event × counts)
    (hres : validateEventStep h l all prop v uc = validated.done r (some error.errorDone)) :
    False := by
  unfold validateEventStep at hres
  by_cases h1 : prop.Name = str "UID"
  · simp [h1, str_UID, str_DTSTAMP, str_DTSTART, str_DTEND, str_DURATION, str_SUMMARY,
      str_DESCRIPTION] at hres
  by_cases h2 : prop.Name = str "DTSTAMP"
  · cases hd : parseDate h prop l <;>
    simp [h2, hd, str_UID, str_DTSTAMP, str_DTSTART, str_DTEND, str_DURATION,
      str_SUMMARY, str_DESCRIPTION] at hres
  by_cases h3 : prop.Name = str "DTSTART"
  · cases hd : parseDate h prop l <;>
    simp [h3, hd, str_UID, str_DTSTAMP, str_DTSTART, str_DTEND, str_DURATION,
      str_SUMMARY, str_DESCRIPTION] at hres
  by_cases h4 : prop.Name = str "DTEND"
  · by_cases hh : hasProperty (str "DURATION") all = true <;> rw [str_DURATION] at hh <;>
    cases hd : parseDate h prop l <;>
    simp [h4, hd, hh, str_UID, str_DTSTAMP, str_DTSTART, str_DTEND, str_DURATION,
      str_SUMMARY, str_DESCRIPTION] at hres
  by_cases h5 : prop.Name = str "DURATION"
  · by_cases hh : hasProperty (str "DTEND") all = true <;> rw [str_DTEND] at hh <;>
    simp [h5, hh, str_UID, str_DTSTAMP, str_DTSTART, str_DTEND, str_DURATION,
      str_SUMMARY, str_DESCRIPTION] at hres
  by_cases h6 : prop.Name = str "SUMMARY"
  · simp [h6, str_UID, str_DTSTAMP, str_DTSTART, str_DTEND, str_DURATION, str_SUMMARY,
      str_DESCRIPTION] at hres
  by_cases h7 : prop.Name = str "DESCRIPTION"
  · simp [h7, str_UID, str_DTSTAMP, str_DTSTART, str_DTEND, str_DURATION, str_SUMMARY,
      str_DESCRIPTION] at hres
  simp [h1, h2, h3, h4, h5, h6, h7] at hres

theorem validateEventLoop_error (h : Host) (l : Location) (all : List Property) :
    ∀ (rest : List Property) (v : Event) (uc : counts) (r : Event × counts),
      validateEventLoop h l all rest v uc ≠ validated.done r (some error.errorDone)
  | [], v, uc, r => by simp [validateEventLoop]
  | prop :: rest, v, uc, r => by
    rw [validateEventLoop]
    cases hstep : validateEventStep h l all prop v uc with
    | fault => simp
    | done r1 err =>
      cases err with
      | none => exact validateEventLoop_error h l all rest r1.1 r1.2 r
      | some e =>
        simp only [ne_eq, validated.done.injEq, Option.some.injEq, not_and]
        intro hr he
        subst he
        exact validateEventStep_error h l all prop v uc r1 hstep

theorem validateEvent_error (h : Host) (method : Str) (l : Location) (v v1 : Event) :
    validateEvent h method l v ≠ validated.done v1 (some error.errorDone) := by
  unfold validateEvent
  cases hloop : validateEventLoop h l v.Properties v.Properties v [] with
  | fault => simp
  | done r err =>
    cases err with
    | some e =>
      simp only [ne_eq, validated.done.injEq, Option.some.injEq, not_and]
      intro _ he
      subst he
      exact validateEventLoop_error h l _ _ _ _ r hloop
    | none =>
      simp only
      split
      · simp
      · split
        · simp
        · split
          · simp
          · cases hcheck : r.2.check with
            | some e =>
              simp only [ne_eq, validated.done.injEq, Option.some.injEq, not_and]
              intro _ he
              subst he
              exact counts.check_error _ hcheck
            | none =>
              simp only
              split <;> simp

/-! ## The parser reads as many END:VEVENT as it adds events -/

/-- A delimiter has been read and the parser changed without reading: an END:VEVENT has
added one event, any other delimiter but END:VCALENDAR none. -/
theorem parser.advances_of_delimiter {p0 p p1 : parser} {i : item} (hr : p0.hasRead i p)
    (h1 : i.typ ≠ itemEndVCalendar) (hpk : p1.peekCount = p.peekCount)
    (hpend : p1.pending = p.pending)
    (hev : p1.c.Events.length
      = p.c.Events.length + if i.typ = itemEndVEvent then 1 else 0) :
    p0.advances none p1 := by
  obtain ⟨h0, -, hc, he, hh⟩ := hr
  rw [endEvents_cons, if_neg h1] at he
  rw [hasEndCalendar_cons_other _ _ h1] at hh
  refine ⟨by omega, fun _ => ⟨?_, fun h => ?_⟩, fun h => by simp at h⟩
  · rw [hev, hpend, he, hc]
    omega
  · rw [hh, ← hpend]
    exact h

theorem parser.expectLineEnd_after {p0 p1 : parser} (ha : p0.advances none p1) :
    p1.expectLineEnd.holds fun err q => p0.advances err q :=
  res.holds_mono _ (parser.expectLineEnd_advances p1 ha.1)
    fun _ _ hq => parser.advances_trans ha hq

/-- The method `scanDelimiter` on the delimiter just read. -/
theorem parser.scanDelimiter_advances (h : Host) (loc : Location) (p0 p : parser) (delim : item)
    (hr : p0.hasRead delim p) :
    (p.scanDelimiter h loc delim).holds fun err q => p0.advances err q := by
  have hpk : p.peekCount ≤ 1 := by rw [hr.1]; omega
  unfold parser.scanDelimiter
  split
  · rename_i hd
    simp only
    cases hvc : (validateCalendar p.c).2 with
    | some e =>
      simp only [res.holds]
      refine parser.advances_error _ _ _ hpk fun he => ?_
      subst he
      exact validateCalendar_error p.c hvc
    | none =>
      simp only
      refine parser.expectLineEnd_after (parser.advances_of_delimiter hr (by simp [hd]) rfl rfl ?_)
      simp [hd, parser.enterScope, validateCalendar_events]
  · rename_i hd
    cases hv : p.v.bind fun i => p.events.get? i with
    | none => trivial
    | some v =>
      simp only
      cases hval : validateEvent h p.c.Method loc v with
      | fault => trivial
      | done v1 err =>
        cases err with
        | some e =>
          simp only [res.holds]
          refine parser.advances_error _ _ _ hpk fun he => ?_
          subst he
          exact validateEvent_error h _ loc v v1 hval
        | none =>
          simp only
          refine parser.expectLineEnd_after
            (parser.advances_of_delimiter hr (by simp [hd]) rfl rfl ?_)
          simp [hd, parser.leaveScope, scopeCalendar]
  · rename_i hd
    refine parser.expectLineEnd_after (parser.advances_of_delimiter hr (by simp [hd]) rfl rfl ?_)
    simp [hd, parser.enterScope, parser.leaveScope, scopeCalendar, scopeEvent, scopeAlarm,
      scopeTimezone, scopeStandard, scopeDaylight]
  · rename_i hd
    refine parser.expectLineEnd_after (parser.advances_of_delimiter hr (by simp [hd]) rfl rfl ?_)
    simp [hd, parser.enterScope, parser.leaveScope, scopeCalendar, scopeEvent, scopeAlarm,
      scopeTimezone, scopeStandard, scopeDaylight]
  · rename_i hd
    refine parser.expectLineEnd_after (parser.advances_of_delimiter hr (by simp [hd]) rfl rfl ?_)
    simp [hd, parser.enterScope, parser.leaveScope, scopeCalendar, scopeEvent, scopeAlarm,
      scopeTimezone, scopeStandard, scopeDaylight]
  · rename_i hd
    cases hv : p.t.bind fun i => p.timezones.get? i with
    | none => trivial
    | some t =>
      simp only
      refine parser.expectLineEnd_after (parser.advances_of_delimiter hr (by simp [hd]) rfl rfl ?_)
      simp [hd, parser.leaveScope, scopeTimezone]
  · rename_i hd
    refine parser.expectLineEnd_after (parser.advances_of_delimiter hr (by simp [hd]) rfl rfl ?_)
    simp [hd, parser.enterScope, parser.leaveScope, scopeCalendar, scopeEvent, scopeAlarm,
      scopeTimezone, scopeStandard, scopeDaylight]
  · rename_i hd
    cases hv : p.t.bind fun i => p.timezones.get? i with
    | none => trivial
    | some t =>
      simp only
      refine parser.expectLineEnd_after (parser.advances_of_delimiter hr (by simp [hd]) rfl rfl ?_)
      simp [hd, parser.leaveScope, scopeTimezone]
  · rename_i hd
    refine parser.expectLineEnd_after (parser.advances_of_delimiter hr (by simp [hd]) rfl rfl ?_)
    simp [hd, parser.enterScope, parser.leaveScope, scopeCalendar, scopeEvent, scopeAlarm,
      scopeTimezone, scopeStandard, scopeDaylight]
  · rename_i hd
    cases ha : p.a.bind fun i => p.alarms.get? i with
    | none => trivial
    | some a =>
      simp only
      cases hva : (validateAlarm a).2 with
      | some e =>
        simp only [res.holds]
        refine parser.advances_error _ _ _ hpk fun he => ?_
        subst he
        exact validateAlarm_error a hva
      | none =>
        simp only
        cases hv : p.v.bind fun i => p.events.get? i with
        | none => trivial
        | some v =>
          simp only
          refine parser.expectLineEnd_after
            (parser.advances_of_delimiter hr (by simp [hd]) rfl rfl ?_)
          simp [hd, parser.leaveScope, scopeEvent]
  · rename_i hd
    obtain ⟨h0, -, hc, he, hh⟩ := hr
    rw [endEvents_cons, if_pos hd] at he
    rw [hasEndCalendar_cons] at hh
    split
    · exact parser.advances_error _ _ _ hpk (by simp)
    · refine ⟨hpk, fun hn => by simp at hn, fun _ => ⟨by rw [hc, he]; rfl, ?_⟩⟩
      rw [hh]
      simp [hd]
  · rename_i h1 h2 h3 h4 h5 h6 h7 h8 h9 h10 h11
    exact parser.advances_of_hasRead hr (fun hd => h11 hd) (fun hd => h2 hd)

/-- The `switch p.scope` that stores a property reads nothing and adds no event. -/
theorem parser.store_advances (p : parser) (prop : Property) (hpk : p.peekCount ≤ 1) :
    (p.store prop).holds fun err q => p.advances err q := by
  unfold parser.store
  split
  · exact parser.advances_of_eq _ _ hpk rfl rfl
  split
  · split
    · trivial
    · exact parser.advances_of_eq _ _ hpk rfl rfl
  split
  · split
    · trivial
    · exact parser.advances_of_eq _ _ hpk rfl rfl
  split
  · split
    · trivial
    · exact parser.advances_of_eq _ _ hpk rfl rfl
  split
  · split
    · trivial
    · exact parser.advances_of_eq _ _ hpk rfl rfl
  split
  · split
    · trivial
    · exact parser.advances_of_eq _ _ hpk rfl rfl
  exact parser.advances_error _ _ _ hpk (by simp)

/-- The method `scanContentLine`: when it returns no error it has added an event for each
END:VEVENT it has read and has read no END:VCALENDAR; when it returns `errorDone` it has
read the first END:VCALENDAR. -/
theorem parser.scanContentLine_advances (h : Host) (loc : Location) :
    ∀ (n : Nat) (p : parser), p.peekCount ≤ 1 →
      (parser.scanContentLine h loc n p).holds fun err q => p.advances err q
  | 0, _, _ => trivial
  | n + 1, p, hpk => by
    unfold parser.scanContentLine
    refine res.holds_bind _ _ (parser.next_hasRead p hpk) fun name p1 hr1 => ?_
    have hpk1 : p1.peekCount ≤ 1 := by rw [hr1.1]; omega
    split
    · refine res.holds_bind _ _ (parser.scanDelimiter_advances h loc p p1 name hr1)
        fun err p2 ha => ?_
      cases err with
      | some e => exact ha
      | none =>
        exact res.holds_mono _ (parser.scanContentLine_advances h loc n p2 ha.1)
          fun _ _ hq => parser.advances_trans ha hq
    · split
      · exact parser.advances_error _ _ _ hpk1 (by simp)
      · rename_i hkw hname
        have hn : name.typ = itemName := by simpa [isItemName] using hname
        have a1 := parser.advances_of_hasRead hr1 (by simp [hn]) (by simp [hn])
        refine res.holds_bind _ _ (parser.scanParams_advances n p1 _ hpk1) fun r p2 hr2 => ?_
        have a2 : p.advances r.2 p2 := parser.advances_trans a1 hr2
        cases hr2e : r.2 with
        | some e =>
          rw [hr2e] at a2
          exact a2
        | none =>
          rw [hr2e] at a2
          simp only
          refine res.holds_bind _ _ (parser.next_hasRead p2 a2.1) fun i p3 hr3 => ?_
          have hpk3 : p3.peekCount ≤ 1 := by rw [hr3.1]; omega
          by_cases hi : i.typ = itemColon
          · simp only [hi, ne_eq, not_true_eq_false, if_false]
            have a3 := parser.advances_of_hasRead hr3 (by simp [hi]) (by simp [hi])
            refine res.holds_bind _ _ (parser.next_hasRead p3 hpk3) fun value p4 hr4 => ?_
            have hpk4 : p4.peekCount ≤ 1 := by rw [hr4.1]; omega
            by_cases hv : value.typ = itemValue
            · simp only [hv, ne_eq, not_true_eq_false, if_false]
              have a4 := parser.advances_of_hasRead hr4 (by simp [hv]) (by simp [hv])
              refine res.holds_bind _ _ (parser.next_hasRead p4 hpk4) fun j p5 hr5 => ?_
              have hpk5 : p5.peekCount ≤ 1 := by rw [hr5.1]; omega
              by_cases hj : j.typ = itemLineEnd
              · simp only [hj, ne_eq, not_true_eq_false, if_false]
                have a5 := parser.advances_of_hasRead hr5 (by simp [hj]) (by simp [hj])
                exact res.holds_mono _ (parser.store_advances p5 _ hpk5) fun _ _ hq =>
                  parser.advances_trans (parser.advances_trans (parser.advances_trans
                    (parser.advances_trans a2 a3) a4) a5) hq
              · simp only [ne_eq, hj, not_false_eq_true, if_true, res.holds]
                exact parser.advances_error _ _ _ hpk5 (by simp)
            · simp only [ne_eq, hv, not_false_eq_true, if_true, res.holds]
              exact parser.advances_error _ _ _ hpk4 (by simp)
          · simp only [ne_eq, hi, not_false_eq_true, if_true, res.holds]
            exact parser.advances_error _ _ _ hpk3 (by simp)

/-- The loop of `parse` ends with `errorDone` only when it has read the first END:VCALENDAR,
after as many END:VEVENT as it has added events. -/
theorem parser.parseLoop_done (h : Host) (loc : Location) :
    ∀ (n : Nat) (p : parser), p.peekCount ≤ 1 →
      (parser.parseLoop h loc n p).holds fun e q => p.advances (some e) q
  | 0, _, _ => trivial
  | n + 1, p, hpk => by
    unfold parser.parseLoop
    refine res.holds_bind _ _ (parser.scanContentLine_advances h loc n p hpk) fun err p1 ha => ?_
    cases err with
    | some e => exact ha
    | none =>
      exact res.holds_mono _ (parser.parseLoop_done h loc n p1 ha.1)
        fun _ _ hq => parser.advances_trans ha hq

/-- The method `parse` returns no error only when it has read the first END:VCALENDAR, after
as many END:VEVENT as it has added events. -/
theorem parser.parse_done (h : Host) (loc : Location) (n : Nat) (p q : parser)
    (hpk : p.peekCount ≤ 1) (hres : p.parse h loc n = res.ok none q) :
    q.c.Events.length = p.c.Events.length + endEvents p.pending
      ∧ hasEndCalendar p.pending = true := by
  have key : (p.parse h loc n).holds fun err q =>
      err = none → q.c.Events.length = p.c.Events.length + endEvents p.pending
        ∧ hasEndCalendar p.pending = true := by
    unfold parser.parse
    refine res.holds_bind _ _ (parser.next_hasRead p hpk) fun i p1 hr1 => ?_
    by_cases hi : i.typ = itemBeginVCalendar
    · simp only [hi, ne_eq, not_true_eq_false, if_false]
      have a1 := parser.advances_of_hasRead hr1 (by simp [hi]) (by simp [hi])
      refine res.holds_bind _ _ (parser.next_hasRead p1 a1.1) fun j p2 hr2 => ?_
      by_cases hj : j.typ = itemLineEnd
      · simp only [hj, ne_eq, not_true_eq_false, if_false]
        have a2 := parser.advances_of_hasRead hr2 (by simp [hj]) (by simp [hj])
        refine res.holds_bind _ _ (parser.parseLoop_done h loc n p2 a2.1) fun e p3 ha => ?_
        by_cases he : e = error.errorDone
        · simp only [he, if_true, res.holds]
          intro _
          subst he
          exact (parser.advances_trans (parser.advances_trans a1 a2) ha).2.2 rfl
        · simp [he, res.holds]
      · simp [hj, res.holds]
    · simp [hi, res.holds]
  rw [hres] at key
  exact key rfl

/-- `Parse` returns a document only when the parser has read the first END:VCALENDAR, after
as many END:VEVENT as the calendar has events. -/
theorem Parse_ok_reads (h : Host) (r : Str) (l : Option Location) (d : Document)
    (hok : Parse h r l = outcome.ok d) :
    d.c.Events.length = endEvents (lex h (unfold r)).items
      ∧ hasEndCalendar (lex h (unfold r)).items = true := by
  unfold Parse at hok
  simp only at hok
  split at hok
  · rename_i err p1 hparse
    split at hok
    · simp at hok
    · cases err with
      | some e => simp at hok
      | none =>
        simp only [outcome.ok.injEq] at hok
        have := parser.parse_done h _ _ _ p1 (by simp [newParser]) hparse
        simp only [newParser, parser.pending, NewCalendar, List.length_nil, Nat.zero_add] at this
        rw [← hok]
        exact this
  · simp at hok
  · simp at hok
  · simp at hok

/-! ## The loops of `lexParamValue` at the end of the input -/

/-- At the end of the input `next` returns `eof` and moves nothing. -/
theorem lexer.next_at_end (l : lexer) (hl : l.input.length ≤ l.pos) :
    l.next = (eof, { l with width := 0 }) := by
  unfold lexer.next
  rw [if_pos hl]

/-- A loop that accepts `eof` does not leave at the end of the input, whatever the number of
rounds. -/
theorem absorb_at_end (accept : Int → Bool) (hacc : accept eof = true) :
    ∀ (n : Nat) (l : lexer), l.input.length ≤ l.pos → absorb accept n l = none
  | 0, _, _ => rfl
  | n + 1, l, hl => by
    rw [absorb, lexer.next_at_end l hl]
    simp only [hacc, if_true]
    exact absorb_at_end accept hacc n _ hl

/-! ## Every parameter the parser stores has a value -/

theorem mapSet_values : ∀ (m : List (Str × Param)) (k : Str) (v : Param),
    (∀ e ∈ m, e.2.Values ≠ []) → v.Values ≠ [] → ∀ e ∈ mapSet m k v, e.2.Values ≠ []
  | [], k, v, _, hv => by
    intro e he
    simp only [mapSet, List.mem_singleton] at he
    subst he
    exact hv
  | e0 :: m, k, v, hm, hv => by
    intro e he
    rw [mapSet] at he
    split at he
    · rcases List.mem_cons.mp he with rfl | hin
      · exact hv
      · exact hm e (List.mem_cons_of_mem _ hin)
    · rcases List.mem_cons.mp he with rfl | hin
      · exact hm e (List.mem_cons_self _ _)
      · exact mapSet_values m k v (fun e1 he1 => hm e1 (List.mem_cons_of_mem _ he1)) hv e hin

/-- The loop of `scanValues` takes no value away. -/
theorem parser.scanValuesLoop_values : ∀ (n : Nat) (p : parser) (param : Param),
    param.Values ≠ [] → (parser.scanValuesLoop n p param).holds fun r _ => r.1.Values ≠ []
  | 0, _, _, _ => trivial
  | n + 1, p, param, hv => by
    unfold parser.scanValuesLoop
    cases p.next with
    | ok i p1 =>
      simp only [res.bind]
      split
      · exact hv
      · cases p1.next with
        | ok j p2 =>
          simp only [res.bind]
          split
          · exact hv
          · exact parser.scanValuesLoop_values n p2 _ (by simp)
        | fault => trivial
        | hang => trivial
        | fuel => trivial
    | fault => trivial
    | hang => trivial
    | fuel => trivial

/-- The method `scanValues` returns no error only with a value. -/
theorem parser.scanValues_values (n : Nat) (p : parser) :
    (parser.scanValues n p NewParam).holds fun r _ => r.2 = none → r.1.Values ≠ [] := by
  unfold parser.scanValues
  cases p.next with
  | ok i p1 =>
    simp only [res.bind]
    split
    · simp [res.holds]
    · exact res.holds_mono _ (parser.scanValuesLoop_values n p1 _ (by simp)) fun _ _ h _ => h
  | fault => trivial
  | hang => trivial
  | fuel => trivial

/-- The method `scanParams` stores parameters that have a value only. -/
theorem parser.scanParams_values : ∀ (n : Nat) (p : parser) (prop : Property),
    (∀ e ∈ prop.Params, e.2.Values ≠ []) →
    (parser.scanParams n p prop).holds fun r _ => r.2 = none → ∀ e ∈ r.1.Params, e.2.Values ≠ []
  | 0, _, _, _ => trivial
  | n + 1, p, prop, hprop => by
    unfold parser.scanParams
    cases p.next with
    | ok i p1 =>
      simp only [res.bind]
      split
      · exact fun _ => hprop
      · cases p1.next with
        | ok j p2 =>
          simp only [res.bind]
          split
          · simp [res.holds]
          · cases p2.next with
            | ok k p3 =>
              simp only [res.bind]
              split
              · simp [res.holds]
              · have hv := parser.scanValues_values n p3
                cases hsv : parser.scanValues n p3 NewParam with
                | ok r p4 =>
                  rw [hsv] at hv
                  simp only [res.bind]
                  cases hr2 : r.2 with
                  | some e => simp [res.holds]
                  | none =>
                    simp only
                    exact parser.scanParams_values n p4 _
                      (mapSet_values _ _ _ hprop (hv hr2))
                | fault => trivial
                | hang => trivial
                | fuel => trivial
            | fault => trivial
            | hang => trivial
            | fuel => trivial
        | fault => trivial
        | hang => trivial
        | fuel => trivial
    | fault => trivial
    | hang => trivial
    | fuel => trivial

/-! ## Dates that cannot be parsed -/

/-- With an error `time.ParseInLocation` returns the zero time. -/
theorem time.ParseInLocation_error (lay : layout) (value : Str) (loc : Location) (e : ParseError)
    (he : (time.ParseInLocation lay value loc).2 = some e) :
    (time.ParseInLocation lay value loc).1 = Time.zero := by
  unfold time.ParseInLocation at he ⊢
  split
  · split
    · rfl
    · rename_i heq hday
      simp only [heq, hday, if_false] at he
      simp at he
  · rfl

/-- With an error `parseDate` returns the zero time. -/
theorem parseDate_error (h : Host) (prop : Property) (l : Location) (t : Time) (e : ParseError)
    (hparse : parseDate h prop l = some (t, some e)) : t = Time.zero := by
  have key : ∀ lay value loc, some (time.ParseInLocation lay value loc) = some (t, some e) →
      t = Time.zero := by
    intro lay value loc heq
    simp only [Option.some.injEq] at heq
    have h1 := time.ParseInLocation_error lay value loc e (by rw [heq])
    rw [heq] at h1
    exact h1
  unfold parseDate at hparse
  split at hparse
  · exact key _ _ _ hparse
  · split at hparse
    · split at hparse
      · simp at hparse
      · exact key _ _ _ hparse
    · split at hparse
      · exact key _ _ _ hparse
      · split at hparse
        · split at hparse
          · simp at hparse
          · exact key _ _ _ hparse
        · exact key _ _ _ hparse

/-- One round of the loop of `validateEvent` when no parameter lacks its value and DTEND
and DURATION do not both occur: the times it promotes. -/
theorem validateEventStep_dates (h : Host) (l : Location) (all : List Property) (prop : Property)
    (v : Event) (uc : counts)
    (hpd : ∃ d, parseDate h prop l = some d)
    (hc : ¬ (hasProperty (str "DTEND") all = true ∧ hasProperty (str "DURATION") all = true))
    (hin : prop ∈ all) :
    ∃ r, validateEventStep h l all prop v uc = validated.done r none
      ∧ (prop.Name = str "DTSTAMP" → ∀ d, parseDate h prop l = some d → r.1.Timestamp = d.1)
      ∧ (prop.Name = str "DTEND" → ∀ d, parseDate h prop l = some d → r.1.EndDate = d.1)
      ∧ (prop.Name ≠ str "DTEND" → r.1.EndDate = v.EndDate)
      ∧ (prop.Name ≠ str "DTSTAMP" → r.1.Timestamp = v.Timestamp) := by
  obtain ⟨d, hd⟩ := hpd
  have hmem := hasProperty_of_mem prop all hin
  have hE : prop.Name = str "DTEND" → hasProperty (str "DURATION") all = false := by
    intro hn
    rw [hn] at hmem
    simpa [hmem] using hc
  have hD : prop.Name = str "DURATION" → hasProperty (str "DTEND") all = false := by
    intro hn
    rw [hn] at hmem
    simpa [hmem] using hc
  unfold validateEventStep
  by_cases h1 : prop.Name = str "UID"
  · refine ⟨({ v with UID := prop.Value }, uc.incr "UID"), ?_, ?_, ?_, ?_, ?_⟩
    · simp [h1, hd, str_UID, str_DTSTAMP, str_DTSTART, str_DTEND, str_DURATION, str_SUMMARY, str_DESCRIPTION]
    · simp [h1, hd, str_UID, str_DTSTAMP, str_DTSTART, str_DTEND, str_DURATION, str_SUMMARY, str_DESCRIPTION]
    · simp [h1, hd, str_UID, str_DTSTAMP, str_DTSTART, str_DTEND, str_DURATION, str_SUMMARY, str_DESCRIPTION]
    · simp [h1, str_UID, str_DTSTAMP, str_DTSTART, str_DTEND, str_DURATION, str_SUMMARY, str_DESCRIPTION]
    · simp [h1, str_UID, str_DTSTAMP, str_DTSTART, str_DTEND, str_DURATION, str_SUMMARY, str_DESCRIPTION]
  by_cases h2 : prop.Name = str "DTSTAMP"
  · refine ⟨({ v with Timestamp := d.1 }, uc.incr "DTSTAMP"), ?_, ?_, ?_, ?_, ?_⟩
    · simp [h2, hd, str_UID, str_DTSTAMP, str_DTSTART, str_DTEND, str_DURATION, str_SUMMARY, str_DESCRIPTION]
    · simp [h2, hd, str_UID, str_DTSTAMP, str_DTSTART, str_DTEND, str_DURATION, str_SUMMARY, str_DESCRIPTION]
    · simp [h2, hd, str_UID, str_DTSTAMP, str_DTSTART, str_DTEND, str_DURATION, str_SUMMARY, str_DESCRIPTION]
    · simp [h2, str_UID, str_DTSTAMP, str_DTSTART, str_DTEND, str_DURATION, str_SUMMARY, str_DESCRIPTION]
    · simp [h2, str_UID, str_DTSTAMP, str_DTSTART, str_DTEND, str_DURATION, str_SUMMARY, str_DESCRIPTION]
  by_cases h3 : prop.Name = str "DTSTART"
  · refine ⟨({ v with StartDate := d.1 }, uc.incr "DTSTART"), ?_, ?_, ?_, ?_, ?_⟩
    · simp [h3, hd, str_UID, str_DTSTAMP, str_DTSTART, str_DTEND, str_DURATION, str_SUMMARY, str_DESCRIPTION]
    · simp [h3, hd, str_UID, str_DTSTAMP, str_DTSTART, str_DTEND, str_DURATION, str_SUMMARY, str_DESCRIPTION]
    · simp [h3, hd, str_UID, str_DTSTAMP, str_DTSTART, str_DTEND, str_DURATION, str_SUMMARY, str_DESCRIPTION]
    · simp [h3, str_UID, str_DTSTAMP, str_DTSTART, str_DTEND, str_DURATION, str_SUMMARY, str_DESCRIPTION]
    · simp [h3, str_UID, str_DTSTAMP, str_DTSTART, str_DTEND, str_DURATION, str_SUMMARY, str_DESCRIPTION]
  by_cases h4 : prop.Name = str "DTEND"
  · have hno := hE h4
    rw [str_DURATION] at hno
    refine ⟨({ v with EndDate := d.1 }, uc.incr "DTEND"), ?_, ?_, ?_, ?_, ?_⟩
    · simp [h4, hd, hno, str_UID, str_DTSTAMP, str_DTSTART, str_DTEND, str_DURATION, str_SUMMARY, str_DESCRIPTION]
    · simp [h4, hd, str_UID, str_DTSTAMP, str_DTSTART, str_DTEND, str_DURATION, str_SUMMARY, str_DESCRIPTION]
    · simp [h4, hd, str_UID, str_DTSTAMP, str_DTSTART, str_DTEND, str_DURATION, str_SUMMARY, str_DESCRIPTION]
    · simp [h4, str_UID, str_DTSTAMP, str_DTSTART, str_DTEND, str_DURATION, str_SUMMARY, str_DESCRIPTION]
    · simp [h4, str_UID, str_DTSTAMP, str_DTSTART, str_DTEND, str_DURATION, str_SUMMARY, str_DESCRIPTION]
  by_cases h5 : prop.Name = str "DURATION"
  · have hno := hD h5
    rw [str_DTEND] at hno
    refine ⟨(v, uc.incr "DURATION"), ?_, ?_, ?_, ?_, ?_⟩
    · simp [h5, hd, hno, str_UID, str_DTSTAMP, str_DTSTART, str_DTEND, str_DURATION, str_SUMMARY, str_DESCRIPTION]
    · simp [h5, hd, str_UID, str_DTSTAMP, str_DTSTART, str_DTEND, str_DURATION, str_SUMMARY, str_DESCRIPTION]
    · simp [h5, hd, str_UID, str_DTSTAMP, str_DTSTART, str_DTEND, str_DURATION, str_SUMMARY, str_DESCRIPTION]
    · simp [h5, str_UID, str_DTSTAMP, str_DTSTART, str_DTEND, str_DURATION, str_SUMMARY, str_DESCRIPTION]
    · simp [h5, str_UID, str_DTSTAMP, str_DTSTART, str_DTEND, str_DURATION, str_SUMMARY, str_DESCRIPTION]
  by_cases h6 : prop.Name = str "SUMMARY"
  · refine ⟨({ v with Summary := prop.Value }, uc.incr "SUMMARY"), ?_, ?_, ?_, ?_, ?_⟩
    · simp [h6, hd, str_UID, str_DTSTAMP, str_DTSTART, str_DTEND, str_DURATION, str_SUMMARY, str_DESCRIPTION]
    · simp [h6, hd, str_UID, str_DTSTAMP, str_DTSTART, str_DTEND, str_DURATION, str_SUMMARY, str_DESCRIPTION]
    · simp [h6, hd, str_UID, str_DTSTAMP, str_DTSTART, str_DTEND, str_DURATION, str_SUMMARY, str_DESCRIPTION]
    · simp [h6, str_UID, str_DTSTAMP, str_DTSTART, str_DTEND, str_DURATION, str_SUMMARY, str_DESCRIPTION]
    · simp [h6, str_UID, str_DTSTAMP, str_DTSTART, str_DTEND, str_DURATION, str_SUMMARY, str_DESCRIPTION]
  by_cases h7 : prop.Name = str "DESCRIPTION"
  · refine ⟨({ v with Description := prop.Value }, uc.incr "DESCRIPTION"), ?_, ?_, ?_, ?_, ?_⟩
    · simp [h7, hd, str_UID, str_DTSTAMP, str_DTSTART, str_DTEND, str_DURATION, str_SUMMARY, str_DESCRIPTION]
    · simp [h7, hd, str_UID, str_DTSTAMP, str_DTSTART, str_DTEND, str_DURATION, str_SUMMARY, str_DESCRIPTION]
    · simp [h7, hd, str_UID, str_DTSTAMP, str_DTSTART, str_DTEND, str_DURATION, str_SUMMARY, str_DESCRIPTION]
    · simp [h7, str_UID, str_DTSTAMP, str_DTSTART, str_DTEND, str_DURATION, str_SUMMARY, str_DESCRIPTION]
    · simp [h7, str_UID, str_DTSTAMP, str_DTSTART, str_DTEND, str_DURATION, str_SUMMARY, str_DESCRIPTION]
  refine ⟨(v, uc), ?_, fun hn => absurd hn h2, fun hn => absurd hn h4, fun _ => rfl,
    fun _ => rfl⟩
  simp [h1, h2, h3, h4, h5, h6, h7]

/-- The loop of `validateEvent` when no parameter lacks its value and DTEND and DURATION do
not both occur: a DTSTAMP or DTEND that occurs once is promoted from the property that has
it, and without one the time is left. -/
theorem validateEventLoop_dates (h : Host) (l : Location) (all : List Property)
    (hc : ¬ (hasProperty (str "DTEND") all = true ∧ hasProperty (str "DURATION") all = true)) :
    ∀ (rest : List Property) (v : Event) (uc : counts),
      (∀ p ∈ rest, p ∈ all) → (∀ p ∈ rest, ∃ d, parseDate h p l = some d) →
      ∃ r, validateEventLoop h l all rest v uc = validated.done r none
        ∧ (rest.countP (fun p => decide (p.Name = str "DTSTAMP")) ≤ 1 →
            ∀ p ∈ rest, p.Name = str "DTSTAMP" →
              ∀ d, parseDate h p l = some d → r.1.Timestamp = d.1)
        ∧ (rest.countP (fun p => decide (p.Name = str "DTEND")) ≤ 1 →
            ∀ p ∈ rest, p.Name = str "DTEND" →
              ∀ d, parseDate h p l = some d → r.1.EndDate = d.1)
        ∧ (hasProperty (str "DTSTAMP") rest = false → r.1.Timestamp = v.Timestamp)
        ∧ (hasProperty (str "DTEND") rest = false → r.1.EndDate = v.EndDate)
  | [], v, uc, _, _ => by
    refine ⟨(v, uc), rfl, ?_, ?_, fun _ => rfl, fun _ => rfl⟩
    · intro _ p hp
      simp at hp
    · intro _ p hp
      simp at hp
  | prop :: rest, v, uc, hall, hpd => by
    obtain ⟨r1, hstep, a1, a2, a3, a4⟩ := validateEventStep_dates h l all prop v uc
      (hpd prop (List.mem_cons_self _ _)) hc (hall prop (List.mem_cons_self _ _))
    obtain ⟨r2, hloop, b1, b2, b3, b4⟩ := validateEventLoop_dates h l all hc rest r1.1 r1.2
      (fun p hp => hall p (List.mem_cons_of_mem _ hp))
      (fun p hp => hpd p (List.mem_cons_of_mem _ hp))
    refine ⟨r2, ?_, ?_, ?_, ?_, ?_⟩
    · rw [validateEventLoop, hstep]
      exact hloop
    · intro hle p hp hpn d hd
      rw [List.countP_cons] at hle
      rcases List.mem_cons.mp hp with rfl | hin
      · simp only [hpn, decide_True, if_true] at hle
        rw [b3 (hasProperty_eq_false_of_countP _ _ (by omega)), a1 hpn d hd]
      · exact b1 (by omega) p hin hpn d hd
    · intro hle p hp hpn d hd
      rw [List.countP_cons] at hle
      rcases List.mem_cons.mp hp with rfl | hin
      · simp only [hpn, decide_True, if_true] at hle
        rw [b4 (hasProperty_eq_false_of_countP _ _ (by omega)), a2 hpn d hd]
      · exact b2 (by omega) p hin hpn d hd
    · intro hno
      rw [hasProperty_cons, Bool.or_eq_false_iff, decide_eq_false_iff_not] at hno
      rw [b3 hno.2, a4 hno.1]
    · intro hno
      rw [hasProperty_cons, Bool.or_eq_false_iff, decide_eq_false_iff_not] at hno
      rw [b4 hno.2, a3 hno.1]

/-- What `validateEvent` returns after a loop without an error: an error when the time
stamp is missing and no method is set, when the UID or the start is missing, or when a name
was counted twice. -/
theorem validateEvent_reject (h : Host) (method : Str) (l : Location) (v : Event)
    (r : Event × counts)
    (hloop : validateEventLoop h l v.Properties v.Properties v [] = validated.done r none)
    (hbad : (method = [] ∧ r.1.Timestamp.IsZero = true) ∨ r.1.UID = []
      ∨ r.1.StartDate.IsZero = true ∨ r.2.check ≠ none) :
    ∃ v1 err, validateEvent h method l v = validated.done v1 (some err) := by
  unfold validateEvent
  rw [hloop]
  simp only
  split
  · exact ⟨_, _, rfl⟩
  · split
    · exact ⟨_, _, rfl⟩
    · split
      · exact ⟨_, _, rfl⟩
      · rename_i n1 n2 n3
        have hcheck : r.2.check ≠ none := by
          rcases hbad with hb | hb | hb | hb
          · exact absurd hb n1
          · exact absurd hb n2
          · exact absurd hb n3
          · exact hb
        obtain ⟨e2, he2⟩ := Option.ne_none_iff_exists'.mp hcheck
        simp only [he2]
        exact ⟨_, _, rfl⟩

/-- What `validateEvent` returns after a loop without an error, otherwise: no error, and
the end the loop has left when there is a DTEND. -/
theorem validateEvent_accept (h : Host) (method : Str) (l : Location) (v : Event)
    (r : Event × counts)
    (hloop : validateEventLoop h l v.Properties v.Properties v [] = validated.done r none)
    (h1 : ¬ (method = [] ∧ r.1.Timestamp.IsZero = true)) (h2 : r.1.UID ≠ [])
    (h3 : r.1.StartDate.IsZero = false) (h4 : r.2.check = none)
    (h5 : hasProperty (str "DTEND") r.1.Properties = true) :
    validateEvent h method l v = validated.done r.1 none := by
  unfold validateEvent
  rw [hloop]
  simp only [h1, if_false, h2, h3, Bool.false_eq_true, h4, h5, Bool.not_true]

/-- The loop of `validateEvent` on an event as the parser has collected it, when DTEND and
DURATION do not both occur: it ends without an error, the counts are those of the names,
and a name that occurs once is promoted from the property that has it. -/
theorem validateEvent_loop_collected (h : Host) (l : Location) (props : List Property)
    (alarms : List ptr) (hp : ∀ prop ∈ props, prop.hasValues = true)
    (hc : ¬ (hasProperty (str "DTEND") props = true
      ∧ hasProperty (str "DURATION") props = true)) :
    ∃ r, validateEventLoop h l (collected props alarms).Properties
          (collected props alarms).Properties (collected props alarms) []
        = validated.done r none
      ∧ r.1.Properties = props
      ∧ (r.2.check = none
          ↔ ∀ k ∈ eventKeys, props.countP (fun p => decide (p.Name = str k)) ≤ 1)
      ∧ (props.countP (fun p => decide (p.Name = str "UID")) ≤ 1 →
          ∀ p ∈ props, p.Name = str "UID" → r.1.UID = p.Value)
      ∧ (props.countP (fun p => decide (p.Name = str "DTSTART")) ≤ 1 →
          ∀ p ∈ props, p.Name = str "DTSTART" →
            ∀ d, parseDate h p l = some d → r.1.StartDate = d.1)
      ∧ (props.countP (fun p => decide (p.Name = str "DTSTAMP")) ≤ 1 →
          ∀ p ∈ props, p.Name = str "DTSTAMP" →
            ∀ d, parseDate h p l = some d → r.1.Timestamp = d.1)
      ∧ (props.countP (fun p => decide (p.Name = str "DTEND")) ≤ 1 →
          ∀ p ∈ props, p.Name = str "DTEND" →
            ∀ d, parseDate h p l = some d → r.1.EndDate = d.1) := by
  have hpd : ∀ q ∈ props, ∃ d, parseDate h q l = some d :=
    fun q hq => parseDate_isSome h q l (hp q hq)
  obtain ⟨r, hloop, r1, r2, -, r4, r5⟩ := validateEventLoop_ok h l props hc props
    (collected props alarms) [] (fun _ hq => hq) hpd (by simp)
  obtain ⟨r', hloop', d1, d2, -, -⟩ := validateEventLoop_dates h l props hc props
    (collected props alarms) [] (fun _ hq => hq) hpd
  have hrr : r' = r := by
    rw [hloop] at hloop'
    simp only [validated.done.injEq, and_true] at hloop'
    exact hloop'.symm
  subst hrr
  have hs := validateEventLoop_spec h l props props (collected props alarms) []
  rw [hloop] at hs
  obtain ⟨s1, -, -, s4, -⟩ := hs
  refine ⟨r', hloop, s1, ?_, r1, r2, d1, d2⟩
  rw [counts.check_eq_none_iff _ r4]
  constructor
  · intro hk k hkin
    have := hk k
    rw [s4 rfl k hkin] at this
    simpa [counts.get] using this
  · intro hk k
    by_cases hkin : k ∈ eventKeys
    · rw [s4 rfl k hkin]
      simpa [counts.get] using hk k hkin
    · rw [r5 k hkin]
      simp [counts.get]

/-- After a loop without an error that has left the start at the zero time, `validateEvent`
returns the first of the three errors of a missing required property that applies. -/
theorem validateEvent_missing_start (h : Host) (method : Str) (l : Location) (v : Event)
    (r : Event × counts)
    (hloop : validateEventLoop h l v.Properties v.Properties v [] = validated.done r none)
    (hz : r.1.StartDate = Time.zero) :
    ∃ err, validateEvent h method l v = validated.done r.1 (some err)
      ∧ (err = error.invalid "missing required property \"dtstamp\""
        ∨ err = error.invalid "missing required property \"uid\""
        ∨ err = error.invalid "missing required property \"dtstart\"") := by
  have hzero : r.1.StartDate.IsZero = true := by
    rw [hz]
    rfl
  unfold validateEvent
  rw [hloop]
  simp only
  split
  · exact ⟨_, rfl, Or.inl rfl⟩
  · split
    · exact ⟨_, rfl, Or.inr (Or.inl rfl)⟩
    · exact ⟨_, rfl, Or.inr (Or.inr rfl)⟩

/-- After a loop without an error that has left the time stamp at the zero time, in a
calendar without a method, `validateEvent` returns the error of the missing time stamp. -/
theorem validateEvent_missing_stamp (h : Host) (l : Location) (v : Event) (r : Event × counts)
    (hloop : validateEventLoop h l v.Properties v.Properties v [] = validated.done r none)
    (hz : r.1.Timestamp = Time.zero) :
    validateEvent h [] l v
      = validated.done r.1 (some (error.invalid "missing required property \"dtstamp\"")) := by
  have hzero : r.1.Timestamp.IsZero = true := by
    rw [hz]
    rfl
  unfold validateEvent
  rw [hloop]
  simp [hzero]

/-! ## A content line in whatever scope -/

/-- The method `scanParams` on the items of the parameters of a line, whatever their names:
each is assigned in the map. -/
theorem scanParams_fold : ∀ (qs : List pparam) (off : Nat) (p : parser) (prop : Property)
    (n : Nat) (t : item) (rest : List item),
    p.peekCount ≤ 1 → p.pending = paramsItems off qs ++ t :: rest →
    t.typ ≠ itemSemiColon → t.typ ≠ itemComma → (paramsItems off qs).length < n →
    ∃ q, parser.scanParams n p prop
        = res.ok (⟨prop.Name, paramsFold prop.Params qs, prop.Value⟩, none) q
      ∧ q.peekCount = 1 ∧ q.pending = t :: rest ∧ p.sameBut q
  | [], off, p, prop, n + 1, t, rest, hpk, hpend, ht, _, _ => by
    simp only [paramsItems, List.nil_append] at hpend
    obtain ⟨q, hq, hq0, hqi, hqt, hsame⟩ := parser.next_pending p t rest hpk hpend
    obtain ⟨b1, b2, b3⟩ := parser.backup_pending q hq0
    refine ⟨q.backup, ?_, b1, by rw [b2, hqt, hqi], parser.sameBut_trans hsame b3⟩
    simp [parser.scanParams, hq, res.bind, ht, paramsFold]
  | q :: qs, off, p, prop, n + 1, t, rest, hpk, hpend, ht, htc, hn => by
    simp only [paramsItems, pparam.items, List.cons_append, List.append_assoc] at hpend
    obtain ⟨t1, rest1, hhead, ht1⟩ := paramsItems_head qs (off + q.render.length) t rest htc
    rw [hhead] at hpend
    obtain ⟨p1, hp1, h10, h1i, -, hsame1⟩ := parser.next_pending p _ _ hpk hpend
    obtain ⟨p2, hp2, h20, h2i, -, hsame2⟩ := parser.next_pending p1 _ _ (by omega)
      (by simpa [parser.pending, h10] using h1i)
    obtain ⟨p3, hp3, h30, h3i, -, hsame3⟩ := parser.next_pending p2 _ _ (by omega)
      (by simpa [parser.pending, h20] using h2i)
    have hlen : (paramsItems off (q :: qs)).length
        = 4 + 2 * q.more.length + (paramsItems (off + q.render.length) qs).length := by
      simp only [paramsItems, pparam.items, List.length_append, List.length_cons,
        moreItems_length]
      omega
    obtain ⟨p4, hp4, h41, h4p, hsame4⟩ := scanValues_spec q.first q.more
      (off + 1 + (utf8 q.name).length + 1) p3 n t1 rest1 (by omega)
      (by simpa [parser.pending, h30] using h3i) ht1 (by omega)
    obtain ⟨p5, hp5, h51, h5p, hsame5⟩ := scanParams_fold qs (off + q.render.length) p4
      ⟨prop.Name, mapSet prop.Params (utf8 q.name) ⟨(q.first :: q.more).map fun v => utf8 v.text⟩,
        prop.Value⟩ n t rest (by omega)
      (by rw [h4p, hhead]) ht htc (by omega)
    refine ⟨p5, ?_, h51, h5p, parser.sameBut_trans (parser.sameBut_trans (parser.sameBut_trans
      (parser.sameBut_trans hsame1 hsame2) hsame3) hsame4) hsame5⟩
    simp only [parser.scanParams, hp1, res.bind, ne_eq, not_true_eq_false, if_false, hp2, hp3,
      hp4, hp5]
    simp [paramsFold, pparam.entry]

/-- The method `scanContentLine` on the items of a content line, in whatever scope: it reads
the line and stores its property. -/
theorem scanContentLine_stores (h : Host) (loc : Location) (p : parser) (n : Nat)
    (nm : Str) (o0 off o1 o2 o3 : Nat) (qs : List pparam) (val nl : Str) (rest : List item)
    (hpk : p.peekCount ≤ 1)
    (hpend : p.pending = ⟨itemName, o0, nm⟩ :: (paramsItems off qs
      ++ ⟨itemColon, o1, [0x3A]⟩ :: ⟨itemValue, o2, val⟩ :: ⟨itemLineEnd, o3, nl⟩ :: rest))
    (hn : (paramsItems off qs).length + 2 ≤ n) :
    ∃ p5, parser.scanContentLine h loc n p = p5.store ⟨nm, paramsFold [] qs, val⟩
      ∧ p.sameBut p5 ∧ p5.peekCount = 0 ∧ p5.lex.items = rest := by
  obtain ⟨m, rfl⟩ : ∃ m, n = m + 1 := ⟨n - 1, by omega⟩
  obtain ⟨p1, hp1, h10, h1i, -, hsame1⟩ := parser.next_pending p _ _ hpk hpend
  obtain ⟨p2, hp2, h21, h2p, hsame2⟩ := scanParams_fold qs off p1 ⟨nm, [], []⟩ m
    ⟨itemColon, o1, [0x3A]⟩ (⟨itemValue, o2, val⟩ :: ⟨itemLineEnd, o3, nl⟩ :: rest) (by omega)
    (by simpa [parser.pending, h10] using h1i) (by simp) (by simp) (by omega)
  obtain ⟨p3, hp3, h30, h3i, -, hsame3⟩ := parser.next_pending p2 _ _ (by omega) h2p
  obtain ⟨p4, hp4, h40, h4i, -, hsame4⟩ := parser.next_pending p3 _ _ (by omega)
    (by simpa [parser.pending, h30] using h3i)
  obtain ⟨p5, hp5, h50, h5i, -, hsame5⟩ := parser.next_pending p4 _ _ (by omega)
    (by simpa [parser.pending, h40] using h4i)
  refine ⟨p5, ?_, parser.sameBut_trans (parser.sameBut_trans (parser.sameBut_trans
    (parser.sameBut_trans hsame1 hsame2) hsame3) hsame4) hsame5, h50, h5i⟩
  have hiota : ¬ itemName.iota > itemKeyword.iota := by decide
  simp only [parser.scanContentLine, hp1, res.bind, hiota, if_false, isItemName, beq_self_eq_true,
    Bool.not_true, Bool.false_eq_true, NewProperty, hp2, ne_eq, not_true_eq_false, hp3, hp4, hp5]

/-- The `switch p.scope` appends the property to the component that the scope designates and
leaves the scope and the pointers. -/
theorem parser.store_open (p : parser) (prop : Property) (props : List Property)
    (hopen : p.openProperties = some props) :
    ∃ q, p.store prop = res.ok none q ∧ q.openProperties = some (props ++ [prop])
      ∧ q.scope = p.scope ∧ q.v = p.v ∧ q.a = p.a ∧ q.t = p.t ∧ q.s = p.s ∧ q.d = p.d
      ∧ q.peekCount = p.peekCount ∧ q.lex = p.lex ∧ q.token = p.token := by
  by_cases hcal : p.scope = scopeCalendar
  · simp only [parser.openProperties, hcal, if_true, Option.some.injEq] at hopen
    refine ⟨{ p with c := { p.c with Properties := p.c.Properties ++ [prop] } }, ?_, ?_, ?_⟩
    · unfold parser.store
      rw [if_pos hcal]
    · simp [parser.openProperties, hcal, hopen]
    · simp
  by_cases hscopeEvent : p.scope = scopeEvent
  · have hopen1 := hopen
    simp +decide only [parser.openProperties, hscopeEvent, scopeCalendar, scopeEvent, scopeAlarm, scopeTimezone, scopeDaylight, scopeStandard, if_false, if_true,
      Option.map_eq_some'] at hopen1
    obtain ⟨x, hx, hxp⟩ := hopen1
    cases hptr : p.v with
    | none => simp [hptr] at hx
    | some i =>
      simp only [hptr, Option.some_bind] at hx
      have hi : i < p.events.length := (List.get?_eq_some.mp hx).1
      refine ⟨{ p with events := p.events.set i { x with Properties := x.Properties ++ [prop] } },
        ?_, ?_, ?_⟩
      · have hs : p.store prop = res.ok none { p with
            events := p.events.set (p.v.getD 0)
              { x with Properties := x.Properties ++ [prop] } } := by
          unfold parser.store
          rw [hscopeEvent]
          simp +decide only [scopeCalendar, scopeEvent, scopeAlarm, scopeTimezone, scopeDaylight, scopeStandard, if_false, if_true]
          rw [hptr, Option.some_bind, hx]
        rw [hs, hptr]
        rfl
      · unfold parser.openProperties
        simp only [hscopeEvent]
        simp +decide only [scopeCalendar, scopeEvent, scopeAlarm, scopeTimezone, scopeDaylight, scopeStandard, if_false, if_true]
        simp [hptr, List.getElem?_set, hi, hxp]
      · simp [hptr]
  by_cases hscopeAlarm : p.scope = scopeAlarm
  · have hopen1 := hopen
    simp +decide only [parser.openProperties, hscopeAlarm, scopeCalendar, scopeEvent, scopeAlarm, scopeTimezone, scopeDaylight, scopeStandard, if_false, if_true,
      Option.map_eq_some'] at hopen1
    obtain ⟨x, hx, hxp⟩ := hopen1
    cases hptr : p.a with
    | none => simp [hptr] at hx
    | some i =>
      simp only [hptr, Option.some_bind] at hx
      have hi : i < p.alarms.length := (List.get?_eq_some.mp hx).1
      refine ⟨{ p with alarms := p.alarms.set i { x with Properties := x.Properties ++ [prop] } },
        ?_, ?_, ?_⟩
      · have hs : p.store prop = res.ok none { p with
            alarms := p.alarms.set (p.a.getD 0)
              { x with Properties := x.Properties ++ [prop] } } := by
          unfold parser.store
          rw [hscopeAlarm]
          simp +decide only [scopeCalendar, scopeEvent, scopeAlarm, scopeTimezone, scopeDaylight, scopeStandard, if_false, if_true]
          rw [hptr, Option.some_bind, hx]
        rw [hs, hptr]
        rfl
      · unfold parser.openProperties
        simp only [hscopeAlarm]
        simp +decide only [scopeCalendar, scopeEvent, scopeAlarm, scopeTimezone, scopeDaylight, scopeStandard, if_false, if_true]
        simp [hptr, List.getElem?_set, hi, hxp]
      · simp [hptr]
  by_cases hscopeTimezone : p.scope = scopeTimezone
  · have hopen1 := hopen
    simp +decide only [parser.openProperties, hscopeTimezone, scopeCalendar, scopeEvent, scopeAlarm, scopeTimezone, scopeDaylight, scopeStandard, if_false, if_true,
      Option.map_eq_some'] at hopen1
    obtain ⟨x, hx, hxp⟩ := hopen1
    cases hptr : p.t with
    | none => simp [hptr] at hx
    | some i =>
      simp only [hptr, Option.some_bind] at hx
      have hi : i < p.timezones.length := (List.get?_eq_some.mp hx).1
      refine ⟨{ p with timezones := p.timezones.set i { x with Properties := x.Properties ++ [prop] } },
        ?_, ?_, ?_⟩
      · have hs : p.store prop = res.ok none { p with
            timezones := p.timezones.set (p.t.getD 0)
              { x with Properties := x.Properties ++ [prop] } } := by
          unfold parser.store
          rw [hscopeTimezone]
          simp +decide only [scopeCalendar, scopeEvent, scopeAlarm, scopeTimezone, scopeDaylight, scopeStandard, if_false, if_true]
          rw [hptr, Option.some_bind, hx]
        rw [hs, hptr]
        rfl
      · unfold parser.openProperties
        simp only [hscopeTimezone]
        simp +decide only [scopeCalendar, scopeEvent, scopeAlarm, scopeTimezone, scopeDaylight, scopeStandard, if_false, if_true]
        simp [hptr, List.getElem?_set, hi, hxp]
      · simp [hptr]
  by_cases hscopeDaylight : p.scope = scopeDaylight
  · have hopen1 := hopen
    simp +decide only [parser.openProperties, hscopeDaylight, scopeCalendar, scopeEvent, scopeAlarm, scopeTimezone, scopeDaylight, scopeStandard, if_false, if_true,
      Option.map_eq_some'] at hopen1
    obtain ⟨x, hx, hxp⟩ := hopen1
    cases hptr : p.d with
    | none => simp [hptr] at hx
    | some i =>
      simp only [hptr, Option.some_bind] at hx
      have hi : i < p.daylights.length := (List.get?_eq_some.mp hx).1
      refine ⟨{ p with daylights := p.daylights.set i { x with Properties := x.Properties ++ [prop] } },
        ?_, ?_, ?_⟩
      · have hs : p.store prop = res.ok none { p with
            daylights := p.daylights.set (p.d.getD 0)
              { x with Properties := x.Properties ++ [prop] } } := by
          unfold parser.store
          rw [hscopeDaylight]
          simp +decide only [scopeCalendar, scopeEvent, scopeAlarm, scopeTimezone, scopeDaylight, scopeStandard, if_false, if_true]
          rw [hptr, Option.some_bind, hx]
        rw [hs, hptr]
        rfl
      · unfold parser.openProperties
        simp only [hscopeDaylight]
        simp +decide only [scopeCalendar, scopeEvent, scopeAlarm, scopeTimezone, scopeDaylight, scopeStandard, if_false, if_true]
        simp [hptr, List.getElem?_set, hi, hxp]
      · simp [hptr]
  by_cases hscopeStandard : p.scope = scopeStandard
  · have hopen1 := hopen
    simp +decide only [parser.openProperties, hscopeStandard, scopeCalendar, scopeEvent, scopeAlarm, scopeTimezone, scopeDaylight, scopeStandard, if_false, if_true,
      Option.map_eq_some'] at hopen1
    obtain ⟨x, hx, hxp⟩ := hopen1
    cases hptr : p.s with
    | none => simp [hptr] at hx
    | some i =>
      simp only [hptr, Option.some_bind] at hx
      have hi : i < p.standards.length := (List.get?_eq_some.mp hx).1
      refine ⟨{ p with standards := p.standards.set i { x with Properties := x.Properties ++ [prop] } },
        ?_, ?_, ?_⟩
      · have hs : p.store prop = res.ok none { p with
            standards := p.standards.set (p.s.getD 0)
              { x with Properties := x.Properties ++ [prop] } } := by
          unfold parser.store
          rw [hscopeStandard]
          simp +decide only [scopeCalendar, scopeEvent, scopeAlarm, scopeTimezone, scopeDaylight, scopeStandard, if_false, if_true]
          rw [hptr, Option.some_bind, hx]
        rw [hs, hptr]
        rfl
      · unfold parser.openProperties
        simp only [hscopeStandard]
        simp +decide only [scopeCalendar, scopeEvent, scopeAlarm, scopeTimezone, scopeDaylight, scopeStandard, if_false, if_true]
        simp [hptr, List.getElem?_set, hi, hxp]
      · simp [hptr]
  simp [parser.openProperties, hcal, hscopeEvent, hscopeAlarm, hscopeTimezone, hscopeDaylight,
    hscopeStandard] at hopen

/-! ## What the validations read -/

theorem validateCalendarLoop_count : ∀ (rest : List Property) (c c1 : Calendar) (n : Nat),
    (validateCalendarLoop rest c n).2 = (validateCalendarLoop rest c1 n).2
  | [], _, _, _ => rfl
  | prop :: rest, c, c1, n => by
    rw [validateCalendarLoop, validateCalendarLoop]
    exact validateCalendarLoop_count rest _ _ _

/-- The error of `validateCalendar` is a matter of the properties alone. -/
theorem validateCalendar_error_eq (c c1 : Calendar) (hp : c.Properties = c1.Properties) :
    (validateCalendar c).2 = (validateCalendar c1).2 := by
  have key : ∀ x : Calendar, (validateCalendar x).2
      = if (validateCalendarLoop x.Properties x 0).2 ≠ 2 then
          some (error.invalid "missing either required property \"prodid / version /\"")
        else none := by
    intro x
    unfold validateCalendar
    simp only
    split <;> rfl
  rw [key, key, hp, validateCalendarLoop_count c1.Properties c c1 0]

theorem validateAlarmLoop_counts : ∀ (rest : List Property) (a a1 : Alarm) (n : Nat)
    (uc : counts), (validateAlarmLoop rest a n uc).2 = (validateAlarmLoop rest a1 n uc).2
  | [], _, _, _, _ => rfl
  | prop :: rest, a, a1, n, uc => by
    rw [validateAlarmLoop, validateAlarmLoop]
    exact validateAlarmLoop_counts rest _ _ _ _

/-- The error of `validateAlarm` is a matter of the properties alone. -/
theorem validateAlarm_error_eq (a a1 : Alarm) (hp : a.Properties = a1.Properties) :
    (validateAlarm a).2 = (validateAlarm a1).2 := by
  have key : ∀ x : Alarm, (validateAlarm x).2
      = if (validateAlarmLoop x.Properties x 0 []).2.1 ≠ 2 then
          some (error.invalid "missing either required property \"action / trigger /\"")
        else (validateAlarmLoop x.Properties x 0 []).2.2.check := by
    intro x
    unfold validateAlarm
    simp only
    split <;> rfl
  rw [key, key, hp, validateAlarmLoop_counts a1.Properties a a1 0 []]

theorem validateCalendarLoop_method_eq : ∀ (rest : List Property) (c c1 : Calendar)
    (n n1 : Nat), c.Method = c1.Method →
    (validateCalendarLoop rest c n).1.Method = (validateCalendarLoop rest c1 n1).1.Method
  | [], _, _, _, _, hm => hm
  | prop :: rest, c, c1, n, n1, hm => by
    obtain ⟨c2, n2, heq, hm2⟩ := validateCalendarLoop_cons_method prop rest c n
    obtain ⟨c3, n3, heq3, hm3⟩ := validateCalendarLoop_cons_method prop rest c1 n1
    rw [heq, heq3]
    exact validateCalendarLoop_method_eq rest c2 c3 n2 n3 (by rw [hm2, hm3, hm])

theorem validateCalendarLoop_append : ∀ (pre post : List Property) (c : Calendar) (n : Nat),
    validateCalendarLoop (pre ++ post) c n
      = validateCalendarLoop post (validateCalendarLoop pre c n).1
          (validateCalendarLoop pre c n).2
  | [], _, _, _ => rfl
  | prop :: pre, post, c, n => by
    rw [List.cons_append, validateCalendarLoop, validateCalendarLoop]
    exact validateCalendarLoop_append pre post _ _

/-- A calendar whose method has been promoted from some properties keeps it when it is
promoted from them again. -/
theorem validateCalendarLoop_method_idem (pre : List Property) :
    ∀ (c c0 : Calendar) (n n0 : Nat),
      c.Method = (validateCalendarLoop pre c0 n0).1.Method →
      (validateCalendarLoop pre c n).1.Method = c.Method := by
  induction pre using List.reverseRecOn with
  | nil => intro c c0 n n0 _; rfl
  | append_singleton init x ih =>
    intro c c0 n n0 hc
    rw [validateCalendarLoop_append] at hc ⊢
    obtain ⟨c2, n2, heq, hm2⟩ := validateCalendarLoop_cons_method x []
      (validateCalendarLoop init c n).1 (validateCalendarLoop init c n).2
    obtain ⟨c3, n3, heq3, hm3⟩ := validateCalendarLoop_cons_method x []
      (validateCalendarLoop init c0 n0).1 (validateCalendarLoop init c0 n0).2
    rw [heq3] at hc
    rw [heq]
    simp only [validateCalendarLoop] at hc ⊢
    rw [hm3] at hc
    rw [hm2]
    by_cases hx : x.Name = str "METHOD"
    · rw [if_pos hx] at hc ⊢
      exact hc.symm
    · rw [if_neg hx] at hc ⊢
      exact ih c c0 n n0 hc

theorem calendarMethod_eq (root : List Property) :
    calendarMethod root = (validateCalendarLoop root NewCalendar 0).1.Method := by
  unfold calendarMethod
  rw [validateCalendar_method]
  exact validateCalendarLoop_method_eq root _ _ 0 0 rfl

/-- The method `validateCalendar` promotes when it runs again on a root that has grown. -/
theorem validateCalendar_method_again (c : Calendar) (pre post : List Property)
    (hp : c.Properties = pre ++ post) (hm : c.Method = calendarMethod pre) :
    (validateCalendar c).1.Method = calendarMethod (pre ++ post) := by
  rw [validateCalendar_method, hp, calendarMethod_eq, validateCalendarLoop_append,
    validateCalendarLoop_append]
  apply validateCalendarLoop_method_eq
  rw [validateCalendarLoop_method_idem pre c NewCalendar 0 0 (hm.trans (calendarMethod_eq pre)),
    hm, calendarMethod_eq]

theorem parser.tidy_frame {p q : parser} (ht : p.tidy)
    (hprops : q.c.Properties = p.c.Properties) (hmethod : q.c.Method = p.c.Method)
    (hevents : q.events = p.events) (hv : q.v = p.v)
    (hscope : q.scope = scopeEvent ∨ q.scope = scopeAlarm →
      p.scope = scopeEvent ∨ p.scope = scopeAlarm) : q.tidy := by
  obtain ⟨⟨pre, post, h1, h2, h3⟩, h4⟩ := ht
  refine ⟨⟨pre, post, by rw [hprops, h1], by rw [hmethod, h2], fun hq => h3 (hscope hq)⟩, ?_⟩
  intro hq
  rw [hevents, hv]
  exact h4 (hscope hq)

theorem parser.tidy_sameBut {p q : parser} (ht : p.tidy) (hs : p.sameBut q) : q.tidy := by
  obtain ⟨s1, s2, s3, -, -, -, -, s8, -⟩ := hs
  exact parser.tidy_frame ht (by rw [s2]) (by rw [s2]) s8 s3 (by rw [s1]; exact id)

theorem newParser_tidy (h : Host) (text : Str) : (newParser h text).tidy :=
  ⟨⟨[], [], rfl, rfl, fun _ => rfl⟩,
    fun hq => absurd hq (by simp +decide [newParser, scopeCalendar, scopeEvent, scopeAlarm])⟩

/-! ## The parser and the stack of open components -/

theorem appendAt_map {α : Type} (f : α → List Property) (xs : List α) (i : Nat) (x y : α)
    (prop : Property) (hx : xs.get? i = some x) (hy : f y = f x ++ [prop]) :
    (xs.set i y).map f = appendAt (xs.map f) i prop := by
  have hi : i < xs.length := (List.get?_eq_some.mp hx).1
  have hget : (xs.map f).getD i [] = f x := by
    rw [List.getD_eq_getElem?_getD, List.getElem?_map]
    rw [List.get?_eq_getElem?] at hx
    simp [hx]
  rw [appendAt, hget, List.map_set, hy]

theorem set_map_same {α : Type} (f : α → List Property) (xs : List α) (i : Nat) (x y : α)
    (hx : xs.get? i = some x) (hy : f y = f x) : (xs.set i y).map f = xs.map f := by
  rw [List.map_set, hy]
  rw [List.get?_eq_getElem?] at hx
  apply List.ext_getElem?
  intro j
  by_cases hj : i = j
  · subst hj
    obtain ⟨hi, hxi⟩ := List.getElem?_eq_some_iff.mp hx
    simp [List.getElem?_set, hi, hxi]
  · simp [List.getElem?_set, hj]

/-- The `switch p.scope` on a parser that stands as the stack does: the property goes to the
top of the stack. -/
theorem nest.store_matches (a : nest) (p : parser) (prop : Property) (hm : a.matches p) :
    ∃ q, p.store prop = res.ok none q ∧ (a.append prop).matches q
      ∧ q.peekCount = p.peekCount ∧ q.lex = p.lex ∧ q.token = p.token
      ∧ (p.tidy → q.tidy) := by
  obtain ⟨m1, m2, m3, m4, m5, m6, hshape⟩ := hm
  rcases hshape with ⟨hst, hsc⟩ | ⟨i, hst, hsc, hv, hi⟩ | ⟨j, i, hst, hsc, ha, hj, hv, hi⟩
    | ⟨k, hst, hsc, ht, hk⟩ | ⟨m, k, hst, hsc, hs, hm, ht, hk⟩
    | ⟨m, k, hst, hsc, hd, hm, ht, hk⟩
  · refine ⟨{ p with c := { p.c with Properties := p.c.Properties ++ [prop] } }, ?_, ?_, rfl,
      rfl, rfl, ?_⟩
    · unfold parser.store
      rw [if_pos hsc]
    · refine ⟨?_, ?_, ?_, ?_, ?_, ?_, Or.inl ⟨?_, hsc⟩⟩ <;>
        simp [nest.append, hst, m1, m2, m3, m4, m5, m6]
    · rintro ⟨⟨pre, post, h1, h2, -⟩, -⟩
      have hoff : ¬ (p.scope = scopeEvent ∨ p.scope = scopeAlarm) := by
        rw [hsc]
        decide
      exact ⟨⟨pre, post ++ [prop], by simp [h1], h2, fun hq => absurd hq hoff⟩,
        fun hq => absurd hq hoff⟩
  · obtain ⟨x, hx⟩ : ∃ x, p.events.get? i = some x := ⟨_, List.get?_eq_get hi⟩
    refine ⟨{ p with
      events := p.events.set i { x with Properties := x.Properties ++ [prop] } }, ?_, ?_,
      rfl, rfl, rfl, ?_⟩
    rotate_left 2
    · rintro ⟨hc, hopen⟩
      refine ⟨hc, fun _ => ?_⟩
      obtain ⟨i1, props, alarms, hv1, hget1⟩ := hopen (Or.inl hsc)
      rw [hv] at hv1
      simp only [Option.some.injEq] at hv1
      subst hv1
      rw [hx] at hget1
      simp only [Option.some.injEq] at hget1
      subst hget1
      refine ⟨i, props ++ [prop], alarms, hv, ?_⟩
      simp only [List.get?_eq_getElem?, List.getElem?_set, hi, if_true]
      rfl
    · have hstore : p.store prop = res.ok none { p with
          events := p.events.set (p.v.getD 0)
            { x with Properties := x.Properties ++ [prop] } } := by
        unfold parser.store
        rw [hsc]
        simp +decide only [scopeCalendar, scopeEvent, scopeAlarm, scopeTimezone, scopeDaylight, scopeStandard, if_false, if_true]
        rw [hv, Option.some_bind, hx]
      rw [hstore, hv]
      rfl
    · have hmap := appendAt_map (fun y => y.Properties) p.events i x
        { x with Properties := x.Properties ++ [prop] } prop hx rfl
      refine ⟨?_, ?_, ?_, ?_, ?_, ?_, ?_⟩
      · simp [nest.append, hst, m1]
      · simp [nest.append, hst, m2, hmap]
      · simp [nest.append, hst, m3, hmap]
      · simp [nest.append, hst, m4, hmap]
      · simp [nest.append, hst, m5, hmap]
      · simp [nest.append, hst, m6, hmap]
      · refine Or.inr (Or.inl ⟨i, ?_⟩)
        simp [nest.append, hst, hsc, hv, hi]
  · obtain ⟨x, hx⟩ : ∃ x, p.alarms.get? j = some x := ⟨_, List.get?_eq_get hj⟩
    refine ⟨{ p with
      alarms := p.alarms.set j { x with Properties := x.Properties ++ [prop] } }, ?_, ?_,
      rfl, rfl, rfl, fun ht => parser.tidy_frame ht rfl rfl rfl rfl id⟩
    · have hstore : p.store prop = res.ok none { p with
          alarms := p.alarms.set (p.a.getD 0)
            { x with Properties := x.Properties ++ [prop] } } := by
        unfold parser.store
        rw [hsc]
        simp +decide only [scopeCalendar, scopeEvent, scopeAlarm, scopeTimezone, scopeDaylight, scopeStandard, if_false, if_true]
        rw [ha, Option.some_bind, hx]
      rw [hstore, ha]
      rfl
    · have hmap := appendAt_map (fun y => y.Properties) p.alarms j x
        { x with Properties := x.Properties ++ [prop] } prop hx rfl
      refine ⟨?_, ?_, ?_, ?_, ?_, ?_, ?_⟩
      · simp [nest.append, hst, m1]
      · simp [nest.append, hst, m2, hmap]
      · simp [nest.append, hst, m3, hmap]
      · simp [nest.append, hst, m4, hmap]
      · simp [nest.append, hst, m5, hmap]
      · simp [nest.append, hst, m6, hmap]
      · refine Or.inr (Or.inr (Or.inl ⟨j, i, ?_⟩))
        simp [nest.append, hst, hsc, ha, hj, hv, hi]
  · obtain ⟨x, hx⟩ : ∃ x, p.timezones.get? k = some x := ⟨_, List.get?_eq_get hk⟩
    refine ⟨{ p with
      timezones := p.timezones.set k { x with Properties := x.Properties ++ [prop] } }, ?_, ?_,
      rfl, rfl, rfl, fun ht => parser.tidy_frame ht rfl rfl rfl rfl id⟩
    · have hstore : p.store prop = res.ok none { p with
          timezones := p.timezones.set (p.t.getD 0)
            { x with Properties := x.Properties ++ [prop] } } := by
        unfold parser.store
        rw [hsc]
        simp +decide only [scopeCalendar, scopeEvent, scopeAlarm, scopeTimezone, scopeDaylight, scopeStandard, if_false, if_true]
        rw [ht, Option.some_bind, hx]
      rw [hstore, ht]
      rfl
    · have hmap := appendAt_map (fun y => y.Properties) p.timezones k x
        { x with Properties := x.Properties ++ [prop] } prop hx rfl
      refine ⟨?_, ?_, ?_, ?_, ?_, ?_, ?_⟩
      · simp [nest.append, hst, m1]
      · simp [nest.append, hst, m2, hmap]
      · simp [nest.append, hst, m3, hmap]
      · simp [nest.append, hst, m4, hmap]
      · simp [nest.append, hst, m5, hmap]
      · simp [nest.append, hst, m6, hmap]
      · refine Or.inr (Or.inr (Or.inr (Or.inl ⟨k, ?_⟩)))
        simp [nest.append, hst, hsc, ht, hk]
  · obtain ⟨x, hx⟩ : ∃ x, p.standards.get? m = some x := ⟨_, List.get?_eq_get hm⟩
    refine ⟨{ p with
      standards := p.standards.set m { x with Properties := x.Properties ++ [prop] } }, ?_, ?_,
      rfl, rfl, rfl, fun ht => parser.tidy_frame ht rfl rfl rfl rfl id⟩
    · have hstore : p.store prop = res.ok none { p with
          standards := p.standards.set (p.s.getD 0)
            { x with Properties := x.Properties ++ [prop] } } := by
        unfold parser.store
        rw [hsc]
        simp +decide only [scopeCalendar, scopeEvent, scopeAlarm, scopeTimezone, scopeDaylight, scopeStandard, if_false, if_true]
        rw [hs, Option.some_bind, hx]
      rw [hstore, hs]
      rfl
    · have hmap := appendAt_map (fun y => y.Properties) p.standards m x
        { x with Properties := x.Properties ++ [prop] } prop hx rfl
      refine ⟨?_, ?_, ?_, ?_, ?_, ?_, ?_⟩
      · simp [nest.append, hst, m1]
      · simp [nest.append, hst, m2, hmap]
      · simp [nest.append, hst, m3, hmap]
      · simp [nest.append, hst, m4, hmap]
      · simp [nest.append, hst, m5, hmap]
      · simp [nest.append, hst, m6, hmap]
      · refine Or.inr (Or.inr (Or.inr (Or.inr (Or.inl ⟨m, k, ?_⟩))))
        simp [nest.append, hst, hsc, hs, hm, ht, hk]
  · obtain ⟨x, hx⟩ : ∃ x, p.daylights.get? m = some x := ⟨_, List.get?_eq_get hm⟩
    refine ⟨{ p with
      daylights := p.daylights.set m { x with Properties := x.Properties ++ [prop] } }, ?_, ?_,
      rfl, rfl, rfl, fun ht => parser.tidy_frame ht rfl rfl rfl rfl id⟩
    · have hstore : p.store prop = res.ok none { p with
          daylights := p.daylights.set (p.d.getD 0)
            { x with Properties := x.Properties ++ [prop] } } := by
        unfold parser.store
        rw [hsc]
        simp +decide only [scopeCalendar, scopeEvent, scopeAlarm, scopeTimezone, scopeDaylight, scopeStandard, if_false, if_true]
        rw [hd, Option.some_bind, hx]
      rw [hstore, hd]
      rfl
    · have hmap := appendAt_map (fun y => y.Properties) p.daylights m x
        { x with Properties := x.Properties ++ [prop] } prop hx rfl
      refine ⟨?_, ?_, ?_, ?_, ?_, ?_, ?_⟩
      · simp [nest.append, hst, m1]
      · simp [nest.append, hst, m2, hmap]
      · simp [nest.append, hst, m3, hmap]
      · simp [nest.append, hst, m4, hmap]
      · simp [nest.append, hst, m5, hmap]
      · simp [nest.append, hst, m6, hmap]
      · refine Or.inr (Or.inr (Or.inr (Or.inr (Or.inr ⟨m, k, ?_⟩))))
        simp [nest.append, hst, hsc, hd, hm, ht, hk]

/-! ## What the validations leave and return -/

theorem validateCalendarLoop_properties : ∀ (rest : List Property) (c : Calendar) (n : Nat),
    (validateCalendarLoop rest c n).1.Properties = c.Properties
  | [], _, _ => rfl
  | prop :: rest, c, n => by
    rw [validateCalendarLoop, validateCalendarLoop_properties]
    split_ifs <;> rfl

theorem validateCalendar_properties (c : Calendar) :
    (validateCalendar c).1.Properties = c.Properties := by
  unfold validateCalendar
  simp only
  split <;> exact validateCalendarLoop_properties _ _ _

theorem validateCalendar_isValidation (c : Calendar) (e : error)
    (he : (validateCalendar c).2 = some e) : e.isValidation = true := by
  unfold validateCalendar at he
  simp only at he
  split at he
  · simp only [Option.some.injEq] at he
    rw [← he]
    rfl
  · simp at he

theorem counts.check_isValidation (m : counts) (e : error) (he : m.check = some e) :
    e.isValidation = true := by
  unfold counts.check at he
  cases hf : m.find? fun e => decide (e.2 > 1) with
  | none => simp [hf] at he
  | some x =>
    simp only [hf, Option.map_some', Option.some.injEq] at he
    rw [← he]
    rfl

theorem validateAlarmLoop_properties : ∀ (rest : List Property) (a : Alarm) (n : Nat)
    (uc : counts), (validateAlarmLoop rest a n uc).1.Properties = a.Properties
  | [], _, _, _ => rfl
  | prop :: rest, a, n, uc => by
    rw [validateAlarmLoop, validateAlarmLoop_properties]
    split_ifs <;> rfl

theorem validateAlarm_properties (a : Alarm) : (validateAlarm a).1.Properties = a.Properties := by
  unfold validateAlarm
  simp only
  split <;> exact validateAlarmLoop_properties _ _ _ _

theorem validateAlarm_isValidation (a : Alarm) (e : error) (he : (validateAlarm a).2 = some e) :
    e.isValidation = true := by
  unfold validateAlarm at he
  simp only at he
  split at he
  · simp only [Option.some.injEq] at he
    rw [← he]
    rfl
  · exact counts.check_isValidation _ e he

theorem validateEventStep_isValidation (h : Host) (l : Location) (all : List Property)
    (prop : Property) (v : Event) (uc : counts) (r : Event × counts) (e : error)
    (hres : validateEventStep h l all prop v uc = validated.done r (some e)) :
    e.isValidation = true := by
  unfold validateEventStep at hres
  by_cases h1 : prop.Name = str "UID"
  · simp [h1, str_UID, str_DTSTAMP, str_DTSTART, str_DTEND, str_DURATION, str_SUMMARY,
      str_DESCRIPTION] at hres
  by_cases h2 : prop.Name = str "DTSTAMP"
  · cases hd : parseDate h prop l <;>
    simp [h2, hd, str_UID, str_DTSTAMP, str_DTSTART, str_DTEND, str_DURATION,
      str_SUMMARY, str_DESCRIPTION] at hres
  by_cases h3 : prop.Name = str "DTSTART"
  · cases hd : parseDate h prop l <;>
    simp [h3, hd, str_UID, str_DTSTAMP, str_DTSTART, str_DTEND, str_DURATION,
      str_SUMMARY, str_DESCRIPTION] at hres
  by_cases h4 : prop.Name = str "DTEND"
  · by_cases hh : hasProperty (str "DURATION") all = true <;> rw [str_DURATION] at hh <;>
    cases hd : parseDate h prop l <;>
    simp [h4, hd, hh, str_UID, str_DTSTAMP, str_DTSTART, str_DTEND, str_DURATION,
      str_SUMMARY, str_DESCRIPTION] at hres <;>
    (rw [← hres.2]; rfl)
  by_cases h5 : prop.Name = str "DURATION"
  · by_cases hh : hasProperty (str "DTEND") all = true <;> rw [str_DTEND] at hh <;>
    simp [h5, hh, str_UID, str_DTSTAMP, str_DTSTART, str_DTEND, str_DURATION,
      str_SUMMARY, str_DESCRIPTION] at hres
    rw [← hres.2]
    rfl
  by_cases h6 : prop.Name = str "SUMMARY"
  · simp [h6, str_UID, str_DTSTAMP, str_DTSTART, str_DTEND, str_DURATION, str_SUMMARY,
      str_DESCRIPTION] at hres
  by_cases h7 : prop.Name = str "DESCRIPTION"
  · simp [h7, str_UID, str_DTSTAMP, str_DTSTART, str_DTEND, str_DURATION, str_SUMMARY,
      str_DESCRIPTION] at hres
  simp [h1, h2, h3, h4, h5, h6, h7] at hres

theorem validateEventLoop_isValidation (h : Host) (l : Location) (all : List Property) :
    ∀ (rest : List Property) (v : Event) (uc : counts) (r : Event × counts) (e : error),
      validateEventLoop h l all rest v uc = validated.done r (some e) → e.isValidation = true
  | [], v, uc, r, e, hres => by simp [validateEventLoop] at hres
  | prop :: rest, v, uc, r, e, hres => by
    rw [validateEventLoop] at hres
    cases hstep : validateEventStep h l all prop v uc with
    | fault => simp [hstep] at hres
    | done r1 err =>
      cases err with
      | none =>
        simp only [hstep] at hres
        exact validateEventLoop_isValidation h l all rest r1.1 r1.2 r e hres
      | some e1 =>
        simp only [hstep, validated.done.injEq, Option.some.injEq] at hres
        rw [← hres.2]
        exact validateEventStep_isValidation h l all prop v uc r1 e1 hstep

/-- On an event whose parameters all have a value `validateEvent` returns; it leaves the
properties, and its error is an error of validation. -/
theorem validateEvent_done (h : Host) (method : Str) (l : Location) (v : Event)
    (hp : ∀ prop ∈ v.Properties, prop.hasValues = true) :
    ∃ v1 err, validateEvent h method l v = validated.done v1 err
      ∧ v1.Properties = v.Properties ∧ ∀ e, err = some e → e.isValidation = true := by
  obtain ⟨r, err, hl, hs⟩ := validateEvent_loop h l v hp
  obtain ⟨s1, -⟩ := hs
  unfold validateEvent
  rw [hl]
  cases err with
  | some e =>
    refine ⟨r.1, some e, rfl, s1, fun e1 he1 => ?_⟩
    simp only [Option.some.injEq] at he1
    rw [← he1]
    exact validateEventLoop_isValidation h l _ _ _ _ r e hl
  | none =>
    simp only
    split
    · exact ⟨_, _, rfl, s1, fun e1 he1 => by simp at he1; rw [← he1]; rfl⟩
    · split
      · exact ⟨_, _, rfl, s1, fun e1 he1 => by simp at he1; rw [← he1]; rfl⟩
      · split
        · exact ⟨_, _, rfl, s1, fun e1 he1 => by simp at he1; rw [← he1]; rfl⟩
        · cases hcheck : r.2.check with
          | some e2 =>
            refine ⟨_, _, rfl, s1, fun e1 he1 => ?_⟩
            simp only [Option.some.injEq] at he1
            rw [← he1]
            exact counts.check_isValidation _ e2 hcheck
          | none =>
            simp only
            split
            · exact ⟨_, _, rfl, s1, fun e1 he1 => by simp at he1⟩
            · exact ⟨_, _, rfl, s1, fun e1 he1 => by simp at he1⟩

/-- The statement that reads the CRLF after a delimiter, when a line end is the next
item. -/
theorem parser.expectLineEnd_lineEnd (p : parser) (nl : item) (rest : List item)
    (hpk : p.peekCount = 0) (hitems : p.lex.items = nl :: rest) (hnl : nl.typ = itemLineEnd) :
    p.expectLineEnd
      = res.ok none { p with lex := { p.lex with items := rest }, token := (nl, p.token.2) } := by
  simp [parser.expectLineEnd, parser.next, hpk, parser.nextItem, hitems, res.bind,
    parser.tokenAt, hnl]

/-! ## The delimiters on a parser that stands as the stack does -/

theorem parser.expectLineEnd_same (p : parser) (nl : item) (rest : List item)
    (hpk : p.peekCount = 0) (hitems : p.lex.items = nl :: rest) (hnl : nl.typ = itemLineEnd) :
    ∃ q, p.expectLineEnd = res.ok none q ∧ q.peekCount = 0 ∧ q.lex.items = rest
      ∧ p.sameBut q := by
  refine ⟨_, parser.expectLineEnd_lineEnd p nl rest hpk hitems hnl, hpk, rfl, ?_⟩
  simp [parser.sameBut]

theorem nest.matches_sameBut {a : nest} {p q : parser} (hm : a.matches p) (hs : p.sameBut q) :
    a.matches q := by
  obtain ⟨s1, s2, s3, s4, s5, s6, s7, s8, s9, s10, s11, s12, -⟩ := hs
  unfold nest.matches at hm ⊢
  rw [s1, s2, s3, s4, s5, s6, s7, s8, s9, s10, s11, s12]
  exact hm

theorem nest.matches_length {a : nest} {p : parser} (hm : a.matches p) :
    a.events.length = p.events.length ∧ a.alarms.length = p.alarms.length
      ∧ a.timezones.length = p.timezones.length ∧ a.standards.length = p.standards.length
      ∧ a.daylights.length = p.daylights.length := by
  obtain ⟨-, m2, m3, m4, m5, m6, -⟩ := hm
  refine ⟨?_, ?_, ?_, ?_, ?_⟩
  · rw [← m2, List.length_map]
  · rw [← m3, List.length_map]
  · rw [← m4, List.length_map]
  · rw [← m5, List.length_map]
  · rw [← m6, List.length_map]

theorem nest.matches_root {a : nest} {p : parser} (hm : a.matches p) (hst : a.stack = []) :
    p.scope = scopeCalendar := by
  obtain ⟨-, -, -, -, -, -, hshape⟩ := hm
  rcases hshape with ⟨-, hsc⟩ | ⟨i, hs, -⟩ | ⟨j, i, hs, -⟩ | ⟨k, hs, -⟩ | ⟨m, k, hs, -⟩
    | ⟨m, k, hs, -⟩
  · exact hsc
  all_goals (rw [hst] at hs; simp at hs)

theorem nest.matches_event {a : nest} {p : parser} {i : Nat} (hm : a.matches p)
    (hst : a.stack = [(kind.event, i)]) :
    p.scope = scopeEvent ∧ p.v = some i ∧ i < p.events.length := by
  obtain ⟨-, -, -, -, -, -, hshape⟩ := hm
  rcases hshape with ⟨hs, -⟩ | ⟨i1, hs, h1, h2, h3⟩ | ⟨j, i1, hs, -⟩ | ⟨k, hs, -⟩
    | ⟨m, k, hs, -⟩ | ⟨m, k, hs, -⟩
  · rw [hst] at hs; simp at hs
  · rw [hst] at hs
    simp only [List.cons.injEq, Prod.mk.injEq, true_and, and_true] at hs
    subst hs
    exact ⟨h1, h2, h3⟩
  all_goals (rw [hst] at hs; simp at hs)

theorem nest.matches_alarm {a : nest} {p : parser} {j i : Nat} (hm : a.matches p)
    (hst : a.stack = [(kind.alarm, j), (kind.event, i)]) :
    p.scope = scopeAlarm ∧ p.a = some j ∧ j < p.alarms.length ∧ p.v = some i
      ∧ i < p.events.length := by
  obtain ⟨-, -, -, -, -, -, hshape⟩ := hm
  rcases hshape with ⟨hs, -⟩ | ⟨i1, hs, -⟩ | ⟨j1, i1, hs, h1, h2, h3, h4, h5⟩ | ⟨k, hs, -⟩
    | ⟨m, k, hs, -⟩ | ⟨m, k, hs, -⟩
  · rw [hst] at hs; simp at hs
  · rw [hst] at hs; simp at hs
  · rw [hst] at hs
    simp only [List.cons.injEq, Prod.mk.injEq, true_and, and_true] at hs
    obtain ⟨rfl, rfl⟩ := hs
    exact ⟨h1, h2, h3, h4, h5⟩
  all_goals (rw [hst] at hs; simp at hs)

theorem nest.matches_timezone {a : nest} {p : parser} {k : Nat} (hm : a.matches p)
    (hst : a.stack = [(kind.timezone, k)]) :
    p.scope = scopeTimezone ∧ p.t = some k ∧ k < p.timezones.length := by
  obtain ⟨-, -, -, -, -, -, hshape⟩ := hm
  rcases hshape with ⟨hs, -⟩ | ⟨i1, hs, -⟩ | ⟨j, i1, hs, -⟩ | ⟨k1, hs, h1, h2, h3⟩
    | ⟨m, k1, hs, -⟩ | ⟨m, k1, hs, -⟩
  · rw [hst] at hs; simp at hs
  · rw [hst] at hs; simp at hs
  · rw [hst] at hs; simp at hs
  · rw [hst] at hs
    simp only [List.cons.injEq, Prod.mk.injEq, true_and, and_true] at hs
    subst hs
    exact ⟨h1, h2, h3⟩
  all_goals (rw [hst] at hs; simp at hs)

theorem nest.matches_standard {a : nest} {p : parser} {m k : Nat} (hm : a.matches p)
    (hst : a.stack = [(kind.standard, m), (kind.timezone, k)]) :
    p.scope = scopeStandard ∧ p.s = some m ∧ m < p.standards.length ∧ p.t = some k
      ∧ k < p.timezones.length := by
  obtain ⟨-, -, -, -, -, -, hshape⟩ := hm
  rcases hshape with ⟨hs, -⟩ | ⟨i1, hs, -⟩ | ⟨j, i1, hs, -⟩ | ⟨k1, hs, -⟩
    | ⟨m1, k1, hs, h1, h2, h3, h4, h5⟩ | ⟨m1, k1, hs, -⟩
  · rw [hst] at hs; simp at hs
  · rw [hst] at hs; simp at hs
  · rw [hst] at hs; simp at hs
  · rw [hst] at hs; simp at hs
  · rw [hst] at hs
    simp only [List.cons.injEq, Prod.mk.injEq, true_and, and_true] at hs
    obtain ⟨rfl, rfl⟩ := hs
    exact ⟨h1, h2, h3, h4, h5⟩
  · rw [hst] at hs; simp at hs

theorem nest.matches_daylight {a : nest} {p : parser} {m k : Nat} (hm : a.matches p)
    (hst : a.stack = [(kind.daylight, m), (kind.timezone, k)]) :
    p.scope = scopeDaylight ∧ p.d = some m ∧ m < p.daylights.length ∧ p.t = some k
      ∧ k < p.timezones.length := by
  obtain ⟨-, -, -, -, -, -, hshape⟩ := hm
  rcases hshape with ⟨hs, -⟩ | ⟨i1, hs, -⟩ | ⟨j, i1, hs, -⟩ | ⟨k1, hs, -⟩
    | ⟨m1, k1, hs, -⟩ | ⟨m1, k1, hs, h1, h2, h3, h4, h5⟩
  · rw [hst] at hs; simp at hs
  · rw [hst] at hs; simp at hs
  · rw [hst] at hs; simp at hs
  · rw [hst] at hs; simp at hs
  · rw [hst] at hs; simp at hs
  · rw [hst] at hs
    simp only [List.cons.injEq, Prod.mk.injEq, true_and, and_true] at hs
    obtain ⟨rfl, rfl⟩ := hs
    exact ⟨h1, h2, h3, h4, h5⟩

/-- BEGIN:VEVENT in the root. -/
theorem nest.open_event (h : Host) (loc : Location) (a : nest) (p : parser) (delim nl : item)
    (rest : List item) (hm : a.matches p) (hst : a.stack = [])
    (hd : delim.typ = itemBeginVEvent)
    (hpk : p.peekCount = 0) (hitems : p.lex.items = nl :: rest) (hnl : nl.typ = itemLineEnd) :
    (∃ q, p.scanDelimiter h loc delim = res.ok none q ∧ (a.push kind.event).matches q
        ∧ q.peekCount = 0 ∧ q.lex.items = rest ∧ q.lex.ending = p.lex.ending
        ∧ (p.tidy → q.tidy))
      ∨ ∃ e q, p.scanDelimiter h loc delim = res.ok (some e) q ∧ e.isValidation = true
        ∧ q.lex.ending = p.lex.ending
        ∧ (validateCalendar { NewCalendar with Properties := a.root }).2 = some e := by
  have hlen := nest.matches_length hm
  obtain ⟨m1, m2, m3, m4, m5, m6, hshape⟩ := hm
  cases hvc : (validateCalendar p.c).2 with
  | some e =>
    refine Or.inr ⟨e, { p with c := (validateCalendar p.c).1 }, ?_,
      validateCalendar_isValidation p.c e hvc, rfl, ?_⟩
    · simp only [parser.scanDelimiter, hd, hvc]
    · rw [← hvc]
      exact validateCalendar_error_eq _ _ m1.symm
  | none =>
    have hm1 : (a.push kind.event).matches
        ({ p with c := (validateCalendar p.c).1, events := p.events ++ [NewEvent],
                  v := some p.events.length }.enterScope scopeEvent) := by
      refine ⟨?_, ?_, ?_, ?_, ?_, ?_, Or.inr (Or.inl ⟨a.events.length, ?_⟩)⟩ <;>
        simp [nest.push, parser.enterScope, validateCalendar_properties, m1, m2, m3, m4, m5, m6,
          hst, NewEvent, hlen.1]
    obtain ⟨q, hq, hq0, hqi, hsame⟩ := parser.expectLineEnd_same
      ({ p with c := (validateCalendar p.c).1, events := p.events ++ [NewEvent],
                v := some p.events.length }.enterScope scopeEvent) nl rest
      (by simpa [parser.enterScope] using hpk) (by simpa [parser.enterScope] using hitems) hnl
    refine Or.inl ⟨q, ?_, nest.matches_sameBut hm1 hsame, hq0, hqi, ?_,
      fun ht => parser.tidy_sameBut ?_ hsame⟩
    · simp only [parser.scanDelimiter, hd, hvc]
      exact hq
    · rw [hsame.2.2.2.2.2.2.2.2.2.2.2.2]
      rfl
    · obtain ⟨⟨pre, post, h1, h2, -⟩, -⟩ := ht
      refine ⟨⟨pre ++ post, [], ?_, ?_, fun _ => rfl⟩,
        fun _ => ⟨p.events.length, [], [], rfl, ?_⟩⟩
      · simp [parser.enterScope, validateCalendar_properties, h1]
      · simpa [parser.enterScope] using validateCalendar_method_again p.c pre post h1 h2
      · simp only [parser.enterScope, List.get?_eq_getElem?, List.getElem?_append_right,
          Nat.le_refl, Nat.sub_self, List.getElem?_cons_zero]
        rfl

/-- BEGIN:VALARM in an event. -/
theorem nest.open_alarm (h : Host) (loc : Location) (a : nest) (p : parser) (delim nl : item)
    (rest : List item) (i : Nat) (hm : a.matches p) (hst : a.stack = [(kind.event, i)])
    (hd : delim.typ = itemBeginVAlarm)
    (hpk : p.peekCount = 0) (hitems : p.lex.items = nl :: rest) (hnl : nl.typ = itemLineEnd) :
    ∃ q, p.scanDelimiter h loc delim = res.ok none q ∧ (a.push kind.alarm).matches q
      ∧ q.peekCount = 0 ∧ q.lex.items = rest ∧ q.lex.ending = p.lex.ending
      ∧ (p.tidy → q.tidy) := by
  have hlen := nest.matches_length hm
  have hsh := nest.matches_event hm hst
  obtain ⟨m1, m2, m3, m4, m5, m6, -⟩ := hm
  have hm1 : (a.push kind.alarm).matches ({ p with alarms := p.alarms ++ [NewAlarm], a := some p.alarms.length }.enterScope scopeAlarm) := by
    refine ⟨?_, ?_, ?_, ?_, ?_, ?_, Or.inr (Or.inr (Or.inl ⟨a.alarms.length, i, ?_⟩))⟩ <;>
      simp [nest.push, parser.enterScope, m1, m2, m3, m4, m5, m6, hst, NewAlarm, hlen, hsh]
  obtain ⟨q, hq, hq0, hqi, hsame⟩ := parser.expectLineEnd_same ({ p with alarms := p.alarms ++ [NewAlarm], a := some p.alarms.length }.enterScope scopeAlarm) nl rest
    (by simpa [parser.enterScope] using hpk) (by simpa [parser.enterScope] using hitems) hnl
  refine ⟨q, ?_, nest.matches_sameBut hm1 hsame, hq0, hqi, ?_,
    fun ht => parser.tidy_sameBut ?_ hsame⟩
  · simp only [parser.scanDelimiter, hd]
    exact hq
  · rw [hsame.2.2.2.2.2.2.2.2.2.2.2.2]
    rfl
  · exact parser.tidy_frame ht rfl rfl rfl rfl (fun _ => Or.inl hsh.1)

/-- BEGIN:VTIMEZONE in the root. -/
theorem nest.open_timezone (h : Host) (loc : Location) (a : nest) (p : parser) (delim nl : item)
    (rest : List item)  (hm : a.matches p) (hst : a.stack = [])
    (hd : delim.typ = itemBeginVTimezone)
    (hpk : p.peekCount = 0) (hitems : p.lex.items = nl :: rest) (hnl : nl.typ = itemLineEnd) :
    ∃ q, p.scanDelimiter h loc delim = res.ok none q ∧ (a.push kind.timezone).matches q
      ∧ q.peekCount = 0 ∧ q.lex.items = rest ∧ q.lex.ending = p.lex.ending
      ∧ (p.tidy → q.tidy) := by
  have hlen := nest.matches_length hm
  have hsh := nest.matches_root hm hst
  obtain ⟨m1, m2, m3, m4, m5, m6, -⟩ := hm
  have hm1 : (a.push kind.timezone).matches ({ p with timezones := p.timezones ++ [NewTimezone], t := some p.timezones.length }.enterScope
      scopeTimezone) := by
    refine ⟨?_, ?_, ?_, ?_, ?_, ?_, Or.inr (Or.inr (Or.inr (Or.inl ⟨a.timezones.length, ?_⟩)))⟩ <;>
      simp [nest.push, parser.enterScope, m1, m2, m3, m4, m5, m6, hst, NewTimezone, hlen, hsh]
  obtain ⟨q, hq, hq0, hqi, hsame⟩ := parser.expectLineEnd_same ({ p with timezones := p.timezones ++ [NewTimezone], t := some p.timezones.length }.enterScope
      scopeTimezone) nl rest
    (by simpa [parser.enterScope] using hpk) (by simpa [parser.enterScope] using hitems) hnl
  refine ⟨q, ?_, nest.matches_sameBut hm1 hsame, hq0, hqi, ?_,
    fun ht => parser.tidy_sameBut ?_ hsame⟩
  · simp only [parser.scanDelimiter, hd]
    exact hq
  · rw [hsame.2.2.2.2.2.2.2.2.2.2.2.2]
    rfl
  · exact parser.tidy_frame ht rfl rfl rfl rfl
      (fun hq => absurd hq (by simp +decide [parser.enterScope, scopeEvent, scopeAlarm, scopeTimezone]))

/-- BEGIN:STANDARD in a time zone. -/
theorem nest.open_standard (h : Host) (loc : Location) (a : nest) (p : parser) (delim nl : item)
    (rest : List item) (k : Nat) (hm : a.matches p) (hst : a.stack = [(kind.timezone, k)])
    (hd : delim.typ = itemBeginStandard)
    (hpk : p.peekCount = 0) (hitems : p.lex.items = nl :: rest) (hnl : nl.typ = itemLineEnd) :
    ∃ q, p.scanDelimiter h loc delim = res.ok none q ∧ (a.push kind.standard).matches q
      ∧ q.peekCount = 0 ∧ q.lex.items = rest ∧ q.lex.ending = p.lex.ending
      ∧ (p.tidy → q.tidy) := by
  have hlen := nest.matches_length hm
  have hsh := nest.matches_timezone hm hst
  obtain ⟨m1, m2, m3, m4, m5, m6, -⟩ := hm
  have hm1 : (a.push kind.standard).matches ({ p with standards := p.standards ++ [NewStandard], s := some p.standards.length }.enterScope
      scopeStandard) := by
    refine ⟨?_, ?_, ?_, ?_, ?_, ?_, Or.inr (Or.inr (Or.inr (Or.inr (Or.inl ⟨a.standards.length, k, ?_⟩))))⟩ <;>
      simp [nest.push, parser.enterScope, m1, m2, m3, m4, m5, m6, hst, NewStandard, hlen, hsh]
  obtain ⟨q, hq, hq0, hqi, hsame⟩ := parser.expectLineEnd_same ({ p with standards := p.standards ++ [NewStandard], s := some p.standards.length }.enterScope
      scopeStandard) nl rest
    (by simpa [parser.enterScope] using hpk) (by simpa [parser.enterScope] using hitems) hnl
  refine ⟨q, ?_, nest.matches_sameBut hm1 hsame, hq0, hqi, ?_,
    fun ht => parser.tidy_sameBut ?_ hsame⟩
  · simp only [parser.scanDelimiter, hd]
    exact hq
  · rw [hsame.2.2.2.2.2.2.2.2.2.2.2.2]
    rfl
  · exact parser.tidy_frame ht rfl rfl rfl rfl
      (fun hq => absurd hq (by simp +decide [parser.enterScope, scopeEvent, scopeAlarm, scopeStandard]))

/-- BEGIN:DAYLIGHT in a time zone. -/
theorem nest.open_daylight (h : Host) (loc : Location) (a : nest) (p : parser) (delim nl : item)
    (rest : List item) (k : Nat) (hm : a.matches p) (hst : a.stack = [(kind.timezone, k)])
    (hd : delim.typ = itemBeginDaylight)
    (hpk : p.peekCount = 0) (hitems : p.lex.items = nl :: rest) (hnl : nl.typ = itemLineEnd) :
    ∃ q, p.scanDelimiter h loc delim = res.ok none q ∧ (a.push kind.daylight).matches q
      ∧ q.peekCount = 0 ∧ q.lex.items = rest ∧ q.lex.ending = p.lex.ending
      ∧ (p.tidy → q.tidy) := by
  have hlen := nest.matches_length hm
  have hsh := nest.matches_timezone hm hst
  obtain ⟨m1, m2, m3, m4, m5, m6, -⟩ := hm
  have hm1 : (a.push kind.daylight).matches ({ p with daylights := p.daylights ++ [NewDaylight], d := some p.daylights.length }.enterScope
      scopeDaylight) := by
    refine ⟨?_, ?_, ?_, ?_, ?_, ?_, Or.inr (Or.inr (Or.inr (Or.inr (Or.inr ⟨a.daylights.length, k, ?_⟩))))⟩ <;>
      simp [nest.push, parser.enterScope, m1, m2, m3, m4, m5, m6, hst, NewDaylight, hlen, hsh]
  obtain ⟨q, hq, hq0, hqi, hsame⟩ := parser.expectLineEnd_same ({ p with daylights := p.daylights ++ [NewDaylight], d := some p.daylights.length }.enterScope
      scopeDaylight) nl rest
    (by simpa [parser.enterScope] using hpk) (by simpa [parser.enterScope] using hitems) hnl
  refine ⟨q, ?_, nest.matches_sameBut hm1 hsame, hq0, hqi, ?_,
    fun ht => parser.tidy_sameBut ?_ hsame⟩
  · simp only [parser.scanDelimiter, hd]
    exact hq
  · rw [hsame.2.2.2.2.2.2.2.2.2.2.2.2]
    rfl
  · exact parser.tidy_frame ht rfl rfl rfl rfl
      (fun hq => absurd hq (by simp +decide [parser.enterScope, scopeEvent, scopeAlarm, scopeDaylight]))
/-! ## The closing delimiters on a parser that stands as the stack does -/

theorem get?_of_lt {α : Type} (xs : List α) (i : Nat) (hi : i < xs.length) :
    ∃ x, xs.get? i = some x ∧ x ∈ xs := by
  refine ⟨xs.get ⟨i, hi⟩, ?_, List.get_mem xs i hi⟩
  simp [List.get?_eq_get hi]

/-- END:VTIMEZONE in a time zone. -/
theorem nest.close_timezone (h : Host) (loc : Location) (a : nest) (p : parser)
    (delim nl : item) (rest : List item) (hm : a.matches p)
    (hd : delim.typ = itemEndVTimezone)
    (hpk : p.peekCount = 0) (hitems : p.lex.items = nl :: rest) (hnl : nl.typ = itemLineEnd) :
    ∃ q, p.scanDelimiter h loc delim = res.ok none q ∧ ({ a with stack := [] } : nest).matches q
      ∧ q.peekCount = 0 ∧ q.lex.items = rest ∧ q.lex.ending = p.lex.ending
      ∧ (p.tidy → q.tidy) := by
  obtain ⟨m1, m2, m3, m4, m5, m6, -⟩ := hm
  have hm1 : ({ a with stack := [] } : nest).matches
      ({ p with c := { p.c with Timezones := p.c.Timezones ++ [p.t] } }.leaveScope
        scopeCalendar) := by
    refine ⟨?_, ?_, ?_, ?_, ?_, ?_, Or.inl ?_⟩ <;>
      simp [parser.leaveScope, scopeCalendar, m1, m2, m3, m4, m5, m6]
  obtain ⟨q, hq, hq0, hqi, hsame⟩ := parser.expectLineEnd_same
    ({ p with c := { p.c with Timezones := p.c.Timezones ++ [p.t] } }.leaveScope
        scopeCalendar) nl rest
    (by simpa [parser.leaveScope, scopeCalendar] using hpk)
    (by simpa [parser.leaveScope, scopeCalendar] using hitems) hnl
  refine ⟨q, ?_, nest.matches_sameBut hm1 hsame, hq0, hqi, ?_,
    fun ht => parser.tidy_sameBut ?_ hsame⟩
  · simp only [parser.scanDelimiter, hd]
    exact hq
  · rw [hsame.2.2.2.2.2.2.2.2.2.2.2.2]
    simp [parser.leaveScope, scopeCalendar]
  · exact parser.tidy_frame ht rfl rfl rfl rfl
      (fun hq => absurd hq (by simp +decide [parser.leaveScope, scopeEvent, scopeAlarm, scopeCalendar]))

/-- END:STANDARD in a sub-component of a time zone. -/
theorem nest.close_standard (h : Host) (loc : Location) (a : nest) (p : parser)
    (delim nl : item) (rest : List item) (m k : Nat) (hm : a.matches p)
    (hst : a.stack = [(kind.standard, m), (kind.timezone, k)]) (hd : delim.typ = itemEndStandard)
    (hpk : p.peekCount = 0) (hitems : p.lex.items = nl :: rest) (hnl : nl.typ = itemLineEnd) :
    ∃ q, p.scanDelimiter h loc delim = res.ok none q
      ∧ ({ a with stack := [(kind.timezone, k)] } : nest).matches q
      ∧ q.peekCount = 0 ∧ q.lex.items = rest ∧ q.lex.ending = p.lex.ending
      ∧ (p.tidy → q.tidy) := by
  obtain ⟨-, -, -, ht, hk⟩ := nest.matches_standard hm hst
  obtain ⟨m1, m2, m3, m4, m5, m6, -⟩ := hm
  obtain ⟨t, hget, -⟩ := get?_of_lt p.timezones k hk
  have hbind : (p.t.bind fun i => p.timezones.get? i) = some t := by
    rw [ht, Option.some_bind, hget]
  have hm1 : ({ a with stack := [(kind.timezone, k)] } : nest).matches
      ({ p with timezones := (p.timezones.set (p.t.getD 0)
          { t with Standards := t.Standards ++ [p.s] }) }.leaveScope scopeTimezone) := by
    refine ⟨?_, ?_, ?_, ?_, ?_, ?_, Or.inr (Or.inr (Or.inr (Or.inl ⟨k, ?_⟩)))⟩
    · simpa [parser.leaveScope, scopeTimezone] using m1
    · simpa [parser.leaveScope, scopeTimezone] using m2
    · simpa [parser.leaveScope, scopeTimezone] using m3
    · have hset := set_map_same (fun t : Timezone => t.Properties) p.timezones k t
        { t with Standards := t.Standards ++ [p.s] } hget rfl
      simpa [parser.leaveScope, scopeTimezone, ht, hset] using m4
    · simpa [parser.leaveScope, scopeTimezone] using m5
    · simpa [parser.leaveScope, scopeTimezone] using m6
    · simp [parser.leaveScope, scopeTimezone, ht, hk]
  obtain ⟨q, hq, hq0, hqi, hsame⟩ := parser.expectLineEnd_same
    ({ p with timezones := (p.timezones.set (p.t.getD 0)
          { t with Standards := t.Standards ++ [p.s] }) }.leaveScope scopeTimezone) nl rest
    (by simpa [parser.leaveScope, scopeTimezone] using hpk)
    (by simpa [parser.leaveScope, scopeTimezone] using hitems) hnl
  refine ⟨q, ?_, nest.matches_sameBut hm1 hsame, hq0, hqi, ?_,
    fun ht => parser.tidy_sameBut ?_ hsame⟩
  · simp only [parser.scanDelimiter, hd, hbind]
    exact hq
  · rw [hsame.2.2.2.2.2.2.2.2.2.2.2.2]
    simp [parser.leaveScope, scopeTimezone]
  · exact parser.tidy_frame ht rfl rfl rfl rfl
      (fun hq => absurd hq (by simp +decide [parser.leaveScope, scopeEvent, scopeAlarm, scopeTimezone]))

/-- END:DAYLIGHT in a sub-component of a time zone. -/
theorem nest.close_daylight (h : Host) (loc : Location) (a : nest) (p : parser)
    (delim nl : item) (rest : List item) (m k : Nat) (hm : a.matches p)
    (hst : a.stack = [(kind.daylight, m), (kind.timezone, k)]) (hd : delim.typ = itemEndDaylight)
    (hpk : p.peekCount = 0) (hitems : p.lex.items = nl :: rest) (hnl : nl.typ = itemLineEnd) :
    ∃ q, p.scanDelimiter h loc delim = res.ok none q
      ∧ ({ a with stack := [(kind.timezone, k)] } : nest).matches q
      ∧ q.peekCount = 0 ∧ q.lex.items = rest ∧ q.lex.ending = p.lex.ending
      ∧ (p.tidy → q.tidy) := by
  obtain ⟨-, -, -, ht, hk⟩ := nest.matches_daylight hm hst
  obtain ⟨m1, m2, m3, m4, m5, m6, -⟩ := hm
  obtain ⟨t, hget, -⟩ := get?_of_lt p.timezones k hk
  have hbind : (p.t.bind fun i => p.timezones.get? i) = some t := by
    rw [ht, Option.some_bind, hget]
  have hm1 : ({ a with stack := [(kind.timezone, k)] } : nest).matches
      ({ p with timezones := (p.timezones.set (p.t.getD 0)
          { t with Daylights := t.Daylights ++ [p.d] }) }.leaveScope scopeTimezone) := by
    refine ⟨?_, ?_, ?_, ?_, ?_, ?_, Or.inr (Or.inr (Or.inr (Or.inl ⟨k, ?_⟩)))⟩
    · simpa [parser.leaveScope, scopeTimezone] using m1
    · simpa [parser.leaveScope, scopeTimezone] using m2
    · simpa [parser.leaveScope, scopeTimezone] using m3
    · have hset := set_map_same (fun t : Timezone => t.Properties) p.timezones k t
        { t with Daylights := t.Daylights ++ [p.d] } hget rfl
      simpa [parser.leaveScope, scopeTimezone, ht, hset] using m4
    · simpa [parser.leaveScope, scopeTimezone] using m5
    · simpa [parser.leaveScope, scopeTimezone] using m6
    · simp [parser.leaveScope, scopeTimezone, ht, hk]
  obtain ⟨q, hq, hq0, hqi, hsame⟩ := parser.expectLineEnd_same
    ({ p with timezones := (p.timezones.set (p.t.getD 0)
          { t with Daylights := t.Daylights ++ [p.d] }) }.leaveScope scopeTimezone) nl rest
    (by simpa [parser.leaveScope, scopeTimezone] using hpk)
    (by simpa [parser.leaveScope, scopeTimezone] using hitems) hnl
  refine ⟨q, ?_, nest.matches_sameBut hm1 hsame, hq0, hqi, ?_,
    fun ht => parser.tidy_sameBut ?_ hsame⟩
  · simp only [parser.scanDelimiter, hd, hbind]
    exact hq
  · rw [hsame.2.2.2.2.2.2.2.2.2.2.2.2]
    simp [parser.leaveScope, scopeTimezone]
  · exact parser.tidy_frame ht rfl rfl rfl rfl
      (fun hq => absurd hq (by simp +decide [parser.leaveScope, scopeEvent, scopeAlarm, scopeTimezone]))

/-- END:VALARM in an alarm of an event. -/
theorem nest.close_alarm (h : Host) (loc : Location) (a : nest) (p : parser)
    (delim nl : item) (rest : List item) (j i : Nat) (hm : a.matches p)
    (hst : a.stack = [(kind.alarm, j), (kind.event, i)]) (hd : delim.typ = itemEndVAlarm)
    (hpk : p.peekCount = 0) (hitems : p.lex.items = nl :: rest) (hnl : nl.typ = itemLineEnd) :
    (∃ q, p.scanDelimiter h loc delim = res.ok none q
        ∧ ({ a with stack := [(kind.event, i)] } : nest).matches q
        ∧ q.peekCount = 0 ∧ q.lex.items = rest ∧ q.lex.ending = p.lex.ending
        ∧ (p.tidy → q.tidy))
      ∨ ∃ e q, p.scanDelimiter h loc delim = res.ok (some e) q ∧ e.isValidation = true
        ∧ q.lex.ending = p.lex.ending
        ∧ ∃ props : List Property, a.alarms.get? j = some props
          ∧ (validateAlarm { NewAlarm with Properties := props }).2 = some e := by
  obtain ⟨hsc, ha, hj, hv, hi⟩ := nest.matches_alarm hm hst
  obtain ⟨m1, m2, m3, m4, m5, m6, -⟩ := hm
  obtain ⟨al, hgeta, -⟩ := get?_of_lt p.alarms j hj
  obtain ⟨v, hgetv, -⟩ := get?_of_lt p.events i hi
  have hbinda : (p.a.bind fun i => p.alarms.get? i) = some al := by
    rw [ha, Option.some_bind, hgeta]
  have hbindv : (p.v.bind fun i => p.events.get? i) = some v := by
    rw [hv, Option.some_bind, hgetv]
  cases hva : (validateAlarm al).2 with
  | some e =>
    refine Or.inr ⟨e, { p with alarms := p.alarms.set (p.a.getD 0) (validateAlarm al).1 }, ?_,
      validateAlarm_isValidation al e hva, rfl, al.Properties, ?_, ?_⟩
    · simp only [parser.scanDelimiter, hd, hbinda, hva]
    · rw [← m3, List.get?_eq_getElem?, List.getElem?_map, ← List.get?_eq_getElem?, hgeta]
      rfl
    · rw [← hva]
      exact validateAlarm_error_eq _ _ rfl
  | none =>
    have hm1 : ({ a with stack := [(kind.event, i)] } : nest).matches
        ({ p with
            alarms := p.alarms.set (p.a.getD 0) (validateAlarm al).1
            events := p.events.set (p.v.getD 0) { v with Alarms := v.Alarms ++ [p.a] }
          }.leaveScope scopeEvent) := by
      refine ⟨?_, ?_, ?_, ?_, ?_, ?_, Or.inr (Or.inl ⟨i, ?_⟩)⟩
      · simpa [parser.leaveScope, scopeEvent] using m1
      · have hset := set_map_same (fun v : Event => v.Properties) p.events i v
          { v with Alarms := v.Alarms ++ [p.a] } hgetv rfl
        simpa [parser.leaveScope, scopeEvent, hv, hset] using m2
      · have hset := set_map_same (fun x : Alarm => x.Properties) p.alarms j al
          (validateAlarm al).1 hgeta (validateAlarm_properties al)
        simpa [parser.leaveScope, scopeEvent, ha, hset] using m3
      · simpa [parser.leaveScope, scopeEvent] using m4
      · simpa [parser.leaveScope, scopeEvent] using m5
      · simpa [parser.leaveScope, scopeEvent] using m6
      · simp [parser.leaveScope, scopeEvent, hv, hi]
    obtain ⟨q, hq, hq0, hqi, hsame⟩ := parser.expectLineEnd_same
      ({ p with
          alarms := p.alarms.set (p.a.getD 0) (validateAlarm al).1
          events := p.events.set (p.v.getD 0) { v with Alarms := v.Alarms ++ [p.a] }
        }.leaveScope scopeEvent) nl rest
      (by simpa [parser.leaveScope, scopeEvent] using hpk)
      (by simpa [parser.leaveScope, scopeEvent] using hitems) hnl
    refine Or.inl ⟨q, ?_, nest.matches_sameBut hm1 hsame, hq0, hqi, ?_,
      fun ht1 => parser.tidy_sameBut ?_ hsame⟩
    · simp only [parser.scanDelimiter, hd, hbinda, hva, hbindv]
      exact hq
    · rw [hsame.2.2.2.2.2.2.2.2.2.2.2.2]
      simp [parser.leaveScope, scopeEvent]
    · obtain ⟨⟨pre, post, h1, h2, h3⟩, hopen⟩ := ht1
      obtain ⟨i1, props, alarms, hv1, hget1⟩ := hopen (Or.inr hsc)
      rw [hv] at hv1
      simp only [Option.some.injEq] at hv1
      subst hv1
      rw [hgetv] at hget1
      simp only [Option.some.injEq] at hget1
      subst hget1
      refine ⟨⟨pre, post, h1, h2, fun _ => h3 (Or.inr hsc)⟩,
        fun _ => ⟨i, props, alarms ++ [p.a], hv, ?_⟩⟩
      have hleave : ∀ (r : parser) (sc : Int), (r.leaveScope sc).events = r.events := by
        intro r sc
        unfold parser.leaveScope
        split <;> rfl
      rw [hleave]
      simp only [hv, Option.getD_some, List.get?_eq_getElem?, List.getElem?_set, hi, if_true]
      rfl

/-- END:VEVENT in an event whose parameters have a value each. -/
theorem nest.close_event (h : Host) (loc : Location) (a : nest) (p : parser)
    (delim nl : item) (rest : List item) (i : Nat) (hm : a.matches p) (ht : p.tidy)
    (hval : a.valued) (hst : a.stack = [(kind.event, i)]) (hd : delim.typ = itemEndVEvent)
    (hpk : p.peekCount = 0) (hitems : p.lex.items = nl :: rest) (hnl : nl.typ = itemLineEnd) :
    (∃ q, p.scanDelimiter h loc delim = res.ok none q
        ∧ ({ a with stack := [] } : nest).matches q
        ∧ q.peekCount = 0 ∧ q.lex.items = rest ∧ q.lex.ending = p.lex.ending
        ∧ (p.tidy → q.tidy))
      ∨ ∃ e q, p.scanDelimiter h loc delim = res.ok (some e) q ∧ e.isValidation = true
        ∧ q.lex.ending = p.lex.ending
        ∧ ∃ (props : List Property) (alarms : List ptr) (v1 : Event),
          a.events.get? i = some props
          ∧ validateEvent h (calendarMethod a.root) loc (collected props alarms)
            = validated.done v1 (some e) := by
  obtain ⟨hsc, hv, hi⟩ := nest.matches_event hm hst
  obtain ⟨m1, m2, m3, m4, m5, m6, -⟩ := hm
  obtain ⟨v, hgetv, hmem⟩ := get?_of_lt p.events i hi
  obtain ⟨⟨pre, post, h1, h2, h3⟩, hopen⟩ := ht
  have hmethod : p.c.Method = calendarMethod a.root := by
    rw [h2, ← m1, h1, h3 (Or.inl hsc), List.append_nil]
  obtain ⟨i1, props, alarms, hv1, hget1⟩ := hopen (Or.inl hsc)
  rw [hv] at hv1
  simp only [Option.some.injEq] at hv1
  subst hv1
  rw [hgetv] at hget1
  simp only [Option.some.injEq] at hget1
  have hbindv : (p.v.bind fun i => p.events.get? i) = some v := by
    rw [hv, Option.some_bind, hgetv]
  have hp : ∀ prop ∈ v.Properties, prop.hasValues = true :=
    hval v.Properties (by rw [← m2]; exact List.mem_map_of_mem _ hmem)
  obtain ⟨v1, err, hres, hprops, herr⟩ := validateEvent_done h p.c.Method loc v hp
  cases err with
  | some e =>
    refine Or.inr ⟨e, { p with events := p.events.set (p.v.getD 0) v1 }, ?_, herr e rfl, rfl,
      props, alarms, v1, ?_, ?_⟩
    · simp only [parser.scanDelimiter, hd, hbindv, hres]
    · rw [← m2, List.get?_eq_getElem?, List.getElem?_map, ← List.get?_eq_getElem?, hgetv,
        hget1]
      rfl
    · rw [← hmethod, ← hget1]
      exact hres
  | none =>
    have hm1 : ({ a with stack := [] } : nest).matches
        ({ p with
            events := p.events.set (p.v.getD 0) v1
            c := { p.c with Events := p.c.Events ++ [p.v] } }.leaveScope scopeCalendar) := by
      refine ⟨?_, ?_, ?_, ?_, ?_, ?_, Or.inl ?_⟩
      · simpa [parser.leaveScope, scopeCalendar] using m1
      · have hset := set_map_same (fun v : Event => v.Properties) p.events i v v1 hgetv hprops
        simpa [parser.leaveScope, scopeCalendar, hv, hset] using m2
      · simpa [parser.leaveScope, scopeCalendar] using m3
      · simpa [parser.leaveScope, scopeCalendar] using m4
      · simpa [parser.leaveScope, scopeCalendar] using m5
      · simpa [parser.leaveScope, scopeCalendar] using m6
      · simp [parser.leaveScope, scopeCalendar]
    obtain ⟨q, hq, hq0, hqi, hsame⟩ := parser.expectLineEnd_same
      ({ p with
          events := p.events.set (p.v.getD 0) v1
          c := { p.c with Events := p.c.Events ++ [p.v] } }.leaveScope scopeCalendar) nl rest
      (by simpa [parser.leaveScope, scopeCalendar] using hpk)
      (by simpa [parser.leaveScope, scopeCalendar] using hitems) hnl
    refine Or.inl ⟨q, ?_, nest.matches_sameBut hm1 hsame, hq0, hqi, ?_,
      fun ht1 => parser.tidy_sameBut ?_ hsame⟩
    · simp only [parser.scanDelimiter, hd, hbindv, hres]
      exact hq
    · rw [hsame.2.2.2.2.2.2.2.2.2.2.2.2]
      simp [parser.leaveScope, scopeCalendar]
    · exact ⟨⟨pre, post, by simpa [parser.leaveScope] using h1,
          by simpa [parser.leaveScope] using h2,
          fun hq => absurd hq (by
            simp +decide [parser.leaveScope, scopeEvent, scopeAlarm, scopeCalendar])⟩,
        fun hq => absurd hq (by
          simp +decide [parser.leaveScope, scopeEvent, scopeAlarm, scopeCalendar])⟩
/-! ## The stack of the specification, step by step -/

theorem paramsFold_values : ∀ (qs : List pparam) (m : List (Str × Param)),
    (∀ e ∈ m, e.2.Values ≠ []) → ∀ e ∈ paramsFold m qs, e.2.Values ≠ []
  | [], _, hm => hm
  | q :: qs, m, hm => by
    rw [paramsFold]
    exact paramsFold_values qs _ (mapSet_values m _ _ hm (by simp [pparam.entry]))

theorem cline.property_hasValues (ln : cline) : ln.property.hasValues = true := by
  simp only [Property.hasValues, cline.property, List.all_eq_true]
  intro e he
  have := paramsFold_values ln.params [] (by simp) e he
  cases hv : e.2.Values with
  | nil => exact absurd hv this
  | cons _ _ => rfl

theorem nest.push_valued (a : nest) (k : kind) (hval : a.valued) : (a.push k).valued := by
  intro ps hps
  cases k
  case event =>
    simp only [nest.push, List.mem_append, List.mem_singleton] at hps
    rcases hps with hin | rfl
    · exact hval ps hin
    · simp
  all_goals exact hval ps hps

theorem nest.append_valued (a : nest) (prop : Property) (hval : a.valued)
    (hprop : prop.hasValues = true) : (a.append prop).valued := by
  have key : ∀ i, ∀ ps ∈ appendAt a.events i prop, ∀ q ∈ ps, q.hasValues = true := by
    intro i ps hps q hq
    rcases List.mem_or_eq_of_mem_set hps with hin | rfl
    · exact hval ps hin q hq
    · rcases List.mem_append.mp hq with hq1 | hq1
      · by_cases hi : i < a.events.length
        · rw [List.getD_eq_getElem _ _ hi] at hq1
          exact hval _ (List.getElem_mem hi) q hq1
        · rw [List.getD_eq_default _ _ (by omega)] at hq1
          simp at hq1
      · rw [List.mem_singleton.mp hq1]
        exact hprop
  unfold nest.append
  split
  · exact hval
  · exact key _
  all_goals exact hval

theorem nest.step_valued (a a1 : nest) (x : act) (hval : a.valued)
    (hstep : a.step x = some a1) : a1.valued := by
  cases x with
  | line ln =>
    simp only [nest.step, Option.some.injEq] at hstep
    subst hstep
    exact nest.append_valued a _ hval ln.property_hasValues
  | opening k pos =>
    simp only [nest.step] at hstep
    split_ifs at hstep
    simp only [Option.some.injEq] at hstep
    subst hstep
    exact nest.push_valued a k hval
  | closing k pos =>
    simp only [nest.step] at hstep
    split at hstep
    · split_ifs at hstep
      simp only [Option.some.injEq] at hstep
      subst hstep
      exact hval
    · simp at hstep
/-- A delimiter that opens a component where the specification has it pushed: the parser
opens the component too, or the validation of the calendar has failed. -/
theorem nest.step_opening (h : Host) (loc : Location) (a a1 : nest) (p : parser) (k : kind)
    (pos : Nat) (nl : item) (rest : List item) (hm : a.matches p)
    (hstep : a.step (act.opening k pos) = some a1)
    (hpk : p.peekCount = 0) (hitems : p.lex.items = nl :: rest) (hnl : nl.typ = itemLineEnd) :
    (∃ q, p.scanDelimiter h loc ⟨k.opening.2, pos, k.opening.1⟩ = res.ok none q ∧ a1.matches q
        ∧ q.peekCount = 0 ∧ q.lex.items = rest ∧ q.lex.ending = p.lex.ending
        ∧ (p.tidy → q.tidy))
      ∨ ∃ e q, p.scanDelimiter h loc ⟨k.opening.2, pos, k.opening.1⟩ = res.ok (some e) q
        ∧ e.isValidation = true ∧ q.lex.ending = p.lex.ending
        ∧ a.rejects h loc (act.opening k pos) e := by
  simp only [nest.step] at hstep
  split_ifs at hstep with hpar
  simp only [Option.some.injEq] at hstep
  subst hstep
  have hshape := hm.2.2.2.2.2.2
  rcases hshape with ⟨hs, -⟩ | ⟨i, hs, -⟩ | ⟨j, i, hs, -⟩ | ⟨k1, hs, -⟩ | ⟨m, k1, hs, -⟩
    | ⟨m, k1, hs, -⟩ <;> cases k <;> simp [hs, kind.parent] at hpar
  · rcases nest.open_event h loc a p ⟨kind.event.opening.2, pos, kind.event.opening.1⟩ nl rest
      hm hs rfl hpk hitems hnl with hok | hbad
    · exact Or.inl hok
    · obtain ⟨e, q, hq, he, hqe, hrej⟩ := hbad
      exact Or.inr ⟨e, q, hq, he, hqe, hrej⟩
  · exact Or.inl (nest.open_timezone h loc a p _ nl rest hm hs rfl hpk hitems hnl)
  · exact Or.inl (nest.open_alarm h loc a p _ nl rest i hm hs rfl hpk hitems hnl)
  · exact Or.inl (nest.open_standard h loc a p _ nl rest k1 hm hs rfl hpk hitems hnl)
  · exact Or.inl (nest.open_daylight h loc a p _ nl rest k1 hm hs rfl hpk hitems hnl)

/-- A delimiter that closes the innermost open component: the parser goes back to the
component around it, or a validation has failed. -/
theorem nest.step_closing (h : Host) (loc : Location) (a a1 : nest) (p : parser) (k : kind)
    (pos : Nat) (nl : item) (rest : List item) (hm : a.matches p) (ht : p.tidy)
    (hval : a.valued) (hstep : a.step (act.closing k pos) = some a1)
    (hpk : p.peekCount = 0) (hitems : p.lex.items = nl :: rest) (hnl : nl.typ = itemLineEnd) :
    (∃ q, p.scanDelimiter h loc ⟨k.closing.2, pos, k.closing.1⟩ = res.ok none q ∧ a1.matches q
        ∧ q.peekCount = 0 ∧ q.lex.items = rest ∧ q.lex.ending = p.lex.ending
        ∧ (p.tidy → q.tidy))
      ∨ ∃ e q, p.scanDelimiter h loc ⟨k.closing.2, pos, k.closing.1⟩ = res.ok (some e) q
        ∧ e.isValidation = true ∧ q.lex.ending = p.lex.ending
        ∧ a.rejects h loc (act.closing k pos) e := by
  have hshape := hm.2.2.2.2.2.2
  rcases hshape with ⟨hs, -⟩ | ⟨i, hs, -⟩ | ⟨j, i, hs, -⟩ | ⟨k1, hs, -⟩ | ⟨m, k1, hs, -⟩
    | ⟨m, k1, hs, -⟩ <;> simp only [nest.step, hs] at hstep
  · simp at hstep
  · split_ifs at hstep with hk
    simp only [Option.some.injEq] at hstep
    subst hstep hk
    rcases nest.close_event h loc a p ⟨kind.event.closing.2, pos, kind.event.closing.1⟩ nl rest
      i hm ht hval hs rfl hpk hitems hnl with hok | hbad
    · exact Or.inl hok
    · obtain ⟨e, q, hq, he, hqe, props, alarms, v1, hget, hres⟩ := hbad
      exact Or.inr ⟨e, q, hq, he, hqe, i, [], props, alarms, v1, hs, hget, hres⟩
  · split_ifs at hstep with hk
    simp only [Option.some.injEq] at hstep
    subst hstep hk
    rcases nest.close_alarm h loc a p ⟨kind.alarm.closing.2, pos, kind.alarm.closing.1⟩ nl rest
      j i hm hs rfl hpk hitems hnl with hok | hbad
    · exact Or.inl hok
    · obtain ⟨e, q, hq, he, hqe, props, hget, hres⟩ := hbad
      exact Or.inr ⟨e, q, hq, he, hqe, j, [(kind.event, i)], props, hs, hget, hres⟩
  · split_ifs at hstep with hk
    simp only [Option.some.injEq] at hstep
    subst hstep hk
    exact Or.inl (nest.close_timezone h loc a p _ nl rest hm rfl hpk hitems hnl)
  · split_ifs at hstep with hk
    simp only [Option.some.injEq] at hstep
    subst hstep hk
    exact Or.inl (nest.close_standard h loc a p _ nl rest m k1 hm hs rfl hpk hitems hnl)
  · split_ifs at hstep with hk
    simp only [Option.some.injEq] at hstep
    subst hstep hk
    exact Or.inl (nest.close_daylight h loc a p _ nl rest m k1 hm hs rfl hpk hitems hnl)
/-! ## The parser on the lines of a properly nested document -/

theorem kind.opening_iota (k : kind) : k.opening.2.iota > itemKeyword.iota := by
  cases k <;> decide

theorem kind.closing_iota (k : kind) : k.closing.2.iota > itemKeyword.iota := by
  cases k <;> decide

theorem cline.items_length (ln : cline) :
    ln.items.length = (paramsItems (ln.pos + (utf8 ln.name).length) ln.params).length + 4 := by
  simp [cline.items]

theorem nest.run_cons {a a2 : nest} {x : act} (pre : List act) (hstep : a.step x = some a2) :
    a.run (x :: pre) = a2.run pre := by
  simp [nest.run, hstep]

/-- The loop of `parse` on the lines of a properly nested document, END:VCALENDAR after
them: it ends with `errorDone` on a parser that stands as the stack of the specification
does after these lines, or with the error that the validation at one of the delimiters
returns, on the component as the stack has it after the lines before. -/
theorem nest.parseLoop_run (h : Host) (loc : Location) (o : Nat) (v : Str) (tail : List item) :
    ∀ (acts : List act) (n m : Nat) (a a1 : nest) (p : parser),
      a.matches p → p.tidy → a.valued → a.run acts = some a1 → a1.stack = [] →
      p.peekCount = 0 →
      p.lex.items = renderActs acts ++ ⟨itemEndVCalendar, o, v⟩ :: tail →
      (renderActs acts).length + 1 ≤ n → (renderActs acts).length + 1 ≤ m →
      (∃ q, ((parser.scanContentLine h loc n p).bind fun err p1 =>
            match err with
            | some e => res.ok e p1
            | none => parser.parseLoop h loc m p1) = res.ok error.errorDone q
          ∧ a1.matches q ∧ q.lex.ending = p.lex.ending)
        ∨ ∃ e q, ((parser.scanContentLine h loc n p).bind fun err p1 =>
            match err with
            | some e => res.ok e p1
            | none => parser.parseLoop h loc m p1) = res.ok e q
          ∧ e.isValidation = true ∧ q.lex.ending = p.lex.ending
          ∧ ∃ pre x post a2, acts = pre ++ x :: post ∧ a.run pre = some a2
            ∧ a2.rejects h loc x e
  | [], n, m, a, a1, p, hm, _, _, hrun, hst, hpk, hitems, hn, _ => by
    simp only [nest.run, Option.some.injEq] at hrun
    subst hrun
    obtain ⟨n, rfl⟩ : ∃ k, n = k + 1 := ⟨n - 1, by omega⟩
    simp only [renderActs, List.nil_append] at hitems
    obtain ⟨p1, hp1, -, -, -, hsame⟩ := parser.next_pending p _ _ (by omega)
      (by simpa [parser.pending, hpk] using hitems)
    have hsc : p1.scope = scopeCalendar := by
      rw [hsame.1]
      exact nest.matches_root hm hst
    have hiota : itemEndVCalendar.iota > itemKeyword.iota := by decide
    refine Or.inl ⟨p1, ?_, nest.matches_sameBut hm hsame, hsame.2.2.2.2.2.2.2.2.2.2.2.2⟩
    simp [parser.scanContentLine, hp1, res.bind, hiota, parser.scanDelimiter, hsc]
  | act.line ln :: acts, n, m, a, a1, p, hm, ht, hval, hrun, hst, hpk, hitems, hn, hm' => by
    simp only [nest.run, nest.step] at hrun
    have hlen := ln.items_length
    simp only [renderActs, act.items, List.length_append] at hn hm'
    obtain ⟨m, rfl⟩ : ∃ k, m = k + 1 := ⟨m - 1, by omega⟩
    obtain ⟨p5, hp5, hsame, h50, h5i⟩ := scanContentLine_stores h loc p n (utf8 ln.name) ln.pos
      (ln.pos + (utf8 ln.name).length) _ _ _ ln.params (utf8 ln.value) crlf
      (renderActs acts ++ ⟨itemEndVCalendar, o, v⟩ :: tail) (by omega)
      (by simpa [parser.pending, hpk, renderActs, act.items, cline.items] using hitems) (by omega)
    obtain ⟨q, hq, hmq, hq0, hql, -, htq⟩ := nest.store_matches a p5 ln.property
      (nest.matches_sameBut hm hsame)
    have hend : q.lex.ending = p.lex.ending := by
      rw [hql, hsame.2.2.2.2.2.2.2.2.2.2.2.2]
    have ih := nest.parseLoop_run h loc o v tail acts m m (a.append ln.property) a1 q hmq
      (htq (parser.tidy_sameBut ht hsame))
      (nest.append_valued a _ hval ln.property_hasValues) hrun hst (by rw [hq0, h50])
      (by rw [hql, h5i]) (by omega) (by omega)
    have heq : ((parser.scanContentLine h loc n p).bind fun err p1 =>
            match err with
            | some e => res.ok e p1
            | none => parser.parseLoop h loc (m + 1) p1)
        = (parser.scanContentLine h loc m q).bind fun err p1 =>
            match err with
            | some e => res.ok e p1
            | none => parser.parseLoop h loc m p1 := by
      rw [hp5]
      change (p5.store ln.property).bind _ = _
      rw [hq]
      simp only [res.bind]
      rw [parser.parseLoop]
      rfl
    rw [heq, ← hend]
    rcases ih with hok | ⟨e, q1, hq1, he, hqe, pre, x, post, a3, hacts, hrun3, hrej⟩
    · exact Or.inl hok
    · refine Or.inr ⟨e, q1, hq1, he, hqe, act.line ln :: pre, x, post, a3, ?_, ?_, hrej⟩
      · rw [hacts]
        rfl
      · rw [nest.run_cons pre (show a.step (act.line ln) = some (a.append ln.property) from rfl)]
        exact hrun3
  | act.opening k pos :: acts, n, m, a, a1, p, hm, ht, hval, hrun, hst, hpk, hitems, hn, hm' => by
    simp only [nest.run] at hrun
    cases hstep : a.step (act.opening k pos) with
    | none => simp [hstep] at hrun
    | some a2 =>
      simp only [hstep] at hrun
      simp only [renderActs, act.items, List.length_append, List.length_cons,
        List.length_nil] at hn hm'
      obtain ⟨n, rfl⟩ : ∃ k, n = k + 1 := ⟨n - 1, by omega⟩
      simp only [renderActs, act.items, List.cons_append, List.nil_append] at hitems
      obtain ⟨p1, hp1, h10, h1i, -, hsame⟩ := parser.next_pending p _ _ (by omega)
        (by simpa [parser.pending, hpk] using hitems)
      have hend1 : p1.lex.ending = p.lex.ending := hsame.2.2.2.2.2.2.2.2.2.2.2.2
      rcases nest.step_opening h loc a a2 p1 k pos _ _ (nest.matches_sameBut hm hsame) hstep
        h10 h1i rfl with ⟨q, hq, hmq, hq0, hqi, hqe, htq⟩ | ⟨e, q, hq, he, hqe, hrej⟩
      · have ih := nest.parseLoop_run h loc o v tail acts n m a2 a1 q hmq
          (htq (parser.tidy_sameBut ht hsame))
          (nest.step_valued a a2 _ hval hstep) hrun hst hq0 hqi (by omega) (by omega)
        have heq : parser.scanContentLine h loc (n + 1) p = parser.scanContentLine h loc n q := by
          simp [parser.scanContentLine, hp1, res.bind, kind.opening_iota, hq]
        rw [heq, ← hend1, ← hqe]
        rcases ih with hok | ⟨e, q1, hq1, he, hqe1, pre, x, post, a3, hacts, hrun3, hrej⟩
        · exact Or.inl hok
        · refine Or.inr ⟨e, q1, hq1, he, hqe1, act.opening k pos :: pre, x, post, a3, ?_, ?_, hrej⟩
          · rw [hacts]
            rfl
          · rw [nest.run_cons pre hstep]
            exact hrun3
      · refine Or.inr ⟨e, q, ?_, he, by rw [hqe, hend1], [], act.opening k pos, acts, a, rfl, rfl,
          hrej⟩
        simp [parser.scanContentLine, hp1, res.bind, kind.opening_iota, hq]
  | act.closing k pos :: acts, n, m, a, a1, p, hm, ht, hval, hrun, hst, hpk, hitems, hn, hm' => by
    simp only [nest.run] at hrun
    cases hstep : a.step (act.closing k pos) with
    | none => simp [hstep] at hrun
    | some a2 =>
      simp only [hstep] at hrun
      simp only [renderActs, act.items, List.length_append, List.length_cons,
        List.length_nil] at hn hm'
      obtain ⟨n, rfl⟩ : ∃ k, n = k + 1 := ⟨n - 1, by omega⟩
      simp only [renderActs, act.items, List.cons_append, List.nil_append] at hitems
      obtain ⟨p1, hp1, h10, h1i, -, hsame⟩ := parser.next_pending p _ _ (by omega)
        (by simpa [parser.pending, hpk] using hitems)
      have hend1 : p1.lex.ending = p.lex.ending := hsame.2.2.2.2.2.2.2.2.2.2.2.2
      rcases nest.step_closing h loc a a2 p1 k pos _ _ (nest.matches_sameBut hm hsame)
        (parser.tidy_sameBut ht hsame) hval hstep h10 h1i rfl
        with ⟨q, hq, hmq, hq0, hqi, hqe, htq⟩ | ⟨e, q, hq, he, hqe, hrej⟩
      · have ih := nest.parseLoop_run h loc o v tail acts n m a2 a1 q hmq
          (htq (parser.tidy_sameBut ht hsame))
          (nest.step_valued a a2 _ hval hstep) hrun hst hq0 hqi (by omega) (by omega)
        have heq : parser.scanContentLine h loc (n + 1) p = parser.scanContentLine h loc n q := by
          simp [parser.scanContentLine, hp1, res.bind, kind.closing_iota, hq]
        rw [heq, ← hend1, ← hqe]
        rcases ih with hok | ⟨e, q1, hq1, he, hqe1, pre, x, post, a3, hacts, hrun3, hrej⟩
        · exact Or.inl hok
        · refine Or.inr ⟨e, q1, hq1, he, hqe1, act.closing k pos :: pre, x, post, a3, ?_, ?_, hrej⟩
          · rw [hacts]
            rfl
          · rw [nest.run_cons pre hstep]
            exact hrun3
      · refine Or.inr ⟨e, q, ?_, he, by rw [hqe, hend1], [], act.closing k pos, acts, a, rfl, rfl,
          hrej⟩
        simp [parser.scanContentLine, hp1, res.bind, kind.closing_iota, hq]

/-- The method `parse` on a properly nested document: it returns no error and stands as the
stack of the specification does, or it returns the error that the validation at one of the
delimiters returns. -/
theorem nest.parse_run (h : Host) (loc : Location) (r : Str) (acts : List act) (a : nest)
    (o : Nat) (tail : List item)
    (hlex : (lex h (unfold r)).items
      = ⟨itemBeginVCalendar, 0, str "BEGIN:VCALENDAR"⟩ :: ⟨itemLineEnd, 15, crlf⟩
        :: (renderActs acts ++ ⟨itemEndVCalendar, o, str "END:VCALENDAR"⟩ :: tail))
    (hend : (lex h (unfold r)).ending = halt.closed)
    (hrun : nest.start.run acts = some a) (hst : a.stack = []) :
    (∃ q, (newParser h (unfold r)).parse h loc ((newParser h (unfold r)).lex.items.length + 5)
          = res.ok none q ∧ a.matches q ∧ q.lex.ending = halt.closed)
      ∨ ∃ e q, (newParser h (unfold r)).parse h loc ((newParser h (unfold r)).lex.items.length + 5)
          = res.ok (some e) q ∧ e.isValidation = true ∧ q.lex.ending = halt.closed
          ∧ ∃ pre x post a2, acts = pre ++ x :: post ∧ nest.start.run pre = some a2
            ∧ a2.rejects h loc x e := by
  have hp0 : (newParser h (unfold r)).lex = lex h (unfold r) := rfl
  obtain ⟨p1, hp1, h10, h1i, -, hsame1⟩ := parser.next_pending (newParser h (unfold r)) _ _
    (by simp [newParser]) (by simpa [parser.pending, newParser] using hlex)
  obtain ⟨p2, hp2, h20, h2i, -, hsame2⟩ := parser.next_pending p1 _ _ (by omega)
    (by simpa [parser.pending, h10] using h1i)
  have hsame := parser.sameBut_trans hsame1 hsame2
  have hm0 : nest.start.matches (newParser h (unfold r)) := by
    refine ⟨rfl, rfl, rfl, rfl, rfl, rfl, Or.inl ⟨rfl, rfl⟩⟩
  have hval0 : nest.start.valued := by
    intro ps hps
    simp [nest.start] at hps
  have hlen : (newParser h (unfold r)).lex.items.length + 5
      = ((renderActs acts).length + tail.length + 7) + 1 := by
    rw [hp0, hlex]
    simp only [List.length_cons, List.length_append]
    omega
  have hend2 : p2.lex.ending = halt.closed := by
    rw [hsame.2.2.2.2.2.2.2.2.2.2.2.2, hp0, hend]
  have hrest := nest.parseLoop_run h loc o (str "END:VCALENDAR") tail acts
    ((renderActs acts).length + tail.length + 7) ((renderActs acts).length + tail.length + 7)
    nest.start a p2 (nest.matches_sameBut hm0 hsame)
    (parser.tidy_sameBut (newParser_tidy h (unfold r)) hsame) hval0 hrun hst h20 h2i (by omega)
    (by omega)
  have hloop : (∃ q, parser.parseLoop h loc ((renderActs acts).length + tail.length + 7 + 1) p2
          = res.ok error.errorDone q ∧ a.matches q ∧ q.lex.ending = p2.lex.ending)
      ∨ ∃ e q, parser.parseLoop h loc ((renderActs acts).length + tail.length + 7 + 1) p2
          = res.ok e q ∧ e.isValidation = true ∧ q.lex.ending = p2.lex.ending
          ∧ ∃ pre x post a2, acts = pre ++ x :: post ∧ nest.start.run pre = some a2
            ∧ a2.rejects h loc x e := by
    rw [parser.parseLoop]
    exact hrest
  have hparse : (newParser h (unfold r)).parse h loc
        ((newParser h (unfold r)).lex.items.length + 5)
      = (parser.parseLoop h loc ((renderActs acts).length + tail.length + 7 + 1) p2).bind
          fun e p3 => if e = error.errorDone then res.ok none p3 else res.ok (some e) p3 := by
    rw [hlen]
    simp only [parser.parse, hp1, res.bind, ne_eq, not_true_eq_false, if_false, hp2]
  rcases hloop with ⟨q, hq, hmq, hqe⟩ | ⟨e, q, hq, he, hqe, hrej⟩
  · refine Or.inl ⟨q, ?_, hmq, by rw [hqe, hend2]⟩
    rw [hparse, hq]
    simp [res.bind]
  · refine Or.inr ⟨e, q, ?_, he, by rw [hqe, hend2], hrej⟩
    have hne : e ≠ error.errorDone := by
      intro hc
      rw [hc] at he
      simp [error.isValidation] at he
    rw [hparse, hq]
    simp [res.bind, hne]
/-! ## A content line in the middle of a text -/

theorem ite_rune_nonneg (c : Prop) [Decidable c] (n m : Nat) (k j : Nat) :
    0 ≤ (if c then ((n : Int), k) else ((m : Int), j)).1 := by
  split_ifs <;> exact Int.natCast_nonneg _

theorem decodeRune_ne_eof (s : Str) : (decodeRune s).1 ≠ eof := by
  have key : 0 ≤ (decodeRune s).1 := by
    unfold decodeRune
    repeat' split
    all_goals first
      | exact Int.natCast_nonneg _
      | exact ite_rune_nonneg _ _ _ _ _
  intro hc
  rw [hc] at key
  simp [eof] at key

/-- The state function `lexNewLine` on a CRLF that is not the end of the text: it sends the
line end and hands over to `lexName`. -/
theorem lexNewLine_more (l : lexer) (pre rest : Str) (hat : l.standsAt pre (crlf ++ rest))
    (hne : rest ≠ []) :
    ∃ l1, lexNewLine l = step.next (some stateFn.lexName) l1
      ∧ l1.standsAt (pre ++ crlf) rest
      ∧ l1.items = l.items ++ [⟨itemLineEnd, pre.length, crlf⟩] := by
  obtain ⟨hin, hpos, hstart⟩ := hat
  rw [crlf_eq] at hin
  have hnext := lexer.next_byte l pre (0x0A :: rest) 0x0D (by omega) (by simpa using hin) hpos
  have hpeek : l.peek = ((0x0D : Int), { l with width := 1 }) := by
    simp only [lexer.peek, hnext, lexer.backup, Nat.add_sub_cancel, Nat.cast_ofNat]
  have hpre : crlf.isPrefixOf (l.input.drop l.pos) = true := by
    rw [hin, hpos, List.drop_left, crlf_eq]
    simp [List.isPrefixOf]
  have hemit := lexer.emit_token { l with width := 1, pos := l.pos + 2 } itemLineEnd pre
    [0x0D, 0x0A] rest (by simpa using hin) hstart (by simp [hpos])
  have hlt : ¬ (l.pos + 2 ≥ l.input.length) := by
    rw [hin, hpos]
    cases rest with
    | nil => exact absurd rfl hne
    | cons b t => simp
  unfold lexNewLine
  simp only [hpeek, hpre, if_true]
  have hne13 : ¬ ((0x0D : Int) = eof) := by decide
  have hlen : crlf.length = 2 := by decide
  simp only [hne13, if_false, hlen, lexer.emitThen, hemit]
  have hnoteof : (lexer.next
      { l with
        width := 1, pos := l.pos + 2,
        items := l.items ++ [⟨itemLineEnd, pre.length, [0x0D, 0x0A]⟩],
        start := l.pos + 2 }).1 ≠ eof := by
    unfold lexer.next
    rw [if_neg (by simpa using hlt)]
    exact decodeRune_ne_eof _
  rw [if_neg hnoteof, lexer.next_backup]
  refine ⟨_, rfl, ⟨?_, ?_, ?_⟩, ?_⟩
  · simpa [crlf_eq] using hin
  · simp [hpos, crlf_eq]
  · simp [hpos, crlf_eq]
  · simp [crlf_eq]

theorem isPrefixOf_before_cr : ∀ (kw s t : Str), 0x0D ∉ kw →
    kw.isPrefixOf (s ++ 0x0D :: t) = true → kw.isPrefixOf s = true
  | [], s, _, _, _ => by simp [List.isPrefixOf]
  | a :: k, [], t, hk, hp => by
    simp only [List.nil_append, List.isPrefixOf, Bool.and_eq_true, beq_iff_eq] at hp
    exact absurd hp.1.symm (fun hc => hk (by rw [hc]; exact List.mem_cons_self _ _))
  | a :: k, b :: s, t, hk, hp => by
    simp only [List.cons_append, List.isPrefixOf, Bool.and_eq_true, beq_iff_eq] at hp ⊢
    exact ⟨hp.1, isPrefixOf_before_cr k s t (fun hc => hk (List.mem_cons_of_mem _ hc)) hp.2⟩

theorem keywords_no_cr : ∀ kw ∈ keywords, 0x0D ∉ kw.1 := by decide
/-- The scanner on a content line that more text follows: from `lexName` before the line it
comes back to `lexName` after its CRLF and has sent the items of the line. -/
theorem lex_cline (h : Host) (l : lexer) (pre rest : Str) (name : List Char) (params : List pparam)
    (value : List Char) (hat : l.standsAt pre (renderLine name params value ++ rest))
    (hname : ∀ c ∈ name, isName h c.toNat = true)
    (hparams : ∀ q ∈ params, q.wellFormed h)
    (hvalue : ∀ c ∈ value, isValueChar c.toNat = true)
    (hkw : ∀ kw ∈ keywords,
      kw.1.isPrefixOf (utf8 name ++ (renderParams params ++ 0x3A :: utf8 value)) = false)
    (hne : rest ≠ []) :
    ∃ l1, reaches h (paramsSteps params + 4) stateFn.lexName l stateFn.lexName l1
      ∧ l1.standsAt (pre ++ renderLine name params value) rest
      ∧ l1.items = l.items ++ (cline.mk pre.length name params value).items := by
  obtain ⟨b1, t1, hf, hb1⟩ := renderParams_follow params (utf8 value ++ crlf ++ rest)
  have hat0 : l.standsAt pre (utf8 name ++ b1 :: t1) := by
    rw [← hf]
    simpa [renderLine, List.append_assoc] using hat
  have hkw0 : ∀ kw ∈ keywords, kw.1.isPrefixOf (utf8 name ++ b1 :: t1) = false := by
    intro kw hk
    rw [← hf]
    cases hp : kw.1.isPrefixOf (utf8 name ++ (renderParams params
        ++ 0x3A :: (utf8 value ++ crlf ++ rest))) with
    | false => rfl
    | true =>
      have hp1 : kw.1.isPrefixOf ((utf8 name ++ (renderParams params ++ 0x3A :: utf8 value))
          ++ 0x0D :: (0x0A :: rest)) = true := by
        simpa [crlf_eq, List.append_assoc] using hp
      have := isPrefixOf_before_cr _ _ _ (keywords_no_cr kw hk) hp1
      rw [hkw kw hk] at this
      exact absurd this (by simp)
  obtain ⟨l1, h1, hat1, hi1⟩ := lexName_spec h l pre name b1 t1 hat0 hkw0 hname
    (by rcases hb1 with rfl | rfl <;> omega) (by rcases hb1 with rfl | rfl <;> rfl)
  rw [← hf] at hat1
  obtain ⟨l2, h2, hat2, hi2⟩ := lex_params h params l1 _ _ hat1 hparams
  obtain ⟨l3, h3, hat3, hi3⟩ := lexContentLine_spec l2 _ _ 0x3A hat2 (Or.inr (Or.inr rfl))
  have hat3' : l3.standsAt (pre ++ utf8 name ++ renderParams params ++ [0x3A])
      (utf8 value ++ 0x0D :: (0x0A :: rest)) := by
    simpa [crlf_eq, List.append_assoc] using hat3
  obtain ⟨l4, h4, hat4, hi4⟩ := lexValue_spec l3 _ value _ hat3' hvalue
  obtain ⟨l5, h5, hat5, hi5⟩ := lexNewLine_more l4 _ rest
    (by simpa [crlf_eq] using hat4) hne
  have r1 : reaches h 1 stateFn.lexName _ stateFn.lexContentLine l1 :=
    reaches_step (by simpa [stateFn.call] using h1)
  have r3 : reaches h 1 stateFn.lexContentLine l2 stateFn.lexValue l3 :=
    reaches_step (by simpa [stateFn.call] using h3)
  have r4 : reaches h 1 stateFn.lexValue l3 stateFn.lexNewLine l4 :=
    reaches_step (by simpa [stateFn.call] using h4)
  have r5 : reaches h 1 stateFn.lexNewLine l4 stateFn.lexName l5 :=
    reaches_step (by simpa [stateFn.call] using h5)
  have r := reaches_trans (reaches_trans (reaches_trans (reaches_trans r1 h2) r3) r4) r5
  have hsteps : 1 + paramsSteps params + 1 + 1 + 1 = paramsSteps params + 4 := by omega
  rw [hsteps] at r
  refine ⟨l5, r, ?_, ?_⟩
  · simpa [renderLine, List.append_assoc] using hat5
  · simp only [hi5, hi4, hi3, hi2, hi1, cline.items, List.append_assoc, List.length_append,
      List.length_cons, List.length_nil, List.singleton_append, List.cons_append,
      List.nil_append, if_false, if_true, Nat.reduceEqDiff, Nat.add_assoc]
    simp [Nat.add_comm, Nat.add_left_comm, Nat.add_assoc]
/-- The scanner on a content line that ends the text: from `lexName` before the line it sends
the items of the line and the end of the input, and returns. -/
theorem lex_cline_last (h : Host) (l : lexer) (pre : Str) (name : List Char)
    (params : List pparam) (value : List Char)
    (hat : l.standsAt pre (renderLine name params value))
    (hname : ∀ c ∈ name, isName h c.toNat = true)
    (hparams : ∀ q ∈ params, q.wellFormed h)
    (hvalue : ∀ c ∈ value, isValueChar c.toNat = true)
    (hkw : ∀ kw ∈ keywords,
      kw.1.isPrefixOf (utf8 name ++ (renderParams params ++ 0x3A :: utf8 value)) = false) :
    ∃ l1, (∀ n, run h (n + (paramsSteps params + 4)) stateFn.lexName l = (l1, halt.closed))
      ∧ l1.items = l.items ++ ((cline.mk pre.length name params value).items
        ++ [⟨itemEOF, pre.length + (renderLine name params value).length, []⟩]) := by
  obtain ⟨b1, t1, hf, hb1⟩ := renderParams_follow params (utf8 value ++ crlf)
  have hat0 : l.standsAt pre (utf8 name ++ b1 :: t1) := by
    rw [← hf]
    simpa [renderLine, List.append_assoc] using hat
  have hkw0 : ∀ kw ∈ keywords, kw.1.isPrefixOf (utf8 name ++ b1 :: t1) = false := by
    intro kw hk
    rw [← hf]
    cases hp : kw.1.isPrefixOf (utf8 name ++ (renderParams params
        ++ 0x3A :: (utf8 value ++ crlf))) with
    | false => rfl
    | true =>
      have hp1 : kw.1.isPrefixOf ((utf8 name ++ (renderParams params ++ 0x3A :: utf8 value))
          ++ 0x0D :: [0x0A]) = true := by
        simpa [crlf_eq, List.append_assoc] using hp
      have := isPrefixOf_before_cr _ _ _ (keywords_no_cr kw hk) hp1
      rw [hkw kw hk] at this
      exact absurd this (by simp)
  obtain ⟨l1, h1, hat1, hi1⟩ := lexName_spec h l pre name b1 t1 hat0 hkw0 hname
    (by rcases hb1 with rfl | rfl <;> omega) (by rcases hb1 with rfl | rfl <;> rfl)
  rw [← hf] at hat1
  obtain ⟨l2, h2, hat2, hi2⟩ := lex_params h params l1 _ _ hat1 hparams
  obtain ⟨l3, h3, hat3, hi3⟩ := lexContentLine_spec l2 _ _ 0x3A hat2 (Or.inr (Or.inr rfl))
  have hat3' : l3.standsAt (pre ++ utf8 name ++ renderParams params ++ [0x3A])
      (utf8 value ++ 0x0D :: [0x0A]) := by
    simpa [crlf_eq, List.append_assoc] using hat3
  obtain ⟨l4, h4, hat4, hi4⟩ := lexValue_spec l3 _ value _ hat3' hvalue
  obtain ⟨l5, h5, hi5⟩ := lexNewLine_last l4 _ (by simpa [crlf_eq] using hat4)
  have r1 : reaches h 1 stateFn.lexName _ stateFn.lexContentLine l1 :=
    reaches_step (by simpa [stateFn.call] using h1)
  have r3 : reaches h 1 stateFn.lexContentLine l2 stateFn.lexValue l3 :=
    reaches_step (by simpa [stateFn.call] using h3)
  have r4 : reaches h 1 stateFn.lexValue l3 stateFn.lexNewLine l4 :=
    reaches_step (by simpa [stateFn.call] using h4)
  have r := reaches_trans (reaches_trans (reaches_trans r1 h2) r3) r4
  refine ⟨l5, ?_, ?_⟩
  · intro n
    have hsteps : n + (paramsSteps params + 4) = (n + 1) + (1 + paramsSteps params + 1 + 1) := by
      omega
    rw [hsteps, r (n + 1), run]
    simp only [stateFn.call, h5]
  · simp only [hi5, hi4, hi3, hi2, hi1, cline.items, renderLine, List.append_assoc,
      List.length_append, List.length_cons, List.length_nil, List.singleton_append,
      List.cons_append, List.nil_append, if_false, if_true, Nat.reduceEqDiff, Nat.add_assoc]
    simp [Nat.add_comm, Nat.add_left_comm, Nat.add_assoc, crlf_eq]

theorem parser.openProperties_sameBut {p q : parser} (hs : p.sameBut q) :
    q.openProperties = p.openProperties := by
  obtain ⟨s1, s2, s3, s4, s5, s6, s7, s8, s9, s10, s11, s12, -⟩ := hs
  unfold parser.openProperties
  rw [s1, s2, s3, s4, s5, s6, s7, s8, s9, s10, s11, s12]

/-- The loop of `parse` on content lines: each is appended to the component that is open, and
the scope and the pointers stay. -/
theorem parseLoop_lines (h : Host) (loc : Location) (rest : List item) (m : Nat) :
    ∀ (lines : List cline) (p : parser) (props : List Property),
      p.peekCount = 0 → p.lex.items = renderActs (lines.map act.line) ++ rest →
      p.openProperties = some props → (renderActs (lines.map act.line)).length ≤ m →
      ∃ q, parser.parseLoop h loc (m + lines.length) p = parser.parseLoop h loc m q
        ∧ q.openProperties = some (props ++ lines.map cline.property)
        ∧ q.scope = p.scope ∧ q.v = p.v ∧ q.a = p.a ∧ q.t = p.t ∧ q.s = p.s ∧ q.d = p.d
        ∧ q.peekCount = 0 ∧ q.lex.items = rest
  | [], p, props, hpk, hitems, hopen, _ =>
    ⟨p, rfl, by simpa using hopen, rfl, rfl, rfl, rfl, rfl, rfl, hpk,
      by simpa [renderActs] using hitems⟩
  | ln :: lines, p, props, hpk, hitems, hopen, hm => by
    have hlen := ln.items_length
    simp only [List.map_cons, renderActs, act.items, List.length_append] at hm
    obtain ⟨p5, hp5, hsame, h50, h5i⟩ := scanContentLine_stores h loc p (m + lines.length)
      (utf8 ln.name) ln.pos (ln.pos + (utf8 ln.name).length) _ _ _ ln.params (utf8 ln.value) crlf
      (renderActs (lines.map act.line) ++ rest) (by omega)
      (by simpa [parser.pending, hpk, renderActs, act.items, cline.items] using hitems)
      (by omega)
    obtain ⟨q1, hq1, hopen1, hsc, hv, ha, ht, hs, hd, hpk1, hlex1, -⟩ := parser.store_open p5
      ln.property props (by rw [parser.openProperties_sameBut hsame, hopen])
    obtain ⟨q, hq, hopenq, hscq, hvq, haq, htq, hsq, hdq, hpkq, hitemsq⟩ :=
      parseLoop_lines h loc rest m lines q1 (props ++ [ln.property]) (by rw [hpk1, h50])
        (by rw [hlex1, h5i]) hopen1 (by omega)
    obtain ⟨s1, -, s3, s4, s5, s6, s7, -⟩ := hsame
    refine ⟨q, ?_, by simpa using hopenq, by rw [hscq, hsc, s1], by rw [hvq, hv, s3],
      by rw [haq, ha, s4], by rw [htq, ht, s5], by rw [hsq, hs, s6], by rw [hdq, hd, s7], hpkq,
      hitemsq⟩
    rw [← hq]
    have hfuel : m + (ln :: lines).length = (m + lines.length) + 1 := by
      simp only [List.length_cons]
      omega
    rw [hfuel, parser.parseLoop, hp5]
    change (p5.store ln.property).bind _ = _
    rw [hq1]
    rfl
/-! ## On ASCII text the scanner does not consult the tables of the toolchain -/

theorem isName_latin1 (h h1 : Host) (r : Int) (hr : r ≤ 0xFF) : isName h r = isName h1 r := by
  unfold isName unicodeIsLetter unicodeIsDigit
  by_cases hneg : r < 0
  · simp [hneg, hr]
  · have hn : r.toNat ≤ 0xFF := by omega
    simp [hneg, hr, hn]

theorem lexer.next_input (l : lexer) : l.next.2.input = l.input := by
  unfold lexer.next
  split_ifs <;> rfl

theorem lexer.next_ascii (l : lexer) (hin : ∀ b ∈ l.input, b < 0x80) : l.next.1 ≤ 0xFF := by
  unfold lexer.next
  split_ifs with hpos
  · show eof ≤ 0xFF
    decide
  · cases hd : l.input.drop l.pos with
    | nil =>
      have := List.drop_eq_nil_iff.mp hd
      omega
    | cons b t =>
      have hb : b < 0x80 := hin b (List.mem_of_mem_drop (by rw [hd]; exact List.mem_cons_self _ _))
      simp only [decodeRune_ascii b t hb]
      omega

theorem absorb_input (accept : Int → Bool) : ∀ (n : Nat) (l l1 : lexer),
    absorb accept n l = some l1 → l1.input = l.input
  | 0, _, _, hab => by simp [absorb] at hab
  | n + 1, l, l1, hab => by
    simp only [absorb] at hab
    split_ifs at hab
    · rw [absorb_input accept n _ l1 hab, lexer.next_input]
    · simp only [Option.some.injEq] at hab
      rw [← hab]
      exact lexer.next_input l

theorem absorb_ascii (acc acc1 : Int → Bool) (hacc : ∀ r, r ≤ 0xFF → acc r = acc1 r) :
    ∀ (n : Nat) (l : lexer), (∀ b ∈ l.input, b < 0x80) → absorb acc n l = absorb acc1 n l
  | 0, _, _ => rfl
  | n + 1, l, hin => by
    simp only [absorb]
    rw [← hacc _ (lexer.next_ascii l hin)]
    split_ifs
    · exact absorb_ascii acc acc1 hacc n _ (by rw [lexer.next_input]; exact hin)
    · rfl

theorem lexer.emit_input (l l1 : lexer) (t : itemType) (he : l.emit t = some l1) :
    l1.input = l.input := by
  unfold lexer.emit at he
  split_ifs at he
  simp only [Option.some.injEq] at he
  rw [← he]

theorem lexer.emitThen_input (l l0 : lexer) (t : itemType) (k : lexer → step)
    (hl : l.input = l0.input)
    (hk : ∀ l2 : lexer, l2.input = l0.input →
      ∀ o l1, k l2 = step.next o l1 → l1.input = l0.input) :
    ∀ o l1, l.emitThen t k = step.next o l1 → l1.input = l0.input := by
  intro o l1 hs
  unfold lexer.emitThen at hs
  cases he : l.emit t with
  | none => simp [he] at hs
  | some l2 =>
    simp only [he] at hs
    exact hk l2 (by rw [lexer.emit_input l l2 t he, hl]) o l1 hs

theorem step.input_of_next {o o1 : Option stateFn} {l l1 l0 : lexer} (hl : l.input = l0.input)
    (hs : step.next o l = step.next o1 l1) : l1.input = l0.input := by
  simp only [step.next.injEq] at hs
  rw [← hs.2, hl]

theorem lexContentLine_input (l : lexer) :
    ∀ o l1, lexContentLine l = step.next o l1 → l1.input = l.input := by
  intro o l1 hs
  unfold lexContentLine at hs
  simp only at hs
  have hn := lexer.next_input l
  split_ifs at hs
  · exact lexer.emitThen_input _ l _ _ hn (fun l2 h2 o1 l3 h3 => step.input_of_next h2 h3) o l1 hs
  · exact lexer.emitThen_input _ l _ _ hn (fun l2 h2 o1 l3 h3 => step.input_of_next h2 h3) o l1 hs
  · exact lexer.emitThen_input _ l _ _ hn (fun l2 h2 o1 l3 h3 => step.input_of_next h2 h3) o l1 hs
  · exact step.input_of_next (by simpa [lexer.errorf] using hn) hs

theorem lexValue_input (l : lexer) :
    ∀ o l1, lexValue l = step.next o l1 → l1.input = l.input := by
  intro o l1 hs
  unfold lexValue lexer.absorb at hs
  cases ha : absorb isValueChar (l.input.length + 1) l with
  | none => simp [ha] at hs
  | some l2 =>
    simp only [ha] at hs
    exact lexer.emitThen_input _ l _ _ (absorb_input _ _ _ _ ha)
      (fun l2 h2 o1 l3 h3 => step.input_of_next h2 h3) o l1 hs

theorem lexName_input (h : Host) (l : lexer) :
    ∀ o l1, lexName h l = step.next o l1 → l1.input = l.input := by
  intro o l1 hs
  unfold lexName lexer.absorb at hs
  split at hs
  · exact lexer.emitThen_input { l with pos := l.pos + _ } l _ _ rfl
      (fun l2 h2 o1 l3 h3 => step.input_of_next h2 h3) o l1 hs
  · cases ha : absorb (isName h) (l.input.length + 1) l with
    | none => simp [ha] at hs
    | some l2 =>
      simp only [ha] at hs
      exact lexer.emitThen_input _ l _ _ (absorb_input _ _ _ _ ha)
        (fun l2 h2 o1 l3 h3 => step.input_of_next h2 h3) o l1 hs

theorem lexParamName_input (h : Host) (l : lexer) :
    ∀ o l1, lexParamName h l = step.next o l1 → l1.input = l.input := by
  intro o l1 hs
  unfold lexParamName lexer.absorb at hs
  cases ha : absorb (isName h) (l.input.length + 1) l with
  | none => simp [ha] at hs
  | some l2 =>
    simp only [ha] at hs
    refine lexer.emitThen_input _ l _ _ (absorb_input _ _ _ _ ha) ?_ o l1 hs
    intro l3 h3 o1 l4 h4
    simp only at h4
    have hn := lexer.next_input l3
    split_ifs at h4
    · exact lexer.emitThen_input _ l _ _ (by rw [hn, h3])
        (fun l2 h2 o1 l3 h3 => step.input_of_next h2 h3) o1 l4 h4
    · exact step.input_of_next (by simp [lexer.errorf, hn, h3]) h4

theorem lexParamValue_input (l : lexer) :
    ∀ o l1, lexParamValue l = step.next o l1 → l1.input = l.input := by
  intro o l1 hs
  unfold lexParamValue lexer.absorb at hs
  simp only at hs
  have hn := lexer.next_input l
  split_ifs at hs
  · cases ha : absorb isQSafeChar (l.next.2.ignore.input.length + 1) l.next.2.ignore with
    | none => simp [ha] at hs
    | some l2 =>
      simp only [ha] at hs
      have h2 : l2.input = l.input := by
        rw [absorb_input _ _ _ _ ha]
        simpa [lexer.ignore] using hn
      refine lexer.emitThen_input _ l _ _ h2 ?_ o l1 hs
      intro l3 h3 o1 l4 h4
      simp only at h4
      have hn3 := lexer.next_input l3
      split_ifs at h4
      · exact step.input_of_next (by simp [lexer.errorf, hn3, h3]) h4
      · exact step.input_of_next (by simp [lexer.ignore, hn3, h3]) h4
  · cases ha : absorb isSafeChar (l.next.2.backup.input.length + 1) l.next.2.backup with
    | none => simp [ha] at hs
    | some l2 =>
      simp only [ha] at hs
      have h2 : l2.input = l.input := by
        rw [absorb_input _ _ _ _ ha]
        simpa [lexer.backup] using hn
      exact lexer.emitThen_input _ l _ _ h2 (fun l2 h2 o1 l3 h3 => step.input_of_next h2 h3) o l1
        hs

theorem lexNewLine_input (l : lexer) :
    ∀ o l1, lexNewLine l = step.next o l1 → l1.input = l.input := by
  intro o l1 hs
  unfold lexNewLine lexer.peek at hs
  simp only at hs
  have hn := lexer.next_input l
  have hb : l.next.2.backup.input = l.input := by simpa [lexer.backup] using hn
  split_ifs at hs
  · exact step.input_of_next hb hs
  · refine lexer.emitThen_input _ l _ _ (by simpa using hb) ?_ o l1 hs
    intro l3 h3 o1 l4 h4
    simp only at h4
    have hn3 := lexer.next_input l3
    split_ifs at h4
    · exact lexer.emitThen_input _ l _ _ (by rw [hn3, h3])
        (fun l2 h2 o1 l3 h3 => step.input_of_next h2 h3) o1 l4 h4
    · exact step.input_of_next (by simp [lexer.backup, hn3, h3]) h4
  · refine lexer.emitThen_input _ l _ _ (by simpa [lexer.errorf] using hb) ?_ o l1 hs
    intro l3 h3 o1 l4 h4
    simp only at h4
    have hn3 := lexer.next_input l3
    split_ifs at h4
    · exact lexer.emitThen_input _ l _ _ (by rw [hn3, h3])
        (fun l2 h2 o1 l3 h3 => step.input_of_next h2 h3) o1 l4 h4
    · exact step.input_of_next (by simp [lexer.backup, hn3, h3]) h4

theorem stateFn.call_input (h : Host) (s : stateFn) (l : lexer) :
    ∀ o l1, s.call h l = step.next o l1 → l1.input = l.input := by
  cases s
  · exact lexName_input h l
  · exact lexContentLine_input l
  · exact lexNewLine_input l
  · exact lexParamName_input h l
  · exact lexParamValue_input l
  · exact lexValue_input l

theorem stateFn.call_ascii (h h1 : Host) (s : stateFn) (l : lexer)
    (hin : ∀ b ∈ l.input, b < 0x80) : s.call h l = s.call h1 l := by
  have hab := absorb_ascii (isName h) (isName h1) (isName_latin1 h h1) (l.input.length + 1) l hin
  cases s
  · show Ical.lexName h l = Ical.lexName h1 l
    unfold Ical.lexName lexer.absorb
    rw [hab]
  · rfl
  · rfl
  · show Ical.lexParamName h l = Ical.lexParamName h1 l
    unfold Ical.lexParamName lexer.absorb
    rw [hab]
  · rfl
  · rfl

theorem run_ascii (h h1 : Host) : ∀ (n : Nat) (s : stateFn) (l : lexer),
    (∀ b ∈ l.input, b < 0x80) → run h n s l = run h1 n s l
  | 0, _, _, _ => rfl
  | n + 1, s, l, hin => by
    simp only [run]
    rw [← stateFn.call_ascii h h1 s l hin]
    cases hc : s.call h l with
    | next o l1 =>
      cases o with
      | none => rfl
      | some s1 =>
        exact run_ascii h h1 n s1 l1 (by rw [stateFn.call_input h s l _ l1 hc]; exact hin)
    | fault l1 => rfl
    | spin l1 => rfl

/-- On a text of ASCII bytes the scanner sends the same items whatever the tables of the
toolchain: it consults them for runes above U+00FF only. -/
theorem lex_ascii (h h1 : Host) (text : Str) (ht : ∀ b ∈ text, b < 0x80) :
    lex h text = lex h1 text := by
  unfold lex
  rw [run_ascii h h1 _ _ _ ht]

theorem newParser_ascii (h h1 : Host) (text : Str) (ht : ∀ b ∈ text, b < 0x80) :
    newParser h text = newParser h1 text := by
  unfold newParser
  rw [lex_ascii h h1 text ht]

/-- `Parse` on a text of ASCII bytes: the scanner may be run with the tables of any
toolchain. -/
theorem Parse_ascii (h h1 : Host) (r : Str) (l : Option Location)
    (hr : ∀ b ∈ unfold r, b < 0x80) :
    Parse h r l
      = match (newParser h1 (unfold r)).parse h (match l with | some l => l | none => h.Local)
          ((newParser h1 (unfold r)).lex.items.length + 5) with
        | res.ok err p1 =>
          if p1.lex.items = [] ∧ p1.lex.ending = halt.fault then outcome.fault
          else
            match err with
            | some e => outcome.error e
            | none =>
              outcome.ok ⟨p1.c, p1.events, p1.alarms, p1.timezones, p1.standards, p1.daylights⟩
        | res.fault => outcome.fault
        | res.hang => outcome.hang
        | res.fuel => outcome.fuel := by
  exact newParser_ascii h h1 (unfold r) hr ▸ rfl

/-! ## The end-to-end example (C1) -/

set_option maxRecDepth 1000000 in
/-- C1.  On the example document, whatever the machine and the default zone, `Parse` returns
no error and a document with exactly one event; its UID is "1", its start is
2024-01-01T00:00:00 UTC and its end is the start plus 24 hours. -/
theorem parse_exampleDocument (h : Host) (l : Option Location) :
    ∃ d e, Parse h exampleDocument l = outcome.ok d ∧ d.Events = [some e] ∧ e.UID = str "1"
      ∧ e.StartDate = time.Date 2024 1 1 0 0 0 0 time.UTC
      ∧ e.EndDate = e.StartDate.Add (24 * time.Hour) :=
  ⟨exampleResult, exampleEvent,
    (Parse_ascii h utcHost exampleDocument l (by decide)).trans rfl, rfl, rfl, rfl, rfl⟩

/-! ## Runtime faults (C3) -/

set_option maxRecDepth 1000000 in
/-- C3.  `Parse` does stop with a runtime fault: a closing delimiter of an event, an alarm or
a standard-time block that nothing has opened dereferences a `nil` pointer, and a delimiter
followed by one last byte that is no CRLF makes the scanner slice past the end of its
input.  On a text that ends inside a parameter value it never returns. -/
theorem parse_faults (h : Host) (l : Option Location) :
    Parse h (str "BEGIN:VCALENDAR\r\nEND:VEVENT\r\n") l = outcome.fault
      ∧ Parse h (str "BEGIN:VCALENDAR\r\nEND:VALARM\r\n") l = outcome.fault
      ∧ Parse h (str "BEGIN:VCALENDAR\r\nEND:STANDARD\r\n") l = outcome.fault
      ∧ Parse h (str "BEGIN:VCALENDAR\n") l = outcome.fault
      ∧ Parse h (str "BEGIN:VCALENDAR\r\nA;B=c") l = outcome.hang :=
  ⟨(Parse_ascii h utcHost _ l (by decide)).trans rfl,
    (Parse_ascii h utcHost _ l (by decide)).trans rfl,
    (Parse_ascii h utcHost _ l (by decide)).trans rfl,
    (Parse_ascii h utcHost _ l (by decide)).trans rfl,
    (Parse_ascii h utcHost _ l (by decide)).trans rfl⟩

/-! ## The root without its required properties (C5, C6) -/

set_option maxRecDepth 1000000 in
/-- C5.  A calendar without events is never validated: for the root with neither PRODID nor
VERSION `Parse` returns the empty calendar and no error. -/
theorem parse_emptyCalendar (h : Host) (l : Option Location) :
    Parse h (str "BEGIN:VCALENDAR\r\nEND:VCALENDAR\r\n") l
      = outcome.ok ⟨NewCalendar, [], [], [], [], []⟩ :=
  (Parse_ascii h utcHost _ l (by decide)).trans rfl

/-- C6.  `validateCalendar` counts PRODID and VERSION together: with two PRODID properties and
no VERSION it returns no error. -/
theorem validateCalendar_twoProdid :
    (validateCalendar
      { NewCalendar with
        Properties := [⟨str "PRODID", [], str "a"⟩, ⟨str "PRODID", [], str "b"⟩] }).2 = none := by
  decide


/-! ## The rules of `validateEvent` (C7, C8, C9, C10) -/

/-- C7.  An event without a UID property, or without a DTSTART property, is rejected,
whatever its other properties and whatever the method of the calendar. -/
theorem validateEvent_missing_uid_or_dtstart (h : Host) (method : Str) (l : Location)
    (props : List Property) (alarms : List ptr)
    (hp : ∀ prop ∈ props, prop.hasValues = true)
    (hm : hasProperty (str "UID") props = false ∨ hasProperty (str "DTSTART") props = false) :
    ∃ v e, validateEvent h method l (collected props alarms) = validated.done v (some e) := by
  obtain ⟨r, err, hl, hs⟩ := validateEvent_loop h l (collected props alarms) hp
  obtain ⟨-, s2, s3, -, -⟩ := hs
  unfold validateEvent
  rw [hl]
  cases err with
  | some e => exact ⟨_, _, rfl⟩
  | none =>
    simp only
    split
    · exact ⟨_, _, rfl⟩
    · rcases hm with hm | hm
      · rw [if_pos (by simpa [collected, NewEvent] using s2 hm)]
        exact ⟨_, _, rfl⟩
      · split
        · exact ⟨_, _, rfl⟩
        · rw [if_pos (by rw [s3 hm]; rfl)]
          exact ⟨_, _, rfl⟩

theorem validateEvent_missing_uid_or_dtstart_witness :
    (∀ prop ∈ [(⟨str "DTSTART", [], str "20240101T000000Z"⟩ : Property)], prop.hasValues = true)
      ∧ (hasProperty (str "UID") [⟨str "DTSTART", [], str "20240101T000000Z"⟩] = false
          ∨ hasProperty (str "DTSTART") [⟨str "DTSTART", [], str "20240101T000000Z"⟩] = false)
      ∧ ∃ v e, validateEvent utcHost (str "PUBLISH") time.UTC
          (collected [⟨str "DTSTART", [], str "20240101T000000Z"⟩] []) = validated.done v (some e) :=
  ⟨by decide, by decide,
    validateEvent_missing_uid_or_dtstart utcHost (str "PUBLISH") time.UTC
      [⟨str "DTSTART", [], str "20240101T000000Z"⟩] [] (by decide) (by decide)⟩

/-- C8.  An event with both a DTEND and a DURATION property is rejected, in whatever order
they come and whatever else the event holds. -/
theorem validateEvent_dtend_and_duration (h : Host) (method : Str) (l : Location) (v : Event)
    (hp : ∀ prop ∈ v.Properties, prop.hasValues = true)
    (h1 : hasProperty (str "DTEND") v.Properties = true)
    (h2 : hasProperty (str "DURATION") v.Properties = true) :
    ∃ v1 e, validateEvent h method l v = validated.done v1 (some e) := by
  obtain ⟨r, err, hl, hs⟩ := validateEvent_loop h l v hp
  obtain ⟨-, -, -, -, s5⟩ := hs
  unfold validateEvent
  rw [hl]
  cases err with
  | some e => exact ⟨_, _, rfl⟩
  | none => exact absurd rfl (s5 (Or.inl h1) h1 h2)

theorem validateEvent_dtend_and_duration_witness :
    (∀ prop ∈ (collected [⟨str "DURATION", [], str "PT1H"⟩,
        ⟨str "DTEND", [], str "20240102T000000Z"⟩] []).Properties, prop.hasValues = true)
      ∧ hasProperty (str "DTEND") (collected [⟨str "DURATION", [], str "PT1H"⟩,
        ⟨str "DTEND", [], str "20240102T000000Z"⟩] []).Properties = true
      ∧ hasProperty (str "DURATION") (collected [⟨str "DURATION", [], str "PT1H"⟩,
        ⟨str "DTEND", [], str "20240102T000000Z"⟩] []).Properties = true
      ∧ ∃ v1 e, validateEvent utcHost [] time.UTC (collected [⟨str "DURATION", [], str "PT1H"⟩,
        ⟨str "DTEND", [], str "20240102T000000Z"⟩] []) = validated.done v1 (some e) :=
  ⟨by decide, by decide, by decide,
    validateEvent_dtend_and_duration utcHost [] time.UTC _ (by decide) (by decide) (by decide)⟩

/-- C9.  When `validateEvent` accepts an event that has no DTEND property, the end it leaves
is the start plus 24 hours, with or without a DURATION property. -/
theorem validateEvent_default_end (h : Host) (method : Str) (l : Location) (v v1 : Event)
    (hv : validateEvent h method l v = validated.done v1 none)
    (hn : hasProperty (str "DTEND") v.Properties = false) :
    v1.EndDate = v1.StartDate.Add (time.Hour * 24) := by
  have hs := validateEventLoop_spec h l v.Properties v.Properties v []
  unfold validateEvent at hv
  cases hl : validateEventLoop h l v.Properties v.Properties v [] with
  | fault => simp [hl] at hv
  | done r err =>
    rw [hl] at hs
    obtain ⟨hpr, -⟩ := hs
    cases err with
    | some e => simp [hl] at hv
    | none =>
      simp only [hl, hpr, hn, Bool.not_false, ↓reduceIte] at hv
      repeat' split at hv
      all_goals first
        | (simp only [validated.done.injEq, and_true] at hv
           rw [← hv])
        | simp at hv

theorem validateEvent_default_end_witness :
    validateEvent utcHost [] time.UTC durationEvent
        = validated.done
          { durationEvent with
            UID := str "1", Timestamp := time.Date 2024 1 1 0 0 0 0 time.UTC,
            StartDate := time.Date 2024 1 1 0 0 0 0 time.UTC,
            EndDate := time.Date 2024 1 2 0 0 0 0 time.UTC } none
      ∧ hasProperty (str "DTEND") durationEvent.Properties = false
      ∧ time.Date 2024 1 2 0 0 0 0 time.UTC
        = (time.Date 2024 1 1 0 0 0 0 time.UTC).Add (time.Hour * 24) :=
  ⟨rfl, by decide,
    validateEvent_default_end utcHost [] time.UTC durationEvent
      { durationEvent with
        UID := str "1", Timestamp := time.Date 2024 1 1 0 0 0 0 time.UTC,
        StartDate := time.Date 2024 1 1 0 0 0 0 time.UTC,
        EndDate := time.Date 2024 1 2 0 0 0 0 time.UTC } rfl (by decide)⟩

/-- C10.  An event in which one of the names UID, DTSTAMP, DTSTART, DTEND, DURATION, SUMMARY
and DESCRIPTION occurs twice or more is rejected. -/
theorem validateEvent_duplicate (h : Host) (method : Str) (l : Location) (v : Event)
    (k : String) (hk : k ∈ eventKeys)
    (hp : ∀ prop ∈ v.Properties, prop.hasValues = true)
    (h2 : 2 ≤ v.Properties.countP fun p => decide (p.Name = str k)) :
    ∃ v1 e, validateEvent h method l v = validated.done v1 (some e) := by
  obtain ⟨r, err, hl, hs⟩ := validateEvent_loop h l v hp
  obtain ⟨-, -, -, s4, -⟩ := hs
  unfold validateEvent
  rw [hl]
  cases err with
  | some e => exact ⟨_, _, rfl⟩
  | none =>
    have hc := s4 rfl k hk
    have hne : r.2.check ≠ none := fun hcheck => by
      have := counts.get_le_of_check _ hcheck k
      simp only [counts.get] at hc
      omega
    obtain ⟨e2, he2⟩ := Option.ne_none_iff_exists'.mp hne
    simp only [he2]
    repeat' split
    all_goals exact ⟨_, _, rfl⟩

theorem validateEvent_duplicate_witness :
    "SUMMARY" ∈ eventKeys
      ∧ (∀ prop ∈ (collected [⟨str "SUMMARY", [], str "a"⟩, ⟨str "SUMMARY", [], str "b"⟩]
          []).Properties, prop.hasValues = true)
      ∧ 2 ≤ (collected [⟨str "SUMMARY", [], str "a"⟩, ⟨str "SUMMARY", [], str "b"⟩]
          []).Properties.countP (fun p => decide (p.Name = str "SUMMARY"))
      ∧ ∃ v1 e, validateEvent utcHost [] time.UTC
          (collected [⟨str "SUMMARY", [], str "a"⟩, ⟨str "SUMMARY", [], str "b"⟩] [])
          = validated.done v1 (some e) :=
  ⟨by decide, by decide, by decide,
    validateEvent_duplicate utcHost [] time.UTC
      (collected [⟨str "SUMMARY", [], str "a"⟩, ⟨str "SUMMARY", [], str "b"⟩] [])
      "SUMMARY" (by decide) (by decide) (by decide)⟩

/-! ## The round trip of a content line (C2) -/

/-- C2 (round trip of a content line).  Name characters are what `isName` accepts: the
letters and digits of the tables of the toolchain that built the program, whichever they
are, and `-`.  Let `name` be a name of name characters, `params`
parameters with pairwise distinct names of name characters, each with a first value and
further values that are safe characters written bare or quoted-safe characters written
between double quotes, and `value` a value of value characters, such that the line
`NAME[;PARAM=V[,V...]]*:VALUE` followed by CRLF does not begin with one of the twelve
keywords.  Then the scanner run on that line and `scanContentLine` run on its items (with
fuel for every item) return no error, and the properties of the calendar are exactly the
one property with that name, those parameters (each name with its values in order, without
the quotes) and that value.  Names need not even be non-empty. -/
theorem scanContentLine_roundTrip (h : Host) (loc : Location) (name : List Char)
    (params : List pparam) (value : List Char) (n : Nat)
    (hname : ∀ c ∈ name, isName h c.toNat = true)
    (hparams : ∀ q ∈ params, q.wellFormed h)
    (hdistinct : (params.map fun q => utf8 q.name).Nodup)
    (hvalue : ∀ c ∈ value, isValueChar c.toNat = true)
    (hkw : ∀ kw ∈ keywords, kw.1.isPrefixOf (renderLine name params value) = false)
    (hn : (lex h (renderLine name params value)).items.length ≤ n) :
    ∃ p, (newParser h (renderLine name params value)).scanContentLine h loc n = res.ok none p
      ∧ p.c.Properties = [lineProperty name params value] := by
  have hlex := lex_renderLine h name params value hname hparams hvalue hkw
  rw [hlex] at hn
  simp only [lineItems, List.length_cons, List.length_append, List.length_nil] at hn
  obtain ⟨q, hq, hprops, -, -⟩ := scanContentLine_line h loc
    (newParser h (renderLine name params value)) n (utf8 name) 0 (utf8 name).length _ _ _ params
    (utf8 value) crlf [⟨itemEOF, _, []⟩] (by simp [newParser]) rfl
    (by
      simp only [parser.pending, newParser, hlex, lineItems]
      rfl) hdistinct (by omega)
  exact ⟨q, hq, by simpa [newParser, NewCalendar, lineProperty] using hprops⟩

/-- C2 at `ATTENDEE;ROLE=CHAIR;CN="Doe; J",é:mailto:jd@example.com`: the hypotheses hold
there, and the line comes back as one property. -/
theorem scanContentLine_roundTrip_witness :
    ∃ p, (newParser utcHost (renderLine sampleName sampleParams sampleValue)).scanContentLine
        utcHost time.UTC 20 = res.ok none p
      ∧ p.c.Properties = [lineProperty sampleName sampleParams sampleValue] :=
  scanContentLine_roundTrip utcHost time.UTC sampleName sampleParams sampleValue 20
    (by decide)
    (by
      intro q hq
      simp only [sampleParams, List.mem_cons, List.mem_singleton, List.not_mem_nil,
        or_false] at hq
      rcases hq with rfl | rfl
      · exact ⟨by decide, by unfold pvalue.wellFormed; decide, by simp⟩
      · refine ⟨by decide, by unfold pvalue.wellFormed; decide, ?_⟩
        intro v hv
        simp only [List.mem_singleton] at hv
        subst hv
        unfold pvalue.wellFormed
        decide)
    (by decide) (by decide) (by decide) (by decide)

/-! ## An event closed inside an alarm (C4) -/

set_option maxRecDepth 1000000 in
/-- C4 fails on `alarmDocument`: its END:VEVENT comes after a BEGIN:VALARM that no END:VALARM
has closed, and `Parse` returns no error but a document, with the one event and no alarm
in it. -/
theorem parse_endEventInAlarm :
    endEventInAlarm false ((lex utcHost (unfold alarmDocument)).items.map item.typ) = true
      ∧ Parse utcHost alarmDocument none = outcome.ok alarmResult
      ∧ alarmResult.Events = [some exampleEvent] ∧ exampleEvent.Alarms = [] :=
  ⟨by decide, rfl, rfl, rfl⟩

/-- C4 as the code has it.  `scanDelimiter` on END:VEVENT does not look at the scope: in any
scope, that of an alarm too, when the event `p.v` is valid and a CRLF follows, it returns
no error, replaces the event by the validated one, appends it to the events of the calendar
and goes to the scope of the calendar; the alarms and the open alarm `p.a` stay as they
are, so the alarm is attached to no event. -/
theorem scanDelimiter_endEvent (h : Host) (loc : Location) (p : parser) (delim nl : item)
    (rest : List item) (i : Nat) (v v1 : Event)
    (hdelim : delim.typ = itemEndVEvent)
    (hv : p.v = some i) (hi : p.events.get? i = some v)
    (hvalid : validateEvent h p.c.Method loc v = validated.done v1 none)
    (hpk : p.peekCount ≤ 1) (hpend : p.pending = nl :: rest) (hnl : nl.typ = itemLineEnd) :
    ∃ q, p.scanDelimiter h loc delim = res.ok none q
      ∧ q.scope = scopeCalendar
      ∧ q.c.Events = p.c.Events ++ [some i]
      ∧ q.events = p.events.set i v1
      ∧ q.alarms = p.alarms ∧ q.a = p.a ∧ q.v = p.v := by
  rcases p with ⟨lx, tok, pk, sc, c, pv, pa, pt, ps, pd, evs, als, tzs, sts, dls⟩
  simp only at hv hi hvalid hpk
  subst hv
  obtain ⟨q, hq, -, -, -, hsame⟩ := parser.next_pending
    ⟨lx, tok, pk, scopeCalendar, { c with Events := c.Events ++ [some i] }, some i, pa, pt, ps,
      pd, evs.set i v1, als, tzs, sts, dls⟩ nl rest hpk
    (by simpa [parser.pending] using hpend)
  refine ⟨q, ?_, hsame.1, ?_, ?_, ?_, ?_, ?_⟩
  · simp only [parser.scanDelimiter, hdelim, Option.some_bind, Option.getD_some, hi, hvalid,
      parser.expectLineEnd, parser.leaveScope, scopeCalendar]
    simp only [scopeCalendar] at hq
    simp [hq, res.bind, hnl]
  · rw [hsame.2.1]
  · rw [hsame.2.2.2.2.2.2.2.1]
  · rw [hsame.2.2.2.2.2.2.2.2.1]
  · rw [hsame.2.2.2.1]
  · rw [hsame.2.2.1]

set_option maxRecDepth 1000000 in
/-- C4 as the code has it, at the END:VEVENT of `alarmDocument`: the parser is in the scope
of the alarm, the hypotheses hold, and the event is closed without an error. -/
theorem scanDelimiter_endEvent_witness :
    alarmScopeParser.scope = scopeAlarm
      ∧ ∃ q, alarmScopeParser.scanDelimiter utcHost time.UTC alarmScopeParser.token.1
            = res.ok none q
        ∧ q.scope = scopeCalendar
        ∧ q.c.Events = alarmScopeParser.c.Events ++ [some 0]
        ∧ q.events = alarmScopeParser.events.set 0 exampleEvent
        ∧ q.alarms = alarmScopeParser.alarms ∧ q.a = alarmScopeParser.a
        ∧ q.v = alarmScopeParser.v :=
  ⟨rfl, scanDelimiter_endEvent utcHost time.UTC alarmScopeParser alarmScopeParser.token.1
    ⟨itemLineEnd, 188, crlf⟩ [] 0 (collected exampleEvent.Properties []) exampleEvent rfl rfl rfl
    rfl (by decide) rfl rfl⟩

/-! ## The layouts and zones of `parseDate` (C13, C14, C15, C16) -/

/-- C13.  For a property whose value ends with "Z", `parseDate` is `time.Parse` with the
layout `20060102T150405Z` on the value: the time it returns is in UTC, and neither the name
of the property, nor its parameters, nor the default zone, nor the zones the machine knows
change the result. -/
theorem parseDate_utc (h : Host) (prop : Property) (l : Location)
    (hz : (str "Z").isSuffixOf prop.Value = true) :
    parseDate h prop l = some (time.Parse layout.dateTimeLayoutUTC prop.Value)
      ∧ (time.Parse layout.dateTimeLayoutUTC prop.Value).1.loc = time.UTC
      ∧ ∀ (h1 : Host) (name : Str) (params : List (Str × Param)) (l1 : Location),
          parseDate h1 ⟨name, params, prop.Value⟩ l1 = parseDate h prop l := by
  refine ⟨by simp [parseDate, hz], ?_, fun h1 name params l1 => by simp [parseDate, hz]⟩
  unfold time.Parse time.ParseInLocation
  split
  · split
    · rfl
    · simp only [time.Date]
      split <;> rfl
  · rfl

set_option maxRecDepth 1000000 in
theorem parseDate_utc_witness :
    (str "Z").isSuffixOf utcStart.Value = true
      ∧ parseDate utcHost utcStart time.UTC
        = some (time.Date 1998 1 19 7 0 0 0 time.UTC, none)
      ∧ (parseDate utcHost utcStart time.UTC
          = some (time.Parse layout.dateTimeLayoutUTC utcStart.Value)
        ∧ (time.Parse layout.dateTimeLayoutUTC utcStart.Value).1.loc = time.UTC
        ∧ ∀ (h1 : Host) (name : Str) (params : List (Str × Param)) (l1 : Location),
            parseDate h1 ⟨name, params, utcStart.Value⟩ l1
              = parseDate utcHost utcStart time.UTC) :=
  ⟨by decide, rfl, parseDate_utc utcHost utcStart time.UTC (by decide)⟩

/-- C14.  For a property with a TZID parameter whose value does not end with "Z",
`parseDate` is `time.ParseInLocation` with the layout `20060102T150405`, in the zone that
`time.LoadLocation` returns for the first value of TZID, and in UTC when it returns an
error.  The default zone is not read, and the error is the one the value has in UTC: the
name of the zone adds none. -/
theorem parseDate_tzid (h : Host) (prop : Property) (l : Location) (tz : Param) (name : Str)
    (more : List Str)
    (hz : (str "Z").isSuffixOf prop.Value = false)
    (ht : mapGet prop.Params (str "TZID") = some tz)
    (hv : tz.Values = name :: more) :
    parseDate h prop l
        = some (time.ParseInLocation layout.dateTimeLayoutLocalized prop.Value
            ((h.LoadLocation name).getD time.UTC))
      ∧ (parseDate h prop l).map Prod.snd
        = some (time.ParseInLocation layout.dateTimeLayoutLocalized prop.Value time.UTC).2 := by
  have h1 : parseDate h prop l
      = some (time.ParseInLocation layout.dateTimeLayoutLocalized prop.Value
          ((h.LoadLocation name).getD time.UTC)) := by
    unfold parseDate
    simp only [hz, Bool.false_eq_true, if_false, ht, hv]
    cases h.LoadLocation name <;> rfl
  refine ⟨h1, ?_⟩
  rw [h1]
  simp only [Option.map_some', time.ParseInLocation]
  split
  · split <;> rfl
  · rfl

set_option maxRecDepth 1000000 in
theorem parseDate_tzid_witness :
    (str "Z").isSuffixOf badZoneStart.Value = false
      ∧ mapGet badZoneStart.Params (str "TZID") = some ⟨[str "Z"]⟩
      ∧ utcHost.LoadLocation (str "Z") = none
      ∧ parseDate utcHost badZoneStart time.UTC
        = some (time.Date 1998 1 19 2 0 0 0 time.UTC, none)
      ∧ (parseDate utcHost badZoneStart time.UTC
          = some (time.ParseInLocation layout.dateTimeLayoutLocalized badZoneStart.Value
              ((utcHost.LoadLocation (str "Z")).getD time.UTC))
        ∧ (parseDate utcHost badZoneStart time.UTC).map Prod.snd
          = some (time.ParseInLocation layout.dateTimeLayoutLocalized badZoneStart.Value
              time.UTC).2) :=
  ⟨by decide, by decide, rfl, rfl,
    parseDate_tzid utcHost badZoneStart time.UTC ⟨[str "Z"]⟩ (str "Z") [] (by decide)
      (by decide) rfl⟩

set_option maxRecDepth 1000000 in
/-- C15 fails.  A value of 8 bytes with a TZID parameter is read with the layout
`20060102T150405`, which it does not fit, where the layout `20060102` gives January 19,
1998; and a value of 8 characters that is 9 bytes long is read with the layout
`20060102T150405` too. -/
theorem parseDate_eight_counterexample :
    zonedDate.Value.length = 8
      ∧ parseDate utcHost zonedDate time.UTC
        = some (Time.zero, some ⟨layout.dateTimeLayoutLocalized, zonedDate.Value⟩)
      ∧ time.ParseInLocation layout.dateLayout zonedDate.Value time.UTC
        = (time.Date 1998 1 19 0 0 0 0 time.UTC, none)
      ∧ wideDate.Value = utf8 "1998011é".toList ∧ "1998011é".length = 8
      ∧ parseDate utcHost wideDate time.UTC
        = some (Time.zero, some ⟨layout.dateTimeLayoutLocalized, wideDate.Value⟩)
      ∧ time.ParseInLocation layout.dateLayout wideDate.Value time.UTC
        = (Time.zero, some ⟨layout.dateLayout, wideDate.Value⟩) :=
  ⟨by decide, rfl, rfl, rfl, by decide, rfl, rfl⟩

/-- C15 as the code has it.  For a property without a TZID parameter whose value is 8 bytes
long and does not end with "Z", `parseDate` is `time.ParseInLocation` with the layout
`20060102` in the default zone, whatever its other parameters, VALUE too. -/
theorem parseDate_eight (h : Host) (prop : Property) (l : Location)
    (hz : (str "Z").isSuffixOf prop.Value = false)
    (ht : mapGet prop.Params (str "TZID") = none)
    (h8 : prop.Value.length = 8) :
    parseDate h prop l = some (time.ParseInLocation layout.dateLayout prop.Value l) := by
  unfold parseDate
  simp only [hz, Bool.false_eq_true, if_false, ht, h8, if_true]

set_option maxRecDepth 1000000 in
theorem parseDate_eight_witness :
    (str "Z").isSuffixOf typedDate.Value = false
      ∧ mapGet typedDate.Params (str "TZID") = none
      ∧ typedDate.Value.length = 8
      ∧ mapGet typedDate.Params (str "VALUE") = some ⟨[str "DATE-TIME"]⟩
      ∧ time.ParseInLocation layout.dateLayout typedDate.Value time.UTC
        = (time.Date 1998 1 19 0 0 0 0 time.UTC, none)
      ∧ parseDate utcHost typedDate time.UTC
        = some (time.ParseInLocation layout.dateLayout typedDate.Value time.UTC) :=
  ⟨by decide, by decide, by decide, by decide, rfl,
    parseDate_eight utcHost typedDate time.UTC (by decide) (by decide) (by decide)⟩

/-- C16.  For a property without a TZID parameter whose value neither ends with "Z" nor is 8
bytes long, `parseDate` is `time.ParseInLocation` in the default zone, with the layout
`20060102` when the first value of the parameter VALUE is "DATE" and with the layout
`20060102T150405` in every other case: no VALUE, "DATE-TIME", or anything else.  A parameter
VALUE, when there is one, has a value, as every parameter the parser builds. -/
theorem parseDate_valueParam (h : Host) (prop : Property) (l : Location)
    (hz : (str "Z").isSuffixOf prop.Value = false)
    (ht : mapGet prop.Params (str "TZID") = none)
    (h8 : prop.Value.length ≠ 8)
    (hv : ∀ val, mapGet prop.Params (str "VALUE") = some val → val.Values ≠ []) :
    parseDate h prop l
      = some (time.ParseInLocation
          (if ((mapGet prop.Params (str "VALUE")).bind fun val => val.Values.head?)
              = some (str "DATE") then layout.dateLayout
            else layout.dateTimeLayoutLocalized) prop.Value l) := by
  unfold parseDate
  simp only [hz, Bool.false_eq_true, if_false, ht, h8]
  cases hval : mapGet prop.Params (str "VALUE") with
  | none => simp
  | some val =>
    cases hvals : val.Values with
    | nil => exact absurd hvals (hv val hval)
    | cons v more => simp [hvals]

set_option maxRecDepth 1000000 in
theorem parseDate_valueParam_witness :
    ((str "Z").isSuffixOf dashedDate.Value = false
      ∧ mapGet dashedDate.Params (str "TZID") = none
      ∧ dashedDate.Value.length ≠ 8
      ∧ ((mapGet dashedDate.Params (str "VALUE")).bind fun val => val.Values.head?)
        = some (str "DATE"))
      ∧ parseDate utcHost dashedDate time.UTC
        = some (time.ParseInLocation
            (if ((mapGet dashedDate.Params (str "VALUE")).bind fun val => val.Values.head?)
                = some (str "DATE") then layout.dateLayout
              else layout.dateTimeLayoutLocalized) dashedDate.Value time.UTC) :=
  ⟨by decide, parseDate_valueParam utcHost dashedDate time.UTC (by decide) (by decide)
    (by decide) (by decide)⟩

/-! ## The unfolding of lines (C17, C18) -/

/-- C17 fails.  The text CRLF, CRLF, space, space is unfolded to CRLF and a space, which is
unfolded to the empty text: the result of `unfold` holds a CRLF followed by a space, and
`unfold` changes it. -/
theorem unfold_blankFolded :
    unfold blankFolded = str "\r\n "
      ∧ str "\r\n " <:+: unfold blankFolded
      ∧ unfold (unfold blankFolded) = []
      ∧ unfold (unfold blankFolded) ≠ unfold blankFolded := by
  decide

/-- C17 as the code has it.  `unfold` leaves a text as it is exactly when the text holds no
CRLF followed by a space or a tab (so it does leave unfolded text alone); hence
`unfold (unfold x) = unfold x` exactly when `unfold x` holds none, which is so for some `x`
only. -/
theorem unfold_eq_self_iff (x : Str) :
    (unfold x = x ↔ ¬ (str "\r\n " <:+: x ∨ str "\r\n\t" <:+: x))
      ∧ (unfold (unfold x) = unfold x
          ↔ ¬ (str "\r\n " <:+: unfold x ∨ str "\r\n\t" <:+: unfold x)) := by
  have key : ∀ y : Str, unfold y = y ↔ ¬ (str "\r\n " <:+: y ∨ str "\r\n\t" <:+: y) := by
    intro y
    constructor
    · intro hy hinf
      have := unfold_length_lt_of_infix y hinf
      rw [hy] at this
      exact absurd this (Nat.lt_irrefl _)
    · exact unfold_eq_self_of_not_infix y
  exact ⟨key x, key (unfold x)⟩

/-- C18.  Segments without a carriage return, joined by separators that are each CRLF and a
space or CRLF and a tab, are unfolded to the segments one after the other. -/
theorem unfold_foldJoin : ∀ (first : Str) (rest : List (Bool × Str)),
    13 ∉ first → (∀ e ∈ rest, 13 ∉ e.2) →
    unfold (foldJoin first rest) = first ++ rest.flatMap fun e => e.2
  | first, [], hf, _ => by
    have := unfold_append_of_not_mem first [] hf
    simpa [foldJoin, unfold] using this
  | first, e :: rest, hf, hr => by
    have ih := unfold_foldJoin e.2 rest (hr e (List.mem_cons_self _ _))
      (fun e1 he1 => hr e1 (List.mem_cons_of_mem _ he1))
    rw [foldJoin, unfold_append_of_not_mem _ _ hf, unfold_foldSeparator, ih]
    simp

theorem unfold_foldJoin_witness :
    foldJoin (str "1") [(false, str "2"), (true, str "3")] = str "1\r\n 2\r\n\t3"
      ∧ unfold (str "1\r\n 2\r\n\t3") = str "123"
      ∧ unfold (foldJoin (str "1") [(false, str "2"), (true, str "3")])
        = str "1" ++ [(false, str "2"), (true, str "3")].flatMap fun e => e.2 :=
  ⟨by decide, by decide,
    unfold_foldJoin (str "1") [(false, str "2"), (true, str "3")] (by decide) (by decide)⟩

/-! ## The rule of `validateAlarm` (C12) -/

/-- C12.  `validateAlarm` returns no error exactly when the alarm has one ACTION property and
one TRIGGER property, neither less nor more; and then the fields `Action` and `Trigger` it
leaves are the values of these two properties. -/
theorem validateAlarm_iff (a : Alarm) :
    ((validateAlarm a).2 = none
        ↔ a.Properties.countP (fun p => decide (p.Name = str "ACTION")) = 1
          ∧ a.Properties.countP (fun p => decide (p.Name = str "TRIGGER")) = 1)
      ∧ ((validateAlarm a).2 = none →
          ∀ p ∈ a.Properties,
            (p.Name = str "ACTION" → (validateAlarm a).1.Action = p.Value)
              ∧ (p.Name = str "TRIGGER" → (validateAlarm a).1.Trigger = p.Value)) := by
  obtain ⟨s1, s2, s3, -, s5, -, s7⟩ := validateAlarmLoop_spec a.Properties a 0 []
    (by simp)
  have hiff : (validateAlarm a).2 = none
      ↔ a.Properties.countP (fun p => decide (p.Name = str "ACTION")) = 1
        ∧ a.Properties.countP (fun p => decide (p.Name = str "TRIGGER")) = 1 := by
    unfold validateAlarm
    simp only
    split
    · rename_i hne
      simp only [reduceCtorEq, false_iff, not_and]
      intro hA hT
      apply hne
      rw [s1, hA, hT]
    · rename_i heq
      simp only [ne_eq, not_not] at heq
      rw [s1] at heq
      rw [counts.check_eq_none_iff _ s2]
      constructor
      · intro hk
        have hA := hk "ACTION"
        have hT := hk "TRIGGER"
        rw [s3] at hA hT
        simp only [counts.get, if_true] at hA hT
        simp only [show ¬ ("TRIGGER" = "ACTION") by decide,
          show ¬ ("ACTION" = "TRIGGER") by decide, if_false] at hA hT
        omega
      · intro ⟨hA, hT⟩ k
        rw [s3, hA, hT]
        simp only [counts.get]
        by_cases h1 : k = "ACTION"
        · subst h1
          simp
        · by_cases h2 : k = "TRIGGER"
          · subst h2
            simp
          · simp [h1, h2]
  refine ⟨hiff, fun hok p hp => ?_⟩
  obtain ⟨hA, hT⟩ := hiff.mp hok
  have e1 : (validateAlarm a).1 = (validateAlarmLoop a.Properties a 0 []).1 := by
    unfold validateAlarm
    simp only
    split <;> rfl
  rw [e1]
  exact ⟨s5 (by omega) p hp, s7 (by omega) p hp⟩

/-! ## DTSTAMP and the method of the calendar (C11) -/

set_option maxRecDepth 1000000 in
/-- C11 fails for a METHOD property without a value.  The calendar carries a METHOD
property, the event has a UID and a DTSTART, and `validateEvent` returns the error of the
missing DTSTAMP, as `Parse` does on such a document; with the value PUBLISH the same event
is accepted. -/
theorem validateEvent_emptyMethod :
    hasProperty (str "METHOD") (methodCalendar []).Properties = true
      ∧ validateEvent utcHost (validateCalendar (methodCalendar [])).1.Method time.UTC
          unstampedEvent
        = validated.done
          { unstampedEvent with
            UID := str "1", StartDate := time.Date 2024 1 1 0 0 0 0 time.UTC }
          (some (error.invalid "missing required property \"dtstamp\""))
      ∧ Parse utcHost emptyMethodDocument none
        = outcome.error (error.invalid "missing required property \"dtstamp\"")
      ∧ validateEvent utcHost (validateCalendar (methodCalendar (str "PUBLISH"))).1.Method
          time.UTC unstampedEvent
        = validated.done
          { unstampedEvent with
            UID := str "1", StartDate := time.Date 2024 1 1 0 0 0 0 time.UTC,
            EndDate := time.Date 2024 1 2 0 0 0 0 time.UTC } none :=
  ⟨by decide, rfl, rfl, rfl⟩

/-- C11 as the code has it.  Take an event as the parser has collected it, with no DTSTAMP
property, a UID property with a value that is not empty, a DTSTART property whose time is
not the zero time, none of the seven names twice, and not both DTEND and DURATION.
`validateEvent` reads the field `Method` that `validateCalendar` has left.  When the
calendar has no METHOD property (and no method yet), it returns the error of the missing
DTSTAMP; when the last METHOD property of the calendar has a value that is not empty, it
returns no error. -/
theorem validateEvent_dtstamp (h : Host) (l : Location) (c : Calendar) (props : List Property)
    (alarms : List ptr) (uid start : Property) (t : Time) (e : Option ParseError)
    (hp : ∀ prop ∈ props, prop.hasValues = true)
    (hstamp : hasProperty (str "DTSTAMP") props = false)
    (huid : uid ∈ props) (huidn : uid.Name = str "UID") (huidv : uid.Value ≠ [])
    (hstart : start ∈ props) (hstartn : start.Name = str "DTSTART")
    (hstartv : parseDate h start l = some (t, e)) (hnz : t.IsZero = false)
    (hdup : ∀ k ∈ eventKeys, props.countP (fun p => decide (p.Name = str k)) ≤ 1)
    (hconf : ¬ (hasProperty (str "DTEND") props = true
      ∧ hasProperty (str "DURATION") props = true)) :
    (hasProperty (str "METHOD") c.Properties = false → c.Method = [] →
        ∃ v1, validateEvent h (validateCalendar c).1.Method l (collected props alarms)
          = validated.done v1 (some (error.invalid "missing required property \"dtstamp\"")))
      ∧ (∀ pre m post, c.Properties = pre ++ m :: post → m.Name = str "METHOD" →
          hasProperty (str "METHOD") post = false → m.Value ≠ [] →
          ∃ v1, validateEvent h (validateCalendar c).1.Method l (collected props alarms)
            = validated.done v1 none) := by
  obtain ⟨r, hloop, r1, r2, r3, r4, r5⟩ := validateEventLoop_ok h l props hconf props
    (collected props alarms) [] (fun _ hq => hq)
    (fun q hq => parseDate_isSome h q l (hp q hq)) (by simp)
  have hs := validateEventLoop_spec h l props props (collected props alarms) []
  rw [hloop] at hs
  obtain ⟨-, -, -, s4, -⟩ := hs
  have hts : r.1.Timestamp.IsZero = true := by
    rw [r3 hstamp]
    rfl
  have huidr : r.1.UID ≠ [] := by
    rw [r1 (hdup "UID" (by decide)) uid huid huidn]
    exact huidv
  have hstartr : r.1.StartDate.IsZero = false := by
    rw [r2 (hdup "DTSTART" (by decide)) start hstart hstartn _ hstartv]
    exact hnz
  have hcheck : r.2.check = none := by
    rw [counts.check_eq_none_iff _ r4]
    intro k
    by_cases hk : k ∈ eventKeys
    · rw [s4 rfl k hk]
      simpa [counts.get] using hdup k hk
    · rw [r5 k hk]
      simp [counts.get]
  have hloop1 : validateEventLoop h l (collected props alarms).Properties
      (collected props alarms).Properties (collected props alarms) []
      = validated.done r none := hloop
  constructor
  · intro hno hc0
    rw [validateCalendar_method, validateCalendarLoop_method_none _ _ _ hno, hc0]
    refine ⟨r.1, ?_⟩
    unfold validateEvent
    rw [hloop1]
    simp only [hts, and_self, if_true]
  · intro pre m post hprops hmn hpost hmv
    rw [validateCalendar_method, hprops, validateCalendarLoop_method_last m post hmn hpost]
    unfold validateEvent
    rw [hloop1]
    simp only [hmv, false_and, if_false, huidr, hstartr, Bool.false_eq_true, hcheck]
    split
    · exact ⟨_, rfl⟩
    · exact ⟨_, rfl⟩

set_option maxRecDepth 1000000 in
theorem validateEvent_dtstamp_witness :
    (∃ v1, validateEvent utcHost (validateCalendar NewCalendar).1.Method time.UTC
        unstampedEvent
        = validated.done v1 (some (error.invalid "missing required property \"dtstamp\"")))
      ∧ ∃ v1, validateEvent utcHost (validateCalendar (methodCalendar (str "PUBLISH"))).1.Method
          time.UTC unstampedEvent = validated.done v1 none :=
  have key := validateEvent_dtstamp utcHost time.UTC
  ⟨(key NewCalendar unstampedEvent.Properties [] ⟨str "UID", [], str "1"⟩
      ⟨str "DTSTART", [], str "20240101T000000Z"⟩ (time.Date 2024 1 1 0 0 0 0 time.UTC) none
      (by decide) (by decide) (by decide) rfl (by decide) (by decide) rfl rfl (by decide)
      (by decide) (by decide)).1 (by decide) rfl,
    (key (methodCalendar (str "PUBLISH")) unstampedEvent.Properties []
      ⟨str "UID", [], str "1"⟩ ⟨str "DTSTART", [], str "20240101T000000Z"⟩
      (time.Date 2024 1 1 0 0 0 0 time.UTC) none
      (by decide) (by decide) (by decide) rfl (by decide) (by decide) rfl rfl (by decide)
      (by decide) (by decide)).2
      [⟨str "VERSION", [], str "2.0"⟩, ⟨str "PRODID", [], str "-//x//"⟩]
      ⟨str "METHOD", [], str "PUBLISH"⟩ [] rfl rfl (by decide) (by decide)⟩

/-! ## The end of the root, and the events transferred (C19, C20) -/

/-- C19.  On a text whose items hold no END:VCALENDAR, `Parse` returns no document: it
returns an error, or the program stops or waits for ever. -/
theorem parse_needs_endCalendar (h : Host) (r : Str) (l : Option Location)
    (hno : ∀ i ∈ (lex h (unfold r)).items, i.typ ≠ itemEndVCalendar) :
    ∀ d, Parse h r l ≠ outcome.ok d := by
  intro d hok
  have hhas := (Parse_ok_reads h r l d hok).2
  simp only [hasEndCalendar, List.any_eq_true, beq_iff_eq] at hhas
  obtain ⟨i, hi, ht⟩ := hhas
  exact hno i hi ht

set_option maxRecDepth 1000000 in
theorem parse_needs_endCalendar_witness :
    ((∀ i ∈ (lex utcHost (unfold [])).items, i.typ ≠ itemEndVCalendar)
        ∧ Parse utcHost [] none
          = outcome.error (error.found ⟨itemName, 0, []⟩ "BEGIN:VCALENDAR")
        ∧ ∀ d, Parse utcHost [] none ≠ outcome.ok d)
      ∧ (∀ i ∈ (lex utcHost (unfold truncatedDocument)).items, i.typ ≠ itemEndVCalendar)
      ∧ ∀ d, Parse utcHost truncatedDocument none ≠ outcome.ok d :=
  ⟨⟨by decide, rfl, parse_needs_endCalendar utcHost [] none (by decide)⟩, by decide,
    parse_needs_endCalendar utcHost truncatedDocument none (by decide)⟩

set_option maxRecDepth 1000000 in
/-- C20 fails.  On `twiceClosedDocument`, with one BEGIN:VEVENT, `Parse` returns a document
with two events, which are one and the same object; on `unclosedEventDocument`, with one
BEGIN:VEVENT too, it returns a document without events. -/
theorem parse_events_counterexample :
    ((lex utcHost (unfold twiceClosedDocument)).items.countP (fun i => i.typ == itemBeginVEvent) = 1
        ∧ Parse utcHost twiceClosedDocument none = outcome.ok twiceClosedResult
        ∧ twiceClosedResult.c.Events = [some 0, some 0]
        ∧ twiceClosedResult.Events = [some exampleEvent, some exampleEvent])
      ∧ (lex utcHost (unfold unclosedEventDocument)).items.countP (fun i => i.typ == itemBeginVEvent) = 1
      ∧ Parse utcHost unclosedEventDocument none = outcome.ok unclosedEventResult
      ∧ unclosedEventResult.Events = [] :=
  ⟨⟨by decide, rfl, rfl, rfl⟩, by decide, rfl, rfl⟩

/-- C20 as the code has it.  When `Parse` returns a document, its events are as many as the
END:VEVENT items before the first END:VCALENDAR of the text: each END:VEVENT appends the
event that `p.v` points to, whether its BEGIN:VEVENT was just before or long ago. -/
theorem parse_events_count (h : Host) (r : Str) (l : Option Location) (d : Document)
    (hok : Parse h r l = outcome.ok d) :
    d.Events.length = endEvents (lex h (unfold r)).items := by
  rw [Document.Events, List.length_map]
  exact (Parse_ok_reads h r l d hok).1

set_option maxRecDepth 1000000 in
theorem parse_events_count_witness :
    Parse utcHost twiceClosedDocument none = outcome.ok twiceClosedResult
      ∧ endEvents (lex utcHost (unfold twiceClosedDocument)).items = 2
      ∧ twiceClosedResult.Events.length = endEvents (lex utcHost (unfold twiceClosedDocument)).items :=
  ⟨rfl, by decide, parse_events_count utcHost twiceClosedDocument none twiceClosedResult rfl⟩

/-! ## The scanner after an error and at the end of the input (C21, C22, C26) -/

/-- C21 fails by a slip of `lexNewLine` and `lexParamValue`, which call `errorf` and drop the
`nil` it returns.  After a line that ends with a bare line feed the scanner sends the error
item and then six more items; after a quoted value that is not closed it sends the error
item and then a second one. -/
theorem lex_after_error (h : Host) :
    (lex h (str "A:b\nC:d\r\n")).items.map (fun i => i.typ)
        = [itemName, itemColon, itemValue, itemError, itemLineEnd, itemName, itemColon,
            itemValue, itemLineEnd, itemEOF]
      ∧ (lex h (str "A:b\nC:d\r\n")).ending = halt.closed
      ∧ (lex h (str "A;B=\"c:d\r\n")).items.map (fun i => i.typ)
        = [itemName, itemSemiColon, itemParamName, itemEqual, itemParamValue, itemError,
            itemError]
      ∧ (lex h (str "A;B=\"c:d\r\n")).ending = halt.closed := by
  rw [lex_ascii h utcHost (str "A:b\nC:d\r\n") (by decide),
    lex_ascii h utcHost (str "A;B=\"c:d\r\n") (by decide)]
  decide

/-- C22 fails: `isSafeChar` and `isQSafeChar` accept `eof`, so the two loops of
`lexParamValue` do not leave at the end of the input, whatever the number of rounds.  On
`A;B=c` and on `A;B="c` the scanner sends four items and then runs for ever. -/
theorem lex_runs_for_ever (h : Host) :
    isSafeChar eof = true ∧ isQSafeChar eof = true
      ∧ (∀ (n : Nat) (l : lexer), l.input.length ≤ l.pos →
          absorb isSafeChar n l = none ∧ absorb isQSafeChar n l = none)
      ∧ lex h (str "A;B=c")
        = ⟨[⟨itemName, 0, str "A"⟩, ⟨itemSemiColon, 1, str ";"⟩, ⟨itemParamName, 2, str "B"⟩,
            ⟨itemEqual, 3, str "="⟩], halt.spin⟩
      ∧ lex h (str "A;B=\"c")
        = ⟨[⟨itemName, 0, str "A"⟩, ⟨itemSemiColon, 1, str ";"⟩, ⟨itemParamName, 2, str "B"⟩,
            ⟨itemEqual, 3, str "="⟩], halt.spin⟩ :=
  ⟨by decide, by decide,
    fun n l hl => ⟨absorb_at_end isSafeChar (by decide) n l hl,
      absorb_at_end isQSafeChar (by decide) n l hl⟩,
    (lex_ascii h utcHost _ (by decide)).trans (by decide),
    (lex_ascii h utcHost _ (by decide)).trans (by decide)⟩

set_option maxRecDepth 1000000 in
/-- C26 fails: `lexName` and `lexParamName` emit what they have absorbed, be it nothing.  The
line `:x` gives a name item without text, and `Parse` returns a calendar with a property
whose name is empty; the line `A;=b:c` gives a parameter name without text. -/
theorem lex_empty_name (h : Host) :
    lex h (str ":x\r\n")
        = ⟨[⟨itemName, 0, []⟩, ⟨itemColon, 0, str ":"⟩, ⟨itemValue, 1, str "x"⟩,
            ⟨itemLineEnd, 2, crlf⟩, ⟨itemEOF, 4, []⟩], halt.closed⟩
      ∧ Parse h (str "BEGIN:VCALENDAR\r\n:x\r\nEND:VCALENDAR\r\n") none
        = outcome.ok ⟨{ NewCalendar with Properties := [⟨[], [], str "x"⟩] }, [], [], [], [], []⟩
      ∧ (lex h (str "A;=b:c\r\n")).items.take 3
        = [⟨itemName, 0, str "A"⟩, ⟨itemSemiColon, 1, str ";"⟩, ⟨itemParamName, 2, []⟩]
      ∧ Parse h (str "BEGIN:VCALENDAR\r\nA;=b:c\r\nEND:VCALENDAR\r\n") none
        = outcome.ok
          ⟨{ NewCalendar with Properties := [⟨str "A", [([], ⟨[str "b"]⟩)], str "c"⟩] },
            [], [], [], [], []⟩ :=
  ⟨(lex_ascii h utcHost _ (by decide)).trans (by decide),
    (Parse_ascii h utcHost _ none (by decide)).trans rfl,
    by
      rw [lex_ascii h utcHost (str "A;=b:c\r\n") (by decide)]
      decide,
    (Parse_ascii h utcHost _ none (by decide)).trans rfl⟩

/-! ## The values of the parameters (C25) -/

/-- C25.  When `scanParams` returns no error, every parameter of the property it returns has
at least one value, provided those the property had before have one (`scanContentLine`
starts from a property without parameters); so `parseDate` does not fault on `Values[0]`,
whatever the value the property then gets. -/
theorem scanParams_hasValues (n : Nat) (p q : parser) (prop r : Property)
    (hprop : prop.hasValues = true)
    (hres : parser.scanParams n p prop = res.ok (r, none) q) :
    (∀ e ∈ r.Params, e.2.Values ≠ [])
      ∧ ∀ (h : Host) (value : Str) (l : Location),
          ∃ d, parseDate h { r with Value := value } l = some d := by
  have hin : ∀ e ∈ prop.Params, e.2.Values ≠ [] := by
    intro e he
    have := (List.all_eq_true.mp hprop) e he
    simpa using this
  have key := parser.scanParams_values n p prop hin
  rw [hres] at key
  have hr := key rfl
  refine ⟨hr, fun h value l => parseDate_isSome h _ l ?_⟩
  simp only [Property.hasValues, List.all_eq_true]
  intro e he
  simpa using hr e he

theorem scanParams_hasValues_witness :
    ∃ q, parser.scanParams 20 paramsParser ⟨utf8 sampleName, [], []⟩
        = res.ok (lineProperty sampleName sampleParams [], none) q
      ∧ (∀ e ∈ (lineProperty sampleName sampleParams []).Params, e.2.Values ≠ [])
      ∧ ∀ (h : Host) (value : Str) (l : Location),
          ∃ d, parseDate h { lineProperty sampleName sampleParams [] with Value := value } l
            = some d := by
  obtain ⟨q, hq, -⟩ := scanParams_spec sampleParams 8 paramsParser ⟨utf8 sampleName, [], []⟩ 20
    ⟨itemColon, 34, [0x3A]⟩ [] (by decide) rfl (by decide) (by decide) (by decide) (by decide)
  exact ⟨q, hq, scanParams_hasValues 20 paramsParser q ⟨utf8 sampleName, [], []⟩ _ (by decide) hq⟩

/-! ## Dates that cannot be parsed (C23) -/

set_option maxRecDepth 1000000 in
/-- C23 fails for DTSTART.  `parseDate` cannot parse `2024-01-01`; the start is left at the
zero time and `validateEvent` rejects the event as one without a DTSTART, where it accepts
the same event with a DTSTART that is a date.  `Parse` returns that error. -/
theorem validateEvent_badStart :
    parseDate utcHost ⟨str "DTSTART", [], str "2024-01-01"⟩ time.UTC
        = some (Time.zero, some ⟨layout.dateTimeLayoutLocalized, str "2024-01-01"⟩)
      ∧ validateEvent utcHost [] time.UTC badStartEvent
        = validated.done
          { badStartEvent with
            UID := str "1", Timestamp := time.Date 2024 1 1 0 0 0 0 time.UTC }
          (some (error.invalid "missing required property \"dtstart\""))
      ∧ validateEvent utcHost [] time.UTC goodStartEvent
        = validated.done
          { goodStartEvent with
            UID := str "1", Timestamp := time.Date 2024 1 1 0 0 0 0 time.UTC,
            StartDate := time.Date 2024 1 1 0 0 0 0 time.UTC,
            EndDate := time.Date 2024 1 2 0 0 0 0 time.UTC } none
      ∧ Parse utcHost badStartDocument none
        = outcome.error (error.invalid "missing required property \"dtstart\"") :=
  ⟨rfl, rfl, rfl, rfl⟩

/-- C23 as the code has it.  Let `d` be a property of an event, as the parser has collected
it, whose value `parseDate` cannot parse.  The time `parseDate` returns is the zero time.
When `d` is a DTSTART, `validateEvent` rejects the event; and when the event has no other
DTSTART and not both a DTEND and a DURATION, the start it has promoted is the zero time and
the error is one of the three of a missing required property ("dtstamp", "uid", "dtstart").
When `d` is a DTSTAMP and the calendar has no method, `validateEvent` rejects the event; and
when the event has no other DTSTAMP and not both a DTEND and a DURATION, the time stamp it
has promoted is the zero time and the error is that of the missing "dtstamp".  When `d` is
a DTEND and the event is in order otherwise (no name twice, no DURATION, a UID with a value,
a start that is not the zero time, and a method or a time stamp that is not the zero
time), the event is accepted and its end is the zero time. -/
theorem validateEvent_malformed (h : Host) (method : Str) (l : Location)
    (props : List Property) (alarms : List ptr) (d : Property) (t : Time) (e : ParseError)
    (hp : ∀ prop ∈ props, prop.hasValues = true) (hd : d ∈ props)
    (hparse : parseDate h d l = some (t, some e)) :
    t = Time.zero
      ∧ (d.Name = str "DTSTART" →
          (∃ v1 err, validateEvent h method l (collected props alarms)
            = validated.done v1 (some err))
          ∧ (props.countP (fun p => decide (p.Name = str "DTSTART")) ≤ 1 →
              ¬ (hasProperty (str "DTEND") props = true
                ∧ hasProperty (str "DURATION") props = true) →
              ∃ v1 err, validateEvent h method l (collected props alarms)
                  = validated.done v1 (some err)
                ∧ v1.StartDate = Time.zero
                ∧ (err = error.invalid "missing required property \"dtstamp\""
                  ∨ err = error.invalid "missing required property \"uid\""
                  ∨ err = error.invalid "missing required property \"dtstart\"")))
      ∧ (d.Name = str "DTSTAMP" → method = [] →
          (∃ v1 err, validateEvent h method l (collected props alarms)
            = validated.done v1 (some err))
          ∧ (props.countP (fun p => decide (p.Name = str "DTSTAMP")) ≤ 1 →
              ¬ (hasProperty (str "DTEND") props = true
                ∧ hasProperty (str "DURATION") props = true) →
              ∃ v1, validateEvent h method l (collected props alarms)
                  = validated.done v1
                    (some (error.invalid "missing required property \"dtstamp\""))
                ∧ v1.Timestamp = Time.zero))
      ∧ (d.Name = str "DTEND" →
          (∀ k ∈ eventKeys, props.countP (fun p => decide (p.Name = str k)) ≤ 1) →
          hasProperty (str "DURATION") props = false →
          (∃ u ∈ props, u.Name = str "UID" ∧ u.Value ≠ []) →
          (∃ s ∈ props, s.Name = str "DTSTART"
            ∧ ∃ ts, parseDate h s l = some ts ∧ ts.1.IsZero = false) →
          (method ≠ [] ∨ ∃ s ∈ props, s.Name = str "DTSTAMP"
            ∧ ∃ ts, parseDate h s l = some ts ∧ ts.1.IsZero = false) →
          ∃ v1, validateEvent h method l (collected props alarms) = validated.done v1 none
            ∧ v1.EndDate = Time.zero) := by
  have hzero : t = Time.zero := parseDate_error h d l t e hparse
  subst hzero
  have hrejects : ∀ (name : String), name ∈ eventKeys → d.Name = str name →
      (∀ r : Event × counts,
        validateEventLoop h l (collected props alarms).Properties
          (collected props alarms).Properties (collected props alarms) []
          = validated.done r none →
        (props.countP (fun p => decide (p.Name = str name)) ≤ 1 →
          (method = [] ∧ r.1.Timestamp.IsZero = true) ∨ r.1.UID = []
            ∨ r.1.StartDate.IsZero = true ∨ r.2.check ≠ none)) →
      ∃ v1 err, validateEvent h method l (collected props alarms)
        = validated.done v1 (some err) := by
    intro name hname hdn hbad
    by_cases hc : hasProperty (str "DTEND") props = true
        ∧ hasProperty (str "DURATION") props = true
    · obtain ⟨r, err, hl, hs⟩ := validateEvent_loop h l (collected props alarms) hp
      obtain ⟨-, -, -, -, s5⟩ := hs
      unfold validateEvent
      rw [hl]
      cases err with
      | some e1 => exact ⟨_, _, rfl⟩
      | none => exact absurd rfl (s5 (Or.inl hc.1) hc.1 hc.2)
    · obtain ⟨r, hloop, -, hcheck, -⟩ := validateEvent_loop_collected h l props alarms hp hc
      refine validateEvent_reject h method l _ r hloop ?_
      by_cases hcount : props.countP (fun p => decide (p.Name = str name)) ≤ 1
      · exact hbad r hloop hcount
      · refine Or.inr (Or.inr (Or.inr fun hnone => hcount ?_))
        exact hcheck.mp hnone name hname
  refine ⟨rfl, ?_, ?_, ?_⟩
  · intro hdn
    refine ⟨?_, ?_⟩
    swap
    · intro hcount hc
      obtain ⟨r, hloop, -, -, -, hstart, -, -⟩ :=
        validateEvent_loop_collected h l props alarms hp hc
      obtain ⟨err, hv, herr⟩ := validateEvent_missing_start h method l _ r hloop
        (hstart hcount d hd hdn _ hparse)
      exact ⟨r.1, err, hv, hstart hcount d hd hdn _ hparse, herr⟩
    refine hrejects "DTSTART" (by decide) hdn fun r hloop hcount => ?_
    by_cases hc : hasProperty (str "DTEND") props = true
        ∧ hasProperty (str "DURATION") props = true
    · obtain ⟨r0, err, hl, hs⟩ := validateEvent_loop h l (collected props alarms) hp
      obtain ⟨-, -, -, -, s5⟩ := hs
      rw [hloop] at hl
      simp only [validated.done.injEq] at hl
      exact absurd hl.2.symm (s5 (Or.inl hc.1) hc.1 hc.2)
    · obtain ⟨r1, hloop1, -, -, -, hstart, -, -⟩ :=
        validateEvent_loop_collected h l props alarms hp hc
      rw [hloop] at hloop1
      simp only [validated.done.injEq, and_true] at hloop1
      subst hloop1
      refine Or.inr (Or.inr (Or.inl ?_))
      rw [hstart hcount d hd hdn _ hparse]
      rfl
  · intro hdn hm
    refine ⟨?_, ?_⟩
    swap
    · intro hcount hc
      obtain ⟨r, hloop, -, -, -, -, hstamp, -⟩ :=
        validateEvent_loop_collected h l props alarms hp hc
      subst hm
      exact ⟨r.1, validateEvent_missing_stamp h l _ r hloop (hstamp hcount d hd hdn _ hparse),
        hstamp hcount d hd hdn _ hparse⟩
    refine hrejects "DTSTAMP" (by decide) hdn fun r hloop hcount => ?_
    by_cases hc : hasProperty (str "DTEND") props = true
        ∧ hasProperty (str "DURATION") props = true
    · obtain ⟨r0, err, hl, hs⟩ := validateEvent_loop h l (collected props alarms) hp
      obtain ⟨-, -, -, -, s5⟩ := hs
      rw [hloop] at hl
      simp only [validated.done.injEq] at hl
      exact absurd hl.2.symm (s5 (Or.inl hc.1) hc.1 hc.2)
    · obtain ⟨r1, hloop1, -, -, -, -, hstamp, -⟩ :=
        validateEvent_loop_collected h l props alarms hp hc
      rw [hloop] at hloop1
      simp only [validated.done.injEq, and_true] at hloop1
      subst hloop1
      refine Or.inl ⟨hm, ?_⟩
      rw [hstamp hcount d hd hdn _ hparse]
      rfl
  · intro hdn hdup hdur ⟨u, hu, hun, huv⟩ ⟨s, hs, hsn, ts, hts, htsz⟩ hstamp
    have hc : ¬ (hasProperty (str "DTEND") props = true
        ∧ hasProperty (str "DURATION") props = true) := by
      simp [hdur]
    obtain ⟨r, hloop, hprops, hcheck, huid, hstart, hst, hend⟩ :=
      validateEvent_loop_collected h l props alarms hp hc
    refine ⟨r.1, validateEvent_accept h method l _ r hloop ?_ ?_ ?_ (hcheck.mpr hdup) ?_, ?_⟩
    · rintro ⟨hm, hz⟩
      rcases hstamp with hne | ⟨s1, hs1, hs1n, ts1, hts1, hts1z⟩
      · exact hne hm
      · rw [hst (hdup "DTSTAMP" (by decide)) s1 hs1 hs1n _ hts1, hts1z] at hz
        exact absurd hz (by simp)
    · rw [huid (hdup "UID" (by decide)) u hu hun]
      exact huv
    · rw [hstart (hdup "DTSTART" (by decide)) s hs hsn _ hts]
      exact htsz
    · rw [hprops, ← hdn]
      exact hasProperty_of_mem d props hd
    · rw [hend (hdup "DTEND" (by decide)) d hd hdn _ hparse]

set_option maxRecDepth 1000000 in
theorem validateEvent_malformed_witness :
    parseDate utcHost ⟨str "DTEND", [], str "later"⟩ time.UTC
        = some (Time.zero, some ⟨layout.dateTimeLayoutLocalized, str "later"⟩)
      ∧ ∃ v1, validateEvent utcHost [] time.UTC badEndEvent = validated.done v1 none
          ∧ v1.EndDate = Time.zero :=
  ⟨rfl,
    (validateEvent_malformed utcHost [] time.UTC badEndEvent.Properties []
      ⟨str "DTEND", [], str "later"⟩ Time.zero ⟨layout.dateTimeLayoutLocalized, str "later"⟩
      (by decide) (by decide) rfl).2.2.2 rfl (by decide) (by decide)
      ⟨⟨str "UID", [], str "1"⟩, by decide, rfl, by decide⟩
      ⟨⟨str "DTSTART", [], str "20240101T000000Z"⟩, by decide, rfl,
        (time.Date 2024 1 1 0 0 0 0 time.UTC, none), rfl, by decide⟩
      (Or.inr ⟨⟨str "DTSTAMP", [], str "20240101T000000Z"⟩, by decide, rfl,
        (time.Date 2024 1 1 0 0 0 0 time.UTC, none), rfl, by decide⟩)⟩
/-! ## Properly nested documents (C24) -/

/-- C24.  In a properly nested document every content line is appended, in the order of the
input, to the properties of the innermost component open at that line.  The lines between
BEGIN:VCALENDAR and END:VCALENDAR are content lines and delimiters of the five components
below the root; the stack of the specification reads them, each delimiter opening a
component inside its parent or closing the innermost open one, each content line going to
the top of the stack, and all components are closed at the end.  Then `Parse` returns a
document in which the root, the events, the alarms, the time zones and their standard and
daylight parts have exactly the property lists of that stack.  It returns an error instead
only when a validation rejects a component (`nest.rejects`): the error is the one that
`validateCalendar` returns at a BEGIN:VEVENT, `validateAlarm` at an END:VALARM or
`validateEvent` at an END:VEVENT, on the component with the properties that the stack has
collected from the lines before that delimiter and no field promoted yet, the method for
`validateEvent` being the one `validateCalendar` promotes from the properties of the root.
`Parse` does not fault and does not run for ever. -/
theorem Parse_nested (h : Host) (r : Str) (l : Option Location) (acts : List act) (a : nest)
    (o : Nat) (tail : List item)
    (hlex : (lex h (unfold r)).items
      = ⟨itemBeginVCalendar, 0, str "BEGIN:VCALENDAR"⟩ :: ⟨itemLineEnd, 15, crlf⟩
        :: (renderActs acts ++ ⟨itemEndVCalendar, o, str "END:VCALENDAR"⟩ :: tail))
    (hend : (lex h (unfold r)).ending = halt.closed)
    (hrun : nest.start.run acts = some a) (hst : a.stack = []) :
    (∃ d, Parse h r l = outcome.ok d
        ∧ d.c.Properties = a.root
        ∧ d.events.map (fun v => v.Properties) = a.events
        ∧ d.alarms.map (fun x => x.Properties) = a.alarms
        ∧ d.timezones.map (fun t => t.Properties) = a.timezones
        ∧ d.standards.map (fun s => s.Properties) = a.standards
        ∧ d.daylights.map (fun s => s.Properties) = a.daylights)
      ∨ ∃ e pre x post a1, Parse h r l = outcome.error e ∧ e.isValidation = true
        ∧ acts = pre ++ x :: post ∧ nest.start.run pre = some a1
        ∧ a1.rejects h (l.getD h.Local) x e := by
  have key := nest.parse_run h (match l with | some l => l | none => h.Local) r acts a o tail
    hlex hend hrun hst
  unfold Parse
  simp only []
  split
  · rename_i err p1 hparse
    rcases key with ⟨q, hq, hmq, hqe⟩ | ⟨e, q, hq, he, hqe, pre, x, post, a1, hacts, hrun1, hrej⟩
    · have hinj : res.ok err p1 = res.ok none q := hparse.symm.trans hq
      injection hinj with h1 h2
      subst h1 h2
      refine Or.inl ⟨⟨p1.c, p1.events, p1.alarms, p1.timezones, p1.standards, p1.daylights⟩, ?_,
        hmq.1, hmq.2.1, hmq.2.2.1, hmq.2.2.2.1, hmq.2.2.2.2.1, hmq.2.2.2.2.2.1⟩
      simp [hqe]
    · have hinj : res.ok err p1 = res.ok (some e) q := hparse.symm.trans hq
      injection hinj with h1 h2
      subst h1 h2
      have hrej1 : a1.rejects h (l.getD h.Local) x e := by
        cases l <;> exact hrej
      refine Or.inr ⟨e, pre, x, post, a1, ?_, he, hacts, hrun1, hrej1⟩
      simp [hqe]
  all_goals
    rename_i hparse
    rcases key with ⟨q, hq, -⟩ | ⟨e, q, hq, -⟩
    · exact absurd (hparse.symm.trans hq) (by simp)
    · exact absurd (hparse.symm.trans hq) (by simp)

set_option maxRecDepth 1000000 in
/-- C24 on `nestedDocument`: the scanner sends the items of its lines, the stack of the
specification ends empty with the collections of `nestedNest`, and `Parse` returns a document
with these collections or the error of a validation that rejects a component; it is a
document that it returns. -/
theorem Parse_nested_witness :
    (lex utcHost (unfold nestedDocument)).items
        = ⟨itemBeginVCalendar, 0, str "BEGIN:VCALENDAR"⟩ :: ⟨itemLineEnd, 15, crlf⟩
          :: (renderActs nestedActs ++ ⟨itemEndVCalendar, 341, str "END:VCALENDAR"⟩
            :: [⟨itemLineEnd, 354, crlf⟩, ⟨itemEOF, 356, []⟩])
      ∧ (lex utcHost (unfold nestedDocument)).ending = halt.closed
      ∧ nest.start.run nestedActs = some nestedNest
      ∧ nestedNest.stack = []
      ∧ ((∃ d, Parse utcHost nestedDocument none = outcome.ok d
          ∧ d.c.Properties = nestedNest.root
          ∧ d.events.map (fun v => v.Properties) = nestedNest.events
          ∧ d.alarms.map (fun x => x.Properties) = nestedNest.alarms
          ∧ d.timezones.map (fun t => t.Properties) = nestedNest.timezones
          ∧ d.standards.map (fun s => s.Properties) = nestedNest.standards
          ∧ d.daylights.map (fun s => s.Properties) = nestedNest.daylights)
        ∨ ∃ e pre x post a1, Parse utcHost nestedDocument none = outcome.error e
          ∧ e.isValidation = true ∧ nestedActs = pre ++ x :: post
          ∧ nest.start.run pre = some a1 ∧ a1.rejects utcHost utcHost.Local x e)
      ∧ (match Parse utcHost nestedDocument none with
          | outcome.ok _ => true
          | _ => false) = true :=
  ⟨by decide, by decide, by decide, rfl,
    Parse_nested utcHost nestedDocument none nestedActs nestedNest 341
      [⟨itemLineEnd, 354, crlf⟩, ⟨itemEOF, 356, []⟩] (by decide) (by decide) (by decide) rfl,
    rfl⟩
/-! ## Components without keywords (C27) -/

/-- C27, where it fails.  On `todoTimezoneDocument` the line TZID:x stands between BEGIN:VTODO
and END:VTODO, and `Parse` returns a calendar whose root has the properties BEGIN and END
with the value VTODO only: BEGIN:VTIMEZONE between them has changed the scope, the line has
gone to the time zone, and END:VTODO has found the scope of the calendar that END:VTIMEZONE
has set.  On `todoAlarmDocument` an alarm stands between them; END:VALARM appends the alarm
to the event of the parser, which is `nil`, and the program faults. -/
theorem unrecognised_encloses_component :
    Parse utcHost todoTimezoneDocument none
        = outcome.ok ⟨{ NewCalendar with
            Properties := [⟨str "BEGIN", [], str "VTODO"⟩, ⟨str "END", [], str "VTODO"⟩],
            Timezones := [some 0] }, [], [],
          [{ NewTimezone with Properties := [⟨str "TZID", [], str "x"⟩] }], [], []⟩
      ∧ Parse utcHost todoAlarmDocument none = outcome.fault :=
  ⟨rfl, rfl⟩

/-- C27.  The delimiters of a component the scanner has no keyword for are content lines.
Let X be of value characters such that neither `BEGIN:X` nor `END:X` begins with one of the
twelve keywords.  Then

* the scanner, in the state `lexName` before a line `BEGIN:X` or `END:X`, sends a name
  `BEGIN` or `END`, a colon, the value X and a line end; when more text follows it is in the
  state `lexName` after the line, and when the line ends the text it sends the end of the
  input and returns;
* the loop of `parse`, before the items of a line `BEGIN:X` or `END:X`, in a scope whose
  component is open, reads the line without an error and goes on behind it: the properties of
  that component have got the property BEGIN or END with the value X, and the scope and the
  pointers to the open components are what they were, whatever follows the line;
* the loop of `parse`, on the items of `BEGIN:X`, of content lines only and of `END:X`, reads
  them all without an error and goes on behind them: the properties of the component that
  was open at `BEGIN:X` have got the property BEGIN with the value X, the properties of the
  lines in their order and the property END with the value X, and the scope and the pointers
  are what they were.

The parser stands before a line with no item pushed back, as it does whenever `parse` calls
`scanContentLine`. -/
theorem unrecognised_delimiters (h : Host) (loc : Location) (X : List Char)
    (hX : ∀ c ∈ X, isValueChar c.toNat = true)
    (hbegin : ∀ kw ∈ keywords, kw.1.isPrefixOf (str "BEGIN:" ++ utf8 X) = false)
    (hend : ∀ kw ∈ keywords, kw.1.isPrefixOf (str "END:" ++ utf8 X) = false) :
    (∀ word ∈ ["BEGIN".toList, "END".toList], ∀ (l : lexer) (pre rest : Str),
        l.standsAt pre (utf8 word ++ 0x3A :: (utf8 X ++ crlf) ++ rest) →
        (rest ≠ [] →
          ∃ l1, reaches h 4 stateFn.lexName l stateFn.lexName l1
            ∧ l1.standsAt (pre ++ (utf8 word ++ 0x3A :: (utf8 X ++ crlf))) rest
            ∧ l1.items = l.items
              ++ [⟨itemName, pre.length, utf8 word⟩,
                  ⟨itemColon, pre.length + (utf8 word).length, [0x3A]⟩,
                  ⟨itemValue, pre.length + (utf8 word).length + 1, utf8 X⟩,
                  ⟨itemLineEnd, pre.length + (utf8 word).length + 1 + (utf8 X).length, crlf⟩])
        ∧ (rest = [] →
          ∃ l1, (∀ n, run h (n + 4) stateFn.lexName l = (l1, halt.closed))
            ∧ l1.items = l.items
              ++ [⟨itemName, pre.length, utf8 word⟩,
                  ⟨itemColon, pre.length + (utf8 word).length, [0x3A]⟩,
                  ⟨itemValue, pre.length + (utf8 word).length + 1, utf8 X⟩,
                  ⟨itemLineEnd, pre.length + (utf8 word).length + 1 + (utf8 X).length, crlf⟩,
                  ⟨itemEOF, pre.length + (utf8 word).length + 1 + (utf8 X).length + 2, []⟩]))
      ∧ (∀ word ∈ ["BEGIN".toList, "END".toList], ∀ (p : parser) (props : List Property)
          (o : Nat) (rest : List item) (m : Nat),
        p.peekCount = 0 →
        p.lex.items = (cline.mk o word [] X).items ++ rest →
        p.openProperties = some props →
        4 ≤ m →
        ∃ q, parser.parseLoop h loc (m + 1) p = parser.parseLoop h loc m q
          ∧ q.openProperties = some (props ++ [⟨utf8 word, [], utf8 X⟩])
          ∧ q.scope = p.scope ∧ q.v = p.v ∧ q.a = p.a ∧ q.t = p.t ∧ q.s = p.s ∧ q.d = p.d
          ∧ q.peekCount = 0 ∧ q.lex.items = rest)
      ∧ ∀ (p : parser) (props : List Property) (lines : List cline) (o1 o2 : Nat)
          (rest : List item) (m : Nat),
        p.peekCount = 0 →
        p.lex.items = (cline.mk o1 "BEGIN".toList [] X).items
          ++ (renderActs (lines.map act.line)
            ++ ((cline.mk o2 "END".toList [] X).items ++ rest)) →
        p.openProperties = some props →
        (renderActs (lines.map act.line)).length + 8 ≤ m →
        ∃ q, parser.parseLoop h loc (m + (lines.length + 2)) p = parser.parseLoop h loc m q
          ∧ q.openProperties = some (props ++ ⟨str "BEGIN", [], utf8 X⟩
              :: (lines.map cline.property ++ [⟨str "END", [], utf8 X⟩]))
          ∧ q.scope = p.scope ∧ q.v = p.v ∧ q.a = p.a ∧ q.t = p.t ∧ q.s = p.s ∧ q.d = p.d
          ∧ q.peekCount = 0 ∧ q.lex.items = rest := by
  refine ⟨?_, ?_, ?_⟩
  · intro word hword l pre rest hat
    have hname : ∀ c ∈ word, isName h c.toNat = true := by
      simp only [List.mem_cons, List.mem_singleton, List.not_mem_nil, or_false] at hword
      rcases hword with rfl | rfl
      · intro c hc
        simp only [String.toList, List.mem_cons, List.mem_singleton, List.not_mem_nil,
          or_false] at hc
        rcases hc with rfl | rfl | rfl | rfl | rfl <;> rfl
      · intro c hc
        simp only [String.toList, List.mem_cons, List.mem_singleton, List.not_mem_nil,
          or_false] at hc
        rcases hc with rfl | rfl | rfl <;> rfl
    have hkw : ∀ kw ∈ keywords,
        kw.1.isPrefixOf (utf8 word ++ (renderParams [] ++ 0x3A :: utf8 X)) = false := by
      simp only [List.mem_cons, List.mem_singleton, List.not_mem_nil, or_false] at hword
      rcases hword with rfl | rfl
      · exact hbegin
      · exact hend
    constructor
    · intro hne
      obtain ⟨l1, hr, hat1, hi1⟩ := lex_cline h l pre rest word [] X
        (by simpa [renderLine, renderParams, List.append_assoc] using hat) hname (by simp) hX
        hkw hne
      refine ⟨l1, by simpa [paramsSteps] using hr,
        by simpa [renderLine, renderParams, List.append_assoc] using hat1, ?_⟩
      simpa [cline.items, paramsItems, renderParams] using hi1
    · intro hnil
      subst hnil
      obtain ⟨l1, hr, hi1⟩ := lex_cline_last h l pre word [] X
        (by simpa [renderLine, renderParams, List.append_assoc] using hat) hname (by simp) hX
        hkw
      refine ⟨l1, by simpa [paramsSteps] using hr, ?_⟩
      rw [hi1]
      simp [cline.items, paramsItems, renderParams, renderLine, crlf_eq, Nat.add_assoc]
      omega
  · intro word _ p props o rest m hpk hitems hopen hm
    obtain ⟨q, hq, hopenq, hrest⟩ := parseLoop_lines h loc rest m [cline.mk o word [] X] p props
      hpk (by simpa [renderActs, act.items] using hitems) hopen
      (by
        simp only [List.map_cons, List.map_nil, renderActs, act.items, List.length_append,
          cline.items_length, paramsItems, List.length_nil]
        omega)
    exact ⟨q, hq, by simpa [cline.property, paramsFold] using hopenq, hrest⟩
  · intro p props lines o1 o2 rest m hpk hitems hopen hm
    have hmap : renderActs ((cline.mk o1 "BEGIN".toList [] X
          :: (lines ++ [cline.mk o2 "END".toList [] X])).map act.line)
        = (cline.mk o1 "BEGIN".toList [] X).items
          ++ (renderActs (lines.map act.line)
            ++ ((cline.mk o2 "END".toList [] X).items ++ [])) := by
      have happ : ∀ (xs ys : List act), renderActs (xs ++ ys) = renderActs xs ++ renderActs ys := by
        intro xs ys
        induction xs with
        | nil => rfl
        | cons x xs ih => simp [renderActs, ih]
      simp [renderActs, act.items, happ]
    obtain ⟨q, hq, hopenq, hrest⟩ := parseLoop_lines h loc rest m
      (cline.mk o1 "BEGIN".toList [] X :: (lines ++ [cline.mk o2 "END".toList [] X])) p props hpk
      (by rw [hmap, hitems]; simp)
      hopen
      (by
        rw [hmap]
        simp only [List.length_append, cline.items_length, paramsItems, List.length_nil]
        omega)
    refine ⟨q, ?_, ?_, hrest⟩
    · simpa [Nat.add_comm, Nat.add_left_comm, Nat.add_assoc] using hq
    · simpa [cline.property, paramsFold] using hopenq

set_option maxRecDepth 1000000 in
/-- C27 at X = VTODO, on `todoDocument`: the scanner, after the first line, sends BEGIN:VTODO
as a content line; a parser in the scope of an event appends BEGIN:VTODO to that event and
stays in its scope, and so it does with the three lines; and `Parse` returns the calendar
with the three properties in the root. -/
theorem unrecognised_delimiters_witness :
    (∀ c ∈ "VTODO".toList, isValueChar c.toNat = true)
      ∧ (∀ kw ∈ keywords, kw.1.isPrefixOf (str "BEGIN:" ++ utf8 "VTODO".toList) = false)
      ∧ (∀ kw ∈ keywords, kw.1.isPrefixOf (str "END:" ++ utf8 "VTODO".toList) = false)
      ∧ (∃ l1, reaches utcHost 4 stateFn.lexName todoLexer stateFn.lexName l1
          ∧ l1.standsAt (str "BEGIN:VCALENDAR\r\n" ++ str "BEGIN:VTODO\r\n")
              (str "SUMMARY:x\r\nEND:VTODO\r\nEND:VCALENDAR\r\n")
          ∧ l1.items = todoLexer.items
            ++ [⟨itemName, 17, str "BEGIN"⟩, ⟨itemColon, 22, [0x3A]⟩,
                ⟨itemValue, 23, str "VTODO"⟩, ⟨itemLineEnd, 28, crlf⟩])
      ∧ (∃ q, parser.parseLoop utcHost time.UTC 15 todoParser
            = parser.parseLoop utcHost time.UTC 14 q
          ∧ q.openProperties = some [⟨str "UID", [], str "1"⟩, ⟨str "BEGIN", [], str "VTODO"⟩]
          ∧ q.scope = scopeEvent ∧ q.v = some 0)
      ∧ (∃ q, parser.parseLoop utcHost time.UTC 15 todoParser
            = parser.parseLoop utcHost time.UTC 12 q
          ∧ q.openProperties = some [⟨str "UID", [], str "1"⟩, ⟨str "BEGIN", [], str "VTODO"⟩,
              ⟨str "SUMMARY", [], str "x"⟩, ⟨str "END", [], str "VTODO"⟩]
          ∧ q.scope = scopeEvent ∧ q.v = some 0
          ∧ q.lex.items = [⟨itemEndVEvent, 52, str "END:VEVENT"⟩])
      ∧ Parse utcHost todoDocument none
          = outcome.ok ⟨{ NewCalendar with
              Properties := [⟨str "BEGIN", [], str "VTODO"⟩, ⟨str "SUMMARY", [], str "x"⟩,
                ⟨str "END", [], str "VTODO"⟩] }, [], [], [], [], []⟩ :=
  have T := unrecognised_delimiters utcHost time.UTC "VTODO".toList (by decide) (by decide)
    (by decide)
  ⟨by decide, by decide, by decide,
    (T.1 "BEGIN".toList (by simp) todoLexer (str "BEGIN:VCALENDAR\r\n")
      (str "SUMMARY:x\r\nEND:VTODO\r\nEND:VCALENDAR\r\n") ⟨by decide, rfl, rfl⟩).1 (by decide),
    (by
      obtain ⟨q, h1, h2, h3, h4, -⟩ := T.2.1 "BEGIN".toList (by simp) todoParser
        [⟨str "UID", [], str "1"⟩] 17
        (renderActs [act.line ⟨30, "SUMMARY".toList, [], "x".toList⟩]
          ++ ((cline.mk 41 "END".toList [] "VTODO".toList).items
            ++ [item.mk itemEndVEvent 52 (str "END:VEVENT")])) 14 rfl rfl rfl (by decide)
      exact ⟨q, h1, h2, h3, h4⟩),
    (by
      obtain ⟨q, h1, h2, h3, h4, -, -, -, -, -, h5⟩ := T.2.2 todoParser
        [⟨str "UID", [], str "1"⟩] [⟨30, "SUMMARY".toList, [], "x".toList⟩] 17 41
        [⟨itemEndVEvent, 52, str "END:VEVENT"⟩] 12 rfl rfl rfl (by decide)
      exact ⟨q, h1, h2, h3, h4, h5⟩),
    rfl⟩

end Ical
